import Mathlib

/-!
# Recast solid heightfield: rasterization and walkability filters

A shallow embedding of `Recast/RecastRasterization.cpp`, `Recast/RecastFilter.cpp`
and the helpers of `Recast/Recast.h` they use.

Conventions of the embedding.

* A column of the heightfield is the singly linked list hanging off
  `hf.spans[idx]`; it is embedded as a `List rcSpan`, lowest span first, the
  `next` pointer being the tail of the list.
* `int` values are mathematical integers (`Int`); signed overflow is undefined
  behaviour in the source and is outside the embedding.  The bit-fields of
  `rcSpan` are natural numbers and a store into them is written with an
  explicit `% 2^13` or `% 2^6`.  A conversion `(int)f` of a `float` outside the
  range of `int` is undefined behaviour as well and outside the embedding.
* `float` values are rationals (`ℚ`). The functions that compute with `float`
  are embedded twice. The definitions with the suffix `32` (`clipPoly32`,
  `rasterizeTri32`, ...) round the result of every operation to binary32, as
  the compiled code does; infinities and NaN are outside the embedding. The
  definitions without suffix (`clipPoly`, `rasterizeTri`, ...) compute on exact
  rationals; they agree with the code when no operation rounds and are used
  for properties that do not depend on rounding. The build configuration
  (`buildConfig`) divides in binary32.
* Node allocation (`allocSpan`, `freeSpan`) always succeeds; the columns only
  record which spans are linked.
* The filters update the heightfield in place; their cell loops are folds that
  pass the heightfield from one cell to the next.
* The context `rcContext` only carries timers and the log and is left out.
-/

namespace Recast

/-! ## Constants and helpers of `Recast.h` -/

/-- Number of bits of `rcSpan::smin` and `rcSpan::smax`. -/
def RC_SPAN_HEIGHT_BITS : Nat := 13

/-- Maximum value of `rcSpan::smin` and `rcSpan::smax`: `(1 << 13) - 1`. -/
def RC_SPAN_MAX_HEIGHT : Nat := (1 <<< RC_SPAN_HEIGHT_BITS) - 1

/-- Area id of an unwalkable span. -/
def RC_NULL_AREA : Nat := 0

/-- Default walkable area id. -/
def RC_WALKABLE_AREA : Nat := 63

/-- The template `rcMin`: `a < b ? a : b`. -/
def rcMin {α : Type} [LT α] [DecidableRel (fun a b : α => a < b)] (a b : α) : α :=
  if a < b then a else b

/-- The template `rcMax`: `a > b ? a : b`. -/
def rcMax {α : Type} [LT α] [DecidableRel (fun a b : α => a < b)] (a b : α) : α :=
  if a > b then a else b

/-- The template `rcAbs` at `int`: `a < 0 ? -a : a`. -/
def rcAbs (a : Int) : Int := if a < 0 then -a else a

/-- The template `rcClamp`: `v < mn ? mn : (v > mx ? mx : v)`. -/
def rcClamp {α : Type} [LT α] [DecidableRel (fun a b : α => a < b)] (v mn mx : α) : α :=
  if v < mn then mn else (if v > mx then mx else v)

/-- Table `offset[dir & 0x03]` of `rcGetDirOffsetX`. -/
def rcGetDirOffsetX (dir : Int) : Int :=
  match dir % 4 with
  | 0 => -1
  | 1 => 0
  | 2 => 1
  | _ => 0

/-- Table `offset[dir & 0x03]` of `rcGetDirOffsetY`. -/
def rcGetDirOffsetY (dir : Int) : Int :=
  match dir % 4 with
  | 0 => 0
  | 1 => 1
  | 2 => 0
  | _ => -1

/-! ## Data model -/

/-- A span of a column: `smin`, `smax` are 13-bit fields, `area` a 6-bit field.
The `next` pointer is the tail of the list the span sits in. -/
structure rcSpan where
  smin : Nat
  smax : Nat
  area : Nat
deriving DecidableEq, Repr

/-- A point or vector `(x, y, z)` of three `float`s. -/
structure Vec3 where
  x : ℚ
  y : ℚ
  z : ℚ
deriving DecidableEq

/-- The heightfield `rcHeightfield`: `spans` is the array of column heads,
the column of cell `(x, y)` being `spans[x + y*width]`. -/
structure rcHeightfield where
  width : Nat
  height : Nat
  bmin : Vec3
  bmax : Vec3
  cs : ℚ
  ch : ℚ
  spans : List (List rcSpan)
deriving DecidableEq

/-- The column `hf.spans[idx]`; an index outside the array reads as empty. -/
def rcHeightfield.col (hf : rcHeightfield) (idx : Int) : List rcSpan :=
  if idx < 0 then [] else hf.spans.getD idx.toNat []

/-- Store of a new head/list into `hf.spans[idx]`; an index outside the array
stores nothing. -/
def rcHeightfield.setCol (hf : rcHeightfield) (idx : Int) (c : List rcSpan) : rcHeightfield :=
  if idx < 0 then hf else { hf with spans := hf.spans.set idx.toNat c }

/-! ## `RecastRasterization.cpp`: span insertion -/

/-- The test `overlapBounds(amin, amax, bmin, bmax)`. -/
def overlapBounds (amin amax bmin bmax : Vec3) : Bool :=
  let overlap := true
  let overlap := if amin.x > bmax.x ∨ amax.x < bmin.x then false else overlap
  let overlap := if amin.y > bmax.y ∨ amax.y < bmin.y then false else overlap
  let overlap := if amin.z > bmax.z ∨ amax.z < bmin.z then false else overlap
  overlap

/-- The test `overlapInterval(amin, amax, bmin, bmax)` on closed intervals. -/
def overlapInterval (amin amax bmin bmax : Nat) : Bool :=
  if amax < bmin then false
  else if amin > bmax then false
  else true

/-- The body of the merge branch of `addSpan` (lines 139-147): the new span `s`
absorbs `cur`. The comparison of the tops is made after `s.smax` was raised. -/
def mergeSpan (flagMergeThr : Int) (s cur : rcSpan) : rcSpan :=
  let s := if cur.smin < s.smin then { s with smin := cur.smin } else s
  let s := if cur.smax > s.smax then { s with smax := cur.smax } else s
  if rcAbs ((s.smax : Int) - (cur.smax : Int)) ≤ flagMergeThr then
    { s with area := rcMax s.area cur.area }
  else s

/-- The insert-and-merge loop of `addSpan` (lines 118-172) on one column. The
argument list is the part of the column from `cur` on; the spans already passed
(up to `prev`) stay in front of the result, and the new span is linked after
`prev` when the loop ends. -/
def addSpanLoop (flagMergeThr : Int) : rcSpan → List rcSpan → List rcSpan
  | s, [] => [s]
  | s, cur :: next =>
    if cur.smin > s.smax then
      s :: cur :: next
    else if cur.smax < s.smin then
      cur :: addSpanLoop flagMergeThr s next
    else
      addSpanLoop flagMergeThr (mergeSpan flagMergeThr s cur) next

/-- The new node of `addSpan` (lines 104-108): the arguments are stored into the
13-bit and 6-bit fields. -/
def newSpan (smin smax area : Nat) : rcSpan :=
  { smin := smin % 2 ^ 13, smax := smax % 2 ^ 13, area := area % 2 ^ 6 }

/-- The effect of `addSpan` on the column it addresses. -/
def addSpanCol (col : List rcSpan) (smin smax area : Nat) (flagMergeThr : Int) : List rcSpan :=
  match col with
  | [] => [newSpan smin smax area]
  | _ => addSpanLoop flagMergeThr (newSpan smin smax area) col

/-- The function `addSpan(hf, x, y, smin, smax, area, flagMergeThr)`. -/
def addSpan (hf : rcHeightfield) (x y : Int) (smin smax area : Nat) (flagMergeThr : Int) :
    rcHeightfield :=
  let idx := x + y * hf.width
  hf.setCol idx (addSpanCol (hf.col idx) smin smax area flagMergeThr)

/-- The function `rcAddSpan`: forwards to `addSpan`. -/
def rcAddSpan (hf : rcHeightfield) (x y : Int) (smin smax area : Nat) (flagMergeThr : Int) :
    rcHeightfield :=
  addSpan hf x y smin smax area flagMergeThr

/-! ## `RecastRasterization.cpp`: clipping and rasterization -/

/-- The procedure `rcVmin(mn, v)`: component-wise `rcMin`, result in `mn`. -/
def rcVmin (mn v : Vec3) : Vec3 := ⟨rcMin mn.x v.x, rcMin mn.y v.y, rcMin mn.z v.z⟩

/-- The procedure `rcVmax(mx, v)`: component-wise `rcMax`, result in `mx`. -/
def rcVmax (mx v : Vec3) : Vec3 := ⟨rcMax mx.x v.x, rcMax mx.y v.y, rcMax mx.z v.z⟩

/-- The conversion `(int)f` of a `float`: truncation toward zero. -/
def castInt (f : ℚ) : Int := if f < 0 then Int.ceil f else Int.floor f

/-- The values `a, a+1, ..., b` of a loop `for (int i = a; i <= b; ++i)`. -/
def intRange (a b : Int) : List Int :=
  (List.range (b + 1 - a).toNat).map (fun (i : Nat) => a + (i : Int))

/-- Signed distance `pnx*x + pnz*z + pd` of a vertex to the clipping plane. -/
def planeDist (pnx pnz pd : ℚ) (v : Vec3) : ℚ := pnx * v.x + pnz * v.z + pd

/-- The edge loop of `clipPoly` (lines 212-232): `vj` is the previous vertex
`in[j]`, the list holds the vertices from `in[i]` on. -/
def clipPolyLoop (pnx pnz pd : ℚ) : Vec3 → List Vec3 → List Vec3
  | _, [] => []
  | vj, vi :: rest =>
    let dj := planeDist pnx pnz pd vj
    let di := planeDist pnx pnz pd vi
    let ina : Bool := decide (dj ≥ 0)
    let inb : Bool := decide (di ≥ 0)
    let cut : List Vec3 :=
      if ina != inb then
        let s := dj / (dj - di)
        [⟨vj.x + (vi.x - vj.x) * s, vj.y + (vi.y - vj.y) * s, vj.z + (vi.z - vj.z) * s⟩]
      else []
    let keep : List Vec3 := if inb then [vi] else []
    cut ++ keep ++ clipPolyLoop pnx pnz pd vi rest

/-- The function `clipPoly(in, n, out, pnx, pnz, pd)`: the list is `in[0..n-1]`,
the result is `out[0..m-1]`. The first edge starts at `in[n-1]`. -/
def clipPoly (inp : List Vec3) (pnx pnz pd : ℚ) : List Vec3 :=
  match inp.getLast? with
  | none => []
  | some last => clipPolyLoop pnx pnz pd last inp

/-- Lines 348-349 of `rasterizeTri`: the clamped extent `[smin, smax]` snapped to
the height grid, as the two `unsigned short` values passed to `addSpan`. -/
def snapSpan (smin smax ich : ℚ) : Nat × Nat :=
  let ismin : Nat :=
    (rcClamp (castInt (Int.floor (smin * ich))) 0 (RC_SPAN_MAX_HEIGHT : Int)).toNat % 2 ^ 16
  let ismax : Nat :=
    (rcClamp (castInt (Int.ceil (smax * ich))) ((ismin : Int) + 1)
      (RC_SPAN_MAX_HEIGHT : Int)).toNat % 2 ^ 16
  (ismin, ismax)

/-- Lines 329-334 of `rasterizeTri`: the minimum of the `y` coordinates
`in[i*3+1]` of the polygon, starting from `in[1]`. -/
def polyMinY (inp : List Vec3) : ℚ :=
  inp.tail.foldl (fun m p => rcMin m p.y) ((inp.map Vec3.y).headD 0)

/-- Lines 329-334 of `rasterizeTri`: the maximum of the `y` coordinates of the
polygon, starting from `in[1]`. -/
def polyMaxY (inp : List Vec3) : ℚ :=
  inp.tail.foldl (fun m p => rcMax m p.y) ((inp.map Vec3.y).headD 0)

/-- The body of the loop over `x` in `rasterizeTri` (lines 313-351) for the row
polygon `inrow`. -/
def rasterizeCell (inrow : List Vec3) (area : Nat) (bmin : Vec3) (bY cs ich : ℚ)
    (flagMergeThr : Int) (y : Int) (hf : rcHeightfield) (x : Int) : rcHeightfield :=
  let cx := bmin.x + (x : ℚ) * cs
  let out := clipPoly inrow 1 0 (-cx)
  if out.length < 3 then hf else
  let inp := clipPoly out (-1) 0 (cx + cs)
  if inp.length < 3 then hf else
  let smin := polyMinY inp
  let smax := polyMaxY inp
  let smin := smin - bmin.y
  let smax := smax - bmin.y
  if smax < 0 then hf else
  if smin > bY then hf else
  let smin := if smin < 0 then 0 else smin
  let smax := if smax > bY then bY else smax
  let is := snapSpan smin smax ich
  addSpan hf x y is.1 is.2 area flagMergeThr

/-- The body of the loop over `y` in `rasterizeTri` (lines 292-352). -/
def rasterizeRow (v0 v1 v2 : Vec3) (area : Nat) (bmin : Vec3) (bY cs ich : ℚ)
    (flagMergeThr : Int) (x0 x1 : Int) (hf : rcHeightfield) (y : Int) : rcHeightfield :=
  let inp := [v0, v1, v2]
  let cz := bmin.z + (y : ℚ) * cs
  let out := clipPoly inp 0 1 (-cz)
  if out.length < 3 then hf else
  let inrow := clipPoly out 0 (-1) (cz + cs)
  if inrow.length < 3 then hf else
  (intRange x0 x1).foldl (rasterizeCell inrow area bmin bY cs ich flagMergeThr y) hf

/-- Lines 276-284 of `rasterizeTri`: the footprint `(x0, y0, x1, y1)` of the
triangle's bounding box on the grid, clamped to the grid. -/
def footprint (tmin tmax bmin : Vec3) (ics : ℚ) (w h : Int) : Int × Int × Int × Int :=
  let x0 := castInt ((tmin.x - bmin.x) * ics)
  let y0 := castInt ((tmin.z - bmin.z) * ics)
  let x1 := castInt ((tmax.x - bmin.x) * ics)
  let y1 := castInt ((tmax.z - bmin.z) * ics)
  let x0 := rcClamp x0 0 (w - 1)
  let y0 := rcClamp y0 0 (h - 1)
  let x1 := rcClamp x1 0 (w - 1)
  let y1 := rcClamp y1 0 (h - 1)
  (x0, y0, x1, y1)

/-- The function `rasterizeTri`. -/
def rasterizeTri (v0 v1 v2 : Vec3) (area : Nat) (hf : rcHeightfield) (bmin bmax : Vec3)
    (cs ics ich : ℚ) (flagMergeThr : Int) : rcHeightfield :=
  let w : Int := hf.width
  let h : Int := hf.height
  let bY := bmax.y - bmin.y
  let tmin := rcVmin (rcVmin v0 v1) v2
  let tmax := rcVmax (rcVmax v0 v1) v2
  if !overlapBounds bmin bmax tmin tmax then hf else
  let fp := footprint tmin tmax bmin ics w h
  (intRange fp.2.1 fp.2.2.2).foldl
    (rasterizeRow v0 v1 v2 area bmin bY cs ich flagMergeThr fp.1 fp.2.2.1) hf

/-- The function `rcRasterizeTriangle` (the timer calls on the context are not
part of the heightfield state). -/
def rcRasterizeTriangle (v0 v1 v2 : Vec3) (area : Nat) (solid : rcHeightfield)
    (flagMergeThr : Int) : rcHeightfield :=
  let ics := 1 / solid.cs
  let ich := 1 / solid.ch
  rasterizeTri v0 v1 v2 area solid solid.bmin solid.bmax solid.cs ics ich flagMergeThr

/-! ## `RecastFilter.cpp`: the three walkability filters -/

/-- The constant `MAX_HEIGHT = 0xffff` of the filters. -/
def MAX_HEIGHT : Int := 0xffff

/-- The loops `for (y = 0; y < h; ++y) for (x = 0; x < w; ++x)` of the filters,
the body updating the heightfield in place. -/
def forEachCell (w h : Nat) (body : Nat → Nat → rcHeightfield → rcHeightfield)
    (hf : rcHeightfield) : rcHeightfield :=
  (List.range h).foldl (fun hf y => (List.range w).foldl (fun hf x => body x y hf) hf) hf

/-- A loop body that rewrites the column `spans[x + y*w]` of cell `(x, y)` by `f`,
which may read the heightfield. -/
def cellPass (w : Nat) (f : rcHeightfield → Nat → Nat → List rcSpan → List rcSpan)
    (x y : Nat) (hf : rcHeightfield) : rcHeightfield :=
  hf.setCol ((x : Int) + (y : Int) * (w : Int))
    (f hf x y (hf.col ((x : Int) + (y : Int) * (w : Int))))

/-- The expression `s->next ? (int)s->next->smin : MAX_HEIGHT`. -/
def spanTop (next : List rcSpan) : Int :=
  match next with
  | [] => MAX_HEIGHT
  | n :: _ => (n.smin : Int)

/-- The body of the span loop of `rcFilterLowHangingWalkableObstacles` (lines
58-67) for the span `s`: the new value of `*s`. The pointer `ps` is null only
before the first span, where `previousWalkable` is false. -/
def lowHangingSpan (walkableClimb : Int) (ps : Option rcSpan) (previousWalkable : Bool)
    (previousArea : Nat) (s : rcSpan) : rcSpan :=
  let walkable : Bool := s.area != RC_NULL_AREA
  if !walkable && previousWalkable then
    match ps with
    | some p =>
      if rcAbs ((s.smax : Int) - (p.smax : Int)) ≤ walkableClimb then
        { s with area := previousArea }
      else s
    | none => s
  else s

/-- The span loop of `rcFilterLowHangingWalkableObstacles` (lines 56-72) on one
column, with the loop variables `ps`, `previousWalkable`, `previousArea`. -/
def lowHangingLoop (walkableClimb : Int) :
    Option rcSpan → Bool → Nat → List rcSpan → List rcSpan
  | _, _, _, [] => []
  | ps, previousWalkable, previousArea, s :: next =>
    let walkable : Bool := s.area != RC_NULL_AREA
    let s1 : rcSpan := lowHangingSpan walkableClimb ps previousWalkable previousArea s
    s1 :: lowHangingLoop walkableClimb (some s1) walkable s1.area next

/-- The function `rcFilterLowHangingWalkableObstacles`. -/
def rcFilterLowHangingWalkableObstacles (walkableClimb : Int) (solid : rcHeightfield) :
    rcHeightfield :=
  let w := solid.width
  let h := solid.height
  forEachCell w h
    (cellPass w (fun _ _ _ col => lowHangingLoop walkableClimb none false RC_NULL_AREA col))
    solid

/-- The loop over the spans of a neighbour column in `rcFilterLedgeSpans`
(lines 144-161); the state is `(minh, asmin, asmax)`. -/
def ledgeNeighbourSpans (walkableHeight walkableClimb bot top : Int) :
    Int × Int × Int → List rcSpan → Int × Int × Int
  | st, [] => st
  | (minh, asmin, asmax), ns :: rest =>
    let nbot : Int := ns.smax
    let ntop : Int := spanTop rest
    let st1 : Int × Int × Int :=
      if rcMin top ntop - rcMax bot nbot > walkableHeight then
        let minh := rcMin minh (nbot - bot)
        if rcAbs (nbot - bot) ≤ walkableClimb then
          let asmin := if nbot < asmin then nbot else asmin
          let asmax := if nbot > asmax then nbot else asmax
          (minh, asmin, asmax)
        else (minh, asmin, asmax)
      else (minh, asmin, asmax)
    ledgeNeighbourSpans walkableHeight walkableClimb bot top st1 rest

/-- The body of the loop over `dir` in `rcFilterLedgeSpans` (lines 126-161). -/
def ledgeDir (solid : rcHeightfield) (walkableHeight walkableClimb : Int) (x y : Int)
    (bot top : Int) (st : Int × Int × Int) (dir : Int) : Int × Int × Int :=
  let w : Int := solid.width
  let h : Int := solid.height
  let dx := x + rcGetDirOffsetX dir
  let dy := y + rcGetDirOffsetY dir
  if dx < 0 ∨ dy < 0 ∨ dx ≥ w ∨ dy ≥ h then
    (rcMin st.1 (-walkableClimb - bot), st.2.1, st.2.2)
  else
    let ncol := solid.col (dx + dy * w)
    let nbot : Int := -walkableClimb
    let ntop : Int := spanTop ncol
    let minh :=
      if rcMin top ntop - rcMax bot nbot > walkableHeight then rcMin st.1 (nbot - bot)
      else st.1
    ledgeNeighbourSpans walkableHeight walkableClimb bot top (minh, st.2.1, st.2.2) ncol

/-- The body of the span loop of `rcFilterLedgeSpans` (lines 110-174) for the
span `s` of cell `(x, y)` whose successor list is `next`. -/
def ledgeSpan (solid : rcHeightfield) (walkableHeight walkableClimb : Int) (x y : Int)
    (s : rcSpan) (next : List rcSpan) : rcSpan :=
  if s.area = RC_NULL_AREA then s else
  let bot : Int := s.smax
  let top : Int := spanTop next
  let st := [0, 1, 2, 3].foldl (ledgeDir solid walkableHeight walkableClimb x y bot top)
    (MAX_HEIGHT, (s.smax : Int), (s.smax : Int))
  let s1 := if st.1 < -walkableClimb then { s with area := RC_NULL_AREA } else s
  let s2 := if st.2.2 - st.2.1 > walkableClimb then { s1 with area := RC_NULL_AREA } else s1
  s2

/-- The span loop of `rcFilterLedgeSpans` (line 108) on the column of cell
`(x, y)`. The heightfield `solid` is the one found when the loop reaches the
cell: the loop writes the areas of this column only and reads the columns of
the neighbour cells only, which are other entries of `solid.spans`. -/
def ledgeColumn (solid : rcHeightfield) (walkableHeight walkableClimb : Int) (x y : Int) :
    List rcSpan → List rcSpan
  | [] => []
  | s :: next =>
    ledgeSpan solid walkableHeight walkableClimb x y s next ::
      ledgeColumn solid walkableHeight walkableClimb x y next

/-- The function `rcFilterLedgeSpans`. -/
def rcFilterLedgeSpans (walkableHeight walkableClimb : Int) (solid : rcHeightfield) :
    rcHeightfield :=
  let w := solid.width
  let h := solid.height
  forEachCell w h
    (cellPass w (fun hf x y col => ledgeColumn hf walkableHeight walkableClimb x y col))
    solid

/-- The span loop of `rcFilterWalkableLowHeightSpans` (lines 205-211) on one
column. -/
def lowHeightColumn (walkableHeight : Int) : List rcSpan → List rcSpan
  | [] => []
  | s :: next =>
    let bot : Int := s.smax
    let top : Int := spanTop next
    (if top - bot ≤ walkableHeight then { s with area := RC_NULL_AREA } else s) ::
      lowHeightColumn walkableHeight next

/-- The function `rcFilterWalkableLowHeightSpans`. -/
def rcFilterWalkableLowHeightSpans (walkableHeight : Int) (solid : rcHeightfield) :
    rcHeightfield :=
  let w := solid.width
  let h := solid.height
  forEachCell w h (cellPass w (fun _ _ _ col => lowHeightColumn walkableHeight col)) solid

/-- The three filters in the order of `buildNavMesh` (`Test/Game.cpp`, lines
253-255). -/
def filterPipeline (walkableHeight walkableClimb : Int) (solid : rcHeightfield) :
    rcHeightfield :=
  rcFilterWalkableLowHeightSpans walkableHeight
    (rcFilterLedgeSpans walkableHeight walkableClimb
      (rcFilterLowHangingWalkableObstacles walkableClimb solid))

/-! ## Predicates used to state the properties -/

/-- A span whose fields respect their limits: `smin <= smax <= RC_SPAN_MAX_HEIGHT`. -/
def spanOk (s : rcSpan) : Prop := s.smin ≤ s.smax ∧ s.smax ≤ RC_SPAN_MAX_HEIGHT

instance (s : rcSpan) : Decidable (spanOk s) :=
  inferInstanceAs (Decidable (s.smin ≤ s.smax ∧ s.smax ≤ RC_SPAN_MAX_HEIGHT))

/-- Every span's `smax` is strictly below the `smin` of the span linked after
it. -/
def belowNext : List rcSpan → Prop
  | [] => True
  | [_] => True
  | a :: b :: l => a.smax < b.smin ∧ belowNext (b :: l)

/-- Decision procedure of `belowNext`. -/
def decBelowNext : (l : List rcSpan) → Decidable (belowNext l)
  | [] => isTrue trivial
  | [_] => isTrue trivial
  | _ :: b :: l => @instDecidableAnd _ _ _ (decBelowNext (b :: l))

instance (l : List rcSpan) : Decidable (belowNext l) := decBelowNext l

/-- The column invariant: every span respects its limits and every span's `smax`
is strictly below the `smin` of the span linked after it. -/
def columnOk (col : List rcSpan) : Prop :=
  (∀ s ∈ col, spanOk s) ∧ belowNext col

instance (col : List rcSpan) : Decidable (columnOk col) :=
  inferInstanceAs (Decidable ((∀ s ∈ col, spanOk s) ∧ belowNext col))

/-- A column sorted by `smin` whose intervals are pairwise disjoint, the lower
one ending strictly below the start of the higher one. -/
def sortedDisjoint (col : List rcSpan) : Prop :=
  col.Pairwise (fun a b => a.smin < b.smin ∧ a.smax < b.smin)

instance (col : List rcSpan) : Decidable (sortedDisjoint col) :=
  inferInstanceAs
    (Decidable (col.Pairwise (fun a b : rcSpan => a.smin < b.smin ∧ a.smax < b.smin)))

/-- One call of `addSpan`, as its argument tuple. -/
structure AddSpanCall where
  x : Int
  y : Int
  smin : Nat
  smax : Nat
  area : Nat
  flagMergeThr : Int
deriving DecidableEq

/-- A sequence of `addSpan` calls applied to a heightfield, first call first. -/
def addSpans (hf : rcHeightfield) (calls : List AddSpanCall) : rcHeightfield :=
  calls.foldl (fun h c => addSpan h c.x c.y c.smin c.smax c.area c.flagMergeThr) hf

/-- The new span after absorbing, in column order, each span of `l`. -/
def mergeAll (flagMergeThr : Int) (s : rcSpan) (l : List rcSpan) : rcSpan :=
  l.foldl (mergeSpan flagMergeThr) s

/-- The merge-by-min/max description of `addSpan` on a column `col` for the new
interval `[smin, smax]`: the spans entirely below the new interval and those
entirely above it are kept as they are and in order, and between them sits one
span `m` whose `smin` is the minimum and whose `smax` is the maximum over the
new interval and the spans of `col` intersecting it; `m` is the only span of the
result covering `[smin, smax]`, and the heights covered by the result are those
covered by `col` together with `smin..smax`. -/
def mergesByMinMax (col : List rcSpan) (smin smax area : Nat) (flagMergeThr : Int) : Prop :=
  let out := addSpanCol col smin smax area flagMergeThr
  let hit := col.filter (fun c => overlapInterval c.smin c.smax smin smax)
  ∃ m : rcSpan,
    out = col.filter (fun c => decide (c.smax < smin)) ++
      m :: col.filter (fun c => decide (c.smin > smax)) ∧
    m.smin = (hit.map rcSpan.smin).foldl min smin ∧
    m.smax = (hit.map rcSpan.smax).foldl max smax ∧
    out.filter (fun c => decide (c.smin ≤ smin ∧ smax ≤ c.smax)) = [m] ∧
    ∀ h : Nat, (∃ c ∈ out, c.smin ≤ h ∧ h ≤ c.smax) ↔
      ((∃ c ∈ col, c.smin ≤ h ∧ h ≤ c.smax) ∨ (smin ≤ h ∧ h ≤ smax))

/-- Lower corner of the axis-aligned bounding box of a triangle. -/
def triMin (v0 v1 v2 : Vec3) : Vec3 :=
  ⟨min (min v0.x v1.x) v2.x, min (min v0.y v1.y) v2.y, min (min v0.z v1.z) v2.z⟩

/-- Upper corner of the axis-aligned bounding box of a triangle. -/
def triMax (v0 v1 v2 : Vec3) : Vec3 :=
  ⟨max (max v0.x v1.x) v2.x, max (max v0.y v1.y) v2.y, max (max v0.z v1.z) v2.z⟩

/-- The heightfield `hf2` has the grid size of `hf1` and the same column as `hf1`
at every index outside `P`. -/
def sameOutside (P : Int → Prop) (hf1 hf2 : rcHeightfield) : Prop :=
  hf2.width = hf1.width ∧ hf2.height = hf1.height ∧
    (∀ idx : Int, ¬ P idx → hf2.col idx = hf1.col idx) ∧
    hf2.spans.length = hf1.spans.length

/-- The part of the triangle inside the row `y` of the grid: the triangle clipped
by `z >= cz` and by `z <= cz + cs`, with `cz = bmin.z + y*cs`. -/
def rowPolygon (v0 v1 v2 bmin : Vec3) (cs : ℚ) (y : Int) : List Vec3 :=
  clipPoly (clipPoly [v0, v1, v2] 0 1 (-(bmin.z + (y : ℚ) * cs))) 0 (-1)
    (bmin.z + (y : ℚ) * cs + cs)

/-- The part of the triangle inside the cell `(x, y)`: the row polygon clipped by
`x >= cx` and by `x <= cx + cs`, with `cx = bmin.x + x*cs`. -/
def cellPolygon (v0 v1 v2 bmin : Vec3) (cs : ℚ) (x y : Int) : List Vec3 :=
  clipPoly (clipPoly (rowPolygon v0 v1 v2 bmin cs y) 1 0 (-(bmin.x + (x : ℚ) * cs))) (-1) 0
    (bmin.x + (x : ℚ) * cs + cs)

/-- The triangle leaves a polygon of at least three vertices in the cell `(x, y)`
after each of the four clips, so that `rasterizeTri` reaches the span of that
cell. -/
def reachesCell (v0 v1 v2 bmin : Vec3) (cs : ℚ) (x y : Int) : Prop :=
  3 ≤ (clipPoly [v0, v1, v2] 0 1 (-(bmin.z + (y : ℚ) * cs))).length ∧
  3 ≤ (rowPolygon v0 v1 v2 bmin cs y).length ∧
  3 ≤ (clipPoly (rowPolygon v0 v1 v2 bmin cs y) 1 0 (-(bmin.x + (x : ℚ) * cs))).length ∧
  3 ≤ (cellPolygon v0 v1 v2 bmin cs x y).length

instance (v0 v1 v2 bmin : Vec3) (cs : ℚ) (x y : Int) :
    Decidable (reachesCell v0 v1 v2 bmin cs x y) :=
  inferInstanceAs (Decidable (_ ∧ _ ∧ _ ∧ _))

/-- The span `rasterizeTri` adds for a polygon: its `y` extent above `bmin.y`,
snapped to the height grid. -/
def polygonSpan (poly : List Vec3) (bmin : Vec3) (ich : ℚ) : Nat × Nat :=
  snapSpan (polyMinY poly - bmin.y) (polyMaxY poly - bmin.y) ich

/-- The heights `(smin, smax)` of a span, without its area. -/
def geo (s : rcSpan) : Nat × Nat := (s.smin, s.smax)

/-- The heightfield `hf2` has the grid of `hf1` (size, bounds, cell sizes). -/
def sameGrid (hf1 hf2 : rcHeightfield) : Prop :=
  hf2.width = hf1.width ∧ hf2.height = hf1.height ∧ hf2.bmin = hf1.bmin ∧
    hf2.bmax = hf1.bmax ∧ hf2.cs = hf1.cs ∧ hf2.ch = hf1.ch

/-- The heightfield `hf2` has the grid and the span heights of `hf1`; only areas
may differ. -/
def sameGeom (hf1 hf2 : rcHeightfield) : Prop :=
  sameGrid hf1 hf2 ∧ hf2.spans.map (List.map geo) = hf1.spans.map (List.map geo)

/-- The per-span rule of the low-hanging-obstacle filter: a span `s` that is
unwalkable, whose span directly below `b` is walkable and whose top is within
`walkableClimb` of the top of `b`, takes the area of `b`; any other span is
kept. `below` is `none` for the lowest span of a column. -/
def lowHangingRule (walkableClimb : Int) (below : Option rcSpan) (s : rcSpan) : rcSpan :=
  match below with
  | none => s
  | some b =>
    if s.area = RC_NULL_AREA ∧ b.area ≠ RC_NULL_AREA ∧
        |(s.smax : Int) - (b.smax : Int)| ≤ walkableClimb then
      { s with area := b.area }
    else s

/-- The loop variables `(ps, previousWalkable, previousArea)` of the low-hanging
filter describe the input span `b` directly below the current one. -/
def lowHangingState (b : Option rcSpan) (ps : Option rcSpan) (pw : Bool) (pa : Nat) : Prop :=
  match b with
  | none => pw = false
  | some b => ∃ p, ps = some p ∧ p.smax = b.smax ∧ pw = (b.area != RC_NULL_AREA) ∧
      (b.area ≠ RC_NULL_AREA → pa = b.area)

/-! ## The ledge rule, stated on lists of neighbour heights -/

/-- The openings of a column: for each span the pair `(nbot, ntop)` of its top
`smax` and the `smin` of the span above it (`MAX_HEIGHT` for the highest
span). -/
def openAbove : List rcSpan → List (Int × Int)
  | [] => []
  | ns :: rest => ((ns.smax : Int), spanTop rest) :: openAbove rest

/-- An opening `(nbot, ntop)` shares more than `walkableHeight` of open space with
the opening `[bot, top]`: `min(top, ntop) - max(bot, nbot) > walkableHeight`. -/
def gapOk (walkableHeight bot top : Int) (e : Int × Int) : Bool :=
  decide (min top e.2 - max bot e.1 > walkableHeight)

/-- The four cardinal neighbour cells of `(x, y)`, in the order -X, +Z, +X, -Z. -/
def neighbourCells (x y : Int) : List (Int × Int) :=
  [(x - 1, y), (x, y + 1), (x + 1, y), (x, y - 1)]

/-- The cell `c` lies inside the grid of `hf`. -/
def inGrid (hf : rcHeightfield) (c : Int × Int) : Bool :=
  decide (0 ≤ c.1 ∧ 0 ≤ c.2 ∧ c.1 < (hf.width : Int) ∧ c.2 < (hf.height : Int))

/-- The values `nbot` of the spans of the neighbour column `c` that qualify, that
is whose opening shares more than `walkableHeight` with `[bot, top]`. -/
def neighbourFloors (hf : rcHeightfield) (walkableHeight bot top : Int) (c : Int × Int) :
    List Int :=
  ((openAbove (hf.col (c.1 + c.2 * (hf.width : Int)))).filter
    (gapOk walkableHeight bot top)).map Prod.fst

/-- The accessible neighbour heights: the qualifying `nbot` of the in-grid
neighbour columns with `|nbot - bot| <= walkableClimb`. -/
def accessibleFloors (hf : rcHeightfield) (walkableHeight walkableClimb : Int) (x y : Int)
    (bot top : Int) : List Int :=
  (neighbourCells x y).flatMap (fun c =>
    if inGrid hf c then
      (neighbourFloors hf walkableHeight bot top c).filter
        (fun nbot => decide (|nbot - bot| ≤ walkableClimb))
    else [])

/-- The height differences `nbot - bot` that enter `minh` according to the
reference rule: one per qualifying span of an in-grid neighbour column, and
`-walkableClimb - bot` for each neighbour outside the grid. -/
def ledgeDropsSpec (hf : rcHeightfield) (walkableHeight walkableClimb : Int) (x y : Int)
    (bot top : Int) : List Int :=
  (neighbourCells x y).flatMap (fun c =>
    if inGrid hf c then (neighbourFloors hf walkableHeight bot top c).map (fun nbot => nbot - bot)
    else [-walkableClimb - bot])

/-- The height differences that enter `minh` in the source: those of
`ledgeDropsSpec`, and for each in-grid neighbour column also the opening below
its lowest span, taken with `nbot = -walkableClimb` and `ntop` the `smin` of the
lowest span (`MAX_HEIGHT` for an empty column), when it qualifies. -/
def ledgeDropsCode (hf : rcHeightfield) (walkableHeight walkableClimb : Int) (x y : Int)
    (bot top : Int) : List Int :=
  (neighbourCells x y).flatMap (fun c =>
    if inGrid hf c then
      (if gapOk walkableHeight bot top
          (-walkableClimb, spanTop (hf.col (c.1 + c.2 * (hf.width : Int)))) then
        [-walkableClimb - bot] else []) ++
      (neighbourFloors hf walkableHeight bot top c).map (fun nbot => nbot - bot)
    else [-walkableClimb - bot])

/-- The ledge test on the list `drops` of height differences and the list `acc`
of accessible neighbour heights: `minh < -walkableClimb` for the minimum `minh`
of `drops`, or `asmax - asmin > walkableClimb` for the minimum and maximum of
`acc`. -/
def ledgeTest (walkableClimb : Int) (drops acc : List Int) : Bool :=
  (match drops.min? with
    | some minh => decide (minh < -walkableClimb)
    | none => false) ||
  (match acc.min?, acc.max? with
    | some asmin, some asmax => decide (asmax - asmin > walkableClimb)
    | _, _ => false)

/-- The reference rule of the ledge filter as the specification words it. -/
def isLedgeSpec (hf : rcHeightfield) (walkableHeight walkableClimb : Int) (x y : Int)
    (bot top : Int) : Bool :=
  ledgeTest walkableClimb (ledgeDropsSpec hf walkableHeight walkableClimb x y bot top)
    (accessibleFloors hf walkableHeight walkableClimb x y bot top)

/-- The reference rule of the ledge filter with the opening below the lowest
span of each neighbour column taken into `minh`. -/
def isLedgeCode (hf : rcHeightfield) (walkableHeight walkableClimb : Int) (x y : Int)
    (bot top : Int) : Bool :=
  ledgeTest walkableClimb (ledgeDropsCode hf walkableHeight walkableClimb x y bot top)
    (accessibleFloors hf walkableHeight walkableClimb x y bot top)

/-- A walkable span that is a ledge becomes unwalkable; every other span is
kept, and only the area changes. -/
def ledgeRule (isLedge : Bool) (s : rcSpan) : rcSpan :=
  if s.area ≠ RC_NULL_AREA ∧ isLedge = true then { s with area := RC_NULL_AREA } else s

/-- The state `(minh, asmin, asmax)` after taking the height differences `drops`
into `minh` and the heights `acc` into `asmin` and `asmax`. -/
def absorb (st : Int × Int × Int) (drops acc : List Int) : Int × Int × Int :=
  (drops.foldl min st.1, acc.foldl min st.2.1, acc.foldl max st.2.2)

/-- A column pass that sets the area of a span to `RC_NULL_AREA` when the test
`p` holds of its heights and of the `smin` above it, and keeps it otherwise. -/
def zeroIf (p : Nat × Nat → Int → Bool) : List rcSpan → List rcSpan
  | [] => []
  | s :: next =>
    (if p (geo s) (spanTop next) then { s with area := RC_NULL_AREA } else s) :: zeroIf p next

/-- The decision of the ledge filter for a span with top `bot` and ceiling `top`
in cell `(x, y)`, as the source computes it from the final `minh`, `asmin`,
`asmax`. -/
def ledgeDecision (solid : rcHeightfield) (walkableHeight walkableClimb : Int) (x y : Int)
    (bot top : Int) : Bool :=
  let st := [0, 1, 2, 3].foldl (ledgeDir solid walkableHeight walkableClimb x y bot top)
    (MAX_HEIGHT, bot, bot)
  decide (st.1 < -walkableClimb) || decide (st.2.2 - st.2.1 > walkableClimb)

/-- The three filters on the column with index `idx`, the ledge test reading the
neighbour columns of `hf`. -/
def pipelineColumn (hf : rcHeightfield) (walkableHeight walkableClimb : Int) (idx : Nat)
    (c : List rcSpan) : List rcSpan :=
  if idx < hf.width * hf.height then
    lowHeightColumn walkableHeight
      (ledgeColumn hf walkableHeight walkableClimb ((idx % hf.width : Nat) : Int)
        ((idx / hf.width : Nat) : Int)
        (lowHangingLoop walkableClimb none false RC_NULL_AREA c))
  else c

/-! ## Counting the output of `clipPoly` -/

/-- The vertex `v` is on the kept side of the plane: `d >= 0`. -/
def insidePlane (pnx pnz pd : ℚ) (v : Vec3) : Bool := decide (planeDist pnx pnz pd v ≥ 0)

/-- The number of edges `(vj, vi)` walked by the loop of `clipPoly` whose end
points lie on different sides of the plane (`ina != inb`). -/
def crossingsLoop (pnx pnz pd : ℚ) : Vec3 → List Vec3 → Nat
  | _, [] => 0
  | vj, vi :: rest =>
    (if insidePlane pnx pnz pd vj != insidePlane pnx pnz pd vi then 1 else 0) +
      crossingsLoop pnx pnz pd vi rest

/-- The number of edges of the closed polygon that cross the plane. -/
def crossings (inp : List Vec3) (pnx pnz pd : ℚ) : Nat :=
  match inp.getLast? with
  | none => 0
  | some last => crossingsLoop pnx pnz pd last inp

/-! ## Compact spans and their neighbour links -/

/-- The value `rcGetCon` returns for a direction without a neighbour. -/
def RC_NOT_CONNECTED : Int := 0x3f

/-- A compact span: `y` and `reg` are `unsigned short`, `con` is a 24-bit field
and `h` an 8-bit field. -/
structure rcCompactSpan where
  y : Nat
  reg : Nat
  con : Nat
  h : Nat
  deriving DecidableEq, Repr

/-- The conversion `(unsigned int)v` of an `int`. -/
def toUInt (v : Int) : Nat := (v % 2 ^ 32).toNat

/-- The complement `~m` on a 32-bit word. -/
def notUInt (m : Nat) : Nat := 2 ^ 32 - 1 - m % 2 ^ 32

/-- `rcSetCon`: `shift = (unsigned int)dir*6`, then
`s.con = (con & ~(0x3f << shift)) | (((unsigned int)i & 0x3f) << shift)`, stored
in the 24-bit field. -/
def rcSetCon (s : rcCompactSpan) (dir i : Int) : rcCompactSpan :=
  let shift := (toUInt dir * 6) % 2 ^ 32
  let con := s.con
  { s with con :=
      ((con &&& notUInt (0x3f <<< shift)) ||| ((toUInt i &&& 0x3f) <<< shift) % 2 ^ 32) % 2 ^ 24 }

/-- `rcGetCon`: `(s.con >> shift) & 0x3f` with `shift = (unsigned int)dir*6`. -/
def rcGetCon (s : rcCompactSpan) (dir : Int) : Int :=
  let shift := (toUInt dir * 6) % 2 ^ 32
  (((s.con >>> shift) &&& 0x3f : Nat) : Int)

/-! ## The build context and its timer hooks -/

/-- A timer label: the value of the enum `rcTimerLabel`. -/
abbrev rcTimerLabel := Nat

/-- An invocation of one of the virtual timer hooks of `rcContext`. -/
inductive HookCall where
  | doResetTimers
  | doStartTimer (label : rcTimerLabel)
  | doStopTimer (label : rcTimerLabel)
  | doGetAccumulatedTime (label : rcTimerLabel)
  deriving DecidableEq, Repr

/-- The virtual timer hooks of `rcContext`, acting on the state `σ` that the
derived class keeps. -/
structure rcContextHooks (σ : Type) where
  doResetTimers : σ → σ
  doStartTimer : rcTimerLabel → σ → σ
  doStopTimer : rcTimerLabel → σ → σ
  doGetAccumulatedTime : rcTimerLabel → σ → Int

/-- The hooks of the base class: the three `void` hooks have empty bodies and
`doGetAccumulatedTime` returns -1. -/
def rcContextHooks.base (σ : Type) : rcContextHooks σ :=
  ⟨fun s => s, fun _ s => s, fun _ s => s, fun _ _ => -1⟩

/-- A context: the two flags of `rcContext`, the state of the derived class, and
the record of the hook invocations made so far. -/
structure rcContext (σ : Type) where
  m_logEnabled : Bool
  m_timerEnabled : Bool
  derived : σ
  calls : List HookCall

/-- The constructor `rcContext(bool state)`. -/
def rcContext.init {σ : Type} (state : Bool) (d : σ) : rcContext σ := ⟨state, state, d, []⟩

/-- `enableTimer(state)`. -/
def rcContext.enableTimer {σ : Type} (c : rcContext σ) (state : Bool) : rcContext σ :=
  { c with m_timerEnabled := state }

/-- One invocation of a hook: the hook acts on the derived state and the
invocation is recorded. -/
def rcContext.invoke {σ : Type} (c : rcContext σ) (call : HookCall) (f : σ → σ) : rcContext σ :=
  { c with derived := f c.derived, calls := c.calls ++ [call] }

/-- `resetTimers() { if (m_timerEnabled) doResetTimers(); }`. -/
def rcContext.resetTimers {σ : Type} (c : rcContext σ) (hk : rcContextHooks σ) : rcContext σ :=
  if c.m_timerEnabled then c.invoke HookCall.doResetTimers hk.doResetTimers else c

/-- `startTimer(label) { if (m_timerEnabled) doStartTimer(label); }`. -/
def rcContext.startTimer {σ : Type} (c : rcContext σ) (hk : rcContextHooks σ)
    (label : rcTimerLabel) : rcContext σ :=
  if c.m_timerEnabled then c.invoke (HookCall.doStartTimer label) (hk.doStartTimer label) else c

/-- `stopTimer(label) { if (m_timerEnabled) doStopTimer(label); }`. -/
def rcContext.stopTimer {σ : Type} (c : rcContext σ) (hk : rcContextHooks σ)
    (label : rcTimerLabel) : rcContext σ :=
  if c.m_timerEnabled then c.invoke (HookCall.doStopTimer label) (hk.doStopTimer label) else c

/-- `getAccumulatedTime(label)`:
`return m_timerEnabled ? doGetAccumulatedTime(label) : -1`. The hook is `const`:
its invocation is recorded and the derived state is left as it is. -/
def rcContext.getAccumulatedTime {σ : Type} (c : rcContext σ) (hk : rcContextHooks σ)
    (label : rcTimerLabel) : Int × rcContext σ :=
  if c.m_timerEnabled then
    (hk.doGetAccumulatedTime label c.derived,
      c.invoke (HookCall.doGetAccumulatedTime label) (fun s => s))
  else (-1, c)

/-- Hooks of a derived class that counts: used as a concrete input. -/
def countingHooks : rcContextHooks Nat :=
  ⟨fun _ => 0, fun _ s => s + 1, fun _ s => s + 2, fun label s => (label : Int) + (s : Int)⟩

/-! ## Building and filtering a heightfield as sequences of calls -/

/-- Every span of the heightfield carries the area id `a`. -/
def uniformArea (a : Nat) (hf : rcHeightfield) : Prop :=
  ∀ c ∈ hf.spans, ∀ s ∈ c, s.area = a

/-- One step that adds geometry to a heightfield: a call of `rcAddSpan` or of
`rcRasterizeTriangle`, as its argument tuple. -/
inductive BuildStep where
  | span (x y : Int) (smin smax area : Nat) (flagMergeThr : Int)
  | triangle (v0 v1 v2 : Vec3) (area : Nat) (flagMergeThr : Int)

/-- The area id a build step carries. -/
def BuildStep.area : BuildStep → Nat
  | BuildStep.span _ _ _ _ area _ => area
  | BuildStep.triangle _ _ _ area _ => area

/-- The effect of one build step. -/
def BuildStep.run (hf : rcHeightfield) : BuildStep → rcHeightfield
  | BuildStep.span x y smin smax area flagMergeThr => rcAddSpan hf x y smin smax area flagMergeThr
  | BuildStep.triangle v0 v1 v2 area flagMergeThr =>
    rcRasterizeTriangle v0 v1 v2 area hf flagMergeThr

/-- A sequence of build steps applied to a heightfield, first step first. -/
def buildSteps (hf : rcHeightfield) (steps : List BuildStep) : rcHeightfield :=
  steps.foldl BuildStep.run hf

/-- One call of one of the three filters, with its parameters. -/
inductive FilterCall where
  | lowHanging (walkableClimb : Int)
  | ledge (walkableHeight walkableClimb : Int)
  | lowHeight (walkableHeight : Int)

/-- The effect of one filter call. -/
def FilterCall.run (hf : rcHeightfield) : FilterCall → rcHeightfield
  | FilterCall.lowHanging walkableClimb => rcFilterLowHangingWalkableObstacles walkableClimb hf
  | FilterCall.ledge walkableHeight walkableClimb =>
    rcFilterLedgeSpans walkableHeight walkableClimb hf
  | FilterCall.lowHeight walkableHeight => rcFilterWalkableLowHeightSpans walkableHeight hf

/-- A sequence of filter calls applied to a heightfield, first call first. -/
def applyFilters (hf : rcHeightfield) (calls : List FilterCall) : rcHeightfield :=
  calls.foldl FilterCall.run hf

/-! ## The single horizontal quad -/

/-- The empty 10x10 heightfield with `bmin = (0,0,0)`, `bmax = (10,0,10)`,
`cs = 1`, `ch = 0.5`. -/
def quadField : rcHeightfield :=
  ⟨10, 10, ⟨0, 0, 0⟩, ⟨10, 0, 10⟩, 1, 1 / 2, List.replicate 100 []⟩

/-- The quad `(0,0,0), (10,0,0), (10,0,10), (0,0,10)` rasterized into `quadField`
as the two triangles `(v0, v1, v2)` and `(v0, v2, v3)` with area 63. -/
def quadSolid (flagMergeThr : Int) : rcHeightfield :=
  rcRasterizeTriangle ⟨0, 0, 0⟩ ⟨10, 0, 10⟩ ⟨0, 0, 10⟩ 63
    (rcRasterizeTriangle ⟨0, 0, 0⟩ ⟨10, 0, 0⟩ ⟨10, 0, 10⟩ 63 quadField flagMergeThr)
    flagMergeThr

/-- The heightfield with one span `[0, 1]` of area 63 in each of its 100 columns. -/
def quadFloor : rcHeightfield :=
  ⟨10, 10, ⟨0, 0, 0⟩, ⟨10, 0, 10⟩, 1, 1 / 2, List.replicate 100 [⟨0, 1, 63⟩]⟩

/-- The cell `(x, y)` is not on the border of the 10x10 grid. -/
def quadInterior (x y : Nat) : Bool := decide (1 ≤ x ∧ x ≤ 8 ∧ 1 ≤ y ∧ y ≤ 8)

/-! ## The vertices `clipPoly` emits, with the branch that emitted them -/

/-- The edge loop of `clipPoly` with each emitted vertex marked: `true` for an
intersection vertex written by the branch `ina != inb`, `false` for an input
vertex written by the branch `inb`. -/
def clipPolyLoopMarked (pnx pnz pd : ℚ) : Vec3 → List Vec3 → List (Bool × Vec3)
  | _, [] => []
  | vj, vi :: rest =>
    let dj := planeDist pnx pnz pd vj
    let di := planeDist pnx pnz pd vi
    let ina : Bool := decide (dj ≥ 0)
    let inb : Bool := decide (di ≥ 0)
    let cut : List (Bool × Vec3) :=
      if ina != inb then
        let s := dj / (dj - di)
        [(true,
          ⟨vj.x + (vi.x - vj.x) * s, vj.y + (vi.y - vj.y) * s, vj.z + (vi.z - vj.z) * s⟩)]
      else []
    let keep : List (Bool × Vec3) := if inb then [(false, vi)] else []
    cut ++ keep ++ clipPolyLoopMarked pnx pnz pd vi rest

/-- The output of `clipPoly` with each vertex marked as intersection vertex or
input vertex. -/
def clipPolyMarked (inp : List Vec3) (pnx pnz pd : ℚ) : List (Bool × Vec3) :=
  match inp.getLast? with
  | none => []
  | some last => clipPolyLoopMarked pnx pnz pd last inp

/-! ## Areas that are only cleared -/

/-- The span `t` is the span `s`, or the span `s` with its area set to
`RC_NULL_AREA`. -/
def keptOrCleared (s t : rcSpan) : Prop := t = s ∨ t = { s with area := RC_NULL_AREA }

/-! ## IEEE 754 binary32 arithmetic

The source computes with `float`. The definitions of this section give the
result of one `float` operation: the exact result, rounded to the nearest
binary32 value. Every operation of an expression is rounded on its own, in the
order of the C expression (no fused multiply-add, no wider intermediate
format). -/

/-- The number of binary digits of `n`, counted with at most `fuel` halvings;
`fuel = n` suffices. -/
def bitLen : Nat → Nat → Nat
  | 0, _ => 0
  | fuel + 1, n => if n = 0 then 0 else bitLen fuel (n / 2) + 1

/-- The test `n / d ≥ 2^e` for positive naturals `n`, `d`. -/
def geTwoPow (n d : Nat) (e : Int) : Bool :=
  if 0 ≤ e then decide (d * 2 ^ e.toNat ≤ n) else decide (d ≤ n * 2 ^ (-e).toNat)

/-- The exponent `⌊log2 (n / d)⌋` of a positive rational `n / d`. -/
def floorLog2 (n d : Nat) : Int :=
  let e0 : Int := (bitLen n n : Int) - (bitLen d d : Int)
  if geTwoPow n d e0 then e0 else e0 - 1

/-- The integer nearest to `N / D`, the even one of two that are equally near. -/
def roundNearestEven (N D : Nat) : Nat :=
  let r := N / D
  let rem := N % D
  if D < 2 * rem ∨ (2 * rem = D ∧ r % 2 = 1) then r + 1 else r

/-- Rounding of a real number to the nearest binary32 value, ties to even: 24
significant bits, exponent at least that of the subnormal numbers (unit
`2^-149`). A value beyond the largest finite number, which the hardware rounds
to an infinity, is rounded here as if the exponent had no upper bound. -/
def f32 (q : ℚ) : ℚ :=
  if q = 0 then 0 else
  let n := q.num.natAbs
  let d := q.den
  let s : Int := max (floorLog2 n d) (-126) - 23
  let r : Nat :=
    if 0 ≤ s then roundNearestEven n (d * 2 ^ s.toNat)
    else roundNearestEven (n * 2 ^ (-s).toNat) d
  let m : ℚ := if 0 ≤ s then ((r * 2 ^ s.toNat : Nat) : ℚ) else mkRat (r : Int) (2 ^ (-s).toNat)
  if q < 0 then -m else m

/-- The `float` sum `a + b`. -/
def fadd (a b : ℚ) : ℚ := f32 (a + b)

/-- The `float` difference `a - b`. -/
def fsub (a b : ℚ) : ℚ := f32 (a - b)

/-- The `float` product `a * b`. -/
def fmul (a b : ℚ) : ℚ := f32 (a * b)

/-- The `float` quotient `a / b`, for `b` other than zero. -/
def fdiv (a b : ℚ) : ℚ := f32 (a / b)

/-! ## `RecastRasterization.cpp` in binary32

The functions of the rasterizer once more, with every `float` operation rounded
to binary32 as the compiled code does. The definitions on exact rationals
above are what these compute when no operation rounds. -/

/-- The distance `d[i] = pnx*in[i*3+0] + pnz*in[i*3+2] + pd` of `clipPoly`
(line 206) as computed in `float`. -/
def planeDist32 (pnx pnz pd : ℚ) (v : Vec3) : ℚ :=
  fadd (fadd (fmul pnx v.x) (fmul pnz v.z)) pd

/-- The edge loop of `clipPoly` (lines 212-232) in `float`: `vj` is the previous
vertex `in[j]`, the list holds the vertices from `in[i]` on. -/
def clipPolyLoop32 (pnx pnz pd : ℚ) : Vec3 → List Vec3 → List Vec3
  | _, [] => []
  | vj, vi :: rest =>
    let dj := planeDist32 pnx pnz pd vj
    let di := planeDist32 pnx pnz pd vi
    let ina : Bool := decide (dj ≥ 0)
    let inb : Bool := decide (di ≥ 0)
    let cut : List Vec3 :=
      if ina != inb then
        let s := fdiv dj (fsub dj di)
        [⟨fadd vj.x (fmul (fsub vi.x vj.x) s), fadd vj.y (fmul (fsub vi.y vj.y) s),
          fadd vj.z (fmul (fsub vi.z vj.z) s)⟩]
      else []
    let keep : List Vec3 := if inb then [vi] else []
    cut ++ keep ++ clipPolyLoop32 pnx pnz pd vi rest

/-- The function `clipPoly(in, n, out, pnx, pnz, pd)` in `float`: the list is
`in[0..n-1]`, the result is `out[0..m-1]`. The first edge starts at `in[n-1]`. -/
def clipPoly32 (inp : List Vec3) (pnx pnz pd : ℚ) : List Vec3 :=
  match inp.getLast? with
  | none => []
  | some last => clipPolyLoop32 pnx pnz pd last inp

/-- Lines 348-349 of `rasterizeTri` in `float`: the products `smin * ich` and
`smax * ich` are rounded before `floorf` and `ceilf`. -/
def snapSpan32 (smin smax ich : ℚ) : Nat × Nat :=
  let ismin : Nat :=
    (rcClamp (castInt (Int.floor (fmul smin ich))) 0 (RC_SPAN_MAX_HEIGHT : Int)).toNat % 2 ^ 16
  let ismax : Nat :=
    (rcClamp (castInt (Int.ceil (fmul smax ich))) ((ismin : Int) + 1)
      (RC_SPAN_MAX_HEIGHT : Int)).toNat % 2 ^ 16
  (ismin, ismax)

/-- The body of the loop over `x` in `rasterizeTri` (lines 313-351) in `float`,
for the row polygon `inrow`. The loop counter `x` is converted to `float` in
`x*cs`. -/
def rasterizeCell32 (inrow : List Vec3) (area : Nat) (bmin : Vec3) (bY cs ich : ℚ)
    (flagMergeThr : Int) (y : Int) (hf : rcHeightfield) (x : Int) : rcHeightfield :=
  let cx := fadd bmin.x (fmul (f32 (x : ℚ)) cs)
  let out := clipPoly32 inrow 1 0 (-cx)
  if out.length < 3 then hf else
  let inp := clipPoly32 out (-1) 0 (fadd cx cs)
  if inp.length < 3 then hf else
  let smin := polyMinY inp
  let smax := polyMaxY inp
  let smin := fsub smin bmin.y
  let smax := fsub smax bmin.y
  if smax < 0 then hf else
  if smin > bY then hf else
  let smin := if smin < 0 then 0 else smin
  let smax := if smax > bY then bY else smax
  let is := snapSpan32 smin smax ich
  addSpan hf x y is.1 is.2 area flagMergeThr

/-- The body of the loop over `y` in `rasterizeTri` (lines 292-352) in `float`. -/
def rasterizeRow32 (v0 v1 v2 : Vec3) (area : Nat) (bmin : Vec3) (bY cs ich : ℚ)
    (flagMergeThr : Int) (x0 x1 : Int) (hf : rcHeightfield) (y : Int) : rcHeightfield :=
  let inp := [v0, v1, v2]
  let cz := fadd bmin.z (fmul (f32 (y : ℚ)) cs)
  let out := clipPoly32 inp 0 1 (-cz)
  if out.length < 3 then hf else
  let inrow := clipPoly32 out 0 (-1) (fadd cz cs)
  if inrow.length < 3 then hf else
  (intRange x0 x1).foldl (rasterizeCell32 inrow area bmin bY cs ich flagMergeThr y) hf

/-- Lines 276-284 of `rasterizeTri` in `float`: the footprint `(x0, y0, x1, y1)`
of the triangle's bounding box on the grid, clamped to the grid. -/
def footprint32 (tmin tmax bmin : Vec3) (ics : ℚ) (w h : Int) : Int × Int × Int × Int :=
  let x0 := castInt (fmul (fsub tmin.x bmin.x) ics)
  let y0 := castInt (fmul (fsub tmin.z bmin.z) ics)
  let x1 := castInt (fmul (fsub tmax.x bmin.x) ics)
  let y1 := castInt (fmul (fsub tmax.z bmin.z) ics)
  let x0 := rcClamp x0 0 (w - 1)
  let y0 := rcClamp y0 0 (h - 1)
  let x1 := rcClamp x1 0 (w - 1)
  let y1 := rcClamp y1 0 (h - 1)
  (x0, y0, x1, y1)

/-- The function `rasterizeTri` in `float`. -/
def rasterizeTri32 (v0 v1 v2 : Vec3) (area : Nat) (hf : rcHeightfield) (bmin bmax : Vec3)
    (cs ics ich : ℚ) (flagMergeThr : Int) : rcHeightfield :=
  let w : Int := hf.width
  let h : Int := hf.height
  let bY := fsub bmax.y bmin.y
  let tmin := rcVmin (rcVmin v0 v1) v2
  let tmax := rcVmax (rcVmax v0 v1) v2
  if !overlapBounds bmin bmax tmin tmax then hf else
  let fp := footprint32 tmin tmax bmin ics w h
  (intRange fp.2.1 fp.2.2.2).foldl
    (rasterizeRow32 v0 v1 v2 area bmin bY cs ich flagMergeThr fp.1 fp.2.2.1) hf

/-- The function `rcRasterizeTriangle` in `float`: `ics = 1.0f/cs` and
`ich = 1.0f/ch` are rounded quotients. -/
def rcRasterizeTriangle32 (v0 v1 v2 : Vec3) (area : Nat) (solid : rcHeightfield)
    (flagMergeThr : Int) : rcHeightfield :=
  let ics := fdiv 1 solid.cs
  let ich := fdiv 1 solid.ch
  rasterizeTri32 v0 v1 v2 area solid solid.bmin solid.bmax solid.cs ics ich flagMergeThr

/-- The vertex `v` is on the kept side of the plane: the computed `d >= 0`. -/
def insidePlane32 (pnx pnz pd : ℚ) (v : Vec3) : Bool := decide (planeDist32 pnx pnz pd v ≥ 0)

/-- The number of edges `(vj, vi)` walked by the loop of `clipPoly` whose end
points have computed distances on different sides (`ina != inb`). -/
def crossingsLoop32 (pnx pnz pd : ℚ) : Vec3 → List Vec3 → Nat
  | _, [] => 0
  | vj, vi :: rest =>
    (if insidePlane32 pnx pnz pd vj != insidePlane32 pnx pnz pd vi then 1 else 0) +
      crossingsLoop32 pnx pnz pd vi rest

/-- The number of edges of the closed polygon for which `clipPoly` takes the
branch `ina != inb`. -/
def crossings32 (inp : List Vec3) (pnx pnz pd : ℚ) : Nat :=
  match inp.getLast? with
  | none => 0
  | some last => crossingsLoop32 pnx pnz pd last inp

/-- The edge loop of `clipPoly` in `float` with each emitted vertex marked:
`true` for an intersection vertex written by the branch `ina != inb`, `false`
for an input vertex written by the branch `inb`. -/
def clipPolyLoopMarked32 (pnx pnz pd : ℚ) : Vec3 → List Vec3 → List (Bool × Vec3)
  | _, [] => []
  | vj, vi :: rest =>
    let dj := planeDist32 pnx pnz pd vj
    let di := planeDist32 pnx pnz pd vi
    let ina : Bool := decide (dj ≥ 0)
    let inb : Bool := decide (di ≥ 0)
    let cut : List (Bool × Vec3) :=
      if ina != inb then
        let s := fdiv dj (fsub dj di)
        [(true,
          ⟨fadd vj.x (fmul (fsub vi.x vj.x) s), fadd vj.y (fmul (fsub vi.y vj.y) s),
            fadd vj.z (fmul (fsub vi.z vj.z) s)⟩)]
      else []
    let keep : List (Bool × Vec3) := if inb then [(false, vi)] else []
    cut ++ keep ++ clipPolyLoopMarked32 pnx pnz pd vi rest

/-- The output of `clipPoly` in `float` with each vertex marked as intersection
vertex or input vertex. -/
def clipPolyMarked32 (inp : List Vec3) (pnx pnz pd : ℚ) : List (Bool × Vec3) :=
  match inp.getLast? with
  | none => []
  | some last => clipPolyLoopMarked32 pnx pnz pd last inp

/-- The intersection vertex `in[j] + (in[i] - in[j])*s` with
`s = d[j] / (d[j] - d[i])` that `clipPoly` writes for the edge from `vj` to
`vi` (lines 218-222), every operation rounded. -/
def cutVertex32 (pnx pnz pd : ℚ) (vj vi : Vec3) : Vec3 :=
  let dj := planeDist32 pnx pnz pd vj
  let di := planeDist32 pnx pnz pd vi
  let s := fdiv dj (fsub dj di)
  ⟨fadd vj.x (fmul (fsub vi.x vj.x) s), fadd vj.y (fmul (fsub vi.y vj.y) s),
    fadd vj.z (fmul (fsub vi.z vj.z) s)⟩

/-! ## `Test/Game.cpp`: the build configuration -/

/-- The call of `addSpan` made by the body of the loop over `x` in
`rasterizeTri` for the cell `(x, y)`, if the body reaches it. -/
def rasterizeCellCall (inrow : List Vec3) (area : Nat) (bmin : Vec3) (bY cs ich : ℚ)
    (flagMergeThr : Int) (y : Int) (x : Int) : Option AddSpanCall :=
  let cx := bmin.x + (x : ℚ) * cs
  let out := clipPoly inrow 1 0 (-cx)
  if out.length < 3 then none else
  let inp := clipPoly out (-1) 0 (cx + cs)
  if inp.length < 3 then none else
  let smin := polyMinY inp
  let smax := polyMaxY inp
  let smin := smin - bmin.y
  let smax := smax - bmin.y
  if smax < 0 then none else
  if smin > bY then none else
  let smin := if smin < 0 then 0 else smin
  let smax := if smax > bY then bY else smax
  let is := snapSpan smin smax ich
  some ⟨x, y, is.1, is.2, area, flagMergeThr⟩

/-- The calls of `addSpan` made by the body of the loop over `y` in
`rasterizeTri`, in order. -/
def rasterizeRowCalls (v0 v1 v2 : Vec3) (area : Nat) (bmin : Vec3) (bY cs ich : ℚ)
    (flagMergeThr : Int) (x0 x1 : Int) (y : Int) : List AddSpanCall :=
  let inp := [v0, v1, v2]
  let cz := bmin.z + (y : ℚ) * cs
  let out := clipPoly inp 0 1 (-cz)
  if out.length < 3 then [] else
  let inrow := clipPoly out 0 (-1) (cz + cs)
  if inrow.length < 3 then [] else
  (intRange x0 x1).filterMap (rasterizeCellCall inrow area bmin bY cs ich flagMergeThr y)

/-- The calls of `addSpan` made by `rasterizeTri` on a heightfield of `w` by `h`
cells, in order. -/
def rasterizeTriCalls (v0 v1 v2 : Vec3) (area : Nat) (w h : Int) (bmin bmax : Vec3)
    (cs ics ich : ℚ) (flagMergeThr : Int) : List AddSpanCall :=
  let bY := bmax.y - bmin.y
  let tmin := rcVmin (rcVmin v0 v1) v2
  let tmax := rcVmax (rcVmax v0 v1) v2
  if !overlapBounds bmin bmax tmin tmax then [] else
  let fp := footprint tmin tmax bmin ics w h
  (intRange fp.2.1 fp.2.2.2).flatMap
    (rasterizeRowCalls v0 v1 v2 area bmin bY cs ich flagMergeThr fp.1 fp.2.2.1)

/-! ## The heights a column covers -/

/-- The point at height `d/2` lies in one of the closed intervals
`[smin, smax]` of the column: heights are doubled so that the points halfway
between two cells can be named. -/
def coversHalf (d : Nat) (col : List rcSpan) : Prop :=
  ∃ s ∈ col, 2 * s.smin ≤ d ∧ d ≤ 2 * s.smax

/-- A sequence of `addSpan` calls on one column, first call first; the cell
coordinates of the calls are not used. -/
def addSpansCol (col : List rcSpan) (calls : List AddSpanCall) : List rcSpan :=
  calls.foldl (fun c k => addSpanCol c k.smin k.smax k.area k.flagMergeThr) col

/-! ## Polygons that a line crosses at most twice -/

/-- The alternating list `a, !a, a, ...` of length `k`. -/
def altList : Bool → Nat → List Bool
  | _, 0 => []
  | a, k + 1 => a :: altList (!a) k

/-- The number of sign changes along the list `l`, entered with the sign `a`. -/
def signChanges : Bool → List Bool → Nat
  | _, [] => 0
  | a, b :: l => (if a != b then 1 else 0) + signChanges b l

/-- Each sign three times. -/
def thrice : List Bool → List Bool
  | [] => []
  | b :: l => b :: b :: b :: thrice l

/-- No four vertices of the polygon, taken in order, lie alternately inside and
outside of a half-plane `pnx*x + pnz*z + pd >= 0`: every line crosses the
closed vertex cycle at most twice, as for a convex polygon. -/
def convexLike (P : List Vec3) : Prop :=
  ∀ (pnx pnz pd : ℚ) (a : Bool),
    ¬ List.Sublist (altList a 4) (P.map (insidePlane pnx pnz pd))

/-! ## `RecastRasterization.cpp`: the span pool and the free list -/

/-- The constant `RC_SPANS_PER_POOL`. -/
def RC_SPANS_PER_POOL : Nat := 2048

/-- A span node of a pool: `id` stands for its address, item `i` of the `k`-th
pool allocated having the address `k * RC_SPANS_PER_POOL + i`; `span` holds its
fields `smin`, `smax`, `area`. The `next` pointer is the tail of the list the
node sits in. -/
structure SpanNode where
  id : Nat
  span : rcSpan
deriving DecidableEq, Repr

/-- The part of `rcHeightfield` that `allocSpan`, `freeSpan` and `addSpan` use:
the columns as lists of nodes, the free list as the list of the addresses of
its nodes (head first), and the number of pools in the list `pools`. -/
structure PoolHeightfield where
  width : Nat
  height : Nat
  spans : List (List SpanNode)
  freelist : List Nat
  pools : Nat
deriving DecidableEq

/-- The column `hf.spans[idx]`; an index outside the array reads as empty. -/
def PoolHeightfield.col (hf : PoolHeightfield) (idx : Int) : List SpanNode :=
  if idx < 0 then [] else hf.spans.getD idx.toNat []

/-- Store of a new head/list into `hf.spans[idx]`; an index outside the array
stores nothing. -/
def PoolHeightfield.setCol (hf : PoolHeightfield) (idx : Int) (c : List SpanNode) :
    PoolHeightfield :=
  if idx < 0 then hf else { hf with spans := hf.spans.set idx.toNat c }

/-- The function `allocSpan` (the allocation of a new pool is taken to succeed):
when the free list is empty or holds a single node, a new pool is linked in and
its items `0 .. 2047` are put in front of the free list in this order; then the
head of the free list is popped and returned. -/
def allocSpan (hf : PoolHeightfield) : Nat × PoolHeightfield :=
  match hf.freelist with
  | it :: next :: rest => (it, { hf with freelist := next :: rest })
  | fl =>
    (hf.pools * RC_SPANS_PER_POOL,
      { hf with
        pools := hf.pools + 1
        freelist :=
          (List.range (RC_SPANS_PER_POOL - 1)).map
            (fun i => hf.pools * RC_SPANS_PER_POOL + 1 + i) ++ fl })

/-- The function `freeSpan` for a non-null `ptr`: the node is put in front of the
free list. -/
def freeSpan (freelist : List Nat) (ptr : Nat) : List Nat := ptr :: freelist

/-- The insert-and-merge loop of `addSpan` (lines 118-172) on the nodes of one
column, with the free list: a span that is merged into the new node is unlinked
and passed to `freeSpan`. The result is the column from `cur` on, with the new
node linked in, and the free list. -/
def addSpanLoopP (flagMergeThr : Int) :
    SpanNode → List SpanNode → List Nat → List SpanNode × List Nat
  | s, [], fl => ([s], fl)
  | s, cur :: next, fl =>
    if cur.span.smin > s.span.smax then
      (s :: cur :: next, fl)
    else if cur.span.smax < s.span.smin then
      let r := addSpanLoopP flagMergeThr s next fl
      (cur :: r.1, r.2)
    else
      addSpanLoopP flagMergeThr ⟨s.id, mergeSpan flagMergeThr s.span cur.span⟩ next
        (freeSpan fl cur.id)

/-- The function `addSpan` on the heightfield with its pool: the new node is
taken by `allocSpan`, then linked into the column `x + y*width`. -/
def addSpanP (hf : PoolHeightfield) (x y : Int) (smin smax area : Nat) (flagMergeThr : Int) :
    PoolHeightfield :=
  let idx := x + y * hf.width
  let a := allocSpan hf
  let s : SpanNode := ⟨a.1, newSpan smin smax area⟩
  let hf1 := a.2
  match hf1.col idx with
  | [] => hf1.setCol idx [s]
  | cur :: next =>
    let r := addSpanLoopP flagMergeThr s (cur :: next) hf1.freelist
    { hf1.setCol idx r.1 with freelist := r.2 }

/-- The number of nodes linked in columns plus the number of nodes on the free
list. -/
def nodeCount (hf : PoolHeightfield) : Nat :=
  (hf.spans.map List.length).sum + hf.freelist.length

/-- The addresses of the nodes linked in columns, column by column, followed by
those of the nodes on the free list. -/
def allNodes (hf : PoolHeightfield) : List Nat :=
  (hf.spans.flatMap (fun c => c.map SpanNode.id)) ++ hf.freelist

/-- The nodes linked in columns and on the free list are exactly the items of
the pools, each once. -/
def poolOk (hf : PoolHeightfield) : Prop :=
  List.Perm (allNodes hf) (List.range (RC_SPANS_PER_POOL * hf.pools))

/-- A heightfield with pool holding the given columns and free list. -/
def poolField (cols : List (List SpanNode)) (freelist : List Nat) (pools : Nat) :
    PoolHeightfield :=
  ⟨cols.length, 1, cols, freelist, pools⟩

/-- The cell loops of `rcFilterLedgeSpans` (lines 104-108) with the cells visited
in the order `order`, a list of column indices `x + y*w`, instead of row by row. -/
def ledgeScan (walkableHeight walkableClimb : Int) (order : List Nat) (solid : rcHeightfield) :
    rcHeightfield :=
  order.foldl (fun hf i => cellPass solid.width
    (fun g x y col => ledgeColumn g walkableHeight walkableClimb x y col)
    (i % solid.width) (i / solid.width) hf) solid

/-- A two-cell heightfield with one pool in which the column of cell 0 and the
free list share a tail: the column is the node 3 followed by the nodes 4 to
1025, the free list is the nodes 0, 1, 2 followed by the same nodes 4 to 1025.
The column links 1023 nodes and the free list 1025. -/
def sharedTailField : PoolHeightfield :=
  poolField
    [(List.range 1023).map (fun i => (⟨i + 3, ⟨4 * i, 4 * i + 1, 63⟩⟩ : SpanNode)), []]
    ([0, 1, 2] ++ (List.range 1022).map (fun i => i + 4)) 1

/-- A one-cell heightfield with one pool: the column links the nodes 0, 1, 2 and
the free list holds the other 2045 nodes of the pool. -/
def fullPoolField : PoolHeightfield :=
  poolField [[⟨0, ⟨0, 4, 63⟩⟩, ⟨1, ⟨6, 8, 0⟩⟩, ⟨2, ⟨20, 30, 0⟩⟩]]
    ((List.range 2045).map (fun i => i + 3)) 1

set_option maxRecDepth 100000 in

/-! ## Heightfields used as concrete inputs -/

/-- A field of four cells `(0, 0)` to `(3, 0)` with `cs = 0.21f`, `ch = 1`, ten
cells high, with empty columns. -/
def fourCells21 : rcHeightfield :=
  ⟨4, 1, ⟨0, 0, 0⟩, ⟨4 * f32 (21 / 100), 10, f32 (21 / 100)⟩, f32 (21 / 100), 1,
    [[], [], [], []]⟩

/-- A field of two cells `(0, 0)` and `(1, 0)` of size 1, ten cells high, with
empty columns. -/
def twoCells : rcHeightfield :=
  ⟨2, 1, ⟨0, 0, 0⟩, ⟨2, 10, 1⟩, 1, 1, [[], []]⟩

/-- A one-cell heightfield holding the given column. -/
def oneCell (col : List rcSpan) : rcHeightfield :=
  ⟨1, 1, ⟨0, 0, 0⟩, ⟨1, 100, 1⟩, 1, 1, [col]⟩

/-- A 3x3 heightfield: the given column in the centre cell `(1, 1)`, the columns
`west`, `south`, `east`, `north` in the cells `(0, 1)`, `(1, 2)`, `(2, 1)`, `(1, 0)`
next to it and empty corner cells. -/
def crossField (centre west south east north : List rcSpan) : rcHeightfield :=
  ⟨3, 3, ⟨0, 0, 0⟩, ⟨3, 100, 3⟩, 1, 1,
    [[], north, [], west, centre, east, [], south, []]⟩

/-! ## Span insertion: the column invariant -/

theorem RC_SPAN_MAX_HEIGHT_eq : RC_SPAN_MAX_HEIGHT = 8191 := by decide

theorem mergeSpan_smin (thr : Int) (s cur : rcSpan) :
    (mergeSpan thr s cur).smin = min s.smin cur.smin := by
  unfold mergeSpan
  by_cases a : cur.smin < s.smin <;> by_cases b : cur.smax > s.smax <;>
    simp only [a, b, if_true, if_false] <;> split <;> first | omega | (simp only []; omega)

theorem mergeSpan_smax (thr : Int) (s cur : rcSpan) :
    (mergeSpan thr s cur).smax = max s.smax cur.smax := by
  unfold mergeSpan
  by_cases a : cur.smin < s.smin <;> by_cases b : cur.smax > s.smax <;>
    simp only [a, b, if_true, if_false] <;> split <;> first | omega | (simp only []; omega)

theorem spanOk_mergeSpan (thr : Int) (s cur : rcSpan) (hs : spanOk s) (hc : spanOk cur) :
    spanOk (mergeSpan thr s cur) := by
  unfold spanOk at *
  rw [mergeSpan_smin, mergeSpan_smax]
  omega

/-- The column invariant in pairwise form. -/
theorem columnOk_pairwise : ∀ (col : List rcSpan), columnOk col →
    col.Pairwise (fun a b => a.smax < b.smin)
  | [], _ => List.Pairwise.nil
  | [_], _ => List.pairwise_singleton _ _
  | a :: b :: l, h => by
    have hab : a.smax < b.smin := h.2.1
    have htl : columnOk (b :: l) :=
      ⟨fun s hs => h.1 s (List.mem_cons_of_mem _ hs), h.2.2⟩
    have ih := columnOk_pairwise (b :: l) htl
    refine List.pairwise_cons.2 ⟨?_, ih⟩
    intro c hc
    rcases List.mem_cons.1 hc with rfl | hc
    · exact hab
    · have h1 := (List.pairwise_cons.1 ih).1 c hc
      have h2 := (h.1 b (by simp)).1
      omega

theorem belowNext_of_pairwise : ∀ (col : List rcSpan),
    col.Pairwise (fun a b => a.smax < b.smin) → belowNext col
  | [], _ => trivial
  | [_], _ => trivial
  | a :: b :: l, h =>
    ⟨(List.pairwise_cons.1 h).1 b (by simp), belowNext_of_pairwise (b :: l) (List.pairwise_cons.1 h).2⟩

theorem columnOk_of_pairwise (col : List rcSpan) (h1 : ∀ s ∈ col, spanOk s)
    (h2 : col.Pairwise (fun a b => a.smax < b.smin)) : columnOk col :=
  ⟨h1, belowNext_of_pairwise col h2⟩

theorem belowNext_tail : ∀ {a : rcSpan} {l : List rcSpan}, belowNext (a :: l) → belowNext l
  | _, [], _ => trivial
  | _, _ :: _, h => h.2

theorem columnOk_tail {a : rcSpan} {l : List rcSpan} (h : columnOk (a :: l)) : columnOk l :=
  ⟨fun s hs => h.1 s (List.mem_cons_of_mem _ hs), belowNext_tail h.2⟩

theorem columnOk_nil : columnOk [] := ⟨by simp, trivial⟩

/-- Every span of the column after the loop starts above any bound that the new
span and all spans of the column start above. -/
theorem addSpanLoop_lower (thr : Int) (b : Nat) : ∀ (col : List rcSpan) (s : rcSpan),
    b < s.smin → (∀ c ∈ col, b < c.smin) → ∀ a ∈ addSpanLoop thr s col, b < a.smin
  | [], s, hs, _, a, ha => by
    simp [addSpanLoop] at ha
    subst ha; exact hs
  | cur :: next, s, hs, hc, a, ha => by
    have hcur := hc cur (by simp)
    have hnext : ∀ c ∈ next, b < c.smin := fun c h => hc c (List.mem_cons_of_mem _ h)
    unfold addSpanLoop at ha
    split at ha
    · rcases List.mem_cons.1 ha with rfl | ha
      · exact hs
      · exact hc a ha
    · split at ha
      · rcases List.mem_cons.1 ha with rfl | ha
        · exact hcur
        · exact addSpanLoop_lower thr b next s hs hnext a ha
      · refine addSpanLoop_lower thr b next (mergeSpan thr s cur) ?_ hnext a ha
        rw [mergeSpan_smin]; omega

/-- The loop of `addSpan` keeps the column invariant. -/
theorem addSpanLoop_ok (thr : Int) : ∀ (col : List rcSpan) (s : rcSpan),
    spanOk s → columnOk col → columnOk (addSpanLoop thr s col)
  | [], s, hs, _ => by
    refine ⟨?_, trivial⟩
    intro a ha
    simp [addSpanLoop] at ha
    subst ha; exact hs
  | cur :: next, s, hs, hc => by
    have hpw := columnOk_pairwise _ hc
    have hcur : spanOk cur := hc.1 cur (by simp)
    have htl := columnOk_tail hc
    unfold addSpanLoop
    split
    · rename_i hgt
      refine ⟨?_, ⟨hgt, hc.2⟩⟩
      intro a ha
      rcases List.mem_cons.1 ha with rfl | ha
      · exact hs
      · exact hc.1 a ha
    · split
      · rename_i hlt
        have ih := addSpanLoop_ok thr next s hs htl
        refine columnOk_of_pairwise _ ?_ ?_
        · intro a ha
          rcases List.mem_cons.1 ha with rfl | ha
          · exact hcur
          · exact ih.1 a ha
        · refine List.pairwise_cons.2 ⟨?_, columnOk_pairwise _ ih⟩
          exact addSpanLoop_lower thr cur.smax next s hlt (List.pairwise_cons.1 hpw).1
      · exact addSpanLoop_ok thr next _ (spanOk_mergeSpan thr s cur hs hcur) htl

theorem spanOk_newSpan (smin smax area : Nat) (h1 : smin ≤ smax)
    (h2 : smax ≤ RC_SPAN_MAX_HEIGHT) : spanOk (newSpan smin smax area) := by
  have h : RC_SPAN_MAX_HEIGHT = 8191 := by decide
  rw [h] at h2
  unfold spanOk newSpan
  rw [h]
  simp only
  omega

theorem addSpanCol_ok (col : List rcSpan) (smin smax area : Nat) (thr : Int)
    (hcol : columnOk col) (h1 : smin ≤ smax) (h2 : smax ≤ RC_SPAN_MAX_HEIGHT) :
    columnOk (addSpanCol col smin smax area thr) := by
  have hn := spanOk_newSpan smin smax area h1 h2
  cases col with
  | nil => exact addSpanLoop_ok thr [] _ hn hcol
  | cons c l => exact addSpanLoop_ok thr (c :: l) _ hn hcol

theorem sortedDisjoint_of_columnOk (col : List rcSpan) (h : columnOk col) :
    sortedDisjoint col := by
  unfold sortedDisjoint
  have hpw := columnOk_pairwise col h
  have hpw2 : col.Pairwise (fun a b => spanOk a ∧ a.smax < b.smin) := by
    rw [List.pairwise_iff_forall_sublist] at *
    intro a b hab
    exact ⟨h.1 a (hab.subset (by simp)), hpw hab⟩
  exact hpw2.imp (fun hab => ⟨lt_of_le_of_lt hab.1.1 hab.2, hab.2⟩)

theorem col_columnOk (hf : rcHeightfield) (h : ∀ c ∈ hf.spans, columnOk c) (idx : Int) :
    columnOk (hf.col idx) := by
  unfold rcHeightfield.col
  split
  · exact columnOk_nil
  · rw [List.getD_eq_getElem?_getD]
    cases hget : hf.spans[idx.toNat]? with
    | none => exact columnOk_nil
    | some c => exact h c (List.getElem?_mem hget)

theorem setCol_columnOk (hf : rcHeightfield) (h : ∀ c ∈ hf.spans, columnOk c) (idx : Int)
    (c : List rcSpan) (hc : columnOk c) : ∀ d ∈ (hf.setCol idx c).spans, columnOk d := by
  unfold rcHeightfield.setCol
  split
  · exact h
  · intro d hd
    rcases List.mem_or_eq_of_mem_set hd with hd | rfl
    · exact h d hd
    · exact hc

theorem addSpans_ok : ∀ (calls : List AddSpanCall) (hf : rcHeightfield),
    (∀ c ∈ hf.spans, columnOk c) →
    (∀ c ∈ calls, c.smin ≤ c.smax ∧ c.smax ≤ RC_SPAN_MAX_HEIGHT) →
    ∀ c ∈ (addSpans hf calls).spans, columnOk c
  | [], _, h, _ => h
  | k :: calls, hf, h, hk => by
    have h0 := hk k (by simp)
    refine addSpans_ok calls (addSpan hf k.x k.y k.smin k.smax k.area k.flagMergeThr) ?_
      (fun c hc => hk c (List.mem_cons_of_mem _ hc))
    exact setCol_columnOk hf h _ _
      (addSpanCol_ok _ _ _ _ _ (col_columnOk hf h _) h0.1 h0.2)

/-- C1: `addSpan` preserves the column invariant. For a column whose spans have
`smin <= smax <= 8191` and are strictly separated, and a new span with
`smin <= smax <= 8191`, any area and any `flagMergeThr`, the column after
`addSpan` satisfies the same invariant, is sorted by `smin` and has pairwise
non-overlapping intervals; hence a heightfield whose columns are all empty keeps
sorted, non-overlapping columns under any sequence of such calls. -/
theorem addSpan_preserves_column_invariant :
    (∀ (col : List rcSpan) (smin smax area : Nat) (flagMergeThr : Int),
      columnOk col → smin ≤ smax → smax ≤ RC_SPAN_MAX_HEIGHT →
      columnOk (addSpanCol col smin smax area flagMergeThr) ∧
      sortedDisjoint (addSpanCol col smin smax area flagMergeThr)) ∧
    (∀ (hf : rcHeightfield) (calls : List AddSpanCall),
      (∀ c ∈ hf.spans, c = []) →
      (∀ k ∈ calls, k.smin ≤ k.smax ∧ k.smax ≤ RC_SPAN_MAX_HEIGHT) →
      ∀ c ∈ (addSpans hf calls).spans, columnOk c ∧ sortedDisjoint c) := by
  refine ⟨?_, ?_⟩
  · intro col smin smax area thr hcol h1 h2
    have h := addSpanCol_ok col smin smax area thr hcol h1 h2
    exact ⟨h, sortedDisjoint_of_columnOk _ h⟩
  · intro hf calls hempty hcalls c hc
    have h0 : ∀ c ∈ hf.spans, columnOk c := by
      intro c hc
      rw [hempty c hc]
      exact columnOk_nil
    have h := addSpans_ok calls hf h0 hcalls c hc
    exact ⟨h, sortedDisjoint_of_columnOk _ h⟩

/-- Witness of C1: a two-span column receiving a span that bridges both. -/
theorem addSpan_preserves_column_invariant_witness :
    columnOk [⟨0, 2, 63⟩, ⟨5, 6, 0⟩] ∧ 1 ≤ 5 ∧ 5 ≤ RC_SPAN_MAX_HEIGHT ∧
    columnOk (addSpanCol [⟨0, 2, 63⟩, ⟨5, 6, 0⟩] 1 5 63 1) ∧
    sortedDisjoint (addSpanCol [⟨0, 2, 63⟩, ⟨5, 6, 0⟩] 1 5 63 1) :=
  ⟨by decide, by decide, by decide,
    addSpan_preserves_column_invariant.1 [⟨0, 2, 63⟩, ⟨5, 6, 0⟩] 1 5 63 1
      (by decide) (by decide) (by decide)⟩

/-! ## Span insertion: merge by min/max -/

theorem mergeAll_smin (thr : Int) : ∀ (l : List rcSpan) (s : rcSpan),
    (mergeAll thr s l).smin = (l.map rcSpan.smin).foldl min s.smin
  | [], _ => rfl
  | c :: l, s => by
    have ih := mergeAll_smin thr l (mergeSpan thr s c)
    simp only [mergeAll, List.foldl_cons, List.map_cons] at ih ⊢
    rw [ih, mergeSpan_smin]

theorem mergeAll_smax (thr : Int) : ∀ (l : List rcSpan) (s : rcSpan),
    (mergeAll thr s l).smax = (l.map rcSpan.smax).foldl max s.smax
  | [], _ => rfl
  | c :: l, s => by
    have ih := mergeAll_smax thr l (mergeSpan thr s c)
    simp only [mergeAll, List.foldl_cons, List.map_cons] at ih ⊢
    rw [ih, mergeSpan_smax]

/-- The merged span contains the new span and every absorbed span. -/
theorem mergeAll_bounds (thr : Int) : ∀ (l : List rcSpan) (s : rcSpan),
    ((mergeAll thr s l).smin ≤ s.smin ∧ s.smax ≤ (mergeAll thr s l).smax) ∧
    ∀ c ∈ l, (mergeAll thr s l).smin ≤ c.smin ∧ c.smax ≤ (mergeAll thr s l).smax
  | [], s => ⟨⟨le_refl _, le_refl _⟩, by simp⟩
  | d :: l, s => by
    have ih := mergeAll_bounds thr l (mergeSpan thr s d)
    have e : mergeAll thr s (d :: l) = mergeAll thr (mergeSpan thr s d) l := rfl
    rw [e]
    rw [mergeSpan_smin, mergeSpan_smax] at ih
    refine ⟨⟨by omega, by omega⟩, ?_⟩
    intro c hc
    rcases List.mem_cons.1 hc with rfl | hc
    · omega
    · exact ih.2 c hc

/-- A height inside the merged span lies in the new span or in an absorbed
span, when every absorbed span intersects the new one. -/
theorem mergeAll_cover (thr : Int) : ∀ (l : List rcSpan) (s : rcSpan) (h : Nat),
    (∀ c ∈ l, c.smin ≤ s.smax ∧ s.smin ≤ c.smax) →
    (mergeAll thr s l).smin ≤ h → h ≤ (mergeAll thr s l).smax →
    (s.smin ≤ h ∧ h ≤ s.smax) ∨ ∃ c ∈ l, c.smin ≤ h ∧ h ≤ c.smax
  | [], s, h, _, h1, h2 => Or.inl ⟨h1, h2⟩
  | d :: l, s, h, hov, h1, h2 => by
    have e : mergeAll thr s (d :: l) = mergeAll thr (mergeSpan thr s d) l := rfl
    rw [e] at h1 h2
    have hd := hov d (by simp)
    have ih := mergeAll_cover thr l (mergeSpan thr s d) h (by
      intro c hc
      have := hov c (List.mem_cons_of_mem _ hc)
      rw [mergeSpan_smin, mergeSpan_smax]
      omega) h1 h2
    rcases ih with ih | ⟨c, hc, hh⟩
    · rw [mergeSpan_smin, mergeSpan_smax] at ih
      by_cases hs : s.smin ≤ h ∧ h ≤ s.smax
      · exact Or.inl hs
      · exact Or.inr ⟨d, by simp, by omega⟩
    · exact Or.inr ⟨c, List.mem_cons_of_mem _ hc, hh⟩

/-- The shape of the column after the loop: the spans below the new span, the
merged span, the spans above it. -/
theorem addSpanLoop_shape (thr : Int) : ∀ (col : List rcSpan) (s : rcSpan),
    columnOk col → s.smin ≤ s.smax →
    addSpanLoop thr s col =
      col.filter (fun c => decide (c.smax < s.smin)) ++
        mergeAll thr s (col.filter (fun c => overlapInterval c.smin c.smax s.smin s.smax)) ::
        col.filter (fun c => decide (c.smin > s.smax))
  | [], s, _, _ => by simp [addSpanLoop, mergeAll]
  | cur :: next, s, hc, hs => by
    have hpw := List.pairwise_cons.1 (columnOk_pairwise _ hc)
    have hcur : spanOk cur := hc.1 cur (by simp)
    have htl := columnOk_tail hc
    have hnext : ∀ r ∈ next, cur.smax < r.smin ∧ r.smin ≤ r.smax := fun r hr =>
      ⟨hpw.1 r hr, (hc.1 r (List.mem_cons_of_mem _ hr)).1⟩
    unfold addSpanLoop
    split
    · rename_i hgt
      have hall : ∀ r ∈ cur :: next, s.smax < r.smin ∧ r.smin ≤ r.smax := by
        intro r hr
        rcases List.mem_cons.1 hr with rfl | hr
        · exact ⟨hgt, hcur.1⟩
        · have := hnext r hr
          have := hcur.1
          omega
      have e1 : (cur :: next).filter (fun c => decide (c.smax < s.smin)) = [] := by
        rw [List.filter_eq_nil_iff]
        intro r hr
        have := hall r hr
        simp only [decide_eq_true_eq]; omega
      have e2 : (cur :: next).filter
          (fun c => overlapInterval c.smin c.smax s.smin s.smax) = [] := by
        rw [List.filter_eq_nil_iff]
        intro r hr
        have := hall r hr
        unfold overlapInterval
        split
        · simp
        · split
          · simp
          · omega
      have e3 : (cur :: next).filter (fun c => decide (c.smin > s.smax)) = cur :: next := by
        rw [List.filter_eq_self]
        intro r hr
        have := hall r hr
        simp only [decide_eq_true_eq]; omega
      rw [e1, e2, e3]
      rfl
    · rename_i hngt
      split
      · rename_i hlt
        rw [addSpanLoop_shape thr next s htl hs]
        have e1 : (cur :: next).filter (fun c => decide (c.smax < s.smin)) =
            cur :: next.filter (fun c => decide (c.smax < s.smin)) :=
          List.filter_cons_of_pos (by simpa using hlt)
        have e2 : (cur :: next).filter
            (fun c => overlapInterval c.smin c.smax s.smin s.smax) =
            next.filter (fun c => overlapInterval c.smin c.smax s.smin s.smax) :=
          List.filter_cons_of_neg (by simp [overlapInterval, hlt])
        have e3 : (cur :: next).filter (fun c => decide (c.smin > s.smax)) =
            next.filter (fun c => decide (c.smin > s.smax)) :=
          List.filter_cons_of_neg (by simpa using hngt)
        rw [e1, e2, e3]
        rfl
      · rename_i hnlt
        have hs2 : (mergeSpan thr s cur).smin ≤ (mergeSpan thr s cur).smax := by
          rw [mergeSpan_smin, mergeSpan_smax]; omega
        rw [addSpanLoop_shape thr next (mergeSpan thr s cur) htl hs2]
        rw [mergeSpan_smin, mergeSpan_smax]
        have e1 : (cur :: next).filter (fun c => decide (c.smax < s.smin)) = [] := by
          rw [List.filter_eq_nil_iff]
          intro r hr
          simp only [decide_eq_true_eq]
          rcases List.mem_cons.1 hr with rfl | hr
          · exact hnlt
          · have := hnext r hr
            omega
        have e1b : next.filter (fun c => decide (c.smax < min s.smin cur.smin)) = [] := by
          rw [List.filter_eq_nil_iff]
          intro r hr
          simp only [decide_eq_true_eq]
          have := hnext r hr
          omega
        have e2 : (cur :: next).filter
            (fun c => overlapInterval c.smin c.smax s.smin s.smax) =
            cur :: next.filter (fun c => overlapInterval c.smin c.smax s.smin s.smax) :=
          List.filter_cons_of_pos (by simp [overlapInterval, hnlt, hngt])
        have e2b : next.filter (fun c => overlapInterval c.smin c.smax
            (min s.smin cur.smin) (max s.smax cur.smax)) =
            next.filter (fun c => overlapInterval c.smin c.smax s.smin s.smax) := by
          apply List.filter_congr
          intro r hr
          have := hnext r hr
          unfold overlapInterval
          have n1 : ¬ r.smax < min s.smin cur.smin := by omega
          have n2 : ¬ r.smax < s.smin := by omega
          simp only [n1, n2, if_false]
          by_cases h3 : r.smin > s.smax
          · have h4 : r.smin > max s.smax cur.smax := by omega
            simp [h3, h4]
          · have h4 : ¬ r.smin > max s.smax cur.smax := by omega
            simp [h3, h4]
        have e3 : (cur :: next).filter (fun c => decide (c.smin > s.smax)) =
            next.filter (fun c => decide (c.smin > s.smax)) :=
          List.filter_cons_of_neg (by simpa using hngt)
        have e3b : next.filter (fun c => decide (c.smin > max s.smax cur.smax)) =
            next.filter (fun c => decide (c.smin > s.smax)) := by
          apply List.filter_congr
          intro r hr
          have := hnext r hr
          by_cases h3 : r.smin > s.smax
          · have h4 : r.smin > max s.smax cur.smax := by omega
            simp [h3, h4]
          · have h4 : ¬ r.smin > max s.smax cur.smax := by omega
            simp [h3, h4]
        rw [e1, e1b, e2, e2b, e3, e3b]
        rfl

theorem addSpanCol_eq_loop (col : List rcSpan) (smin smax area : Nat) (thr : Int) :
    addSpanCol col smin smax area thr = addSpanLoop thr (newSpan smin smax area) col := by
  cases col <;> rfl

theorem newSpan_fields (smin smax area : Nat) (h1 : smin ≤ smax)
    (h2 : smax ≤ RC_SPAN_MAX_HEIGHT) :
    (newSpan smin smax area).smin = smin ∧ (newSpan smin smax area).smax = smax := by
  have h : RC_SPAN_MAX_HEIGHT = 8191 := by decide
  rw [h] at h2
  unfold newSpan
  simp only
  omega

theorem overlapInterval_iff (amin amax bmin bmax : Nat) :
    overlapInterval amin amax bmin bmax = true ↔ bmin ≤ amax ∧ amin ≤ bmax := by
  unfold overlapInterval
  split
  · simp; omega
  · split
    · simp; omega
    · simp; omega

theorem addSpanCol_mergesByMinMax (col : List rcSpan) (smin smax area : Nat) (thr : Int)
    (hcol : columnOk col) (h1 : smin ≤ smax) (h2 : smax ≤ RC_SPAN_MAX_HEIGHT) :
    mergesByMinMax col smin smax area thr := by
  obtain ⟨f1, f2⟩ := newSpan_fields smin smax area h1 h2
  have hshape := addSpanLoop_shape thr col (newSpan smin smax area) hcol (by omega)
  rw [f1, f2] at hshape
  have hb := mergeAll_bounds thr
    (col.filter (fun c => overlapInterval c.smin c.smax smin smax)) (newSpan smin smax area)
  rw [f1, f2] at hb
  unfold mergesByMinMax
  simp only
  rw [addSpanCol_eq_loop, hshape]
  refine ⟨_, rfl, ?_, ?_, ?_, ?_⟩
  · rw [mergeAll_smin, f1]
  · rw [mergeAll_smax, f2]
  · rw [List.filter_append, List.filter_cons_of_pos (by simpa using hb.1)]
    have e1 : (col.filter (fun c => decide (c.smax < smin))).filter
        (fun c => decide (c.smin ≤ smin ∧ smax ≤ c.smax)) = [] := by
      rw [List.filter_eq_nil_iff]
      intro r hr
      have := (List.mem_filter.1 hr).2
      simp only [decide_eq_true_eq] at this ⊢
      omega
    have e2 : (col.filter (fun c => decide (c.smin > smax))).filter
        (fun c => decide (c.smin ≤ smin ∧ smax ≤ c.smax)) = [] := by
      rw [List.filter_eq_nil_iff]
      intro r hr
      have := (List.mem_filter.1 hr).2
      simp only [decide_eq_true_eq] at this ⊢
      omega
    rw [e1, e2]
    rfl
  · intro h
    constructor
    · rintro ⟨c, hc, hh⟩
      rcases List.mem_append.1 hc with hc | hc
      · exact Or.inl ⟨c, (List.mem_filter.1 hc).1, hh⟩
      · rcases List.mem_cons.1 hc with rfl | hc
        · have hcov := mergeAll_cover thr
            (col.filter (fun c => overlapInterval c.smin c.smax smin smax))
            (newSpan smin smax area) h (by
              intro c hc
              have := (overlapInterval_iff _ _ _ _).1 (List.mem_filter.1 hc).2
              rw [f1, f2]
              omega) hh.1 hh.2
          rw [f1, f2] at hcov
          rcases hcov with hcov | ⟨c, hc, hh⟩
          · exact Or.inr hcov
          · exact Or.inl ⟨c, (List.mem_filter.1 hc).1, hh⟩
        · exact Or.inl ⟨c, (List.mem_filter.1 hc).1, hh⟩
    · rintro (⟨c, hc, hh⟩ | hh)
      · by_cases hlo : c.smax < smin
        · exact ⟨c, List.mem_append_left _ (List.mem_filter.2 ⟨hc, by simpa using hlo⟩), hh⟩
        · by_cases hhi : c.smin > smax
          · exact ⟨c, List.mem_append_right _ (List.mem_cons_of_mem _
              (List.mem_filter.2 ⟨hc, by simpa using hhi⟩)), hh⟩
          · have hmem : c ∈ col.filter (fun c => overlapInterval c.smin c.smax smin smax) :=
              List.mem_filter.2 ⟨hc, (overlapInterval_iff _ _ _ _).2 (by omega)⟩
            have := hb.2 c hmem
            exact ⟨_, List.mem_append_right _ (List.mem_cons_self _ _), by omega⟩
      · exact ⟨_, List.mem_append_right _ (List.mem_cons_self _ _), by omega⟩

/-- C2 (amended): `addSpan` merges by min/max. For every column satisfying the
column invariant and every new interval with `smin <= smax <= 8191`, the column
after `addSpan` is the spans below the new interval, one span whose `smin` is
the minimum and whose `smax` is the maximum over the new interval and the spans
intersecting it, and the spans above it; that span is the only one covering the
new interval and the heights covered are the old ones together with
`smin..smax`. -/
theorem addSpan_merges_by_min_max (col : List rcSpan) (smin smax area : Nat)
    (flagMergeThr : Int) (hcol : columnOk col) (h1 : smin ≤ smax)
    (h2 : smax ≤ RC_SPAN_MAX_HEIGHT) : mergesByMinMax col smin smax area flagMergeThr :=
  addSpanCol_mergesByMinMax col smin smax area flagMergeThr hcol h1 h2

/-- Witness of C2: the new interval `[1, 5]` bridges the two spans of the
column. -/
theorem addSpan_merges_by_min_max_witness :
    columnOk [⟨0, 2, 63⟩, ⟨5, 6, 0⟩] ∧ 1 ≤ 5 ∧ 5 ≤ RC_SPAN_MAX_HEIGHT ∧
    mergesByMinMax [⟨0, 2, 63⟩, ⟨5, 6, 0⟩] 1 5 63 1 :=
  ⟨by decide, by decide, by decide,
    addSpan_merges_by_min_max [⟨0, 2, 63⟩, ⟨5, 6, 0⟩] 1 5 63 1
      (by decide) (by decide) (by decide)⟩

/-- C2 as stated fails: `smin <= smax` alone does not keep the new interval
inside the 13-bit fields. `addSpan` called with `smin = 1`, `smax = 8192` on an
empty column stores `smax = 0`, and no span of the column covers `[1, 8192]`. -/
theorem addSpan_merges_by_min_max_counterexample :
    columnOk [] ∧ 1 ≤ 8192 ∧ addSpanCol [] 1 8192 63 1 = [⟨1, 0, 63⟩] ∧
    ¬ mergesByMinMax [] 1 8192 63 1 := by
  refine ⟨by decide, by decide, by decide, ?_⟩
  rintro ⟨m, _, _, _, h4, _⟩
  have e : addSpanCol [] 1 8192 63 1 = [⟨1, 0, 63⟩] := by decide
  rw [e] at h4
  simp at h4

/-! ## Span insertion: the area of a merged span -/

/-- C3: the area rule of `addSpan` is evaluated on the column `[0, 10]` of area
63 receiving the new span `[0, 5]` of area 0 with `flagMergeThr = 1`. The tops
differ by 5, more than the threshold, yet the merged span has area 63, the
maximum of the two areas, and not the area 0 of the new span: the comparison is
made after the new span's `smax` was raised to 10. -/
theorem addSpan_area_merge_buried_span :
    overlapInterval 0 10 0 5 = true ∧ ¬ (rcAbs ((5 : Int) - 10) ≤ 1) ∧
    addSpanCol [⟨0, 10, 63⟩] 0 5 0 1 = [⟨0, 10, 63⟩] ∧
    mergeSpan 1 (newSpan 0 5 0) ⟨0, 10, 63⟩ = ⟨0, 10, rcMax 0 63⟩ := by
  decide

/-! ## Rasterization: snapping a span to the height grid -/

/-- C4: the quantisation of `rasterizeTri` is evaluated at the top cell of the
height range, with `ch = 1`. A flat polygon at height 8191 gives
`ismin = 8191`, `ismax = 8192`, above `RC_SPAN_MAX_HEIGHT`, and `addSpan` stores
`smax = 0` in the 13-bit field; an extent from 8191 to 9000 gives
`ismin = ismax = 8191`, a span of height 0. -/
theorem snapSpan_top_cell :
    snapSpan 8191 8191 (1 / 1) = (8191, 8192) ∧
    newSpan 8191 8192 63 = ⟨8191, 0, 63⟩ ∧
    snapSpan 8191 9000 (1 / 1) = (8191, 8191) := by
  refine ⟨?_, by decide, ?_⟩
  · norm_num [snapSpan, rcClamp, castInt, RC_SPAN_MAX_HEIGHT_eq]
    decide
  · norm_num [snapSpan, rcClamp, castInt, RC_SPAN_MAX_HEIGHT_eq]
    decide

/-- Below the top cell the quantisation does what it is meant to: when
`floor(ymin/ch) < 8191` the two heights passed to `addSpan` satisfy
`ismin + 1 <= ismax <= 8191`. -/
theorem snapSpan_ok (ymin ymax ch : ℚ) (h0 : 0 ≤ ymin) (hch : 0 < ch)
    (htop : Int.floor (ymin * (1 / ch)) < 8191) :
    (snapSpan ymin ymax (1 / ch)).1 + 1 ≤ (snapSpan ymin ymax (1 / ch)).2 ∧
    (snapSpan ymin ymax (1 / ch)).2 ≤ RC_SPAN_MAX_HEIGHT := by
  have hf0 : 0 ≤ Int.floor (ymin * (1 / ch)) :=
    Int.floor_nonneg.2 (mul_nonneg h0 (by positivity))
  have e1 : castInt (Int.floor (ymin * (1 / ch)) : ℚ) = Int.floor (ymin * (1 / ch)) := by
    unfold castInt
    split
    · exact Int.ceil_intCast _
    · exact Int.floor_intCast _
  have e2 : castInt (Int.ceil (ymax * (1 / ch)) : ℚ) = Int.ceil (ymax * (1 / ch)) := by
    unfold castInt
    split
    · exact Int.ceil_intCast _
    · exact Int.floor_intCast _
  unfold snapSpan
  simp only [e1, e2, RC_SPAN_MAX_HEIGHT_eq]
  unfold rcClamp
  generalize Int.floor (ymin * (1 / ch)) = a at *
  generalize Int.ceil (ymax * (1 / ch)) = b at *
  have ha : ¬ a < 0 := by omega
  have ha2 : ¬ a > ((8191 : Nat) : Int) := by omega
  simp only [ha, ha2, if_false]
  split <;> [skip; split] <;> omega

/-! ## Rasterization: frame lemmas -/

theorem rcMin_eq_min (a b : ℚ) : rcMin a b = min a b := by
  unfold rcMin
  split
  · rw [min_eq_left]; linarith
  · rw [min_eq_right]; linarith

theorem rcMax_eq_max (a b : ℚ) : rcMax a b = max a b := by
  unfold rcMax
  split
  · rw [max_eq_left]; linarith
  · rw [max_eq_right]; linarith

theorem rcVmin_eq (v0 v1 v2 : Vec3) : rcVmin (rcVmin v0 v1) v2 = triMin v0 v1 v2 := by
  simp [rcVmin, triMin, rcMin_eq_min]

theorem rcVmax_eq (v0 v1 v2 : Vec3) : rcVmax (rcVmax v0 v1) v2 = triMax v0 v1 v2 := by
  simp [rcVmax, triMax, rcMax_eq_max]

theorem col_setCol_ne (hf : rcHeightfield) (i j : Int) (c : List rcSpan) (h : i ≠ j) :
    (hf.setCol i c).col j = hf.col j := by
  unfold rcHeightfield.setCol rcHeightfield.col
  by_cases hi : i < 0
  · simp [hi]
  · by_cases hj : j < 0
    · simp [hi, hj]
    · have hne : i.toNat ≠ j.toNat := by omega
      simp only [hi, hj, if_false, List.getD_eq_getElem?_getD]
      rw [List.getElem?_set_ne hne]

theorem col_setCol_self (hf : rcHeightfield) (i : Int) (c : List rcSpan) (h0 : 0 ≤ i)
    (h1 : i.toNat < hf.spans.length) : (hf.setCol i c).col i = c := by
  unfold rcHeightfield.setCol rcHeightfield.col
  have hi : ¬ i < 0 := by omega
  simp only [hi, if_false, List.getD_eq_getElem?_getD]
  rw [List.getElem?_set_self h1]
  rfl

theorem setCol_fields (hf : rcHeightfield) (i : Int) (c : List rcSpan) :
    (hf.setCol i c).width = hf.width ∧ (hf.setCol i c).height = hf.height ∧
    (hf.setCol i c).bmin = hf.bmin ∧ (hf.setCol i c).bmax = hf.bmax ∧
    (hf.setCol i c).cs = hf.cs ∧ (hf.setCol i c).ch = hf.ch ∧
    (hf.setCol i c).spans.length = hf.spans.length := by
  unfold rcHeightfield.setCol
  split <;> simp

theorem sameOutside_refl (P : Int → Prop) (hf : rcHeightfield) : sameOutside P hf hf :=
  ⟨rfl, rfl, fun _ _ => rfl, rfl⟩

theorem sameOutside_trans {P : Int → Prop} {a b c : rcHeightfield}
    (h1 : sameOutside P a b) (h2 : sameOutside P b c) : sameOutside P a c :=
  ⟨h2.1.trans h1.1, h2.2.1.trans h1.2.1,
    fun idx hi => (h2.2.2.1 idx hi).trans (h1.2.2.1 idx hi), h2.2.2.2.trans h1.2.2.2⟩

theorem addSpan_sameOutside (P : Int → Prop) (hf : rcHeightfield) (x y : Int)
    (smin smax area : Nat) (thr : Int) (hP : P (x + y * hf.width)) :
    sameOutside P hf (addSpan hf x y smin smax area thr) := by
  unfold addSpan
  refine ⟨(setCol_fields _ _ _).1, (setCol_fields _ _ _).2.1, ?_,
    (setCol_fields _ _ _).2.2.2.2.2.2⟩
  intro idx hidx
  apply col_setCol_ne
  intro h
  exact hidx (h ▸ hP)

theorem rasterizeCell_sameOutside (P : Int → Prop) (inrow : List Vec3) (area : Nat)
    (bmin : Vec3) (bY cs ich : ℚ) (thr : Int) (y : Int) (hf : rcHeightfield) (x : Int)
    (hP : P (x + y * hf.width)) :
    sameOutside P hf (rasterizeCell inrow area bmin bY cs ich thr y hf x) := by
  unfold rasterizeCell
  simp only
  split
  · exact sameOutside_refl P hf
  · split
    · exact sameOutside_refl P hf
    · split
      · exact sameOutside_refl P hf
      · split
        · exact sameOutside_refl P hf
        · exact addSpan_sameOutside P hf x y _ _ _ _ hP

theorem foldl_sameOutside {α : Type} (P : Int → Prop) (f : rcHeightfield → α → rcHeightfield) :
    ∀ (l : List α) (hf : rcHeightfield),
    (∀ a ∈ l, ∀ g : rcHeightfield, g.width = hf.width → sameOutside P g (f g a)) →
    sameOutside P hf (l.foldl f hf)
  | [], hf, _ => sameOutside_refl P hf
  | a :: l, hf, h => by
    have h1 := h a (by simp) hf rfl
    refine sameOutside_trans h1 (foldl_sameOutside P f l (f hf a) ?_)
    intro b hb g hg
    exact h b (List.mem_cons_of_mem _ hb) g (hg.trans h1.1)

theorem mem_intRange (a b x : Int) : x ∈ intRange a b ↔ a ≤ x ∧ x ≤ b := by
  unfold intRange
  simp only [List.mem_map, List.mem_range]
  constructor
  · rintro ⟨i, hi, rfl⟩
    omega
  · rintro ⟨h1, h2⟩
    exact ⟨(x - a).toNat, by omega, by omega⟩

theorem rasterizeRow_sameOutside (P : Int → Prop) (v0 v1 v2 : Vec3) (area : Nat)
    (bmin : Vec3) (bY cs ich : ℚ) (thr : Int) (x0 x1 : Int) (hf : rcHeightfield) (y : Int)
    (hP : ∀ x, x0 ≤ x → x ≤ x1 → P (x + y * hf.width)) :
    sameOutside P hf (rasterizeRow v0 v1 v2 area bmin bY cs ich thr x0 x1 hf y) := by
  unfold rasterizeRow
  simp only
  split
  · exact sameOutside_refl P hf
  · split
    · exact sameOutside_refl P hf
    · apply foldl_sameOutside
      intro x hx g hg
      have hx := (mem_intRange _ _ _).1 hx
      apply rasterizeCell_sameOutside
      rw [hg]
      exact hP x hx.1 hx.2

theorem rasterizeTri_sameOutside (P : Int → Prop) (v0 v1 v2 : Vec3) (area : Nat)
    (hf : rcHeightfield) (bmin bmax : Vec3) (cs ics ich : ℚ) (thr : Int)
    (hP : ∀ x y : Int,
      (footprint (triMin v0 v1 v2) (triMax v0 v1 v2) bmin ics hf.width hf.height).1 ≤ x →
      x ≤ (footprint (triMin v0 v1 v2) (triMax v0 v1 v2) bmin ics hf.width hf.height).2.2.1 →
      (footprint (triMin v0 v1 v2) (triMax v0 v1 v2) bmin ics hf.width hf.height).2.1 ≤ y →
      y ≤ (footprint (triMin v0 v1 v2) (triMax v0 v1 v2) bmin ics hf.width hf.height).2.2.2 →
      P (x + y * hf.width)) :
    sameOutside P hf (rasterizeTri v0 v1 v2 area hf bmin bmax cs ics ich thr) := by
  unfold rasterizeTri
  simp only [rcVmin_eq, rcVmax_eq]
  split
  · exact sameOutside_refl P hf
  · apply foldl_sameOutside
    intro y hy g hg
    have hy := (mem_intRange _ _ _).1 hy
    apply rasterizeRow_sameOutside
    intro x hx0 hx1
    rw [hg]
    exact hP x y hx0 hx1 hy.1 hy.2

theorem castInt_intCast (k : Int) : castInt (k : ℚ) = k := by
  unfold castInt
  split
  · exact Int.ceil_intCast k
  · exact Int.floor_intCast k

theorem castInt_one : castInt 1 = 1 := by
  have := castInt_intCast 1
  rwa [Int.cast_one] at this

theorem castInt_zero : castInt 0 = 0 := by
  have := castInt_intCast 0
  rwa [Int.cast_zero] at this

theorem intRange_self (a : Int) : intRange a a = [a] := by
  unfold intRange
  have : (a + 1 - a).toNat = 1 := by omega
  rw [this]
  simp [List.range_succ]

theorem rcClamp_mem (v w : Int) (hw : 1 ≤ w) : 0 ≤ rcClamp v 0 (w - 1) ∧ rcClamp v 0 (w - 1) < w := by
  unfold rcClamp
  split
  · omega
  · split <;> omega

theorem rcClamp_id (v w : Int) (h0 : 0 ≤ v) (h1 : v < w) : rcClamp v 0 (w - 1) = v := by
  unfold rcClamp
  split
  · omega
  · split <;> omega

/-- Cell indices `x + y*w` with `0 <= x < w` determine the cell. -/
theorem cell_index_inj (w x y x2 y2 : Int) (hx : 0 ≤ x) (hxw : x < w) (hx2 : 0 ≤ x2)
    (hx2w : x2 < w) (h : x + y * w = x2 + y2 * w) : x = x2 ∧ y = y2 := by
  have hm : (x + y * w) % w = (x2 + y2 * w) % w := by rw [h]
  rw [Int.add_mul_emod_self, Int.add_mul_emod_self, Int.emod_eq_of_lt hx hxw,
    Int.emod_eq_of_lt hx2 hx2w] at hm
  subst hm
  refine ⟨rfl, ?_⟩
  have hw : w ≠ 0 := by omega
  have h2 : y * w = y2 * w := by omega
  exact Int.eq_of_mul_eq_mul_right hw h2

/-- A triangle in the plane `x = bmin.x + k*cs` has the footprint `x0 = x1 = k`. -/
theorem footprint_x_plane (v0 v1 v2 bmin : Vec3) (cs : ℚ) (w h k : Int) (hcs : 0 < cs)
    (hk0 : 0 ≤ k) (hkw : k < w) (h0 : v0.x = bmin.x + (k : ℚ) * cs)
    (h1 : v1.x = bmin.x + (k : ℚ) * cs) (h2 : v2.x = bmin.x + (k : ℚ) * cs) :
    (footprint (triMin v0 v1 v2) (triMax v0 v1 v2) bmin (1 / cs) w h).1 = k ∧
    (footprint (triMin v0 v1 v2) (triMax v0 v1 v2) bmin (1 / cs) w h).2.2.1 = k := by
  have e : (bmin.x + (k : ℚ) * cs - bmin.x) * (1 / cs) = (k : ℚ) := by
    field_simp
  unfold footprint triMin triMax
  simp only [h0, h1, h2, min_self, max_self, e, castInt_intCast]
  exact ⟨rcClamp_id k w hk0 hkw, rcClamp_id k w hk0 hkw⟩

/-- A triangle in the plane `z = bmin.z + k*cs` has the footprint `y0 = y1 = k`. -/
theorem footprint_z_plane (v0 v1 v2 bmin : Vec3) (cs : ℚ) (w h k : Int) (hcs : 0 < cs)
    (hk0 : 0 ≤ k) (hkh : k < h) (h0 : v0.z = bmin.z + (k : ℚ) * cs)
    (h1 : v1.z = bmin.z + (k : ℚ) * cs) (h2 : v2.z = bmin.z + (k : ℚ) * cs) :
    (footprint (triMin v0 v1 v2) (triMax v0 v1 v2) bmin (1 / cs) w h).2.1 = k ∧
    (footprint (triMin v0 v1 v2) (triMax v0 v1 v2) bmin (1 / cs) w h).2.2.2 = k := by
  have e : (bmin.z + (k : ℚ) * cs - bmin.z) * (1 / cs) = (k : ℚ) := by
    field_simp
  unfold footprint triMin triMax
  simp only [h0, h1, h2, min_self, max_self, e, castInt_intCast]
  exact ⟨rcClamp_id k h hk0 hkh, rcClamp_id k h hk0 hkh⟩

theorem footprint_x_range (tmin tmax bmin : Vec3) (ics : ℚ) (w h : Int) (hw : 1 ≤ w) :
    0 ≤ (footprint tmin tmax bmin ics w h).1 ∧
    (footprint tmin tmax bmin ics w h).2.2.1 < w := by
  unfold footprint
  exact ⟨(rcClamp_mem _ w hw).1, (rcClamp_mem _ w hw).2⟩

/-- Rasterizing a triangle that lies in the plane `x = bmin.x + k*cs` leaves every
column of a cell `(x, y)` with `x != k` as it was. -/
theorem rasterizeTri_x_plane_frame (v0 v1 v2 : Vec3) (area : Nat) (hf : rcHeightfield)
    (bmin bmax : Vec3) (cs ich : ℚ) (thr : Int) (k : Int) (hcs : 0 < cs) (hk0 : 0 ≤ k)
    (hkw : k < hf.width) (h0 : v0.x = bmin.x + (k : ℚ) * cs)
    (h1 : v1.x = bmin.x + (k : ℚ) * cs) (h2 : v2.x = bmin.x + (k : ℚ) * cs)
    (x y : Int) (hx0 : 0 ≤ x) (hxw : x < hf.width) (hxk : x ≠ k) :
    (rasterizeTri v0 v1 v2 area hf bmin bmax cs (1 / cs) ich thr).col (x + y * hf.width) =
      hf.col (x + y * hf.width) := by
  have hfp := footprint_x_plane v0 v1 v2 bmin cs hf.width hf.height k hcs hk0 hkw h0 h1 h2
  have hso := rasterizeTri_sameOutside (fun idx => ∃ y2 : Int, idx = k + y2 * hf.width)
    v0 v1 v2 area hf bmin bmax cs (1 / cs) ich thr (by
      intro x2 y2 ha hb _ _
      rw [hfp.1] at ha
      rw [hfp.2] at hb
      exact ⟨y2, by rw [le_antisymm hb ha]⟩)
  apply hso.2.2.1
  rintro ⟨y2, hy2⟩
  exact hxk (cell_index_inj hf.width x y k y2 hx0 hxw hk0 hkw hy2).1

/-- Rasterizing a triangle that lies in the plane `z = bmin.z + k*cs` leaves every
column of a cell `(x, y)` with `y != k` as it was. -/
theorem rasterizeTri_z_plane_frame (v0 v1 v2 : Vec3) (area : Nat) (hf : rcHeightfield)
    (bmin bmax : Vec3) (cs ich : ℚ) (thr : Int) (k : Int) (hcs : 0 < cs) (hk0 : 0 ≤ k)
    (hkh : k < hf.height) (h0 : v0.z = bmin.z + (k : ℚ) * cs)
    (h1 : v1.z = bmin.z + (k : ℚ) * cs) (h2 : v2.z = bmin.z + (k : ℚ) * cs)
    (x y : Int) (hx0 : 0 ≤ x) (hxw : x < hf.width) (hyk : y ≠ k) :
    (rasterizeTri v0 v1 v2 area hf bmin bmax cs (1 / cs) ich thr).col (x + y * hf.width) =
      hf.col (x + y * hf.width) := by
  have hfp := footprint_z_plane v0 v1 v2 bmin cs hf.width hf.height k hcs hk0 hkh h0 h1 h2
  have hxr := footprint_x_range (triMin v0 v1 v2) (triMax v0 v1 v2) bmin (1 / cs)
    hf.width hf.height (by omega)
  have hso := rasterizeTri_sameOutside
    (fun idx => ∃ x2 : Int, 0 ≤ x2 ∧ x2 < hf.width ∧ idx = x2 + k * hf.width)
    v0 v1 v2 area hf bmin bmax cs (1 / cs) ich thr (by
      intro x2 y2 ha hb hc hd
      rw [hfp.1] at hc
      rw [hfp.2] at hd
      exact ⟨x2, by omega, by omega, by rw [le_antisymm hd hc]⟩)
  apply hso.2.2.1
  rintro ⟨x2, hx2, hx2w, hidx⟩
  exact hyk (cell_index_inj hf.width x y x2 k hx0 hxw hx2 hx2w hidx).2

/-! ## Rasterization: rejection of triangles outside the field -/

theorem rasterizeTri_reject (v0 v1 v2 : Vec3) (area : Nat) (hf : rcHeightfield)
    (bmin bmax : Vec3) (cs ics ich : ℚ) (thr : Int)
    (h : ((triMax v0 v1 v2).x < bmin.x ∨ (triMin v0 v1 v2).x > bmax.x) ∨
         ((triMax v0 v1 v2).y < bmin.y ∨ (triMin v0 v1 v2).y > bmax.y) ∨
         ((triMax v0 v1 v2).z < bmin.z ∨ (triMin v0 v1 v2).z > bmax.z)) :
    rasterizeTri v0 v1 v2 area hf bmin bmax cs ics ich thr = hf := by
  have hov : overlapBounds bmin bmax (triMin v0 v1 v2) (triMax v0 v1 v2) = false := by
    unfold overlapBounds
    rcases h with (h | h) | (h | h) | (h | h)
    · have : bmin.x > (triMax v0 v1 v2).x ∨ bmax.x < (triMin v0 v1 v2).x := Or.inl h
      simp [this]
    · have : bmin.x > (triMax v0 v1 v2).x ∨ bmax.x < (triMin v0 v1 v2).x := Or.inr h
      simp [this]
    · have : bmin.y > (triMax v0 v1 v2).y ∨ bmax.y < (triMin v0 v1 v2).y := Or.inl h
      simp [this]
    · have : bmin.y > (triMax v0 v1 v2).y ∨ bmax.y < (triMin v0 v1 v2).y := Or.inr h
      simp [this]
    · have : bmin.z > (triMax v0 v1 v2).z ∨ bmax.z < (triMin v0 v1 v2).z := Or.inl h
      simp [this]
    · have : bmin.z > (triMax v0 v1 v2).z ∨ bmax.z < (triMin v0 v1 v2).z := Or.inr h
      simp [this]
  unfold rasterizeTri
  simp only [rcVmin_eq, rcVmax_eq, hov]
  rfl

/-- C10: rejection of non-overlapping triangles. For every heightfield and every
triangle whose axis-aligned bounding box `[tmin, tmax]` misses the heightfield's
box `[bmin, bmax]` on at least one axis (`tmax < bmin` or `tmin > bmax`),
`rcRasterizeTriangle` returns the heightfield unchanged: no span is added or
modified in any column. -/
theorem rcRasterizeTriangle_rejects_outside (v0 v1 v2 : Vec3) (area : Nat)
    (solid : rcHeightfield) (flagMergeThr : Int)
    (h : ((triMax v0 v1 v2).x < solid.bmin.x ∨ (triMin v0 v1 v2).x > solid.bmax.x) ∨
         ((triMax v0 v1 v2).y < solid.bmin.y ∨ (triMin v0 v1 v2).y > solid.bmax.y) ∨
         ((triMax v0 v1 v2).z < solid.bmin.z ∨ (triMin v0 v1 v2).z > solid.bmax.z)) :
    rcRasterizeTriangle v0 v1 v2 area solid flagMergeThr = solid :=
  rasterizeTri_reject v0 v1 v2 area solid solid.bmin solid.bmax solid.cs _ _ flagMergeThr h

/-- Witness of C10: a triangle above the top of a one-cell field. -/
theorem rcRasterizeTriangle_rejects_outside_witness :
    rcRasterizeTriangle ⟨0, 5, 0⟩ ⟨1, 5, 0⟩ ⟨0, 5, 1⟩ 63
      ⟨1, 1, ⟨0, 0, 0⟩, ⟨1, 2, 1⟩, 1, 1, [[⟨0, 1, 63⟩]]⟩ 1 =
      ⟨1, 1, ⟨0, 0, 0⟩, ⟨1, 2, 1⟩, 1, 1, [[⟨0, 1, 63⟩]]⟩ :=
  rcRasterizeTriangle_rejects_outside ⟨0, 5, 0⟩ ⟨1, 5, 0⟩ ⟨0, 5, 1⟩ 63
    ⟨1, 1, ⟨0, 0, 0⟩, ⟨1, 2, 1⟩, 1, 1, [[⟨0, 1, 63⟩]]⟩ 1
    (Or.inr (Or.inl (Or.inr (by norm_num [triMin]))))

/-! ## Filters: the in-place cell loops -/

/-- The nested cell loops visit the column indices `0, 1, ..., w*h - 1` in
order. -/
theorem forEachCell_eq_range (w : Nat) (body : Nat → Nat → rcHeightfield → rcHeightfield) :
    ∀ (h : Nat) (hf : rcHeightfield), forEachCell w h body hf =
      (List.range (w * h)).foldl (fun s i => body (i % w) (i / w) s) hf
  | 0, hf => by simp [forEachCell]
  | h + 1, hf => by
    have ih := forEachCell_eq_range w body h hf
    unfold forEachCell at ih ⊢
    rw [List.range_succ, List.foldl_append, ih, Nat.mul_succ, List.range_add,
      List.foldl_append, List.foldl_map]
    simp only [List.foldl_cons, List.foldl_nil]
    apply List.foldl_ext
    intro s x hx
    have hxw : x < w := List.mem_range.1 hx
    have hw : 0 < w := by omega
    rw [Nat.mul_add_mod, Nat.mod_eq_of_lt hxw, Nat.mul_add_div hw, Nat.div_eq_of_lt hxw]
    simp

theorem sameGrid_refl (hf : rcHeightfield) : sameGrid hf hf := ⟨rfl, rfl, rfl, rfl, rfl, rfl⟩

theorem sameGrid_trans {a b c : rcHeightfield} (h1 : sameGrid a b) (h2 : sameGrid b c) :
    sameGrid a c :=
  ⟨h2.1.trans h1.1, h2.2.1.trans h1.2.1, h2.2.2.1.trans h1.2.2.1,
    h2.2.2.2.1.trans h1.2.2.2.1, h2.2.2.2.2.1.trans h1.2.2.2.2.1,
    h2.2.2.2.2.2.trans h1.2.2.2.2.2⟩

theorem sameGeom_refl (hf : rcHeightfield) : sameGeom hf hf := ⟨sameGrid_refl hf, rfl⟩

theorem sameGeom_trans {a b c : rcHeightfield} (h1 : sameGeom a b) (h2 : sameGeom b c) :
    sameGeom a c := ⟨sameGrid_trans h1.1 h2.1, h2.2.trans h1.2⟩

theorem sameGeom_symm {a b : rcHeightfield} (h : sameGeom a b) : sameGeom b a :=
  ⟨⟨h.1.1.symm, h.1.2.1.symm, h.1.2.2.1.symm, h.1.2.2.2.1.symm, h.1.2.2.2.2.1.symm,
    h.1.2.2.2.2.2.symm⟩, h.2.symm⟩

theorem col_natCast (hf : rcHeightfield) (i : Nat) : hf.col (i : Int) = (hf.spans[i]?).getD [] := by
  unfold rcHeightfield.col
  have : ¬ ((i : Int) < 0) := by omega
  simp [this]

theorem setCol_natCast (hf : rcHeightfield) (i : Nat) (c : List rcSpan) :
    (hf.setCol (i : Int) c).spans = hf.spans.set i c := by
  unfold rcHeightfield.setCol
  have : ¬ ((i : Int) < 0) := by omega
  simp [this]

theorem setCol_sameGrid (hf : rcHeightfield) (i : Int) (c : List rcSpan) :
    sameGrid hf (hf.setCol i c) := by
  unfold rcHeightfield.setCol
  split
  · exact sameGrid_refl hf
  · exact ⟨rfl, rfl, rfl, rfl, rfl, rfl⟩

/-- What a column pass computes: every column with index below `n` is rewritten
by `f`, which sees the heightfield only through its grid and span heights. -/
theorem cellLoop_spec (w : Nat) (f : rcHeightfield → Nat → Nat → List rcSpan → List rcSpan)
    (hf : rcHeightfield)
    (hgeo : ∀ g x y c, (f g x y c).map geo = c.map geo)
    (hcongr : ∀ g, sameGeom hf g → ∀ x y c, f g x y c = f hf x y c) :
    ∀ n : Nat,
      sameGrid hf ((List.range n).foldl (fun s i => cellPass w f (i % w) (i / w) s) hf) ∧
      ∀ idx : Nat,
        ((List.range n).foldl (fun s i => cellPass w f (i % w) (i / w) s) hf).spans[idx]? =
          (hf.spans[idx]?).map (fun c => if idx < n then f hf (idx % w) (idx / w) c else c)
  | 0 => by
    refine ⟨sameGrid_refl hf, ?_⟩
    intro idx
    simp
  | n + 1 => by
    obtain ⟨ihg, ih⟩ := cellLoop_spec w f hf hgeo hcongr n
    rw [List.range_succ, List.foldl_append]
    simp only [List.foldl_cons, List.foldl_nil]
    generalize (List.range n).foldl (fun s i => cellPass w f (i % w) (i / w) s) hf = R at ihg ih
    have hsg : sameGeom hf R := by
      refine ⟨ihg, ?_⟩
      apply List.ext_getElem?
      intro idx
      rw [List.getElem?_map, List.getElem?_map, ih idx]
      cases hf.spans[idx]? with
      | none => rfl
      | some c =>
        simp only [Option.map_some']
        split
        · rw [hgeo]
        · rfl
    have hidx : ((n % w : Nat) : Int) + ((n / w : Nat) : Int) * (w : Int) = (n : Int) := by
      have := Nat.mod_add_div n w
      have h2 : ((n % w : Nat) : Int) + (w : Int) * ((n / w : Nat) : Int) = (n : Int) := by
        exact_mod_cast this
      rw [mul_comm]; exact h2
    have hstep : cellPass w f (n % w) (n / w) R =
        R.setCol (n : Int) (f hf (n % w) (n / w) (R.col (n : Int))) := by
      unfold cellPass
      rw [hidx, hcongr R hsg]
    rw [hstep]
    refine ⟨sameGrid_trans ihg (setCol_sameGrid _ _ _), ?_⟩
    intro idx
    rw [setCol_natCast, List.getElem?_set, col_natCast]
    by_cases hni : n = idx
    · subst hni
      simp only [if_true]
      have hRn : R.spans[n]? = hf.spans[n]? := by
        have := ih n
        simp only [lt_irrefl, if_false] at this
        rw [this]
        cases hf.spans[n]? <;> rfl
      have hlt : n < n + 1 := Nat.lt_succ_self n
      by_cases hlen : n < R.spans.length
      · simp only [hlen, if_true, hRn]
        cases hq : hf.spans[n]? with
        | none =>
          rw [hq] at hRn
          have := List.getElem?_eq_none_iff.1 hRn
          omega
        | some c => simp [hlt]
      · simp only [hlen, if_false]
        have hnone : R.spans[n]? = none := List.getElem?_eq_none_iff.2 (by omega)
        rw [← hRn, hnone]; rfl
    · simp only [hni, if_false]
      rw [ih idx]
      have : (idx < n + 1) ↔ (idx < n) := by omega
      simp only [this]

/-- A filter made of the cell loops and a column pass `f` rewrites every column
of the grid by `f`, evaluated on the heightfield the filter started from. -/
theorem columnPass_spec (f : rcHeightfield → Nat → Nat → List rcSpan → List rcSpan)
    (hf : rcHeightfield)
    (hgeo : ∀ g x y c, (f g x y c).map geo = c.map geo)
    (hcongr : ∀ g, sameGeom hf g → ∀ x y c, f g x y c = f hf x y c) :
    sameGrid hf (forEachCell hf.width hf.height (cellPass hf.width f) hf) ∧
    ∀ idx : Nat,
      (forEachCell hf.width hf.height (cellPass hf.width f) hf).spans[idx]? =
        (hf.spans[idx]?).map (fun c =>
          if idx < hf.width * hf.height then f hf (idx % hf.width) (idx / hf.width) c else c) := by
  rw [forEachCell_eq_range]
  exact cellLoop_spec hf.width f hf hgeo hcongr (hf.width * hf.height)

theorem lowHangingLoop_geo (climb : Int) : ∀ (col : List rcSpan) (ps : Option rcSpan)
    (pw : Bool) (pa : Nat), (lowHangingLoop climb ps pw pa col).map geo = col.map geo
  | [], _, _, _ => rfl
  | s :: next, ps, pw, pa => by
    unfold lowHangingLoop
    simp only [List.map_cons]
    rw [lowHangingLoop_geo climb next]
    congr 1
    unfold lowHangingSpan
    simp only
    split
    · cases ps with
      | none => rfl
      | some p => simp only; split <;> rfl
    · rfl

theorem lowHeightColumn_geo (wH : Int) : ∀ (col : List rcSpan),
    (lowHeightColumn wH col).map geo = col.map geo
  | [] => rfl
  | s :: next => by
    unfold lowHeightColumn
    simp only [List.map_cons]
    rw [lowHeightColumn_geo wH next]
    congr 1
    split <;> rfl

theorem ledgeSpan_geo (hf : rcHeightfield) (wH wC : Int) (x y : Int) (s : rcSpan)
    (next : List rcSpan) : geo (ledgeSpan hf wH wC x y s next) = geo s := by
  unfold ledgeSpan
  split
  · rfl
  · simp only
    split <;> split <;> rfl

theorem ledgeColumn_geo (hf : rcHeightfield) (wH wC : Int) (x y : Int) :
    ∀ (col : List rcSpan), (ledgeColumn hf wH wC x y col).map geo = col.map geo
  | [] => rfl
  | s :: next => by
    unfold ledgeColumn
    simp only [List.map_cons]
    rw [ledgeColumn_geo hf wH wC x y next, ledgeSpan_geo]

theorem spanTop_congr : ∀ (c d : List rcSpan), c.map geo = d.map geo → spanTop c = spanTop d
  | [], [], _ => rfl
  | [], _ :: _, h => by simp at h
  | _ :: _, [], h => by simp at h
  | a :: _, b :: _, h => by
    simp only [List.map_cons, List.cons.injEq] at h
    have : a.smin = b.smin := congrArg Prod.fst h.1
    simp [spanTop, this]

theorem ledgeNeighbourSpans_congr (wH wC bot top : Int) : ∀ (c d : List rcSpan)
    (st : Int × Int × Int), c.map geo = d.map geo →
    ledgeNeighbourSpans wH wC bot top st c = ledgeNeighbourSpans wH wC bot top st d
  | [], [], _, _ => rfl
  | [], _ :: _, _, h => by simp at h
  | _ :: _, [], _, h => by simp at h
  | a :: c, b :: d, (minh, asmin, asmax), h => by
    simp only [List.map_cons, List.cons.injEq] at h
    have h1 : a.smax = b.smax := congrArg Prod.snd h.1
    have h2 := spanTop_congr c d h.2
    unfold ledgeNeighbourSpans
    simp only [h1, h2]
    exact ledgeNeighbourSpans_congr wH wC bot top c d _ h.2

theorem col_geo_of_sameGeom {hf g : rcHeightfield} (h : sameGeom hf g) (idx : Int) :
    (g.col idx).map geo = (hf.col idx).map geo := by
  unfold rcHeightfield.col
  split
  · rfl
  · have := congrArg (fun l => l[idx.toNat]?) h.2
    simp only [List.getElem?_map] at this
    simp only [List.getD_eq_getElem?_getD]
    cases hg : g.spans[idx.toNat]? <;> cases hh : hf.spans[idx.toNat]? <;>
      rw [hg, hh] at this <;> simp at this ⊢
    exact this

theorem ledgeDir_congr {hf g : rcHeightfield} (h : sameGeom hf g) (wH wC x y bot top : Int)
    (st : Int × Int × Int) (dir : Int) :
    ledgeDir g wH wC x y bot top st dir = ledgeDir hf wH wC x y bot top st dir := by
  unfold ledgeDir
  simp only [h.1.1, h.1.2.1]
  split
  · rfl
  · have hc := col_geo_of_sameGeom h (x + rcGetDirOffsetX dir + (y + rcGetDirOffsetY dir) * hf.width)
    rw [spanTop_congr _ _ hc]
    exact ledgeNeighbourSpans_congr wH wC bot top _ _ _ hc

theorem ledgeSpan_congr {hf g : rcHeightfield} (h : sameGeom hf g) (wH wC x y : Int)
    (s : rcSpan) (next : List rcSpan) :
    ledgeSpan g wH wC x y s next = ledgeSpan hf wH wC x y s next := by
  unfold ledgeSpan
  have : ledgeDir g wH wC x y (s.smax : Int) (spanTop next) =
      ledgeDir hf wH wC x y (s.smax : Int) (spanTop next) := by
    funext st dir
    exact ledgeDir_congr h wH wC x y _ _ st dir
  simp only [this]

theorem ledgeColumn_congr {hf g : rcHeightfield} (h : sameGeom hf g) (wH wC x y : Int) :
    ∀ col : List rcSpan, ledgeColumn g wH wC x y col = ledgeColumn hf wH wC x y col
  | [] => rfl
  | s :: next => by
    unfold ledgeColumn
    rw [ledgeSpan_congr h, ledgeColumn_congr h wH wC x y next]

/-- The three filters, column by column. -/
theorem lowHanging_spec (climb : Int) (hf : rcHeightfield) :
    sameGrid hf (rcFilterLowHangingWalkableObstacles climb hf) ∧
    ∀ idx : Nat, (rcFilterLowHangingWalkableObstacles climb hf).spans[idx]? =
      (hf.spans[idx]?).map (fun c =>
        if idx < hf.width * hf.height then lowHangingLoop climb none false RC_NULL_AREA c
        else c) :=
  columnPass_spec (fun _ _ _ col => lowHangingLoop climb none false RC_NULL_AREA col) hf
    (fun _ _ _ c => lowHangingLoop_geo climb c _ _ _) (fun _ _ _ _ _ => rfl)

theorem lowHeight_spec (wH : Int) (hf : rcHeightfield) :
    sameGrid hf (rcFilterWalkableLowHeightSpans wH hf) ∧
    ∀ idx : Nat, (rcFilterWalkableLowHeightSpans wH hf).spans[idx]? =
      (hf.spans[idx]?).map (fun c =>
        if idx < hf.width * hf.height then lowHeightColumn wH c else c) :=
  columnPass_spec (fun _ _ _ col => lowHeightColumn wH col) hf
    (fun _ _ _ c => lowHeightColumn_geo wH c) (fun _ _ _ _ _ => rfl)

theorem ledge_spec (wH wC : Int) (hf : rcHeightfield) :
    sameGrid hf (rcFilterLedgeSpans wH wC hf) ∧
    ∀ idx : Nat, (rcFilterLedgeSpans wH wC hf).spans[idx]? =
      (hf.spans[idx]?).map (fun c =>
        if idx < hf.width * hf.height then
          ledgeColumn hf wH wC ((idx % hf.width : Nat) : Int) ((idx / hf.width : Nat) : Int) c
        else c) :=
  columnPass_spec (fun g x y col => ledgeColumn g wH wC x y col) hf
    (fun g x y c => ledgeColumn_geo g wH wC x y c)
    (fun _ hg x y c => ledgeColumn_congr hg wH wC x y c)

/-! ## Filters: low-hanging obstacles -/

theorem rcAbs_eq_abs (a : Int) : rcAbs a = |a| := by
  unfold rcAbs
  split
  · rw [abs_of_neg (by assumption)]
  · rw [abs_of_nonneg (by omega)]

theorem lowHangingSpan_rule (climb : Int) (b ps : Option rcSpan) (pw : Bool) (pa : Nat)
    (s : rcSpan) (hst : lowHangingState b ps pw pa) :
    lowHangingSpan climb ps pw pa s = lowHangingRule climb b s := by
  unfold lowHangingState at hst
  unfold lowHangingSpan lowHangingRule
  cases b with
  | none =>
    simp only at hst
    simp [hst]
  | some b =>
    obtain ⟨p, hps, hsm, hpw, hpa⟩ := hst
    subst hps
    simp only [hpw, hsm, rcAbs_eq_abs]
    by_cases h1 : s.area = RC_NULL_AREA
    · by_cases h2 : b.area = RC_NULL_AREA
      · simp [h1, h2]
      · rw [hpa h2]
        by_cases h3 : |(s.smax : Int) - (b.smax : Int)| ≤ climb
        · simp [h1, h2, h3]
        · simp [h1, h2, h3]
    · simp [h1]

theorem lowHangingLoop_rule (climb : Int) : ∀ (col : List rcSpan) (b ps : Option rcSpan)
    (pw : Bool) (pa : Nat), lowHangingState b ps pw pa → ∀ i : Nat,
    (lowHangingLoop climb ps pw pa col)[i]? =
      (col[i]?).map (fun s => lowHangingRule climb (if i = 0 then b else col[i - 1]?) s)
  | [], _, _, _, _, _, i => by simp [lowHangingLoop]
  | s :: next, b, ps, pw, pa, hst, i => by
    unfold lowHangingLoop
    simp only
    rw [lowHangingSpan_rule climb b ps pw pa s hst]
    have hnext : lowHangingState (some s) (some (lowHangingRule climb b s))
        (s.area != RC_NULL_AREA) (lowHangingRule climb b s).area := by
      refine ⟨_, rfl, ?_, rfl, ?_⟩
      · unfold lowHangingRule
        cases b with
        | none => rfl
        | some b => simp only; split <;> rfl
      · intro hne
        unfold lowHangingRule
        cases b with
        | none => rfl
        | some b => simp [hne]
    cases i with
    | zero => simp
    | succ j =>
      have ih := lowHangingLoop_rule climb next (some s) _ _ _ hnext j
      simp only [List.getElem?_cons_succ, ih]
      cases j with
      | zero => simp
      | succ k => simp

theorem natCast_cell (x y w : Nat) : ((x : Int) + (y : Int) * (w : Int)) = ((x + y * w : Nat) : Int) := by
  push_cast; ring

theorem cell_lt (x y w h : Nat) (hx : x < w) (hy : y < h) : x + y * w < w * h := by
  have : (y + 1) * w ≤ h * w := Nat.mul_le_mul_right w hy
  rw [Nat.mul_comm w h]
  nlinarith

theorem lowHanging_per_span (climb : Int) (hf : rcHeightfield) (x y : Nat)
    (hx : x < hf.width) (hy : y < hf.height) (i : Nat) :
    ((rcFilterLowHangingWalkableObstacles climb hf).col
        ((x : Int) + (y : Int) * (hf.width : Int)))[i]? =
      ((hf.col ((x : Int) + (y : Int) * (hf.width : Int)))[i]?).map (fun s =>
        lowHangingRule climb
          (if i = 0 then none
           else (hf.col ((x : Int) + (y : Int) * (hf.width : Int)))[i - 1]?) s) := by
  rw [natCast_cell, col_natCast, col_natCast, (lowHanging_spec climb hf).2]
  have hlt := cell_lt x y hf.width hf.height hx hy
  cases hq : hf.spans[x + y * hf.width]? with
  | none => simp
  | some c =>
    simp only [Option.map_some', hlt, if_true, Option.getD_some]
    exact lowHangingLoop_rule climb c none none false RC_NULL_AREA rfl i

/-- C5: the per-span rule of `rcFilterLowHangingWalkableObstacles`. For every
heightfield, every `walkableClimb` and every cell `(x, y)` of the grid, the span
at position `i` of the column after the filter is the input span with the area
of the input span directly below it if the span is unwalkable in the input, the
span below is walkable in the input and their tops differ by at most
`walkableClimb`, and is the unchanged input span otherwise. The span below is
read from the input column, so a promoted span never promotes the next one. -/
theorem rcFilterLowHangingWalkableObstacles_per_span (walkableClimb : Int)
    (hf : rcHeightfield) (x y : Nat) (hx : x < hf.width) (hy : y < hf.height) (i : Nat) :
    ((rcFilterLowHangingWalkableObstacles walkableClimb hf).col
        ((x : Int) + (y : Int) * (hf.width : Int)))[i]? =
      ((hf.col ((x : Int) + (y : Int) * (hf.width : Int)))[i]?).map (fun s =>
        lowHangingRule walkableClimb
          (if i = 0 then none
           else (hf.col ((x : Int) + (y : Int) * (hf.width : Int)))[i - 1]?) s) :=
  lowHanging_per_span walkableClimb hf x y hx hy i

/-- Witness of C5: an unwalkable span two cells above walkable ground, over which
a second unwalkable span is not promoted. -/
theorem rcFilterLowHangingWalkableObstacles_per_span_witness :
    (0 < (oneCell [⟨0, 1, 63⟩, ⟨2, 3, 0⟩, ⟨4, 5, 0⟩]).width ∧
      0 < (oneCell [⟨0, 1, 63⟩, ⟨2, 3, 0⟩, ⟨4, 5, 0⟩]).height) ∧
    ((rcFilterLowHangingWalkableObstacles 2 (oneCell [⟨0, 1, 63⟩, ⟨2, 3, 0⟩, ⟨4, 5, 0⟩])).col
        (((0 : Nat) : Int) + ((0 : Nat) : Int) *
          ((oneCell [⟨0, 1, 63⟩, ⟨2, 3, 0⟩, ⟨4, 5, 0⟩]).width : Int)))[2]? =
      some ⟨4, 5, 0⟩ :=
  ⟨⟨by decide, by decide⟩,
    (rcFilterLowHangingWalkableObstacles_per_span 2
      (oneCell [⟨0, 1, 63⟩, ⟨2, 3, 0⟩, ⟨4, 5, 0⟩]) 0 0 (by decide) (by decide) 2).trans
      (by decide)⟩

/-! ## Filters: low clearance -/

theorem lowHeightColumn_getElem? (wH : Int) : ∀ (col : List rcSpan) (i : Nat),
    (lowHeightColumn wH col)[i]? =
      (col[i]?).map (fun s =>
        if spanTop (col.drop (i + 1)) - (s.smax : Int) ≤ wH then
          { s with area := RC_NULL_AREA } else s)
  | [], i => by simp [lowHeightColumn]
  | s :: next, 0 => by simp [lowHeightColumn]
  | s :: next, i + 1 => by
    unfold lowHeightColumn
    simp only [List.getElem?_cons_succ, List.drop_succ_cons]
    exact lowHeightColumn_getElem? wH next i

/-- What `rcFilterWalkableLowHeightSpans` does to a span of a grid cell: its area
becomes `RC_NULL_AREA` exactly when `top - bot <= walkableHeight`. -/
theorem lowHeight_per_span (wH : Int) (hf : rcHeightfield) (x y : Nat)
    (hx : x < hf.width) (hy : y < hf.height) (i : Nat) :
    ((rcFilterWalkableLowHeightSpans wH hf).col
        ((x : Int) + (y : Int) * (hf.width : Int)))[i]? =
      ((hf.col ((x : Int) + (y : Int) * (hf.width : Int)))[i]?).map (fun s =>
        if spanTop ((hf.col ((x : Int) + (y : Int) * (hf.width : Int))).drop (i + 1)) -
            (s.smax : Int) ≤ wH then
          { s with area := RC_NULL_AREA } else s) := by
  rw [natCast_cell, col_natCast, col_natCast, (lowHeight_spec wH hf).2]
  have hlt := cell_lt x y hf.width hf.height hx hy
  cases hq : hf.spans[x + y * hf.width]? with
  | none => simp
  | some c =>
    simp only [Option.map_some', hlt, if_true, Option.getD_some]
    exact lowHeightColumn_getElem? wH c i

/-- C6: `rcFilterWalkableLowHeightSpans` is evaluated with `walkableHeight = 3` on
a column whose lower span has a clearance of exactly 3 (`bot = 1`, `top = 4`).
The span was walkable and `top - bot >= walkableHeight`, yet the filter marks it
unwalkable: the test of the source is `top - bot <= walkableHeight`. -/
theorem rcFilterWalkableLowHeightSpans_at_exact_clearance :
    spanTop [⟨4, 5, 63⟩] - ((⟨0, 1, 63⟩ : rcSpan).smax : Int) = 3 ∧
    (rcFilterWalkableLowHeightSpans 3 (oneCell [⟨0, 1, 63⟩, ⟨4, 5, 63⟩])).spans =
      [[⟨0, 1, 0⟩, ⟨4, 5, 63⟩]] := by
  decide

/-! ## Filters: ledges -/

theorem rcMin_int (a b : Int) : rcMin a b = min a b := by
  unfold rcMin; split <;> omega

theorem rcMax_int (a b : Int) : rcMax a b = max a b := by
  unfold rcMax; split <;> omega

theorem foldl_min_le (l : List Int) : ∀ (a : Int), l.foldl min a ≤ a ∧ ∀ d ∈ l, l.foldl min a ≤ d := by
  induction l with
  | nil => intro a; simp
  | cons x l ih =>
    intro a
    simp only [List.foldl_cons]
    have := ih (min a x)
    refine ⟨by omega, ?_⟩
    intro d hd
    rcases List.mem_cons.1 hd with rfl | hd
    · omega
    · exact this.2 d hd

theorem foldl_min_mem (l : List Int) : ∀ (a : Int), l.foldl min a = a ∨ l.foldl min a ∈ l := by
  induction l with
  | nil => intro a; simp
  | cons x l ih =>
    intro a
    simp only [List.foldl_cons]
    rcases ih (min a x) with h | h
    · rw [h]
      by_cases hax : a ≤ x
      · left; omega
      · right; simp; left; omega
    · right; exact List.mem_cons_of_mem _ h

theorem foldl_max_ge (l : List Int) : ∀ (a : Int), a ≤ l.foldl max a ∧ ∀ d ∈ l, d ≤ l.foldl max a := by
  induction l with
  | nil => intro a; simp
  | cons x l ih =>
    intro a
    simp only [List.foldl_cons]
    have := ih (max a x)
    refine ⟨by omega, ?_⟩
    intro d hd
    rcases List.mem_cons.1 hd with rfl | hd
    · omega
    · exact this.2 d hd

theorem foldl_max_mem (l : List Int) : ∀ (a : Int), l.foldl max a = a ∨ l.foldl max a ∈ l := by
  induction l with
  | nil => intro a; simp
  | cons x l ih =>
    intro a
    simp only [List.foldl_cons]
    rcases ih (max a x) with h | h
    · rw [h]
      by_cases hax : x ≤ a
      · left; omega
      · right; simp; left; omega
    · right; exact List.mem_cons_of_mem _ h

theorem int_min?_some_iff (l : List Int) (m : Int) :
    l.min? = some m ↔ m ∈ l ∧ ∀ b ∈ l, m ≤ b := by
  haveI : Std.Antisymm (fun (a b : Int) => a ≤ b) := ⟨fun h1 h2 => Int.le_antisymm h1 h2⟩
  exact List.min?_eq_some_iff (fun a => le_refl a) (fun a b => by omega)
    (fun a b c => by omega)

theorem int_max?_some_iff (l : List Int) (m : Int) :
    l.max? = some m ↔ m ∈ l ∧ ∀ b ∈ l, b ≤ m := by
  haveI : Std.Antisymm (fun (a b : Int) => a ≤ b) := ⟨fun h1 h2 => Int.le_antisymm h1 h2⟩
  exact List.max?_eq_some_iff (fun a => le_refl a) (fun a b => by omega)
    (fun a b c => by omega)

/-- The ledge test in terms of the members of the two lists. -/
theorem ledgeTest_iff (wC : Int) (D A : List Int) :
    ledgeTest wC D A = true ↔
      (∃ d ∈ D, d < -wC) ∨ (∃ a ∈ A, ∃ b ∈ A, b - a > wC) := by
  unfold ledgeTest
  rw [Bool.or_eq_true]
  apply or_congr
  · cases h : D.min? with
    | none =>
      rw [List.min?_eq_none_iff] at h
      subst h
      simp
    | some m =>
      have := (int_min?_some_iff D m).1 h
      simp only [decide_eq_true_eq]
      constructor
      · intro hm; exact ⟨m, this.1, hm⟩
      · rintro ⟨d, hd, hlt⟩
        have := this.2 d hd
        omega
  · cases h : A.min? with
    | none =>
      rw [List.min?_eq_none_iff] at h
      subst h
      simp
    | some m =>
      cases h2 : A.max? with
      | none =>
        rw [List.max?_eq_none_iff] at h2
        subst h2
        simp at h
      | some M =>
        have hm := (int_min?_some_iff A m).1 h
        have hM := (int_max?_some_iff A M).1 h2
        simp only [decide_eq_true_eq]
        constructor
        · intro hgt; exact ⟨m, hm.1, M, hM.1, hgt⟩
        · rintro ⟨a, ha, b, hb, hgt⟩
          have := hm.2 a ha
          have := hM.2 b hb
          omega

/-- The decision of the source on the final loop state is the ledge test on the
lists absorbed into it. -/
theorem absorb_decision (wC bot : Int) (D A : List Int) (hwC : 0 ≤ wC)
    (hA : ∀ n ∈ A, |n - bot| ≤ wC) :
    ((absorb (MAX_HEIGHT, bot, bot) D A).1 < -wC ∨
      (absorb (MAX_HEIGHT, bot, bot) D A).2.2 - (absorb (MAX_HEIGHT, bot, bot) D A).2.1 > wC) ↔
    ledgeTest wC D A = true := by
  rw [ledgeTest_iff]
  unfold absorb
  simp only
  have hmax : MAX_HEIGHT = 65535 := rfl
  apply or_congr
  · constructor
    · intro h
      rcases foldl_min_mem D MAX_HEIGHT with e | e
      · rw [e] at h; omega
      · exact ⟨_, e, h⟩
    · rintro ⟨d, hd, hlt⟩
      have := (foldl_min_le D MAX_HEIGHT).2 d hd
      omega
  · have hA' : ∀ n ∈ A, n - bot ≤ wC ∧ bot - n ≤ wC := by
      intro n hn
      have := hA n hn
      rw [abs_le] at this
      omega
    constructor
    · intro h
      have h1 := foldl_min_le A bot
      have h2 := foldl_max_ge A bot
      rcases foldl_min_mem A bot with e1 | e1 <;> rcases foldl_max_mem A bot with e2 | e2
      · rw [e1, e2] at h; omega
      · have := hA' _ e2
        rw [e1] at h; omega
      · have := hA' _ e1
        rw [e2] at h; omega
      · exact ⟨_, e1, _, e2, h⟩
    · rintro ⟨a, ha, b, hb, hgt⟩
      have h1 := (foldl_min_le A bot).2 a ha
      have h2 := (foldl_max_ge A bot).2 b hb
      omega

theorem absorb_absorb (st : Int × Int × Int) (d1 a1 d2 a2 : List Int) :
    absorb (absorb st d1 a1) d2 a2 = absorb st (d1 ++ d2) (a1 ++ a2) := by
  simp [absorb, List.foldl_append]

theorem absorb_nil (st : Int × Int × Int) : absorb st [] [] = st := rfl

/-- The loop over the spans of a neighbour column absorbs the qualifying floors of
the column. -/
theorem ledgeNeighbourSpans_absorb (wH wC bot top : Int) : ∀ (col : List rcSpan)
    (st : Int × Int × Int),
    ledgeNeighbourSpans wH wC bot top st col =
      absorb st
        ((((openAbove col).filter (gapOk wH bot top)).map Prod.fst).map (fun nbot => nbot - bot))
        ((((openAbove col).filter (gapOk wH bot top)).map Prod.fst).filter
          (fun nbot => decide (|nbot - bot| ≤ wC)))
  | [], st => rfl
  | ns :: rest, (minh, asmin, asmax) => by
    unfold ledgeNeighbourSpans
    simp only [openAbove]
    rw [ledgeNeighbourSpans_absorb wH wC bot top rest]
    by_cases hgap : rcMin top (spanTop rest) - rcMax bot (ns.smax : Int) > wH
    · have hg : gapOk wH bot top ((ns.smax : Int), spanTop rest) = true := by
        unfold gapOk
        rw [rcMin_int, rcMax_int] at hgap
        simpa using hgap
      rw [List.filter_cons_of_pos hg]
      simp only [hgap, if_true, List.map_cons]
      by_cases hacc : rcAbs ((ns.smax : Int) - bot) ≤ wC
      · have ha : decide (|(ns.smax : Int) - bot| ≤ wC) = true := by
          rw [rcAbs_eq_abs] at hacc
          simpa using hacc
        rw [List.filter_cons]
        simp only [ha, hacc, if_true]
        unfold absorb
        simp only [List.foldl_cons, rcMin_int]
        congr 2
        · congr 1
          split <;> omega
        · congr 1
          split <;> omega
      · have ha : ¬ (decide (|(ns.smax : Int) - bot| ≤ wC) = true) := by
          rw [rcAbs_eq_abs] at hacc
          simpa using hacc
        rw [List.filter_cons]
        simp only [ha, hacc, if_false]
        unfold absorb
        simp only [List.foldl_cons, rcMin_int]
        simp
    · have hg : ¬ (gapOk wH bot top ((ns.smax : Int), spanTop rest) = true) := by
        unfold gapOk
        rw [rcMin_int, rcMax_int] at hgap
        simpa using hgap
      rw [List.filter_cons_of_neg hg]
      simp only [hgap, if_false]

/-- The drops and accessible floors contributed by one neighbour cell. -/
theorem ledgeDir_absorb (hf : rcHeightfield) (wH wC x y bot top : Int)
    (st : Int × Int × Int) (dir : Int) :
    ledgeDir hf wH wC x y bot top st dir =
      absorb st
        (if inGrid hf (x + rcGetDirOffsetX dir, y + rcGetDirOffsetY dir) then
          (if gapOk wH bot top (-wC, spanTop (hf.col
              ((x + rcGetDirOffsetX dir) + (y + rcGetDirOffsetY dir) * (hf.width : Int)))) then
            [-wC - bot] else []) ++
          (neighbourFloors hf wH bot top
            (x + rcGetDirOffsetX dir, y + rcGetDirOffsetY dir)).map (fun nbot => nbot - bot)
        else [-wC - bot])
        (if inGrid hf (x + rcGetDirOffsetX dir, y + rcGetDirOffsetY dir) then
          (neighbourFloors hf wH bot top
            (x + rcGetDirOffsetX dir, y + rcGetDirOffsetY dir)).filter
            (fun nbot => decide (|nbot - bot| ≤ wC))
        else []) := by
  unfold ledgeDir
  simp only
  by_cases hin : inGrid hf (x + rcGetDirOffsetX dir, y + rcGetDirOffsetY dir) = true
  · have hcond : ¬ (x + rcGetDirOffsetX dir < 0 ∨ y + rcGetDirOffsetY dir < 0 ∨
        x + rcGetDirOffsetX dir ≥ (hf.width : Int) ∨
        y + rcGetDirOffsetY dir ≥ (hf.height : Int)) := by
      unfold inGrid at hin
      simp only [decide_eq_true_eq] at hin
      omega
    simp only [hcond, hin, if_true, if_false]
    rw [ledgeNeighbourSpans_absorb]
    have hst : ((if rcMin top (spanTop (hf.col
        (x + rcGetDirOffsetX dir + (y + rcGetDirOffsetY dir) * (hf.width : Int)))) -
        rcMax bot (-wC) > wH then rcMin st.1 (-wC - bot) else st.1), st.2.1, st.2.2) =
        absorb st (if gapOk wH bot top (-wC, spanTop (hf.col
          ((x + rcGetDirOffsetX dir) + (y + rcGetDirOffsetY dir) * (hf.width : Int)))) = true
          then [-wC - bot] else []) [] := by
      unfold gapOk
      simp only [rcMin_int, rcMax_int]
      by_cases hg : min top (spanTop (hf.col
          (x + rcGetDirOffsetX dir + (y + rcGetDirOffsetY dir) * (hf.width : Int)))) -
          max bot (-wC) > wH
      · simp [hg, absorb]
      · simp [hg, absorb]
    rw [hst, absorb_absorb]
    simp only [List.nil_append, neighbourFloors]
  · have hcond : (x + rcGetDirOffsetX dir < 0 ∨ y + rcGetDirOffsetY dir < 0 ∨
        x + rcGetDirOffsetX dir ≥ (hf.width : Int) ∨
        y + rcGetDirOffsetY dir ≥ (hf.height : Int)) := by
      unfold inGrid at hin
      simp only [decide_eq_true_eq] at hin
      omega
    simp only [hcond, hin, if_true, Bool.false_eq_true, if_false]
    simp [absorb, rcMin_int]

/-- The loop over the four directions absorbs the drops and accessible floors of
the four neighbour cells. -/
theorem ledgeDirs_absorb (hf : rcHeightfield) (wH wC x y bot top : Int)
    (st : Int × Int × Int) :
    [0, 1, 2, 3].foldl (ledgeDir hf wH wC x y bot top) st =
      absorb st (ledgeDropsCode hf wH wC x y bot top) (accessibleFloors hf wH wC x y bot top) := by
  simp only [List.foldl_cons, List.foldl_nil, ledgeDir_absorb, absorb_absorb]
  have hx0 : rcGetDirOffsetX 0 = -1 := rfl
  have hx1 : rcGetDirOffsetX 1 = 0 := rfl
  have hx2 : rcGetDirOffsetX 2 = 1 := rfl
  have hx3 : rcGetDirOffsetX 3 = 0 := rfl
  have hy0 : rcGetDirOffsetY 0 = 0 := rfl
  have hy1 : rcGetDirOffsetY 1 = 1 := rfl
  have hy2 : rcGetDirOffsetY 2 = 0 := rfl
  have hy3 : rcGetDirOffsetY 3 = -1 := rfl
  have e1 : x + -1 = x - 1 := by ring
  have e2 : y + -1 = y - 1 := by ring
  simp only [hx0, hx1, hx2, hx3, hy0, hy1, hy2, hy3, add_zero, e1, e2]
  unfold ledgeDropsCode accessibleFloors neighbourCells
  simp only [List.flatMap_cons, List.flatMap_nil, List.append_nil, List.append_assoc]

theorem accessibleFloors_close (hf : rcHeightfield) (wH wC x y bot top : Int) :
    ∀ n ∈ accessibleFloors hf wH wC x y bot top, |n - bot| ≤ wC := by
  intro n hn
  unfold accessibleFloors at hn
  rw [List.mem_flatMap] at hn
  obtain ⟨c, _, hc⟩ := hn
  split at hc
  · have := (List.mem_filter.1 hc).2
    simpa using this
  · simp at hc

/-- The body of the span loop of the ledge filter is the ledge rule. -/
theorem ledgeSpan_eq_rule (hf : rcHeightfield) (wH wC x y : Int) (hwC : 0 ≤ wC)
    (s : rcSpan) (next : List rcSpan) :
    ledgeSpan hf wH wC x y s next =
      ledgeRule (isLedgeCode hf wH wC x y (s.smax : Int) (spanTop next)) s := by
  unfold ledgeSpan ledgeRule isLedgeCode
  by_cases h0 : s.area = RC_NULL_AREA
  · simp [h0]
  · simp only [h0, if_false, ledgeDirs_absorb, ne_eq, not_false_eq_true, true_and]
    have hdec := absorb_decision wC (s.smax : Int)
      (ledgeDropsCode hf wH wC x y (s.smax : Int) (spanTop next))
      (accessibleFloors hf wH wC x y (s.smax : Int) (spanTop next)) hwC
      (accessibleFloors_close hf wH wC x y _ _)
    by_cases h1 : (absorb (MAX_HEIGHT, (s.smax : Int), (s.smax : Int))
        (ledgeDropsCode hf wH wC x y (s.smax : Int) (spanTop next))
        (accessibleFloors hf wH wC x y (s.smax : Int) (spanTop next))).1 < -wC
    · have := hdec.1 (Or.inl h1)
      simp only [h1, this, if_true]
      split <;> rfl
    · by_cases h2 : (absorb (MAX_HEIGHT, (s.smax : Int), (s.smax : Int))
          (ledgeDropsCode hf wH wC x y (s.smax : Int) (spanTop next))
          (accessibleFloors hf wH wC x y (s.smax : Int) (spanTop next))).2.2 -
          (absorb (MAX_HEIGHT, (s.smax : Int), (s.smax : Int))
          (ledgeDropsCode hf wH wC x y (s.smax : Int) (spanTop next))
          (accessibleFloors hf wH wC x y (s.smax : Int) (spanTop next))).2.1 > wC
      · have := hdec.1 (Or.inr h2)
        simp only [h1, h2, this, if_true, if_false]
      · have hn : ¬ (ledgeTest wC
            (ledgeDropsCode hf wH wC x y (s.smax : Int) (spanTop next))
            (accessibleFloors hf wH wC x y (s.smax : Int) (spanTop next)) = true) := by
          intro h
          rcases hdec.2 h with h | h
          · exact h1 h
          · exact h2 h
        simp only [h1, h2, hn, if_false, Bool.false_eq_true]

theorem ledgeColumn_getElem? (hf : rcHeightfield) (wH wC x y : Int) :
    ∀ (col : List rcSpan) (i : Nat),
    (ledgeColumn hf wH wC x y col)[i]? =
      (col[i]?).map (fun s => ledgeSpan hf wH wC x y s (col.drop (i + 1)))
  | [], i => by simp [ledgeColumn]
  | s :: next, 0 => by simp [ledgeColumn]
  | s :: next, i + 1 => by
    unfold ledgeColumn
    simp only [List.getElem?_cons_succ, List.drop_succ_cons]
    exact ledgeColumn_getElem? hf wH wC x y next i

theorem ledge_per_span (wH wC : Int) (hwC : 0 ≤ wC) (hf : rcHeightfield) (x y : Nat)
    (hx : x < hf.width) (hy : y < hf.height) (i : Nat) :
    ((rcFilterLedgeSpans wH wC hf).col ((x : Int) + (y : Int) * (hf.width : Int)))[i]? =
      ((hf.col ((x : Int) + (y : Int) * (hf.width : Int)))[i]?).map (fun s =>
        ledgeRule (isLedgeCode hf wH wC x y (s.smax : Int)
          (spanTop ((hf.col ((x : Int) + (y : Int) * (hf.width : Int))).drop (i + 1)))) s) := by
  rw [natCast_cell, col_natCast, col_natCast, (ledge_spec wH wC hf).2]
  have hlt := cell_lt x y hf.width hf.height hx hy
  have hxm : (x + y * hf.width) % hf.width = x := by
    rw [Nat.add_mul_mod_self_right, Nat.mod_eq_of_lt hx]
  have hym : (x + y * hf.width) / hf.width = y := by
    rw [Nat.add_mul_div_right _ _ (by omega), Nat.div_eq_of_lt hx, Nat.zero_add]
  cases hq : hf.spans[x + y * hf.width]? with
  | none => simp
  | some c =>
    simp only [Option.map_some', hlt, if_true, Option.getD_some, hxm, hym]
    rw [ledgeColumn_getElem?]
    congr 1
    funext s
    exact ledgeSpan_eq_rule hf wH wC x y hwC s _

/-! ## Filters: the pipeline -/

theorem zeroIf_geo (p : Nat × Nat → Int → Bool) : ∀ c : List rcSpan,
    (zeroIf p c).map geo = c.map geo
  | [] => rfl
  | s :: next => by
    unfold zeroIf
    simp only [List.map_cons]
    rw [zeroIf_geo p next]
    congr 1
    split <;> rfl

theorem geo_zeroed (b : Bool) (s : rcSpan) :
    geo (if b = true then { s with area := RC_NULL_AREA } else s) = geo s := by
  cases b <;> rfl

theorem zeroIf_spanTop (p : Nat × Nat → Int → Bool) (c : List rcSpan) :
    spanTop (zeroIf p c) = spanTop c :=
  spanTop_congr _ _ (zeroIf_geo p c)

theorem zeroIf_comm (p q : Nat × Nat → Int → Bool) : ∀ c : List rcSpan,
    zeroIf p (zeroIf q c) = zeroIf q (zeroIf p c)
  | [] => rfl
  | s :: next => by
    simp only [zeroIf]
    rw [zeroIf_comm p q next, zeroIf_spanTop, zeroIf_spanTop]
    congr 1
    rw [geo_zeroed, geo_zeroed]
    cases p (geo s) (spanTop next) <;> cases q (geo s) (spanTop next) <;> rfl

theorem zeroIf_idem (p : Nat × Nat → Int → Bool) : ∀ c : List rcSpan,
    zeroIf p (zeroIf p c) = zeroIf p c
  | [] => rfl
  | s :: next => by
    simp only [zeroIf]
    rw [zeroIf_idem p next, zeroIf_spanTop]
    congr 1
    rw [geo_zeroed]
    cases p (geo s) (spanTop next) <;> rfl

theorem lowHeightColumn_eq_zeroIf (wH : Int) : ∀ c : List rcSpan,
    lowHeightColumn wH c = zeroIf (fun g top => decide (top - (g.2 : Int) ≤ wH)) c
  | [] => rfl
  | s :: next => by
    simp only [lowHeightColumn, zeroIf, geo]
    rw [lowHeightColumn_eq_zeroIf wH next]
    congr 1
    by_cases h : spanTop next - (s.smax : Int) ≤ wH <;> simp [h]

theorem ledgeSpan_eq_decision (hf : rcHeightfield) (wH wC x y : Int) (s : rcSpan)
    (next : List rcSpan) :
    ledgeSpan hf wH wC x y s next =
      if ledgeDecision hf wH wC x y (s.smax : Int) (spanTop next) = true then
        { s with area := RC_NULL_AREA } else s := by
  unfold ledgeSpan ledgeDecision
  simp only
  generalize [0, 1, 2, 3].foldl (ledgeDir hf wH wC x y (s.smax : Int) (spanTop next))
    (MAX_HEIGHT, (s.smax : Int), (s.smax : Int)) = st
  have hz : s.area = RC_NULL_AREA → ({ s with area := RC_NULL_AREA } : rcSpan) = s := by
    intro h
    cases s
    simp_all
  by_cases h0 : s.area = RC_NULL_AREA
  · simp only [h0, if_true]
    split
    · exact (hz h0).symm
    · rfl
  · by_cases h1 : st.1 < -wC <;> by_cases h2 : st.2.2 - st.2.1 > wC <;>
      simp [h0, h1, h2]

theorem ledgeColumn_eq_zeroIf (hf : rcHeightfield) (wH wC x y : Int) : ∀ c : List rcSpan,
    ledgeColumn hf wH wC x y c =
      zeroIf (fun g top => ledgeDecision hf wH wC x y (g.2 : Int) top) c
  | [] => rfl
  | s :: next => by
    simp only [ledgeColumn, zeroIf, geo]
    rw [ledgeColumn_eq_zeroIf hf wH wC x y next, ledgeSpan_eq_decision]

theorem lowHangingSpan_keep (wC : Int) (ps : Option rcSpan) (pw : Bool) (pa : Nat) (s : rcSpan)
    (h : pw = true → ∃ p, ps = some p ∧ ¬ rcAbs ((s.smax : Int) - (p.smax : Int)) ≤ wC) :
    lowHangingSpan wC ps pw pa s = s := by
  unfold lowHangingSpan
  simp only
  by_cases hc : (!(s.area != RC_NULL_AREA) && pw) = true
  · have hpw : pw = true := by
      simp only [Bool.and_eq_true] at hc
      exact hc.2
    obtain ⟨p, hp, hgt⟩ := h hpw
    subst hp
    simp only [hc, if_true, hgt, if_false]
  · simp only [hc, if_false, Bool.false_eq_true]

/-- After the low-clearance pass the low-hanging pass changes nothing, when
`walkableClimb <= walkableHeight` and every span has `smin <= smax`. -/
theorem lowHanging_after_lowHeight (wH wC : Int) (hle : wC ≤ wH) : ∀ (c : List rcSpan)
    (ps : Option rcSpan) (pw : Bool) (pa : Nat),
    (pw = true → ∃ p, ps = some p ∧ spanTop c - (p.smax : Int) > wH) →
    (∀ s ∈ c, s.smin ≤ s.smax) →
    lowHangingLoop wC ps pw pa (lowHeightColumn wH c) = lowHeightColumn wH c
  | [], _, _, _, _, _ => rfl
  | s :: next, ps, pw, pa, hst, hsp => by
    have hs := hsp s (by simp)
    simp only [lowHeightColumn, lowHangingLoop]
    generalize hz : (if spanTop next - (s.smax : Int) ≤ wH then
      ({ s with area := RC_NULL_AREA } : rcSpan) else s) = z
    have hsm : z.smax = s.smax := by
      rw [← hz]; split <;> rfl
    have hkeep : lowHangingSpan wC ps pw pa z = z := by
      apply lowHangingSpan_keep
      intro hpw
      obtain ⟨p, hp, hgt⟩ := hst hpw
      refine ⟨p, hp, ?_⟩
      have htop : spanTop (s :: next) = (s.smin : Int) := rfl
      rw [htop] at hgt
      rw [hsm]
      unfold rcAbs
      split <;> omega
    rw [hkeep]
    congr 1
    apply lowHanging_after_lowHeight wH wC hle next
    · intro hw
      refine ⟨_, rfl, ?_⟩
      rw [hsm]
      by_cases hlow : spanTop next - (s.smax : Int) ≤ wH
      · rw [← hz] at hw
        simp [hlow, RC_NULL_AREA] at hw
      · omega
    · intro t ht
      exact hsp t (List.mem_cons_of_mem _ ht)

theorem sameGeom_of_pointwise (hf g : rcHeightfield) (φ : Nat → List rcSpan → List rcSpan)
    (hgrid : sameGrid hf g)
    (hpt : ∀ idx : Nat, g.spans[idx]? = (hf.spans[idx]?).map (φ idx))
    (hgeo : ∀ idx c, (φ idx c).map geo = c.map geo) : sameGeom hf g := by
  refine ⟨hgrid, ?_⟩
  apply List.ext_getElem?
  intro idx
  rw [List.getElem?_map, List.getElem?_map, hpt idx]
  cases hf.spans[idx]? with
  | none => rfl
  | some c => simp only [Option.map_some', hgeo]

theorem lowHanging_sameGeom (climb : Int) (hf : rcHeightfield) :
    sameGeom hf (rcFilterLowHangingWalkableObstacles climb hf) :=
  sameGeom_of_pointwise hf _ _ (lowHanging_spec climb hf).1 (lowHanging_spec climb hf).2
    (fun idx c => by split <;> [exact lowHangingLoop_geo climb c _ _ _; rfl])

theorem lowHeight_sameGeom (wH : Int) (hf : rcHeightfield) :
    sameGeom hf (rcFilterWalkableLowHeightSpans wH hf) :=
  sameGeom_of_pointwise hf _ _ (lowHeight_spec wH hf).1 (lowHeight_spec wH hf).2
    (fun idx c => by split <;> [exact lowHeightColumn_geo wH c; rfl])

theorem ledge_sameGeom (wH wC : Int) (hf : rcHeightfield) :
    sameGeom hf (rcFilterLedgeSpans wH wC hf) :=
  sameGeom_of_pointwise hf _ _ (ledge_spec wH wC hf).1 (ledge_spec wH wC hf).2
    (fun idx c => by split <;> [exact ledgeColumn_geo hf wH wC _ _ c; rfl])

/-- The filter pipeline, column by column. -/
theorem pipeline_spec (wH wC : Int) (hf : rcHeightfield) :
    sameGeom hf (filterPipeline wH wC hf) ∧
    ∀ idx : Nat, (filterPipeline wH wC hf).spans[idx]? =
      (hf.spans[idx]?).map (pipelineColumn hf wH wC idx) := by
  have g1 := lowHanging_sameGeom wC hf
  have g2 := ledge_sameGeom wH wC (rcFilterLowHangingWalkableObstacles wC hf)
  have g3 := lowHeight_sameGeom wH
    (rcFilterLedgeSpans wH wC (rcFilterLowHangingWalkableObstacles wC hf))
  have g12 := sameGeom_trans g1 g2
  refine ⟨sameGeom_trans g12 g3, ?_⟩
  intro idx
  unfold filterPipeline
  rw [(lowHeight_spec wH _).2, (ledge_spec wH wC _).2, (lowHanging_spec wC hf).2]
  rw [g12.1.1, g12.1.2.1, g1.1.1, g1.1.2.1]
  cases hf.spans[idx]? with
  | none => rfl
  | some c =>
    simp only [Option.map_some', pipelineColumn]
    split
    · rw [ledgeColumn_congr g1]
    · rfl

theorem pipelineColumn_congr {hf g : rcHeightfield} (h : sameGeom hf g) (wH wC : Int)
    (idx : Nat) (c : List rcSpan) :
    pipelineColumn g wH wC idx c = pipelineColumn hf wH wC idx c := by
  unfold pipelineColumn
  rw [h.1.1, h.1.2.1]
  split
  · rw [ledgeColumn_congr h]
  · rfl

theorem pipelineColumn_geo (hf : rcHeightfield) (wH wC : Int) (idx : Nat) (c : List rcSpan) :
    (pipelineColumn hf wH wC idx c).map geo = c.map geo := by
  unfold pipelineColumn
  split
  · rw [lowHeightColumn_geo, ledgeColumn_geo, lowHangingLoop_geo]
  · rfl

theorem spans_le_of_geo {c d : List rcSpan} (h : c.map geo = d.map geo)
    (hd : ∀ s ∈ d, s.smin ≤ s.smax) : ∀ s ∈ c, s.smin ≤ s.smax := by
  intro s hs
  have hm : geo s ∈ d.map geo := h ▸ List.mem_map_of_mem geo hs
  obtain ⟨t, ht, hgt⟩ := List.mem_map.1 hm
  have := hd t ht
  have h1 : t.smin = s.smin := congrArg Prod.fst hgt
  have h2 : t.smax = s.smax := congrArg Prod.snd hgt
  omega

/-- One column of the pipeline is idempotent when `walkableClimb <=
walkableHeight` and the spans of the column have `smin <= smax`. -/
theorem pipelineColumn_idem (hf : rcHeightfield) (wH wC : Int) (hle : wC ≤ wH) (idx : Nat)
    (c : List rcSpan) (hc : ∀ s ∈ c, s.smin ≤ s.smax) :
    pipelineColumn hf wH wC idx (pipelineColumn hf wH wC idx c) =
      pipelineColumn hf wH wC idx c := by
  unfold pipelineColumn
  split
  · generalize hL : lowHangingLoop wC none false RC_NULL_AREA c = l
    have hl : ∀ s ∈ l, s.smin ≤ s.smax := by
      apply spans_le_of_geo _ hc
      rw [← hL, lowHangingLoop_geo]
    generalize hD : ledgeColumn hf wH wC ((idx % hf.width : Nat) : Int)
      ((idx / hf.width : Nat) : Int) l = d
    have hd : ∀ s ∈ d, s.smin ≤ s.smax := by
      apply spans_le_of_geo _ hl
      rw [← hD, ledgeColumn_geo]
    rw [lowHanging_after_lowHeight wH wC hle d none false RC_NULL_AREA (by simp) hd]
    rw [← hD, ledgeColumn_eq_zeroIf, ledgeColumn_eq_zeroIf, lowHeightColumn_eq_zeroIf,
      lowHeightColumn_eq_zeroIf]
    rw [zeroIf_comm (fun g top => ledgeDecision hf wH wC _ _ (g.2 : Int) top), zeroIf_idem,
      zeroIf_idem]
  · rfl

theorem heightfield_ext {a b : rcHeightfield} (hg : sameGrid a b) (hs : b.spans = a.spans) :
    b = a := by
  obtain ⟨h1, h2, h3, h4, h5, h6⟩ := hg
  cases a
  cases b
  simp_all

/-- The filter pipeline is idempotent when `walkableClimb <= walkableHeight` and
every span has `smin <= smax`. -/
theorem filterPipeline_idem (wH wC : Int) (hle : wC ≤ wH) (hf : rcHeightfield)
    (hsp : ∀ c ∈ hf.spans, ∀ s ∈ c, s.smin ≤ s.smax) :
    filterPipeline wH wC (filterPipeline wH wC hf) = filterPipeline wH wC hf := by
  have h1 := pipeline_spec wH wC hf
  have h2 := pipeline_spec wH wC (filterPipeline wH wC hf)
  apply heightfield_ext h2.1.1
  apply List.ext_getElem?
  intro idx
  rw [h2.2 idx, h1.2 idx]
  cases hq : hf.spans[idx]? with
  | none => rfl
  | some c =>
    simp only [Option.map_some']
    rw [pipelineColumn_congr h1.1]
    rw [pipelineColumn_idem hf wH wC hle idx c (hsp c (List.getElem?_mem hq))]

/-! ## The claims on the ledge filter and on the pipeline -/

/-- C7 (amended): `rcFilterLedgeSpans` equals the reference rule once the opening
below the lowest span of each in-grid neighbour column is taken into `minh`.
For every heightfield, `walkableHeight`, `walkableClimb >= 0` and cell `(x, y)` of
the grid, the span at position `i` of the column after the filter is the input
span, made unwalkable if and only if it was walkable and `minh < -walkableClimb`
or `asmax - asmin > walkableClimb`, where `minh` is the minimum of `nbot - bot`
over the qualifying spans of the four neighbour columns, over the qualifying
openings below their lowest spans (`nbot = -walkableClimb`) and over
`-walkableClimb - bot` for each neighbour outside the grid, and `asmin`, `asmax`
are the minimum and maximum `nbot` over the qualifying neighbour spans with
`|nbot - bot| <= walkableClimb`. Unwalkable spans stay as they are and the grid
is unchanged. -/
theorem rcFilterLedgeSpans_reference_rule (walkableHeight walkableClimb : Int)
    (hwC : 0 ≤ walkableClimb) (hf : rcHeightfield) (x y : Nat) (hx : x < hf.width)
    (hy : y < hf.height) (i : Nat) :
    sameGrid hf (rcFilterLedgeSpans walkableHeight walkableClimb hf) ∧
    ((rcFilterLedgeSpans walkableHeight walkableClimb hf).col
        ((x : Int) + (y : Int) * (hf.width : Int)))[i]? =
      ((hf.col ((x : Int) + (y : Int) * (hf.width : Int)))[i]?).map (fun s =>
        ledgeRule (isLedgeCode hf walkableHeight walkableClimb x y (s.smax : Int)
          (spanTop ((hf.col ((x : Int) + (y : Int) * (hf.width : Int))).drop (i + 1)))) s) :=
  ⟨(ledge_spec walkableHeight walkableClimb hf).1,
    ledge_per_span walkableHeight walkableClimb hwC hf x y hx hy i⟩

/-- Witness of C7: the centre cell of a 3x3 field whose east neighbour column
starts ten cells up. -/
theorem rcFilterLedgeSpans_reference_rule_witness :
    ((0 : Int) ≤ 1 ∧
      1 < (crossField [⟨0, 1, 63⟩] [⟨0, 1, 63⟩] [⟨0, 1, 63⟩] [⟨10, 11, 63⟩] [⟨0, 1, 63⟩]).width ∧
      1 < (crossField [⟨0, 1, 63⟩] [⟨0, 1, 63⟩] [⟨0, 1, 63⟩] [⟨10, 11, 63⟩]
        [⟨0, 1, 63⟩]).height) ∧
    ((rcFilterLedgeSpans 3 1
        (crossField [⟨0, 1, 63⟩] [⟨0, 1, 63⟩] [⟨0, 1, 63⟩] [⟨10, 11, 63⟩] [⟨0, 1, 63⟩])).col
        (((1 : Nat) : Int) + ((1 : Nat) : Int) *
          ((crossField [⟨0, 1, 63⟩] [⟨0, 1, 63⟩] [⟨0, 1, 63⟩] [⟨10, 11, 63⟩]
            [⟨0, 1, 63⟩]).width : Int)))[0]? = some ⟨0, 1, 0⟩ :=
  ⟨⟨by decide, by decide, by decide⟩,
    ((rcFilterLedgeSpans_reference_rule 3 1 (by decide)
      (crossField [⟨0, 1, 63⟩] [⟨0, 1, 63⟩] [⟨0, 1, 63⟩] [⟨10, 11, 63⟩] [⟨0, 1, 63⟩])
      1 1 (by decide) (by decide) 0).2).trans (by decide)⟩

/-- C7 as stated fails. In a 3x3 field the centre cell and three of its
neighbours hold a span `[0, 1]`, the east neighbour holds only a span `[10, 11]`;
`walkableHeight = 3`, `walkableClimb = 1`. The reference rule of the claim finds
the drops `0, 0, 10, 0` and the accessible heights `1, 1, 1` and keeps the centre
span walkable; the source also takes the opening below the east span
(`nbot = -1`, `ntop = 10`), gets `minh = -2 < -1` and marks the span
unwalkable. -/
theorem rcFilterLedgeSpans_reference_rule_counterexample :
    ledgeDropsSpec (crossField [⟨0, 1, 63⟩] [⟨0, 1, 63⟩] [⟨0, 1, 63⟩] [⟨10, 11, 63⟩]
      [⟨0, 1, 63⟩]) 3 1 1 1 1 MAX_HEIGHT = [0, 0, 10, 0] ∧
    ledgeRule (isLedgeSpec (crossField [⟨0, 1, 63⟩] [⟨0, 1, 63⟩] [⟨0, 1, 63⟩] [⟨10, 11, 63⟩]
      [⟨0, 1, 63⟩]) 3 1 1 1 1 MAX_HEIGHT) ⟨0, 1, 63⟩ = ⟨0, 1, 63⟩ ∧
    (rcFilterLedgeSpans 3 1 (crossField [⟨0, 1, 63⟩] [⟨0, 1, 63⟩] [⟨0, 1, 63⟩]
      [⟨10, 11, 63⟩] [⟨0, 1, 63⟩])).col (1 + 1 * 3) = [⟨0, 1, 0⟩] := by
  decide

/-- C8 (amended): the filter pipeline is idempotent when the climb does not
exceed the height. For every heightfield whose columns satisfy the column
invariant and all `walkableHeight`, `walkableClimb` with
`walkableClimb <= walkableHeight`, applying the three filters (low-hanging,
ledge, low-clearance, in that order) twice gives exactly the heightfield that
applying them once gives. -/
theorem filterPipeline_idempotent (walkableHeight walkableClimb : Int) (hf : rcHeightfield)
    (hwf : ∀ c ∈ hf.spans, columnOk c) (hle : walkableClimb ≤ walkableHeight) :
    filterPipeline walkableHeight walkableClimb
        (filterPipeline walkableHeight walkableClimb hf) =
      filterPipeline walkableHeight walkableClimb hf :=
  filterPipeline_idem walkableHeight walkableClimb hle hf
    (fun c hc s hs => ((hwf c hc).1 s hs).1)

/-- Witness of C8: a column of three spans between four walls, with
`walkableHeight = 3` and `walkableClimb = 1`. -/
theorem filterPipeline_idempotent_witness :
    (∀ c ∈ (crossField [⟨0, 1, 63⟩, ⟨5, 6, 0⟩, ⟨10, 11, 0⟩] [⟨0, 100, 0⟩] [⟨0, 100, 0⟩]
      [⟨0, 100, 0⟩] [⟨0, 100, 0⟩]).spans, columnOk c) ∧ (1 : Int) ≤ 3 ∧
    filterPipeline 3 1 (filterPipeline 3 1
      (crossField [⟨0, 1, 63⟩, ⟨5, 6, 0⟩, ⟨10, 11, 0⟩] [⟨0, 100, 0⟩] [⟨0, 100, 0⟩]
        [⟨0, 100, 0⟩] [⟨0, 100, 0⟩])) =
    filterPipeline 3 1
      (crossField [⟨0, 1, 63⟩, ⟨5, 6, 0⟩, ⟨10, 11, 0⟩] [⟨0, 100, 0⟩] [⟨0, 100, 0⟩]
        [⟨0, 100, 0⟩] [⟨0, 100, 0⟩]) :=
  ⟨by decide, by decide,
    filterPipeline_idempotent 3 1
      (crossField [⟨0, 1, 63⟩, ⟨5, 6, 0⟩, ⟨10, 11, 0⟩] [⟨0, 100, 0⟩] [⟨0, 100, 0⟩]
        [⟨0, 100, 0⟩] [⟨0, 100, 0⟩]) (by decide) (by decide)⟩

/-- C8 as stated fails for `walkableClimb > walkableHeight`. The centre column of
a 3x3 field holds a walkable span `[0, 1]` and two unwalkable spans `[5, 6]`,
`[10, 11]`; its four neighbours hold a wall `[0, 100]`; `walkableHeight = 3`,
`walkableClimb = 10`. The first pass promotes `[5, 6]` only, the second pass
promotes `[10, 11]` from it: the two results differ. -/
theorem filterPipeline_idempotent_counterexample :
    (∀ c ∈ (crossField [⟨0, 1, 63⟩, ⟨5, 6, 0⟩, ⟨10, 11, 0⟩] [⟨0, 100, 0⟩] [⟨0, 100, 0⟩]
      [⟨0, 100, 0⟩] [⟨0, 100, 0⟩]).spans, columnOk c) ∧ (3 : Int) ≤ 3 ∧ (0 : Int) ≤ 10 ∧
    (filterPipeline 3 10
      (crossField [⟨0, 1, 63⟩, ⟨5, 6, 0⟩, ⟨10, 11, 0⟩] [⟨0, 100, 0⟩] [⟨0, 100, 0⟩]
        [⟨0, 100, 0⟩] [⟨0, 100, 0⟩])).col 4 = [⟨0, 1, 63⟩, ⟨5, 6, 63⟩, ⟨10, 11, 0⟩] ∧
    (filterPipeline 3 10 (filterPipeline 3 10
      (crossField [⟨0, 1, 63⟩, ⟨5, 6, 0⟩, ⟨10, 11, 0⟩] [⟨0, 100, 0⟩] [⟨0, 100, 0⟩]
        [⟨0, 100, 0⟩] [⟨0, 100, 0⟩]))).col 4 = [⟨0, 1, 63⟩, ⟨5, 6, 63⟩, ⟨10, 11, 63⟩] ∧
    filterPipeline 3 10 (filterPipeline 3 10
      (crossField [⟨0, 1, 63⟩, ⟨5, 6, 0⟩, ⟨10, 11, 0⟩] [⟨0, 100, 0⟩] [⟨0, 100, 0⟩]
        [⟨0, 100, 0⟩] [⟨0, 100, 0⟩])) ≠
    filterPipeline 3 10
      (crossField [⟨0, 1, 63⟩, ⟨5, 6, 0⟩, ⟨10, 11, 0⟩] [⟨0, 100, 0⟩] [⟨0, 100, 0⟩]
        [⟨0, 100, 0⟩] [⟨0, 100, 0⟩]) := by
  refine ⟨by decide, by decide, by decide, by decide, by decide, ?_⟩
  intro h
  have h2 := congrArg (fun g : rcHeightfield => g.col 4) h
  revert h2
  decide

/-! ## Rasterization: the span added to a cell -/

theorem sameOutside_mono {P Q : Int → Prop} {a b : rcHeightfield} (h : ∀ idx, P idx → Q idx)
    (hab : sameOutside P a b) : sameOutside Q a b :=
  ⟨hab.1, hab.2.1, fun idx hq => hab.2.2.1 idx (fun hp => hq (h idx hp)), hab.2.2.2⟩

theorem intRange_split (a b t : Int) (h1 : a ≤ t) (h2 : t ≤ b) :
    intRange a b = intRange a (t - 1) ++ t :: intRange (t + 1) b := by
  unfold intRange
  have e1 : (b + 1 - a).toNat = (t - 1 + 1 - a).toNat + (1 + (b + 1 - (t + 1)).toNat) := by omega
  rw [e1, List.range_add, List.map_append, List.map_map, Nat.add_comm 1, List.range_succ_eq_map]
  simp only [List.map_cons, List.map_map]
  congr 1
  congr 1
  · have : ((t - 1 + 1 - a).toNat : Int) = t - a := by omega
    simp only [Function.comp, Nat.add_zero]
    omega
  · apply List.map_congr_left
    intro i _
    simp only [Function.comp]
    push_cast
    omega

/-- A loop over `a..b` whose steps other than `t` leave the column `T` alone and
whose step `t` rewrites it by `F`. -/
theorem foldl_intRange_at (f : rcHeightfield → Int → rcHeightfield) (a b t T : Int)
    (F : List rcSpan → List rcSpan) (hf : rcHeightfield) (h1 : a ≤ t) (h2 : t ≤ b)
    (hother : ∀ g i, g.width = hf.width → i ≠ t → a ≤ i → i ≤ b →
      sameOutside (fun idx => idx ≠ T) g (f g i))
    (hat : ∀ g, g.width = hf.width → g.spans.length = hf.spans.length →
      (f g t).col T = F (g.col T) ∧ (f g t).width = g.width ∧
      (f g t).spans.length = g.spans.length) :
    ((intRange a b).foldl f hf).col T = F (hf.col T) ∧
    ((intRange a b).foldl f hf).width = hf.width ∧
    ((intRange a b).foldl f hf).spans.length = hf.spans.length := by
  rw [intRange_split a b t h1 h2, List.foldl_append, List.foldl_cons]
  have hA := foldl_sameOutside (fun idx => idx ≠ T) f (intRange a (t - 1)) hf (by
    intro i hi g hg
    have := (mem_intRange _ _ _).1 hi
    exact hother g i hg (by omega) (by omega) (by omega))
  generalize (intRange a (t - 1)).foldl f hf = gA at hA
  have hB := hat gA hA.1 hA.2.2.2
  have hC := foldl_sameOutside (fun idx => idx ≠ T) f (intRange (t + 1) b) (f gA t) (by
    intro i hi g hg
    have := (mem_intRange _ _ _).1 hi
    exact hother g i (by rw [hg, hB.2.1, hA.1]) (by omega) (by omega) (by omega))
  refine ⟨?_, ?_, ?_⟩
  · rw [hC.2.2.1 T (by simp), hB.1, hA.2.2.1 T (by simp)]
  · rw [hC.1, hB.2.1, hA.1]
  · rw [hC.2.2.2, hB.2.2, hA.2.2.2]

/-- The interpolation parameter of a cut lies in `[0, 1]`. -/
theorem cut_param (dj di : ℚ) (h : (decide (dj ≥ 0) != decide (di ≥ 0)) = true) :
    0 ≤ dj / (dj - di) ∧ dj / (dj - di) ≤ 1 := by
  by_cases hj : 0 ≤ dj
  · have hi : di < 0 := by
      by_contra hc
      have hc : 0 ≤ di := not_lt.1 hc
      simp [hj, hc] at h
    have hpos : 0 < dj - di := by linarith
    exact ⟨div_nonneg hj hpos.le, (div_le_one hpos).2 (by linarith)⟩
  · have hj : dj < 0 := not_le.1 hj
    have hi : 0 ≤ di := by
      by_contra hc
      have hc : di < 0 := not_le.1 hc
      have h1 : ¬ (0 ≤ dj) := not_le.2 hj
      have h2 : ¬ (0 ≤ di) := not_le.2 hc
      simp [h1, h2] at h
    have hpos : 0 < di - dj := by linarith
    have e : dj / (dj - di) = (-dj) / (di - dj) := by
      rw [← neg_div_neg_eq]
      congr 1
      ring
    rw [e]
    exact ⟨div_nonneg (by linarith) hpos.le, (div_le_one hpos).2 (by linarith)⟩

theorem lerp_between (lo hi a b s : ℚ) (ha : lo ≤ a ∧ a ≤ hi) (hb : lo ≤ b ∧ b ≤ hi)
    (hs : 0 ≤ s ∧ s ≤ 1) : lo ≤ a + (b - a) * s ∧ a + (b - a) * s ≤ hi := by
  have e1 : a + (b - a) * s - lo = (1 - s) * (a - lo) + s * (b - lo) := by ring
  have e2 : hi - (a + (b - a) * s) = (1 - s) * (hi - a) + s * (hi - b) := by ring
  have p1 : 0 ≤ (1 - s) * (a - lo) + s * (b - lo) :=
    add_nonneg (mul_nonneg (by linarith) (by linarith)) (mul_nonneg hs.1 (by linarith))
  have p2 : 0 ≤ (1 - s) * (hi - a) + s * (hi - b) :=
    add_nonneg (mul_nonneg (by linarith) (by linarith)) (mul_nonneg hs.1 (by linarith))
  constructor <;> linarith

/-- Clipping keeps the `y` coordinates inside any interval containing those of
the input. -/
theorem clipPolyLoop_y_bounds (pnx pnz pd lo hi : ℚ) : ∀ (l : List Vec3) (vj : Vec3),
    (lo ≤ vj.y ∧ vj.y ≤ hi) → (∀ v ∈ l, lo ≤ v.y ∧ v.y ≤ hi) →
    ∀ v ∈ clipPolyLoop pnx pnz pd vj l, lo ≤ v.y ∧ v.y ≤ hi
  | [], _, _, _, v, hv => by simp [clipPolyLoop] at hv
  | vi :: rest, vj, hj, hl, v, hv => by
    have hi' := hl vi (by simp)
    unfold clipPolyLoop at hv
    simp only [List.mem_append] at hv
    rcases hv with (hv | hv) | hv
    · split at hv
      · rename_i hne
        simp only [List.mem_singleton] at hv
        subst hv
        exact lerp_between lo hi _ _ _ hj hi' (cut_param _ _ hne)
      · simp at hv
    · split at hv
      · simp only [List.mem_singleton] at hv
        subst hv
        exact hi'
      · simp at hv
    · exact clipPolyLoop_y_bounds pnx pnz pd lo hi rest vi hi'
        (fun w hw => hl w (List.mem_cons_of_mem _ hw)) v hv

theorem clipPoly_y_bounds (pnx pnz pd lo hi : ℚ) (inp : List Vec3)
    (h : ∀ v ∈ inp, lo ≤ v.y ∧ v.y ≤ hi) :
    ∀ v ∈ clipPoly inp pnx pnz pd, lo ≤ v.y ∧ v.y ≤ hi := by
  unfold clipPoly
  cases hlast : inp.getLast? with
  | none => simp
  | some last =>
    exact clipPolyLoop_y_bounds pnx pnz pd lo hi inp last
      (h last (List.mem_of_getLast?_eq_some hlast)) h

theorem foldl_rcMin_bounds (lo hi : ℚ) : ∀ (l : List Vec3) (m : ℚ),
    (lo ≤ m ∧ m ≤ hi) → (∀ v ∈ l, lo ≤ v.y ∧ v.y ≤ hi) →
    lo ≤ l.foldl (fun m p => rcMin m p.y) m ∧ l.foldl (fun m p => rcMin m p.y) m ≤ hi
  | [], _, hm, _ => hm
  | v :: l, m, hm, hl => by
    simp only [List.foldl_cons]
    apply foldl_rcMin_bounds lo hi l
    · have := hl v (by simp)
      unfold rcMin
      split <;> assumption
    · exact fun w hw => hl w (List.mem_cons_of_mem _ hw)

theorem foldl_rcMax_bounds (lo hi : ℚ) : ∀ (l : List Vec3) (m : ℚ),
    (lo ≤ m ∧ m ≤ hi) → (∀ v ∈ l, lo ≤ v.y ∧ v.y ≤ hi) →
    lo ≤ l.foldl (fun m p => rcMax m p.y) m ∧ l.foldl (fun m p => rcMax m p.y) m ≤ hi
  | [], _, hm, _ => hm
  | v :: l, m, hm, hl => by
    simp only [List.foldl_cons]
    apply foldl_rcMax_bounds lo hi l
    · have := hl v (by simp)
      unfold rcMax
      split <;> assumption
    · exact fun w hw => hl w (List.mem_cons_of_mem _ hw)

theorem polyY_bounds (lo hi : ℚ) (poly : List Vec3) (hne : poly ≠ [])
    (h : ∀ v ∈ poly, lo ≤ v.y ∧ v.y ≤ hi) :
    (lo ≤ polyMinY poly ∧ polyMinY poly ≤ hi) ∧ (lo ≤ polyMaxY poly ∧ polyMaxY poly ≤ hi) := by
  cases poly with
  | nil => exact absurd rfl hne
  | cons v rest =>
    have hv := h v (by simp)
    have hr : ∀ w ∈ rest, lo ≤ w.y ∧ w.y ≤ hi := fun w hw => h w (List.mem_cons_of_mem _ hw)
    exact ⟨foldl_rcMin_bounds lo hi rest v.y hv hr, foldl_rcMax_bounds lo hi rest v.y hv hr⟩

/-- The body of the loop over `x` adds the span of the cell polygon, when the two
clips leave at least three vertices and the row polygon lies inside the height
range of the field. -/
theorem rasterizeCell_spec (inrow : List Vec3) (area : Nat) (bmin bmax : Vec3) (cs ich : ℚ)
    (thr : Int) (y : Int) (hf : rcHeightfield) (x : Int)
    (h1 : 3 ≤ (clipPoly inrow 1 0 (-(bmin.x + (x : ℚ) * cs))).length)
    (h2 : 3 ≤ (clipPoly (clipPoly inrow 1 0 (-(bmin.x + (x : ℚ) * cs))) (-1) 0
      (bmin.x + (x : ℚ) * cs + cs)).length)
    (hy : ∀ v ∈ inrow, bmin.y ≤ v.y ∧ v.y ≤ bmax.y) :
    rasterizeCell inrow area bmin (bmax.y - bmin.y) cs ich thr y hf x =
      addSpan hf x y
        (polygonSpan (clipPoly (clipPoly inrow 1 0 (-(bmin.x + (x : ℚ) * cs))) (-1) 0
          (bmin.x + (x : ℚ) * cs + cs)) bmin ich).1
        (polygonSpan (clipPoly (clipPoly inrow 1 0 (-(bmin.x + (x : ℚ) * cs))) (-1) 0
          (bmin.x + (x : ℚ) * cs + cs)) bmin ich).2 area thr := by
  unfold rasterizeCell polygonSpan
  simp only
  generalize hP : clipPoly (clipPoly inrow 1 0 (-(bmin.x + (x : ℚ) * cs))) (-1) 0
      (bmin.x + (x : ℚ) * cs + cs) = poly at h2
  have hb : ∀ v ∈ poly, bmin.y ≤ v.y ∧ v.y ≤ bmax.y := by
    rw [← hP]
    exact clipPoly_y_bounds _ _ _ _ _ _ (clipPoly_y_bounds _ _ _ _ _ _ hy)
  have hne : poly ≠ [] := by
    intro h
    rw [h] at h2
    simp at h2
  obtain ⟨⟨a1, a2⟩, ⟨b1, b2⟩⟩ := polyY_bounds bmin.y bmax.y poly hne hb
  have c1 : ¬ (clipPoly inrow 1 0 (-(bmin.x + (x : ℚ) * cs))).length < 3 := by omega
  have c2 : ¬ poly.length < 3 := by omega
  have c3 : ¬ polyMaxY poly - bmin.y < 0 := by linarith
  have c4 : ¬ polyMinY poly - bmin.y > bmax.y - bmin.y := by linarith
  have c5 : ¬ polyMinY poly - bmin.y < 0 := by linarith
  have c6 : ¬ polyMaxY poly - bmin.y > bmax.y - bmin.y := by linarith
  simp only [c1, c2, c3, c4, c5, c6, if_false]

theorem cell_index_valid (w h : Nat) (x y : Int) (hx0 : 0 ≤ x) (hxw : x < w) (hy0 : 0 ≤ y)
    (hyh : y < h) : 0 ≤ x + y * (w : Int) ∧ (x + y * (w : Int)).toNat < w * h := by
  obtain ⟨xn, rfl⟩ := Int.eq_ofNat_of_zero_le hx0
  obtain ⟨yn, rfl⟩ := Int.eq_ofNat_of_zero_le hy0
  have hx : xn < w := by exact_mod_cast hxw
  have hy : yn < h := by exact_mod_cast hyh
  rw [natCast_cell]
  exact ⟨Int.natCast_nonneg _, by simpa using cell_lt xn yn w h hx hy⟩

theorem addSpan_col_self (g : rcHeightfield) (x y : Int) (smin smax area : Nat) (thr : Int)
    (h0 : 0 ≤ x + y * (g.width : Int))
    (h1 : (x + y * (g.width : Int)).toNat < g.spans.length) :
    (addSpan g x y smin smax area thr).col (x + y * (g.width : Int)) =
      addSpanCol (g.col (x + y * (g.width : Int))) smin smax area thr := by
  unfold addSpan
  exact col_setCol_self g _ _ h0 h1

theorem addSpan_fields (g : rcHeightfield) (x y : Int) (smin smax area : Nat) (thr : Int) :
    (addSpan g x y smin smax area thr).width = g.width ∧
    (addSpan g x y smin smax area thr).spans.length = g.spans.length := by
  unfold addSpan
  exact ⟨(setCol_fields _ _ _).1, (setCol_fields _ _ _).2.2.2.2.2.2⟩

/-- What `rasterizeTri` does to the column of a cell `(x, y)` of the footprint that
the triangle reaches: one call of `addSpan` with the span of the cell polygon. -/
theorem rasterizeTri_cell (v0 v1 v2 : Vec3) (area : Nat) (hf : rcHeightfield)
    (bmin bmax : Vec3) (cs ics ich : ℚ) (thr : Int) (x y : Int)
    (hov : overlapBounds bmin bmax (triMin v0 v1 v2) (triMax v0 v1 v2) = true)
    (hx0 : 0 ≤ x) (hxw : x < hf.width) (hy0 : 0 ≤ y) (hyh : y < hf.height)
    (hfx : (footprint (triMin v0 v1 v2) (triMax v0 v1 v2) bmin ics hf.width hf.height).1 ≤ x ∧
      x ≤ (footprint (triMin v0 v1 v2) (triMax v0 v1 v2) bmin ics hf.width hf.height).2.2.1)
    (hfy : (footprint (triMin v0 v1 v2) (triMax v0 v1 v2) bmin ics hf.width hf.height).2.1 ≤ y ∧
      y ≤ (footprint (triMin v0 v1 v2) (triMax v0 v1 v2) bmin ics hf.width hf.height).2.2.2)
    (hlen : hf.spans.length = hf.width * hf.height)
    (hreach : reachesCell v0 v1 v2 bmin cs x y)
    (hyb : ∀ v ∈ [v0, v1, v2], bmin.y ≤ v.y ∧ v.y ≤ bmax.y) :
    (rasterizeTri v0 v1 v2 area hf bmin bmax cs ics ich thr).col (x + y * (hf.width : Int)) =
      addSpanCol (hf.col (x + y * (hf.width : Int)))
        (polygonSpan (cellPolygon v0 v1 v2 bmin cs x y) bmin ich).1
        (polygonSpan (cellPolygon v0 v1 v2 bmin cs x y) bmin ich).2 area thr := by
  obtain ⟨r1, r2, r3, r4⟩ := hreach
  have hxr := footprint_x_range (triMin v0 v1 v2) (triMax v0 v1 v2) bmin ics
    hf.width hf.height (by omega)
  have hval := cell_index_valid hf.width hf.height x y hx0 hxw hy0 hyh
  unfold rasterizeTri
  simp only [rcVmin_eq, rcVmax_eq, hov, Bool.not_true, Bool.false_eq_true, if_false]
  refine (foldl_intRange_at (rasterizeRow v0 v1 v2 area bmin (bmax.y - bmin.y) cs ich thr _ _)
    _ _ y (x + y * (hf.width : Int))
    (fun c => addSpanCol c (polygonSpan (cellPolygon v0 v1 v2 bmin cs x y) bmin ich).1
      (polygonSpan (cellPolygon v0 v1 v2 bmin cs x y) bmin ich).2 area thr)
    hf hfy.1 hfy.2 ?_ ?_).1
  · intro g i hg hi _ _
    refine sameOutside_mono ?_ (rasterizeRow_sameOutside
      (fun idx => ∃ x2 : Int, 0 ≤ x2 ∧ x2 < (hf.width : Int) ∧ idx = x2 + i * (hf.width : Int))
      v0 v1 v2 area bmin _ cs ich thr _ _ g i ?_)
    · rintro idx ⟨x2, h20, h2w, rfl⟩ heq
      exact hi (cell_index_inj hf.width x2 i x y h20 h2w hx0 hxw heq).2
    · intro x2 ha hb
      exact ⟨x2, by omega, by omega, by rw [hg]⟩
  · intro g hg hgl
    unfold rasterizeRow
    have c1 : ¬ (clipPoly [v0, v1, v2] 0 1 (-(bmin.z + (y : ℚ) * cs))).length < 3 := by omega
    have c2 : ¬ (clipPoly (clipPoly [v0, v1, v2] 0 1 (-(bmin.z + (y : ℚ) * cs))) 0 (-1)
        (bmin.z + (y : ℚ) * cs + cs)).length < 3 := by
      unfold rowPolygon at r2
      omega
    simp only [c1, c2, if_false]
    have hrow : ∀ v ∈ rowPolygon v0 v1 v2 bmin cs y, bmin.y ≤ v.y ∧ v.y ≤ bmax.y :=
      clipPoly_y_bounds _ _ _ _ _ _ (clipPoly_y_bounds _ _ _ _ _ _ hyb)
    have := foldl_intRange_at
      (rasterizeCell (rowPolygon v0 v1 v2 bmin cs y) area bmin (bmax.y - bmin.y) cs ich thr y)
      _ _ x (x + y * (hf.width : Int))
      (fun c => addSpanCol c (polygonSpan (cellPolygon v0 v1 v2 bmin cs x y) bmin ich).1
        (polygonSpan (cellPolygon v0 v1 v2 bmin cs x y) bmin ich).2 area thr)
      g hfx.1 hfx.2 (by
        intro g2 i hg2 hi _ _
        refine sameOutside_mono ?_ (rasterizeCell_sameOutside
          (fun idx => idx = i + y * (hf.width : Int)) _ area bmin _ cs ich thr y g2 i
          (by rw [hg2, hg]))
        rintro idx rfl heq
        have : i = x := by omega
        exact hi this) (by
        intro g2 hg2 hgl2
        rw [rasterizeCell_spec _ area bmin bmax cs ich thr y g2 x r3 r4 hrow]
        have hw2 : g2.width = hf.width := hg2.trans hg
        refine ⟨?_, (addSpan_fields _ _ _ _ _ _ _).1, (addSpan_fields _ _ _ _ _ _ _).2⟩
        rw [← hw2]
        apply addSpan_col_self
        · rw [hw2]; exact hval.1
        · rw [hw2, hgl2, hgl, hlen]; exact hval.2)
    exact ⟨this.1, this.2.1.trans rfl, this.2.2⟩

/-- Clipping returns the polygon itself when every vertex is on the kept side. -/
theorem clipPolyLoop_inside (pnx pnz pd : ℚ) : ∀ (l : List Vec3) (vj : Vec3),
    0 ≤ planeDist pnx pnz pd vj → (∀ v ∈ l, 0 ≤ planeDist pnx pnz pd v) →
    clipPolyLoop pnx pnz pd vj l = l
  | [], _, _, _ => rfl
  | vi :: rest, vj, hj, hl => by
    have hi := hl vi (by simp)
    unfold clipPolyLoop
    simp only [ge_iff_le, hj, hi, decide_True, bne_self_eq_false, Bool.false_eq_true, if_false,
      if_true, List.nil_append, List.singleton_append]
    rw [clipPolyLoop_inside pnx pnz pd rest vi hi (fun w hw => hl w (List.mem_cons_of_mem _ hw))]

theorem clipPoly_inside (pnx pnz pd : ℚ) (inp : List Vec3)
    (h : ∀ v ∈ inp, 0 ≤ planeDist pnx pnz pd v) : clipPoly inp pnx pnz pd = inp := by
  unfold clipPoly
  cases hlast : inp.getLast? with
  | none =>
    have : inp = [] := List.getLast?_eq_none_iff.1 hlast
    simp [this]
  | some last =>
    exact clipPolyLoop_inside pnx pnz pd inp last
      (h last (List.mem_of_getLast?_eq_some hlast)) h

/-- Clipping keeps the vertices in a plane `x = c`. -/
theorem clipPolyLoop_x_const (pnx pnz pd c : ℚ) : ∀ (l : List Vec3) (vj : Vec3),
    vj.x = c → (∀ v ∈ l, v.x = c) → ∀ v ∈ clipPolyLoop pnx pnz pd vj l, v.x = c
  | [], _, _, _, v, hv => by simp [clipPolyLoop] at hv
  | vi :: rest, vj, hj, hl, v, hv => by
    have hi := hl vi (by simp)
    unfold clipPolyLoop at hv
    simp only [List.mem_append] at hv
    rcases hv with (hv | hv) | hv
    · split at hv
      · simp only [List.mem_singleton] at hv
        subst hv
        simp [hj, hi]
      · simp at hv
    · split at hv
      · simp only [List.mem_singleton] at hv
        subst hv
        exact hi
      · simp at hv
    · exact clipPolyLoop_x_const pnx pnz pd c rest vi hi
        (fun w hw => hl w (List.mem_cons_of_mem _ hw)) v hv

theorem clipPoly_x_const (pnx pnz pd c : ℚ) (inp : List Vec3) (h : ∀ v ∈ inp, v.x = c) :
    ∀ v ∈ clipPoly inp pnx pnz pd, v.x = c := by
  unfold clipPoly
  cases hlast : inp.getLast? with
  | none => simp
  | some last =>
    exact clipPolyLoop_x_const pnx pnz pd c inp last
      (h last (List.mem_of_getLast?_eq_some hlast)) h

/-- For a triangle in the plane `x = bmin.x + k*cs` the two clips of column `k`
keep the whole row polygon. -/
theorem cellPolygon_x_plane (v0 v1 v2 bmin : Vec3) (cs : ℚ) (k y : Int) (hcs : 0 < cs)
    (h0 : v0.x = bmin.x + (k : ℚ) * cs) (h1 : v1.x = bmin.x + (k : ℚ) * cs)
    (h2 : v2.x = bmin.x + (k : ℚ) * cs) :
    clipPoly (rowPolygon v0 v1 v2 bmin cs y) 1 0 (-(bmin.x + (k : ℚ) * cs)) =
      rowPolygon v0 v1 v2 bmin cs y ∧
    cellPolygon v0 v1 v2 bmin cs k y = rowPolygon v0 v1 v2 bmin cs y := by
  have hrow : ∀ v ∈ rowPolygon v0 v1 v2 bmin cs y, v.x = bmin.x + (k : ℚ) * cs := by
    unfold rowPolygon
    apply clipPoly_x_const
    apply clipPoly_x_const
    intro v hv
    simp only [List.mem_cons, List.mem_singleton, List.not_mem_nil, or_false] at hv
    rcases hv with rfl | rfl | rfl <;> assumption
  have e1 : clipPoly (rowPolygon v0 v1 v2 bmin cs y) 1 0 (-(bmin.x + (k : ℚ) * cs)) =
      rowPolygon v0 v1 v2 bmin cs y := by
    apply clipPoly_inside
    intro v hv
    unfold planeDist
    rw [hrow v hv]
    linarith
  refine ⟨e1, ?_⟩
  unfold cellPolygon
  rw [e1]
  apply clipPoly_inside
  intro v hv
  unfold planeDist
  rw [hrow v hv]
  linarith

/-- For a triangle in the plane `z = bmin.z + k*cs` the two clips of row `k` keep
the whole triangle. -/
theorem rowPolygon_z_plane (v0 v1 v2 bmin : Vec3) (cs : ℚ) (k : Int) (hcs : 0 < cs)
    (h0 : v0.z = bmin.z + (k : ℚ) * cs) (h1 : v1.z = bmin.z + (k : ℚ) * cs)
    (h2 : v2.z = bmin.z + (k : ℚ) * cs) :
    clipPoly [v0, v1, v2] 0 1 (-(bmin.z + (k : ℚ) * cs)) = [v0, v1, v2] ∧
    rowPolygon v0 v1 v2 bmin cs k = [v0, v1, v2] := by
  have e1 : clipPoly [v0, v1, v2] 0 1 (-(bmin.z + (k : ℚ) * cs)) = [v0, v1, v2] := by
    apply clipPoly_inside
    intro v hv
    unfold planeDist
    simp only [List.mem_cons, List.mem_singleton, List.not_mem_nil, or_false] at hv
    rcases hv with rfl | rfl | rfl
    · rw [h0]; linarith
    · rw [h1]; linarith
    · rw [h2]; linarith
  refine ⟨e1, ?_⟩
  unfold rowPolygon
  rw [e1]
  apply clipPoly_inside
  intro v hv
  unfold planeDist
  simp only [List.mem_cons, List.mem_singleton, List.not_mem_nil, or_false] at hv
  rcases hv with rfl | rfl | rfl
  · rw [h0]; linarith
  · rw [h1]; linarith
  · rw [h2]; linarith

/-- A triangle in the plane `x = bmin.x + k*cs`: every reached row of the
footprint gets the span of its row polygon in column `k`. -/
theorem rasterizeTri_x_plane_cell (v0 v1 v2 : Vec3) (area : Nat) (hf : rcHeightfield)
    (bmin bmax : Vec3) (cs ich : ℚ) (thr : Int) (k y : Int) (hcs : 0 < cs) (hk0 : 0 ≤ k)
    (hkw : k < hf.width) (h0 : v0.x = bmin.x + (k : ℚ) * cs)
    (h1 : v1.x = bmin.x + (k : ℚ) * cs) (h2 : v2.x = bmin.x + (k : ℚ) * cs)
    (hov : overlapBounds bmin bmax (triMin v0 v1 v2) (triMax v0 v1 v2) = true)
    (hlen : hf.spans.length = hf.width * hf.height)
    (hyb : ∀ v ∈ [v0, v1, v2], bmin.y ≤ v.y ∧ v.y ≤ bmax.y)
    (hy0 : 0 ≤ y) (hyh : y < hf.height)
    (hfy : (footprint (triMin v0 v1 v2) (triMax v0 v1 v2) bmin (1 / cs)
        hf.width hf.height).2.1 ≤ y ∧
      y ≤ (footprint (triMin v0 v1 v2) (triMax v0 v1 v2) bmin (1 / cs)
        hf.width hf.height).2.2.2)
    (hr1 : 3 ≤ (clipPoly [v0, v1, v2] 0 1 (-(bmin.z + (y : ℚ) * cs))).length)
    (hr2 : 3 ≤ (rowPolygon v0 v1 v2 bmin cs y).length) :
    (rasterizeTri v0 v1 v2 area hf bmin bmax cs (1 / cs) ich thr).col
        (k + y * (hf.width : Int)) =
      addSpanCol (hf.col (k + y * (hf.width : Int)))
        (polygonSpan (rowPolygon v0 v1 v2 bmin cs y) bmin ich).1
        (polygonSpan (rowPolygon v0 v1 v2 bmin cs y) bmin ich).2 area thr := by
  have hfp := footprint_x_plane v0 v1 v2 bmin cs hf.width hf.height k hcs hk0 hkw h0 h1 h2
  have hcp := cellPolygon_x_plane v0 v1 v2 bmin cs k y hcs h0 h1 h2
  have := rasterizeTri_cell v0 v1 v2 area hf bmin bmax cs (1 / cs) ich thr k y hov hk0 hkw
    hy0 hyh ⟨by rw [hfp.1], by rw [hfp.2]⟩ hfy hlen
    ⟨hr1, hr2, by rw [hcp.1]; exact hr2, by rw [hcp.2]; exact hr2⟩ hyb
  rw [hcp.2] at this
  exact this

/-- A triangle in the plane `z = bmin.z + k*cs`: every reached cell of row `k` in
the footprint gets the span of its cell polygon. -/
theorem rasterizeTri_z_plane_cell (v0 v1 v2 : Vec3) (area : Nat) (hf : rcHeightfield)
    (bmin bmax : Vec3) (cs ich : ℚ) (thr : Int) (k x : Int) (hcs : 0 < cs) (hk0 : 0 ≤ k)
    (hkh : k < hf.height) (h0 : v0.z = bmin.z + (k : ℚ) * cs)
    (h1 : v1.z = bmin.z + (k : ℚ) * cs) (h2 : v2.z = bmin.z + (k : ℚ) * cs)
    (hov : overlapBounds bmin bmax (triMin v0 v1 v2) (triMax v0 v1 v2) = true)
    (hlen : hf.spans.length = hf.width * hf.height)
    (hyb : ∀ v ∈ [v0, v1, v2], bmin.y ≤ v.y ∧ v.y ≤ bmax.y)
    (hx0 : 0 ≤ x) (hxw : x < hf.width)
    (hfx : (footprint (triMin v0 v1 v2) (triMax v0 v1 v2) bmin (1 / cs)
        hf.width hf.height).1 ≤ x ∧
      x ≤ (footprint (triMin v0 v1 v2) (triMax v0 v1 v2) bmin (1 / cs)
        hf.width hf.height).2.2.1)
    (hr3 : 3 ≤ (clipPoly [v0, v1, v2] 1 0 (-(bmin.x + (x : ℚ) * cs))).length)
    (hr4 : 3 ≤ (clipPoly (clipPoly [v0, v1, v2] 1 0 (-(bmin.x + (x : ℚ) * cs))) (-1) 0
      (bmin.x + (x : ℚ) * cs + cs)).length) :
    (rasterizeTri v0 v1 v2 area hf bmin bmax cs (1 / cs) ich thr).col
        (x + k * (hf.width : Int)) =
      addSpanCol (hf.col (x + k * (hf.width : Int)))
        (polygonSpan (clipPoly (clipPoly [v0, v1, v2] 1 0 (-(bmin.x + (x : ℚ) * cs))) (-1) 0
          (bmin.x + (x : ℚ) * cs + cs)) bmin ich).1
        (polygonSpan (clipPoly (clipPoly [v0, v1, v2] 1 0 (-(bmin.x + (x : ℚ) * cs))) (-1) 0
          (bmin.x + (x : ℚ) * cs + cs)) bmin ich).2 area thr := by
  have hfp := footprint_z_plane v0 v1 v2 bmin cs hf.width hf.height k hcs hk0 hkh h0 h1 h2
  have hrp := rowPolygon_z_plane v0 v1 v2 bmin cs k hcs h0 h1 h2
  have hcell : cellPolygon v0 v1 v2 bmin cs x k =
      clipPoly (clipPoly [v0, v1, v2] 1 0 (-(bmin.x + (x : ℚ) * cs))) (-1) 0
        (bmin.x + (x : ℚ) * cs + cs) := by
    unfold cellPolygon
    rw [hrp.2]
  have := rasterizeTri_cell v0 v1 v2 area hf bmin bmax cs (1 / cs) ich thr x k hov hx0 hxw
    hk0 hkh hfx ⟨by rw [hfp.1], by rw [hfp.2]⟩ hlen
    ⟨by rw [hrp.1]; simp, by rw [hrp.2]; simp, by rw [hrp.2]; exact hr3,
      by rw [hcell]; exact hr4⟩ hyb
  rw [hcell] at this
  exact this

/-! ## Rasterization: triangles on a cell boundary -/

/-- On exact rationals a triangle lying exactly on a cell boundary plane goes
to the cell whose lower edge the plane is. Let the triangle's box meet the
field's box and its `y` extent lie inside the field. If the triangle lies in
the plane `x = bmin.x + k*cs` with `1 <= k < width`, then `rasterizeTri` leaves
the column of every cell `(x, y)` with `x != k` unchanged, and in every row `y`
of the footprint in which the row polygon keeps at least three vertices the
column of cell `(k, y)` receives exactly one `addSpan` with the snapped `y`
extent of the row polygon. Likewise for a triangle in the plane
`z = bmin.z + k*cs` with `1 <= k < height`. -/
theorem rasterizeTri_on_cell_boundary_exact (v0 v1 v2 : Vec3) (area : Nat) (hf : rcHeightfield)
    (bmin bmax : Vec3) (cs ich : ℚ) (flagMergeThr : Int) (k : Int) (hcs : 0 < cs)
    (hk : 1 ≤ k)
    (hov : overlapBounds bmin bmax (triMin v0 v1 v2) (triMax v0 v1 v2) = true)
    (hlen : hf.spans.length = hf.width * hf.height)
    (hyb : ∀ v ∈ [v0, v1, v2], bmin.y ≤ v.y ∧ v.y ≤ bmax.y) :
    (k < hf.width → v0.x = bmin.x + (k : ℚ) * cs → v1.x = bmin.x + (k : ℚ) * cs →
      v2.x = bmin.x + (k : ℚ) * cs →
      (∀ x y : Int, 0 ≤ x → x < hf.width → x ≠ k →
        (rasterizeTri v0 v1 v2 area hf bmin bmax cs (1 / cs) ich flagMergeThr).col
          (x + y * (hf.width : Int)) = hf.col (x + y * (hf.width : Int))) ∧
      (∀ y : Int, 0 ≤ y → y < hf.height →
        (footprint (triMin v0 v1 v2) (triMax v0 v1 v2) bmin (1 / cs)
          hf.width hf.height).2.1 ≤ y →
        y ≤ (footprint (triMin v0 v1 v2) (triMax v0 v1 v2) bmin (1 / cs)
          hf.width hf.height).2.2.2 →
        3 ≤ (clipPoly [v0, v1, v2] 0 1 (-(bmin.z + (y : ℚ) * cs))).length →
        3 ≤ (rowPolygon v0 v1 v2 bmin cs y).length →
        (rasterizeTri v0 v1 v2 area hf bmin bmax cs (1 / cs) ich flagMergeThr).col
            (k + y * (hf.width : Int)) =
          addSpanCol (hf.col (k + y * (hf.width : Int)))
            (polygonSpan (rowPolygon v0 v1 v2 bmin cs y) bmin ich).1
            (polygonSpan (rowPolygon v0 v1 v2 bmin cs y) bmin ich).2 area flagMergeThr)) ∧
    (k < hf.height → v0.z = bmin.z + (k : ℚ) * cs → v1.z = bmin.z + (k : ℚ) * cs →
      v2.z = bmin.z + (k : ℚ) * cs →
      (∀ x y : Int, 0 ≤ x → x < hf.width → y ≠ k →
        (rasterizeTri v0 v1 v2 area hf bmin bmax cs (1 / cs) ich flagMergeThr).col
          (x + y * (hf.width : Int)) = hf.col (x + y * (hf.width : Int))) ∧
      (∀ x : Int, 0 ≤ x → x < hf.width →
        (footprint (triMin v0 v1 v2) (triMax v0 v1 v2) bmin (1 / cs)
          hf.width hf.height).1 ≤ x →
        x ≤ (footprint (triMin v0 v1 v2) (triMax v0 v1 v2) bmin (1 / cs)
          hf.width hf.height).2.2.1 →
        3 ≤ (clipPoly [v0, v1, v2] 1 0 (-(bmin.x + (x : ℚ) * cs))).length →
        3 ≤ (clipPoly (clipPoly [v0, v1, v2] 1 0 (-(bmin.x + (x : ℚ) * cs))) (-1) 0
          (bmin.x + (x : ℚ) * cs + cs)).length →
        (rasterizeTri v0 v1 v2 area hf bmin bmax cs (1 / cs) ich flagMergeThr).col
            (x + k * (hf.width : Int)) =
          addSpanCol (hf.col (x + k * (hf.width : Int)))
            (polygonSpan (clipPoly (clipPoly [v0, v1, v2] 1 0 (-(bmin.x + (x : ℚ) * cs)))
              (-1) 0 (bmin.x + (x : ℚ) * cs + cs)) bmin ich).1
            (polygonSpan (clipPoly (clipPoly [v0, v1, v2] 1 0 (-(bmin.x + (x : ℚ) * cs)))
              (-1) 0 (bmin.x + (x : ℚ) * cs + cs)) bmin ich).2 area flagMergeThr)) := by
  have hk0 : 0 ≤ k := by omega
  refine ⟨?_, ?_⟩
  · intro hkw h0 h1 h2
    refine ⟨?_, ?_⟩
    · intro x y hx0 hxw hxk
      exact rasterizeTri_x_plane_frame v0 v1 v2 area hf bmin bmax cs ich flagMergeThr k hcs
        hk0 hkw h0 h1 h2 x y hx0 hxw hxk
    · intro y hy0 hyh hf1 hf2 hr1 hr2
      exact rasterizeTri_x_plane_cell v0 v1 v2 area hf bmin bmax cs ich flagMergeThr k y hcs
        hk0 hkw h0 h1 h2 hov hlen hyb hy0 hyh ⟨hf1, hf2⟩ hr1 hr2
  · intro hkh h0 h1 h2
    refine ⟨?_, ?_⟩
    · intro x y hx0 hxw hyk
      exact rasterizeTri_z_plane_frame v0 v1 v2 area hf bmin bmax cs ich flagMergeThr k hcs
        hk0 hkh h0 h1 h2 x y hx0 hxw hyk
    · intro x hx0 hxw hf1 hf2 hr3 hr4
      exact rasterizeTri_z_plane_cell v0 v1 v2 area hf bmin bmax cs ich flagMergeThr k x hcs
        hk0 hkh h0 h1 h2 hov hlen hyb hx0 hxw ⟨hf1, hf2⟩ hr3 hr4

/-! ## The vertex count of a clipped polygon -/

theorem clipPolyLoop_length (pnx pnz pd : ℚ) : ∀ (l : List Vec3) (vj : Vec3),
    (clipPolyLoop pnx pnz pd vj l).length =
      (l.filter (insidePlane pnx pnz pd)).length + crossingsLoop pnx pnz pd vj l
  | [], _ => rfl
  | vi :: rest, vj => by
    unfold clipPolyLoop crossingsLoop
    simp only [List.length_append, clipPolyLoop_length pnx pnz pd rest vi, List.filter_cons]
    have e1 : decide (planeDist pnx pnz pd vj ≥ 0) = insidePlane pnx pnz pd vj := rfl
    have e2 : decide (planeDist pnx pnz pd vi ≥ 0) = insidePlane pnx pnz pd vi := rfl
    rw [e1, e2]
    cases insidePlane pnx pnz pd vj <;> cases insidePlane pnx pnz pd vi <;> simp <;> omega

/-- The output of `clipPoly` has one vertex per kept input vertex and one per
crossing edge. -/
theorem clipPoly_length (inp : List Vec3) (pnx pnz pd : ℚ) :
    (clipPoly inp pnx pnz pd).length =
      (inp.filter (insidePlane pnx pnz pd)).length + crossings inp pnx pnz pd := by
  unfold clipPoly crossings
  cases hlast : inp.getLast? with
  | none =>
    have : inp = [] := List.getLast?_eq_none_iff.1 hlast
    simp [this]
  | some last => exact clipPolyLoop_length pnx pnz pd inp last

theorem crossingsLoop_inside (pnx pnz pd : ℚ) : ∀ (l : List Vec3) (vj : Vec3),
    insidePlane pnx pnz pd vj = true → (∀ v ∈ l, insidePlane pnx pnz pd v = true) →
    crossingsLoop pnx pnz pd vj l = 0
  | [], _, _, _ => rfl
  | vi :: rest, vj, hj, hl => by
    have hi := hl vi (by simp)
    unfold crossingsLoop
    rw [crossingsLoop_inside pnx pnz pd rest vi hi (fun w hw => hl w (List.mem_cons_of_mem _ hw))]
    simp [hj, hi]

/-- A polygon that has a crossing edge has a vertex that is cut away. -/
theorem crossings_pos_filter_lt (inp : List Vec3) (pnx pnz pd : ℚ)
    (h : 0 < crossings inp pnx pnz pd) :
    (inp.filter (insidePlane pnx pnz pd)).length < inp.length := by
  by_contra hge
  have hlen : (inp.filter (insidePlane pnx pnz pd)).length = inp.length :=
    le_antisymm (List.length_filter_le _ _) (not_lt.1 hge)
  have hall : ∀ v ∈ inp, insidePlane pnx pnz pd v = true :=
    List.filter_eq_self.1 ((List.filter_sublist inp).eq_of_length hlen)
  unfold crossings at h
  cases hlast : inp.getLast? with
  | none => rw [hlast] at h; simp at h
  | some last =>
    rw [hlast] at h
    simp only at h
    rw [crossingsLoop_inside pnx pnz pd inp last
      (hall last (List.mem_of_getLast?_eq_some hlast)) hall] at h
    exact absurd h (by decide)

theorem clipPoly_length_le (inp : List Vec3) (pnx pnz pd : ℚ)
    (h2 : crossings inp pnx pnz pd ≤ 2) :
    (clipPoly inp pnx pnz pd).length ≤ inp.length + 1 := by
  rw [clipPoly_length]
  by_cases h0 : crossings inp pnx pnz pd = 0
  · rw [h0]
    have := List.length_filter_le (insidePlane pnx pnz pd) inp
    omega
  · have := crossings_pos_filter_lt inp pnx pnz pd (by omega)
    omega


/-! ## Neighbour links of a compact span -/

theorem ldiff_mask (k m : Nat) : Nat.ldiff (2 ^ k - 1) m = 2 ^ k - 1 - m % 2 ^ k := by
  have hlt : m % 2 ^ k < 2 ^ k := Nat.mod_lt _ (by positivity)
  have e : 2 ^ k - 1 - m % 2 ^ k = 2 ^ k - (m % 2 ^ k + 1) := by omega
  rw [e]
  apply Nat.eq_of_testBit_eq
  intro j
  rw [Nat.testBit_ldiff, Nat.testBit_two_pow_sub_one, Nat.testBit_two_pow_sub_succ hlt,
    Nat.testBit_mod_two_pow]
  cases decide (j < k) <;> cases m.testBit j <;> rfl

/-- The bitwise `d & (2^k - 1)` on a two's-complement integer is the
non-negative remainder of `d` modulo `2^k`. -/
theorem land_mask (d : Int) (k : Nat) : Int.land d ((2 ^ k - 1 : Nat) : Int) = d % 2 ^ k := by
  have hpos : 0 < 2 ^ k := by positivity
  cases d with
  | ofNat m =>
    show ((m &&& (2 ^ k - 1) : Nat) : Int) = _
    rw [Nat.and_pow_two_sub_one_eq_mod]
    push_cast
    rfl
  | negSucc m =>
    show ((Nat.ldiff (2 ^ k - 1) m : Nat) : Int) = _
    rw [ldiff_mask]
    have hlt : m % 2 ^ k < 2 ^ k := Nat.mod_lt _ hpos
    have h1 : Int.negSucc m = -((m : Int) + 1) := rfl
    have h2 : (-((m : Int) + 1)) % (2 ^ k : Int) = ((2 ^ k - 1 - m % 2 ^ k : Nat) : Int) := by
      have hq : -((m : Int) + 1) =
          ((2 ^ k - 1 - m % 2 ^ k : Nat) : Int) + (2 ^ k : Int) * (-((m / 2 ^ k : Nat) : Int) - 1) := by
        have hdm := Nat.div_add_mod m (2 ^ k)
        have hc : ((2 ^ k - 1 - m % 2 ^ k : Nat) : Int) = (2 ^ k : Int) - 1 - ((m % 2 ^ k : Nat) : Int) := by
          rw [Nat.cast_sub (by omega), Nat.cast_sub (by omega)]
          push_cast
          ring
        rw [hc]
        have hm : (m : Int) = (2 ^ k : Int) * ((m / 2 ^ k : Nat) : Int) + ((m % 2 ^ k : Nat) : Int) := by
          exact_mod_cast hdm.symm
        nth_rewrite 1 [hm]
        ring
      rw [hq, Int.add_mul_emod_self_left]
      apply Int.emod_eq_of_lt
      · exact Int.natCast_nonneg _
      · have : 2 ^ k - 1 - m % 2 ^ k < 2 ^ k := by omega
        exact_mod_cast this
    rw [h1, h2]

theorem land_3 (d : Int) : Int.land d 3 = d % 4 := land_mask d 2
theorem land_63 (d : Int) : Int.land d 0x3f = d % 64 := land_mask d 6

theorem testBit_lt_64 (x j : Nat) (hx : x < 64) (hj : 6 ≤ j) : x.testBit j = false := by
  apply Nat.testBit_lt_two_pow
  calc x < 2 ^ 6 := hx
    _ ≤ 2 ^ j := Nat.pow_le_pow_right (by decide) hj

theorem testBit_notUInt_mask (sh j : Nat) :
    (notUInt (0x3f <<< sh)).testBit j =
      (decide (j < 32) && !(decide (sh ≤ j) && decide (j - sh < 6))) := by
  unfold notUInt
  have hlt : (0x3f <<< sh) % 2 ^ 32 < 2 ^ 32 := Nat.mod_lt _ (by positivity)
  have e : 2 ^ 32 - 1 - (0x3f <<< sh) % 2 ^ 32 = 2 ^ 32 - ((0x3f <<< sh) % 2 ^ 32 + 1) := by omega
  have e63 : (0x3f : Nat) = 2 ^ 6 - 1 := by decide
  rw [e, Nat.testBit_two_pow_sub_succ hlt, Nat.testBit_mod_two_pow, Nat.testBit_shiftLeft, e63,
    Nat.testBit_two_pow_sub_one]
  cases decide (j < 32) <;> simp

/-- Bit `j` of the connection word written by `rcSetCon`. -/
theorem setCon_testBit (con x sh j : Nat) (hx : x < 64) :
    ((((con &&& notUInt (0x3f <<< sh)) ||| (x <<< sh) % 2 ^ 32) % 2 ^ 24).testBit j) =
      (decide (j < 24) &&
        (if sh ≤ j ∧ j < sh + 6 then x.testBit (j - sh) else con.testBit j)) := by
  rw [Nat.testBit_mod_two_pow, Nat.testBit_or, Nat.testBit_and, testBit_notUInt_mask,
    Nat.testBit_mod_two_pow, Nat.testBit_shiftLeft]
  by_cases h24 : j < 24
  · have h32 : j < 32 := by omega
    by_cases h1 : sh ≤ j
    · by_cases h2 : j < sh + 6
      · have h3 : j - sh < 6 := by omega
        simp [h24, h32, h1, h2, h3]
      · have h3 : ¬ j - sh < 6 := by omega
        have h4 : x.testBit (j - sh) = false := testBit_lt_64 x _ hx (by omega)
        simp [h24, h32, h1, h2, h3, h4]
    · simp [h24, h32, h1]
  · simp [h24]

theorem getCon_testBit (con sh j : Nat) :
    ((con >>> sh) &&& 0x3f).testBit j = (con.testBit (sh + j) && decide (j < 6)) := by
  have e63 : (0x3f : Nat) = 2 ^ 6 - 1 := by decide
  rw [Nat.testBit_and, Nat.testBit_shiftRight, e63, Nat.testBit_two_pow_sub_one]

/-- The direction shift: `6 * dir` for a direction in `0 .. 3`. -/
theorem dir_shift (dir : Int) (h0 : 0 ≤ dir) (h3 : dir ≤ 3) :
    (toUInt dir * 6) % 2 ^ 32 = 6 * dir.toNat ∧ dir.toNat ≤ 3 := by
  obtain ⟨n, rfl⟩ := Int.eq_ofNat_of_zero_le h0
  have hn : n ≤ 3 := by omega
  have : toUInt (n : Int) = n := by
    unfold toUInt
    rw [Int.emod_eq_of_lt (by omega) (by norm_num; omega)]
    simp
  rw [this]
  constructor
  · simp only [Int.toNat_ofNat]
    norm_num
    omega
  · simpa using hn

theorem toUInt_and_63 (i : Int) : ((toUInt i &&& 0x3f : Nat) : Int) = i % 64 := by
  have e63 : (0x3f : Nat) = 2 ^ 6 - 1 := by decide
  rw [e63, Nat.and_pow_two_sub_one_eq_mod]
  unfold toUInt
  have hnn : 0 ≤ i % 2 ^ 32 := Int.emod_nonneg _ (by norm_num)
  rw [Int.natCast_mod, Int.toNat_of_nonneg hnn]
  have : ((2 : Int) ^ 6) ∣ 2 ^ 32 := ⟨2 ^ 26, by norm_num⟩
  rw [Nat.cast_pow, Nat.cast_ofNat, Int.emod_emod_of_dvd _ this]
  norm_num

theorem toUInt_and_63_lt (i : Int) : toUInt i &&& 0x3f < 64 := by
  have e63 : (0x3f : Nat) = 2 ^ 6 - 1 := by decide
  rw [e63, Nat.and_pow_two_sub_one_eq_mod]
  exact Nat.mod_lt _ (by norm_num)

/-- Reading the direction that was just written gives the six bits stored. -/
theorem getCon_setCon_same (s : rcCompactSpan) (dir i : Int) (h0 : 0 ≤ dir) (h3 : dir ≤ 3) :
    rcGetCon (rcSetCon s dir i) dir = i % 64 := by
  obtain ⟨hs, hd⟩ := dir_shift dir h0 h3
  unfold rcGetCon rcSetCon
  simp only [hs]
  clear hs
  rw [← toUInt_and_63 i]
  congr 1
  apply Nat.eq_of_testBit_eq
  intro j
  rw [getCon_testBit, setCon_testBit _ _ _ _ (toUInt_and_63_lt i)]
  by_cases hj : j < 6
  · have h1 : 6 * dir.toNat + j < 24 := by omega
    have h2 : 6 * dir.toNat ≤ 6 * dir.toNat + j ∧ 6 * dir.toNat + j < 6 * dir.toNat + 6 := by omega
    simp [hj, h1, h2]
  · have := testBit_lt_64 _ j (toUInt_and_63_lt i) (by omega)
    simp [hj, this]

/-- Writing the six bits at `sh` leaves the six bits at a different direction
shift `sh2` as they were. -/
theorem getSet_other (con x sh sh2 : Nat) (hx : x < 64) (h : sh + 6 ≤ sh2 ∨ sh2 + 6 ≤ sh)
    (h24 : sh2 + 6 ≤ 24) :
    ((((con &&& notUInt (0x3f <<< sh)) ||| (x <<< sh) % 2 ^ 32) % 2 ^ 24) >>> sh2) &&& 0x3f =
      (con >>> sh2) &&& 0x3f := by
  apply Nat.eq_of_testBit_eq
  intro j
  rw [getCon_testBit, getCon_testBit, setCon_testBit _ _ _ _ hx]
  by_cases hj : j < 6
  · have h1 : sh2 + j < 24 := by omega
    have h2 : ¬ (sh ≤ sh2 + j ∧ sh2 + j < sh + 6) := by omega
    simp [hj, h1, h2]
  · simp [hj]

/-- Writing one direction leaves the other directions as they were. -/
theorem getCon_setCon_other (s : rcCompactSpan) (dir d i : Int) (h0 : 0 ≤ dir) (h3 : dir ≤ 3)
    (hd0 : 0 ≤ d) (hd3 : d ≤ 3) (hne : d ≠ dir) :
    rcGetCon (rcSetCon s dir i) d = rcGetCon s d := by
  have hs := (dir_shift dir h0 h3).1
  have hs2 := (dir_shift d hd0 hd3).1
  have hA : 6 * dir.toNat + 6 ≤ 6 * d.toNat ∨ 6 * d.toNat + 6 ≤ 6 * dir.toNat := by
    clear hs hs2
    omega
  have hB : 6 * d.toNat + 6 ≤ 24 := by
    clear hs hs2
    omega
  unfold rcGetCon rcSetCon
  simp only [hs, hs2]
  rw [getSet_other s.con _ _ _ (toUInt_and_63_lt i) hA hB]

theorem setCon_frame (s : rcCompactSpan) (dir i : Int) :
    (rcSetCon s dir i).y = s.y ∧ (rcSetCon s dir i).reg = s.reg ∧ (rcSetCon s dir i).h = s.h ∧
      (rcSetCon s dir i).con < 2 ^ 24 :=
  ⟨rfl, rfl, rfl, Nat.mod_lt _ (by norm_num)⟩

/-- C12: for a direction in `0 .. 3` and every integer `i`, `rcGetCon` after
`rcSetCon s dir i` returns `i & 0x3f`; so it returns `i` when `0 <= i <= 63`,
and storing 63 reads back as `RC_NOT_CONNECTED`. -/
theorem rcGetCon_rcSetCon_round_trip (s : rcCompactSpan) (dir i : Int)
    (h0 : 0 ≤ dir) (h3 : dir ≤ 3) :
    rcGetCon (rcSetCon s dir i) dir = Int.land i 0x3f ∧
      (0 ≤ i → i ≤ 63 → rcGetCon (rcSetCon s dir i) dir = i) ∧
      rcGetCon (rcSetCon s dir 63) dir = RC_NOT_CONNECTED := by
  refine ⟨?_, ?_, ?_⟩
  · rw [land_63]
    exact getCon_setCon_same s dir i h0 h3
  · intro hi0 hi63
    rw [getCon_setCon_same s dir i h0 h3]
    omega
  · rw [getCon_setCon_same s dir 63 h0 h3]
    decide

theorem rcGetCon_rcSetCon_round_trip_witness :
    (0 : Int) ≤ 2 ∧ (2 : Int) ≤ 3 ∧
      (rcGetCon (rcSetCon ⟨7, 1, 0xFFFFFF, 3⟩ 2 (-6)) 2 = Int.land (-6) 0x3f ∧
        ((0 : Int) ≤ -6 → (-6 : Int) ≤ 63 →
          rcGetCon (rcSetCon ⟨7, 1, 0xFFFFFF, 3⟩ 2 (-6)) 2 = -6) ∧
        rcGetCon (rcSetCon ⟨7, 1, 0xFFFFFF, 3⟩ 2 63) 2 = RC_NOT_CONNECTED) :=
  ⟨by decide, by decide,
    rcGetCon_rcSetCon_round_trip ⟨7, 1, 0xFFFFFF, 3⟩ 2 (-6) (by decide) (by decide)⟩

/-- C13: for directions `dir` and `d` in `0 .. 3` with `d != dir` and every
integer `i`, `rcSetCon s dir i` leaves `rcGetCon s d` unchanged, leaves `y`,
`reg` and `h` unchanged, and keeps `con` below `2^24`. -/
theorem rcSetCon_frame (s : rcCompactSpan) (dir d i : Int) (_hcon : s.con < 2 ^ 24)
    (h0 : 0 ≤ dir) (h3 : dir ≤ 3) (hd0 : 0 ≤ d) (hd3 : d ≤ 3) (hne : d ≠ dir) :
    rcGetCon (rcSetCon s dir i) d = rcGetCon s d ∧
      (rcSetCon s dir i).y = s.y ∧ (rcSetCon s dir i).reg = s.reg ∧
      (rcSetCon s dir i).h = s.h ∧ (rcSetCon s dir i).con < 2 ^ 24 :=
  ⟨getCon_setCon_other s dir d i h0 h3 hd0 hd3 hne, setCon_frame s dir i⟩

theorem rcSetCon_frame_witness :
    (rcCompactSpan.mk 7 1 0xABCDEF 3).con < 2 ^ 24 ∧
      (rcGetCon (rcSetCon ⟨7, 1, 0xABCDEF, 3⟩ 1 (-6)) 3 = rcGetCon ⟨7, 1, 0xABCDEF, 3⟩ 3 ∧
        (rcSetCon ⟨7, 1, 0xABCDEF, 3⟩ 1 (-6)).y = 7 ∧
        (rcSetCon ⟨7, 1, 0xABCDEF, 3⟩ 1 (-6)).reg = 1 ∧
        (rcSetCon ⟨7, 1, 0xABCDEF, 3⟩ 1 (-6)).h = 3 ∧
        (rcSetCon ⟨7, 1, 0xABCDEF, 3⟩ 1 (-6)).con < 2 ^ 24) :=
  ⟨by decide,
    rcSetCon_frame ⟨7, 1, 0xABCDEF, 3⟩ 1 3 (-6) (by decide) (by decide) (by decide) (by decide)
      (by decide) (by decide)⟩

/-! ## The direction table -/

theorem dirOffset_mod (d : Int) :
    rcGetDirOffsetX (d % 4) = rcGetDirOffsetX d ∧ rcGetDirOffsetY (d % 4) = rcGetDirOffsetY d := by
  unfold rcGetDirOffsetX rcGetDirOffsetY
  rw [Int.emod_emod_of_dvd d (dvd_refl 4)]
  exact ⟨rfl, rfl⟩

theorem dirOffset_opposite (d : Int) :
    rcGetDirOffsetX ((d + 2) % 4) = - rcGetDirOffsetX d ∧
      rcGetDirOffsetY ((d + 2) % 4) = - rcGetDirOffsetY d := by
  rw [(dirOffset_mod (d + 2)).1, (dirOffset_mod (d + 2)).2]
  have h : d % 4 = 0 ∨ d % 4 = 1 ∨ d % 4 = 2 ∨ d % 4 = 3 := by omega
  unfold rcGetDirOffsetX rcGetDirOffsetY
  rcases h with h | h | h | h
  · have h2 : (d + 2) % 4 = 2 := by omega
    rw [h, h2]; decide
  · have h2 : (d + 2) % 4 = 3 := by omega
    rw [h, h2]; decide
  · have h2 : (d + 2) % 4 = 0 := by omega
    rw [h, h2]; decide
  · have h2 : (d + 2) % 4 = 1 := by omega
    rw [h, h2]; decide

/-- C14: the offsets of the directions 0, 1, 2, 3 are (-1,0), (0,+1), (+1,0),
(0,-1); for every `d` the offsets depend only on `d & 3`, and the offsets of
`(d+2) & 3` are the negations of the offsets of `d`. -/
theorem rcGetDirOffset_table (d : Int) :
    (rcGetDirOffsetX 0, rcGetDirOffsetY 0) = (-1, 0) ∧
      (rcGetDirOffsetX 1, rcGetDirOffsetY 1) = (0, 1) ∧
      (rcGetDirOffsetX 2, rcGetDirOffsetY 2) = (1, 0) ∧
      (rcGetDirOffsetX 3, rcGetDirOffsetY 3) = (0, -1) ∧
      rcGetDirOffsetX d = rcGetDirOffsetX (Int.land d 3) ∧
      rcGetDirOffsetY d = rcGetDirOffsetY (Int.land d 3) ∧
      rcGetDirOffsetX (Int.land (d + 2) 3) = - rcGetDirOffsetX d ∧
      rcGetDirOffsetY (Int.land (d + 2) 3) = - rcGetDirOffsetY d := by
  rw [land_3, land_3]
  exact ⟨by decide, by decide, by decide, by decide, (dirOffset_mod d).1.symm,
    (dirOffset_mod d).2.symm, (dirOffset_opposite d).1, (dirOffset_opposite d).2⟩

/-! ## The timer gate of the build context -/

/-- C15: when the timers of a context are disabled, `getAccumulatedTime` returns
-1 whatever the hook would return, and `startTimer`, `stopTimer` and
`resetTimers` change nothing and invoke no hook; when the timers are enabled,
each of them invokes its own hook exactly once. -/
theorem rcContext_timer_gate {σ : Type} (hk : rcContextHooks σ) (label : rcTimerLabel)
    (c : rcContext σ) :
    (c.m_timerEnabled = false →
      c.getAccumulatedTime hk label = (-1, c) ∧ c.startTimer hk label = c ∧
        c.stopTimer hk label = c ∧ c.resetTimers hk = c) ∧
    (c.m_timerEnabled = true →
      (c.getAccumulatedTime hk label).1 = hk.doGetAccumulatedTime label c.derived ∧
        (c.getAccumulatedTime hk label).2.calls =
          c.calls ++ [HookCall.doGetAccumulatedTime label] ∧
        (c.getAccumulatedTime hk label).2.derived = c.derived ∧
        (c.startTimer hk label).calls = c.calls ++ [HookCall.doStartTimer label] ∧
        (c.startTimer hk label).derived = hk.doStartTimer label c.derived ∧
        (c.stopTimer hk label).calls = c.calls ++ [HookCall.doStopTimer label] ∧
        (c.stopTimer hk label).derived = hk.doStopTimer label c.derived ∧
        (c.resetTimers hk).calls = c.calls ++ [HookCall.doResetTimers] ∧
        (c.resetTimers hk).derived = hk.doResetTimers c.derived) := by
  constructor
  · intro h
    simp [rcContext.getAccumulatedTime, rcContext.startTimer, rcContext.stopTimer,
      rcContext.resetTimers, h]
  · intro h
    simp [rcContext.getAccumulatedTime, rcContext.startTimer, rcContext.stopTimer,
      rcContext.resetTimers, rcContext.invoke, h]

theorem rcContext_timer_gate_witness :
    ((rcContext.init false (5 : Nat)).m_timerEnabled = false ∧
      (rcContext.init false (5 : Nat)).getAccumulatedTime countingHooks 1 =
        (-1, rcContext.init false (5 : Nat))) ∧
    ((rcContext.init true (5 : Nat)).m_timerEnabled = true ∧
      ((rcContext.init true (5 : Nat)).startTimer countingHooks 1).calls =
        (rcContext.init true (5 : Nat)).calls ++ [HookCall.doStartTimer 1]) :=
  ⟨⟨rfl, ((rcContext_timer_gate countingHooks 1 (rcContext.init false (5 : Nat))).1 rfl).1⟩,
    ⟨rfl, ((rcContext_timer_gate countingHooks 1 (rcContext.init true (5 : Nat))).2 rfl).2.2.2.1⟩⟩

/-! ## The order of the low-hanging filter and the ledge filter -/

/-- C16: the low-hanging filter can override the ledge filter. There are a
well-formed heightfield, a `walkableHeight`, a `walkableClimb` and a walkable
span `s` such that `rcFilterLedgeSpans` marks `s` unwalkable, the low-hanging
filter applied after it makes `s` walkable again, and with the low-hanging
filter applied first and the ledge filter second `s` ends unwalkable. -/
theorem lowHanging_overrides_ledge :
    ∃ (hf : rcHeightfield) (walkableHeight walkableClimb : Int) (idx : Int) (s : rcSpan),
      (∀ c ∈ hf.spans, columnOk c) ∧ hf.spans.length = hf.width * hf.height ∧
      s ∈ hf.col idx ∧ s.area ≠ RC_NULL_AREA ∧
      { s with area := RC_NULL_AREA } ∈
        (rcFilterLedgeSpans walkableHeight walkableClimb hf).col idx ∧
      s ∈ (rcFilterLowHangingWalkableObstacles walkableClimb
            (rcFilterLedgeSpans walkableHeight walkableClimb hf)).col idx ∧
      { s with area := RC_NULL_AREA } ∈ (rcFilterLedgeSpans walkableHeight walkableClimb
            (rcFilterLowHangingWalkableObstacles walkableClimb hf)).col idx ∧
      s ∉ (rcFilterLedgeSpans walkableHeight walkableClimb
            (rcFilterLowHangingWalkableObstacles walkableClimb hf)).col idx :=
  ⟨crossField [⟨0, 5, 63⟩, ⟨6, 7, 63⟩] [⟨0, 1, 63⟩] [⟨0, 1, 63⟩] [⟨0, 1, 63⟩] [⟨0, 1, 63⟩],
    3, 2, 4, ⟨6, 7, 63⟩, by decide⟩

/-! ## The thresholds of the low-hanging and ledge filters -/

/-- An unwalkable span directly above a walkable span is made walkable by the
low-hanging filter exactly when their tops differ by at most `walkableClimb`. -/
theorem lowHanging_threshold (wC : Int) (hf : rcHeightfield) (x y : Nat)
    (hx : x < hf.width) (hy : y < hf.height) (i : Nat) (b s : rcSpan)
    (hb : (hf.col ((x : Int) + (y : Int) * (hf.width : Int)))[i]? = some b)
    (hs : (hf.col ((x : Int) + (y : Int) * (hf.width : Int)))[i + 1]? = some s)
    (hbw : b.area ≠ RC_NULL_AREA) (hsn : s.area = RC_NULL_AREA) :
    ∃ t, ((rcFilterLowHangingWalkableObstacles wC hf).col
        ((x : Int) + (y : Int) * (hf.width : Int)))[i + 1]? = some t ∧
      (t.area ≠ RC_NULL_AREA ↔ rcAbs ((s.smax : Int) - (b.smax : Int)) ≤ wC) := by
  have h := lowHanging_per_span wC hf x y hx hy (i + 1)
  rw [hs] at h
  simp only [Nat.add_one_ne_zero, if_false, Nat.add_sub_cancel, hb, Option.map_some'] at h
  refine ⟨_, h, ?_⟩
  unfold lowHangingRule
  simp only [rcAbs_eq_abs]
  by_cases hc : |(s.smax : Int) - (b.smax : Int)| ≤ wC
  · simp [hsn, hbw, hc]
  · simp [hsn, hc]

theorem openAbove_mem : ∀ (col : List rcSpan) (j : Nat) (ns : rcSpan),
    col[j]? = some ns → ((ns.smax : Int), spanTop (col.drop (j + 1))) ∈ openAbove col
  | [], _, _, h => by simp at h
  | c :: rest, 0, ns, h => by
    simp only [List.getElem?_cons_zero, Option.some.injEq] at h
    subst h
    simp [openAbove]
  | c :: rest, j + 1, ns, h => by
    simp only [List.getElem?_cons_succ] at h
    have := openAbove_mem rest j ns h
    simp only [openAbove, List.drop_succ_cons, List.mem_cons]
    exact Or.inr this

/-- A walkable span with an in-grid neighbour span that shares more than
`walkableHeight` of open space with it and lies more than `walkableClimb` lower
is marked unwalkable by the ledge filter. -/
theorem ledge_lower_neighbour (wH wC : Int) (hwC : 0 ≤ wC) (hf : rcHeightfield) (x y : Nat)
    (hx : x < hf.width) (hy : y < hf.height) (i : Nat) (s : rcSpan)
    (hs : (hf.col ((x : Int) + (y : Int) * (hf.width : Int)))[i]? = some s)
    (hw : s.area ≠ RC_NULL_AREA)
    (c : Int × Int) (hc : c ∈ neighbourCells x y) (hin : inGrid hf c = true)
    (j : Nat) (ns : rcSpan) (hns : (hf.col (c.1 + c.2 * (hf.width : Int)))[j]? = some ns)
    (hgap : rcMin (spanTop ((hf.col ((x : Int) + (y : Int) * (hf.width : Int))).drop (i + 1)))
        (spanTop ((hf.col (c.1 + c.2 * (hf.width : Int))).drop (j + 1))) -
      rcMax (s.smax : Int) (ns.smax : Int) > wH)
    (hlow : (ns.smax : Int) - (s.smax : Int) < -wC) :
    ((rcFilterLedgeSpans wH wC hf).col ((x : Int) + (y : Int) * (hf.width : Int)))[i]? =
      some { s with area := RC_NULL_AREA } := by
  rw [ledge_per_span wH wC hwC hf x y hx hy i, hs]
  simp only [Option.map_some', Option.some.injEq]
  have hled : isLedgeCode hf wH wC x y (s.smax : Int)
      (spanTop ((hf.col ((x : Int) + (y : Int) * (hf.width : Int))).drop (i + 1))) = true := by
    unfold isLedgeCode
    rw [ledgeTest_iff]
    left
    refine ⟨(ns.smax : Int) - (s.smax : Int), ?_, hlow⟩
    unfold ledgeDropsCode
    rw [List.mem_flatMap]
    refine ⟨c, hc, ?_⟩
    rw [if_pos hin]
    apply List.mem_append_right
    rw [List.mem_map]
    refine ⟨(ns.smax : Int), ?_, rfl⟩
    unfold neighbourFloors
    rw [List.mem_map]
    refine ⟨((ns.smax : Int), spanTop ((hf.col (c.1 + c.2 * (hf.width : Int))).drop (j + 1))),
      ?_, rfl⟩
    rw [List.mem_filter]
    refine ⟨openAbove_mem _ j ns hns, ?_⟩
    unfold gapOk
    rw [rcMin_int, rcMax_int] at hgap
    simpa using hgap
  unfold ledgeRule
  simp [hw, hled]

/-- C19 (amended): for every heightfield and `walkableClimb`, an unwalkable span
directly above a walkable span of the same column is made walkable by
`rcFilterLowHangingWalkableObstacles` if and only if
`rcAbs(currentSpan.smax - spanBelow.smax) <= walkableClimb`. -/
theorem rcFilterLowHangingWalkableObstacles_threshold (walkableClimb : Int)
    (hf : rcHeightfield) (x y : Nat) (hx : x < hf.width) (hy : y < hf.height) (i : Nat)
    (b s : rcSpan)
    (hb : (hf.col ((x : Int) + (y : Int) * (hf.width : Int)))[i]? = some b)
    (hs : (hf.col ((x : Int) + (y : Int) * (hf.width : Int)))[i + 1]? = some s)
    (hbw : b.area ≠ RC_NULL_AREA) (hsn : s.area = RC_NULL_AREA) :
    ∃ t, ((rcFilterLowHangingWalkableObstacles walkableClimb hf).col
        ((x : Int) + (y : Int) * (hf.width : Int)))[i + 1]? = some t ∧
      (t.area ≠ RC_NULL_AREA ↔ rcAbs ((s.smax : Int) - (b.smax : Int)) ≤ walkableClimb) :=
  lowHanging_threshold walkableClimb hf x y hx hy i b s hb hs hbw hsn

theorem rcFilterLowHangingWalkableObstacles_threshold_witness :
    (0 < (oneCell [⟨0, 2, 63⟩, ⟨3, 4, 0⟩]).width ∧ 0 < (oneCell [⟨0, 2, 63⟩, ⟨3, 4, 0⟩]).height ∧
      (⟨0, 2, 63⟩ : rcSpan).area ≠ RC_NULL_AREA ∧ (⟨3, 4, 0⟩ : rcSpan).area = RC_NULL_AREA) ∧
    ∃ t, ((rcFilterLowHangingWalkableObstacles 2 (oneCell [⟨0, 2, 63⟩, ⟨3, 4, 0⟩])).col
        (((0 : Nat) : Int) + ((0 : Nat) : Int) *
          ((oneCell [⟨0, 2, 63⟩, ⟨3, 4, 0⟩]).width : Int)))[0 + 1]? = some t ∧
      (t.area ≠ RC_NULL_AREA ↔
        rcAbs (((⟨3, 4, 0⟩ : rcSpan).smax : Int) - ((⟨0, 2, 63⟩ : rcSpan).smax : Int)) ≤ 2) :=
  ⟨⟨by decide, by decide, by decide, by decide⟩,
    rcFilterLowHangingWalkableObstacles_threshold 2 (oneCell [⟨0, 2, 63⟩, ⟨3, 4, 0⟩]) 0 0
      (by decide) (by decide) 0 ⟨0, 2, 63⟩ ⟨3, 4, 0⟩ (by decide) (by decide) (by decide)
      (by decide)⟩

/-- C19 as stated fails at equality. With `walkableClimb = 2` the unwalkable span
`[3, 4]` lies directly above the walkable span `[0, 2]`; the tops differ by
exactly 2, which is not strictly less than `walkableClimb`, and the filter makes
the span walkable: the test of the source is `<=`. -/
theorem rcFilterLowHangingWalkableObstacles_threshold_counterexample :
    rcAbs (((⟨3, 4, 0⟩ : rcSpan).smax : Int) - ((⟨0, 2, 63⟩ : rcSpan).smax : Int)) = 2 ∧
    ¬ rcAbs (((⟨3, 4, 0⟩ : rcSpan).smax : Int) - ((⟨0, 2, 63⟩ : rcSpan).smax : Int)) < 2 ∧
    (rcFilterLowHangingWalkableObstacles 2 (oneCell [⟨0, 2, 63⟩, ⟨3, 4, 0⟩])).spans =
      [[⟨0, 2, 63⟩, ⟨3, 4, 63⟩]] := by
  decide

/-- C20 (amended): for every heightfield, `walkableHeight` and
`walkableClimb >= 0`, a walkable span is marked unwalkable by
`rcFilterLedgeSpans` whenever one of its in-grid 4-neighbour columns holds a
span that shares more than `walkableHeight` of open space with it and whose
`smax` is lower than the span's `smax` by more than `walkableClimb`. -/
theorem rcFilterLedgeSpans_lower_neighbour (walkableHeight walkableClimb : Int)
    (hwC : 0 ≤ walkableClimb) (hf : rcHeightfield) (x y : Nat)
    (hx : x < hf.width) (hy : y < hf.height) (i : Nat) (s : rcSpan)
    (hs : (hf.col ((x : Int) + (y : Int) * (hf.width : Int)))[i]? = some s)
    (hw : s.area ≠ RC_NULL_AREA)
    (c : Int × Int) (hc : c ∈ neighbourCells x y) (hin : inGrid hf c = true)
    (j : Nat) (ns : rcSpan) (hns : (hf.col (c.1 + c.2 * (hf.width : Int)))[j]? = some ns)
    (hgap : rcMin (spanTop ((hf.col ((x : Int) + (y : Int) * (hf.width : Int))).drop (i + 1)))
        (spanTop ((hf.col (c.1 + c.2 * (hf.width : Int))).drop (j + 1))) -
      rcMax (s.smax : Int) (ns.smax : Int) > walkableHeight)
    (hlow : (ns.smax : Int) - (s.smax : Int) < -walkableClimb) :
    ((rcFilterLedgeSpans walkableHeight walkableClimb hf).col
        ((x : Int) + (y : Int) * (hf.width : Int)))[i]? =
      some { s with area := RC_NULL_AREA } :=
  ledge_lower_neighbour walkableHeight walkableClimb hwC hf x y hx hy i s hs hw c hc hin j ns
    hns hgap hlow

/-- Witness of C20: the centre span `[0, 10]` of a 3x3 field whose west
neighbour holds a span `[0, 1]`, nine cells lower. -/
theorem rcFilterLedgeSpans_lower_neighbour_witness :
    ((0 : Int) ≤ 1 ∧ 1 < (crossField [⟨0, 10, 63⟩] [⟨0, 1, 63⟩] [⟨0, 10, 63⟩] [⟨0, 10, 63⟩] [⟨0, 10, 63⟩]).width ∧ 1 < (crossField [⟨0, 10, 63⟩] [⟨0, 1, 63⟩] [⟨0, 10, 63⟩] [⟨0, 10, 63⟩] [⟨0, 10, 63⟩]).height ∧
      (⟨0, 10, 63⟩ : rcSpan).area ≠ RC_NULL_AREA ∧
      (((0 : Int), (1 : Int)) ∈ neighbourCells ((1 : Nat) : Int) ((1 : Nat) : Int)) ∧
      inGrid (crossField [⟨0, 10, 63⟩] [⟨0, 1, 63⟩] [⟨0, 10, 63⟩] [⟨0, 10, 63⟩] [⟨0, 10, 63⟩]) ((0 : Int), (1 : Int)) = true ∧
      ((⟨0, 1, 63⟩ : rcSpan).smax : Int) - ((⟨0, 10, 63⟩ : rcSpan).smax : Int) < -1) ∧
    ((rcFilterLedgeSpans 3 1 (crossField [⟨0, 10, 63⟩] [⟨0, 1, 63⟩] [⟨0, 10, 63⟩] [⟨0, 10, 63⟩] [⟨0, 10, 63⟩])).col
        (((1 : Nat) : Int) + ((1 : Nat) : Int) * ((crossField [⟨0, 10, 63⟩] [⟨0, 1, 63⟩] [⟨0, 10, 63⟩] [⟨0, 10, 63⟩] [⟨0, 10, 63⟩]).width : Int)))[0]? =
      some { (⟨0, 10, 63⟩ : rcSpan) with area := RC_NULL_AREA } :=
  ⟨⟨by decide, by decide, by decide, by decide, by decide, by decide, by decide⟩,
    rcFilterLedgeSpans_lower_neighbour 3 1 (by decide) (crossField [⟨0, 10, 63⟩] [⟨0, 1, 63⟩] [⟨0, 10, 63⟩] [⟨0, 10, 63⟩] [⟨0, 10, 63⟩]) 1 1 (by decide) (by decide) 0
      ⟨0, 10, 63⟩ (by decide) (by decide) ((0 : Int), (1 : Int)) (by decide) (by decide) 0
      ⟨0, 1, 63⟩ (by decide) (by decide) (by decide)⟩

/-- C20 as stated fails for a higher neighbour. In a 3x3 field the centre cell
and three of its neighbours hold a span `[0, 1]` and the east neighbour holds a
span `[0, 10]`, whose top is 9 above the centre span's top and which shares
more than `walkableHeight = 3` of open space with it. With `walkableClimb = 1`
the difference of the tops exceeds `walkableClimb`, and the centre span stays
walkable. -/
theorem rcFilterLedgeSpans_lower_neighbour_counterexample :
    rcAbs (((⟨0, 1, 63⟩ : rcSpan).smax : Int) - ((⟨0, 10, 63⟩ : rcSpan).smax : Int)) > 1 ∧
    rcMin (spanTop []) (spanTop []) -
      rcMax (((⟨0, 1, 63⟩ : rcSpan).smax : Int)) (((⟨0, 10, 63⟩ : rcSpan).smax : Int)) > 3 ∧
    (crossField [⟨0, 1, 63⟩] [⟨0, 1, 63⟩] [⟨0, 1, 63⟩] [⟨0, 10, 63⟩] [⟨0, 1, 63⟩]).col 5 =
      [⟨0, 10, 63⟩] ∧
    (crossField [⟨0, 1, 63⟩] [⟨0, 1, 63⟩] [⟨0, 1, 63⟩] [⟨0, 10, 63⟩] [⟨0, 1, 63⟩]).col 4 =
      [⟨0, 1, 63⟩] ∧
    (rcFilterLedgeSpans 3 1
      (crossField [⟨0, 1, 63⟩] [⟨0, 1, 63⟩] [⟨0, 1, 63⟩] [⟨0, 10, 63⟩] [⟨0, 1, 63⟩])).col 4 =
      [⟨0, 1, 63⟩] := by
  decide

/-! ## Heightfields whose spans all carry one area id -/

theorem rcSpan_ext (a b : rcSpan) (h1 : a.smin = b.smin) (h2 : a.smax = b.smax)
    (h3 : a.area = b.area) : a = b := by
  cases a
  cases b
  simp_all

theorem mergeSpan_area (thr : Int) (a : Nat) (s cur : rcSpan) (hs : s.area = a)
    (hc : cur.area = a) : (mergeSpan thr s cur).area = a := by
  unfold mergeSpan
  by_cases h1 : cur.smin < s.smin <;> by_cases h2 : cur.smax > s.smax <;>
    simp only [h1, h2, if_true, if_false] <;> split <;> simp [rcMax, hs, hc]

/-- Merging two spans of equal area does not depend on `flagMergeThr`. -/
theorem mergeSpan_uniform (thr thr2 : Int) (a : Nat) (s cur : rcSpan) (hs : s.area = a)
    (hc : cur.area = a) : mergeSpan thr s cur = mergeSpan thr2 s cur :=
  rcSpan_ext _ _ ((mergeSpan_smin thr s cur).trans (mergeSpan_smin thr2 s cur).symm)
    ((mergeSpan_smax thr s cur).trans (mergeSpan_smax thr2 s cur).symm)
    ((mergeSpan_area thr a s cur hs hc).trans (mergeSpan_area thr2 a s cur hs hc).symm)

theorem addSpanLoop_uniform (thr thr2 : Int) (a : Nat) : ∀ (col : List rcSpan) (s : rcSpan),
    s.area = a → (∀ t ∈ col, t.area = a) →
    addSpanLoop thr s col = addSpanLoop thr2 s col ∧ ∀ t ∈ addSpanLoop thr s col, t.area = a
  | [], s, hs, _ => by
    simp [addSpanLoop, hs]
  | cur :: next, s, hs, hcol => by
    have hcur := hcol cur (by simp)
    have hnext : ∀ t ∈ next, t.area = a := fun t ht => hcol t (List.mem_cons_of_mem _ ht)
    unfold addSpanLoop
    by_cases h1 : cur.smin > s.smax
    · simp only [h1, if_true, true_and]
      intro t ht
      rcases List.mem_cons.1 ht with rfl | ht
      · exact hs
      · exact hcol t ht
    · simp only [h1, if_false]
      by_cases h2 : cur.smax < s.smin
      · simp only [h2, if_true]
        have ih := addSpanLoop_uniform thr thr2 a next s hs hnext
        refine ⟨by rw [ih.1], ?_⟩
        intro t ht
        rcases List.mem_cons.1 ht with rfl | ht
        · exact hcur
        · exact ih.2 t ht
      · simp only [h2, if_false]
        have ih := addSpanLoop_uniform thr thr2 a next (mergeSpan thr s cur)
          (mergeSpan_area thr a s cur hs hcur) hnext
        rw [ih.1, mergeSpan_uniform thr thr2 a s cur hs hcur]
        refine ⟨rfl, ?_⟩
        rw [← mergeSpan_uniform thr thr2 a s cur hs hcur, ← ih.1]
        exact ih.2

theorem addSpanCol_uniform (thr thr2 : Int) (area : Nat) (col : List rcSpan)
    (smin smax : Nat) (hcol : ∀ t ∈ col, t.area = area % 2 ^ 6) :
    addSpanCol col smin smax area thr = addSpanCol col smin smax area thr2 ∧
      ∀ t ∈ addSpanCol col smin smax area thr, t.area = area % 2 ^ 6 := by
  rw [addSpanCol_eq_loop, addSpanCol_eq_loop]
  exact addSpanLoop_uniform thr thr2 _ col _ rfl hcol

theorem col_uniform (a : Nat) (hf : rcHeightfield) (h : uniformArea a hf) (idx : Int) :
    ∀ t ∈ hf.col idx, t.area = a := by
  unfold rcHeightfield.col
  split
  · intro t ht
    simp at ht
  · rw [List.getD_eq_getElem?_getD]
    cases hget : hf.spans[idx.toNat]? with
    | none =>
      intro t ht
      simp at ht
    | some c => exact h c (List.getElem?_mem hget)

theorem setCol_uniform (a : Nat) (hf : rcHeightfield) (h : uniformArea a hf) (idx : Int)
    (c : List rcSpan) (hc : ∀ t ∈ c, t.area = a) : uniformArea a (hf.setCol idx c) := by
  unfold rcHeightfield.setCol
  split
  · exact h
  · intro d hd
    rcases List.mem_or_eq_of_mem_set hd with hd | rfl
    · exact h d hd
    · exact hc

/-- On a heightfield whose spans all carry the area of the new span, `addSpan`
does not depend on `flagMergeThr` and keeps the areas uniform. -/
theorem addSpan_uniform (thr thr2 : Int) (area : Nat) (hf : rcHeightfield)
    (h : uniformArea (area % 2 ^ 6) hf) (x y : Int) (smin smax : Nat) :
    addSpan hf x y smin smax area thr = addSpan hf x y smin smax area thr2 ∧
      uniformArea (area % 2 ^ 6) (addSpan hf x y smin smax area thr) := by
  unfold addSpan
  have hc := addSpanCol_uniform thr thr2 area (hf.col (x + y * hf.width)) smin smax
    (col_uniform _ hf h _)
  simp only
  rw [hc.1]
  refine ⟨rfl, ?_⟩
  rw [← hc.1]
  exact setCol_uniform _ hf h _ _ hc.2

theorem foldl_uniform {α : Type} (U : rcHeightfield → Prop)
    (f g : rcHeightfield → α → rcHeightfield)
    (h : ∀ hf a, U hf → f hf a = g hf a ∧ U (f hf a)) :
    ∀ (l : List α) (hf : rcHeightfield), U hf →
      l.foldl f hf = l.foldl g hf ∧ U (l.foldl f hf)
  | [], _, hU => ⟨rfl, hU⟩
  | a :: l, hf, hU => by
    have h1 := h hf a hU
    have ih := foldl_uniform U f g h l (f hf a) h1.2
    simp only [List.foldl_cons]
    rw [← h1.1]
    exact ih

theorem rasterizeCell_uniform (thr thr2 : Int) (inrow : List Vec3) (area : Nat)
    (bmin : Vec3) (bY cs ich : ℚ) (y : Int) (hf : rcHeightfield) (x : Int)
    (h : uniformArea (area % 2 ^ 6) hf) :
    rasterizeCell inrow area bmin bY cs ich thr y hf x =
        rasterizeCell inrow area bmin bY cs ich thr2 y hf x ∧
      uniformArea (area % 2 ^ 6) (rasterizeCell inrow area bmin bY cs ich thr y hf x) := by
  unfold rasterizeCell
  simp only
  split
  · exact ⟨rfl, h⟩
  · split
    · exact ⟨rfl, h⟩
    · split
      · exact ⟨rfl, h⟩
      · split
        · exact ⟨rfl, h⟩
        · exact addSpan_uniform thr thr2 area hf h _ _ _ _

theorem rasterizeRow_uniform (thr thr2 : Int) (v0 v1 v2 : Vec3) (area : Nat)
    (bmin : Vec3) (bY cs ich : ℚ) (x0 x1 : Int) (hf : rcHeightfield) (y : Int)
    (h : uniformArea (area % 2 ^ 6) hf) :
    rasterizeRow v0 v1 v2 area bmin bY cs ich thr x0 x1 hf y =
        rasterizeRow v0 v1 v2 area bmin bY cs ich thr2 x0 x1 hf y ∧
      uniformArea (area % 2 ^ 6) (rasterizeRow v0 v1 v2 area bmin bY cs ich thr x0 x1 hf y) := by
  unfold rasterizeRow
  simp only
  split
  · exact ⟨rfl, h⟩
  · split
    · exact ⟨rfl, h⟩
    · exact foldl_uniform (uniformArea (area % 2 ^ 6)) _ _
        (fun g x hg => rasterizeCell_uniform thr thr2 _ area bmin bY cs ich y g x hg) _ hf h

theorem rasterizeTri_uniform (thr thr2 : Int) (v0 v1 v2 : Vec3) (area : Nat)
    (hf : rcHeightfield) (bmin bmax : Vec3) (cs ics ich : ℚ)
    (h : uniformArea (area % 2 ^ 6) hf) :
    rasterizeTri v0 v1 v2 area hf bmin bmax cs ics ich thr =
        rasterizeTri v0 v1 v2 area hf bmin bmax cs ics ich thr2 ∧
      uniformArea (area % 2 ^ 6) (rasterizeTri v0 v1 v2 area hf bmin bmax cs ics ich thr) := by
  unfold rasterizeTri
  simp only
  split
  · exact ⟨rfl, h⟩
  · exact foldl_uniform (uniformArea (area % 2 ^ 6)) _ _
      (fun g y hg => rasterizeRow_uniform thr thr2 v0 v1 v2 area bmin _ cs ich _ _ g y hg) _ hf h

/-- On a heightfield whose spans all carry the area of the triangle,
`rcRasterizeTriangle` does not depend on `flagMergeThr` and keeps the areas
uniform. -/
theorem rcRasterizeTriangle_uniform (thr thr2 : Int) (v0 v1 v2 : Vec3) (area : Nat)
    (hf : rcHeightfield) (h : uniformArea (area % 2 ^ 6) hf) :
    rcRasterizeTriangle v0 v1 v2 area hf thr = rcRasterizeTriangle v0 v1 v2 area hf thr2 ∧
      uniformArea (area % 2 ^ 6) (rcRasterizeTriangle v0 v1 v2 area hf thr) :=
  rasterizeTri_uniform thr thr2 v0 v1 v2 area hf _ _ _ _ _ h



/-! ## Unwalkable geometry stays unwalkable -/

theorem lowHangingLoop_null (wC : Int) : ∀ (col : List rcSpan) (ps : Option rcSpan) (pa : Nat),
    (∀ t ∈ col, t.area = RC_NULL_AREA) →
    ∀ t ∈ lowHangingLoop wC ps false pa col, t.area = RC_NULL_AREA
  | [], _, _, _ => by simp [lowHangingLoop]
  | s :: next, ps, pa, h => by
    have hs := h s (by simp)
    have hnext : ∀ t ∈ next, t.area = RC_NULL_AREA := fun t ht => h t (List.mem_cons_of_mem _ ht)
    have h1 : lowHangingSpan wC ps false pa s = s := by simp [lowHangingSpan]
    have h2 : (s.area != RC_NULL_AREA) = false := by simp [hs]
    unfold lowHangingLoop
    simp only [h1, h2]
    intro t ht
    rcases List.mem_cons.1 ht with rfl | ht
    · exact hs
    · exact lowHangingLoop_null wC next _ _ hnext t ht

theorem zeroIf_null (p : Nat × Nat → Int → Bool) : ∀ (col : List rcSpan),
    (∀ t ∈ col, t.area = RC_NULL_AREA) → ∀ t ∈ zeroIf p col, t.area = RC_NULL_AREA
  | [], _ => by simp [zeroIf]
  | s :: next, h => by
    have hs := h s (by simp)
    have hnext : ∀ t ∈ next, t.area = RC_NULL_AREA := fun t ht => h t (List.mem_cons_of_mem _ ht)
    unfold zeroIf
    intro t ht
    rcases List.mem_cons.1 ht with rfl | ht
    · split
      · rfl
      · exact hs
    · exact zeroIf_null p next hnext t ht

/-- A pass that rewrites each column by a function keeping null columns null
keeps a heightfield of null spans null. -/
theorem uniform_of_spec (hf out : rcHeightfield) (g : Nat → List rcSpan → List rcSpan)
    (hspec : ∀ idx : Nat, out.spans[idx]? = (hf.spans[idx]?).map (g idx))
    (hg : ∀ idx c, (∀ t ∈ c, t.area = RC_NULL_AREA) → ∀ t ∈ g idx c, t.area = RC_NULL_AREA)
    (h : uniformArea RC_NULL_AREA hf) : uniformArea RC_NULL_AREA out := by
  intro c hc
  obtain ⟨idx, hidx⟩ := List.getElem?_of_mem hc
  rw [hspec idx] at hidx
  cases hq : hf.spans[idx]? with
  | none => rw [hq] at hidx; simp at hidx
  | some d =>
    rw [hq] at hidx
    simp only [Option.map_some', Option.some.injEq] at hidx
    rw [← hidx]
    exact hg idx d (h d (List.getElem?_mem hq))

theorem lowHanging_null (wC : Int) (hf : rcHeightfield) (h : uniformArea RC_NULL_AREA hf) :
    uniformArea RC_NULL_AREA (rcFilterLowHangingWalkableObstacles wC hf) := by
  refine uniform_of_spec hf _ _ (lowHanging_spec wC hf).2 ?_ h
  intro idx c hc
  split
  · exact lowHangingLoop_null wC c _ _ hc
  · exact hc

theorem ledge_null (wH wC : Int) (hf : rcHeightfield) (h : uniformArea RC_NULL_AREA hf) :
    uniformArea RC_NULL_AREA (rcFilterLedgeSpans wH wC hf) := by
  refine uniform_of_spec hf _ _ (ledge_spec wH wC hf).2 ?_ h
  intro idx c hc
  split
  · rw [ledgeColumn_eq_zeroIf]
    exact zeroIf_null _ c hc
  · exact hc

theorem lowHeight_null (wH : Int) (hf : rcHeightfield) (h : uniformArea RC_NULL_AREA hf) :
    uniformArea RC_NULL_AREA (rcFilterWalkableLowHeightSpans wH hf) := by
  refine uniform_of_spec hf _ _ (lowHeight_spec wH hf).2 ?_ h
  intro idx c hc
  split
  · rw [lowHeightColumn_eq_zeroIf]
    exact zeroIf_null _ c hc
  · exact hc

theorem applyFilters_null : ∀ (calls : List FilterCall) (hf : rcHeightfield),
    uniformArea RC_NULL_AREA hf → uniformArea RC_NULL_AREA (applyFilters hf calls)
  | [], _, h => h
  | k :: calls, hf, h => by
    refine applyFilters_null calls (FilterCall.run hf k) ?_
    cases k with
    | lowHanging wC => exact lowHanging_null wC hf h
    | ledge wH wC => exact ledge_null wH wC hf h
    | lowHeight wH => exact lowHeight_null wH hf h

theorem buildSteps_null : ∀ (steps : List BuildStep) (hf : rcHeightfield),
    uniformArea RC_NULL_AREA hf → (∀ st ∈ steps, st.area = RC_NULL_AREA) →
    uniformArea RC_NULL_AREA (buildSteps hf steps)
  | [], _, h, _ => h
  | k :: steps, hf, h, hk => by
    refine buildSteps_null steps (BuildStep.run hf k) ?_
      (fun st hst => hk st (List.mem_cons_of_mem _ hst))
    have h0 := hk k (by simp)
    cases k with
    | span x y smin smax area thr =>
      have ha : area = 0 := h0
      subst ha
      exact (addSpan_uniform thr thr 0 hf h x y smin smax).2
    | triangle v0 v1 v2 area thr =>
      have ha : area = 0 := h0
      subst ha
      exact (rcRasterizeTriangle_uniform thr thr v0 v1 v2 0 hf h).2

/-- C18: unwalkable geometry yields no walkable spans. If every span and every
triangle added to a heightfield of empty columns carries area 0
(`RC_NULL_AREA`), then after any sequence of `rcAddSpan` and
`rcRasterizeTriangle` calls with any `flagMergeThr`, and after any sequence of
the three filters with any parameters, every span of the heightfield has
area 0. -/
theorem null_geometry_stays_null (hf : rcHeightfield) (hempty : ∀ c ∈ hf.spans, c = [])
    (steps : List BuildStep) (hsteps : ∀ st ∈ steps, st.area = RC_NULL_AREA)
    (calls : List FilterCall) :
    uniformArea RC_NULL_AREA (buildSteps hf steps) ∧
      uniformArea RC_NULL_AREA (applyFilters (buildSteps hf steps) calls) := by
  have h0 : uniformArea RC_NULL_AREA hf := by
    intro c hc s hs
    rw [hempty c hc] at hs
    simp at hs
  have h1 := buildSteps_null steps hf h0 hsteps
  exact ⟨h1, applyFilters_null calls _ h1⟩

/-- Witness of C18: two overlapping null spans and a null triangle added to an
empty 2x1 field, then the ledge, low-hanging and low-height filters. -/
theorem null_geometry_stays_null_witness :
    ((∀ c ∈ twoCells.spans, c = []) ∧
      (∀ st ∈ [BuildStep.span 0 0 0 5 0 1, BuildStep.span 0 0 3 9 0 (-1),
        BuildStep.triangle ⟨0, 1, 0⟩ ⟨2, 1, 0⟩ ⟨2, 3, 1⟩ 0 1], st.area = RC_NULL_AREA)) ∧
    (uniformArea RC_NULL_AREA (buildSteps twoCells
        [BuildStep.span 0 0 0 5 0 1, BuildStep.span 0 0 3 9 0 (-1),
          BuildStep.triangle ⟨0, 1, 0⟩ ⟨2, 1, 0⟩ ⟨2, 3, 1⟩ 0 1]) ∧
      uniformArea RC_NULL_AREA (applyFilters (buildSteps twoCells
        [BuildStep.span 0 0 0 5 0 1, BuildStep.span 0 0 3 9 0 (-1),
          BuildStep.triangle ⟨0, 1, 0⟩ ⟨2, 1, 0⟩ ⟨2, 3, 1⟩ 0 1])
        [FilterCall.ledge 3 1, FilterCall.lowHanging 1, FilterCall.lowHeight 3])) :=
  ⟨⟨by decide, by decide⟩,
    null_geometry_stays_null twoCells (by decide)
      [BuildStep.span 0 0 0 5 0 1, BuildStep.span 0 0 3 9 0 (-1),
        BuildStep.triangle ⟨0, 1, 0⟩ ⟨2, 1, 0⟩ ⟨2, 3, 1⟩ 0 1] (by decide)
      [FilterCall.ledge 3 1, FilterCall.lowHanging 1, FilterCall.lowHeight 3]⟩

/-! ## The single horizontal quad -/

set_option maxRecDepth 100000 in
set_option maxHeartbeats 4000000 in
theorem quadSolid_zero : quadSolid 0 = quadFloor := by
  decide!

/-- The two triangles of the quad leave one span `[0, 1]` of area 63 in every
column, whatever `flagMergeThr` is. -/
theorem quadSolid_eq (thr : Int) : quadSolid thr = quadFloor := by
  have h0 : uniformArea (63 % 2 ^ 6) quadField := by
    intro c hc s hs
    have : c = [] := List.eq_of_mem_replicate hc
    rw [this] at hs
    simp at hs
  have t1 := rcRasterizeTriangle_uniform thr 0 ⟨0, 0, 0⟩ ⟨10, 0, 0⟩ ⟨10, 0, 10⟩ 63 quadField h0
  have t2 := rcRasterizeTriangle_uniform thr 0 ⟨0, 0, 0⟩ ⟨10, 0, 10⟩ ⟨0, 0, 10⟩ 63 _ t1.2
  rw [← quadSolid_zero]
  unfold quadSolid
  rw [t2.1, t1.1]

theorem quadFloor_col (c : Int × Int) (h : inGrid quadFloor c = true) :
    quadFloor.col (c.1 + c.2 * (quadFloor.width : Int)) = [⟨0, 1, 63⟩] := by
  unfold inGrid at h
  simp only [decide_eq_true_eq] at h
  have hw : (quadFloor.width : Int) = 10 := rfl
  have hh : (quadFloor.height : Int) = 10 := rfl
  rw [hw, hh] at h
  rw [hw]
  obtain ⟨n, hn⟩ := Int.eq_ofNat_of_zero_le (show 0 ≤ c.1 + c.2 * 10 by omega)
  have hlt : n < 100 := by omega
  rw [hn, col_natCast]
  show ((List.replicate 100 [(⟨0, 1, 63⟩ : rcSpan)])[n]?).getD [] = _
  rw [List.getElem?_replicate]
  simp [hlt]

theorem quad_neighbourFloors (wH : Int) (top : Int) (c : Int × Int)
    (h : inGrid quadFloor c = true) :
    ∀ n ∈ neighbourFloors quadFloor wH 1 top c, n = 1 := by
  intro n hn
  unfold neighbourFloors at hn
  rw [quadFloor_col c h] at hn
  simp only [openAbove, List.mem_map, List.mem_filter, List.mem_singleton] at hn
  obtain ⟨e, ⟨he, _⟩, rfl⟩ := hn
  rw [he]
  rfl

theorem quad_drops (wH wC : Int) (h3 : 3 ≤ wH) (x y : Int) (top : Int) :
    ∀ d ∈ ledgeDropsCode quadFloor wH wC x y 1 top,
      d = 0 ∨ ∃ c ∈ neighbourCells x y, inGrid quadFloor c = false := by
  intro d hd
  unfold ledgeDropsCode at hd
  rw [List.mem_flatMap] at hd
  obtain ⟨c, hc, hd⟩ := hd
  by_cases hin : inGrid quadFloor c = true
  · left
    rw [if_pos hin, quadFloor_col c hin] at hd
    have hgap : gapOk wH 1 top (-wC, spanTop [(⟨0, 1, 63⟩ : rcSpan)]) = false := by
      unfold gapOk spanTop
      simp only [decide_eq_false_iff_not, not_lt]
      have : min top (((⟨0, 1, 63⟩ : rcSpan).smin : Nat) : Int) ≤ 0 := by
        apply min_le_of_right_le
        simp
      have : (1 : Int) ≤ max 1 (-wC) := le_max_left _ _
      omega
    rw [hgap] at hd
    simp only [Bool.false_eq_true, if_false, List.nil_append, List.mem_map] at hd
    obtain ⟨n, hn, rfl⟩ := hd
    rw [quad_neighbourFloors wH top c hin n hn]
    rfl
  · right
    exact ⟨c, hc, by simpa using hin⟩

theorem quad_acc (wH wC : Int) (x y : Int) (top : Int) :
    ∀ a ∈ accessibleFloors quadFloor wH wC x y 1 top, a = 1 := by
  intro a ha
  unfold accessibleFloors at ha
  rw [List.mem_flatMap] at ha
  obtain ⟨c, _, ha⟩ := ha
  by_cases hin : inGrid quadFloor c = true
  · rw [if_pos hin] at ha
    exact quad_neighbourFloors wH top c hin a (List.mem_filter.1 ha).1
  · rw [if_neg hin] at ha
    simp at ha

/-- On the floor of the quad a span is a ledge exactly when its cell is on the
border of the grid. -/
theorem quad_isLedge (wH wC : Int) (h3 : 3 ≤ wH) (hwC : 0 ≤ wC) (x y : Nat)
    (hx : x < 10) (hy : y < 10) (top : Int) :
    isLedgeCode quadFloor wH wC x y 1 top = !quadInterior x y := by
  have hw : (quadFloor.width : Int) = 10 := rfl
  have hh : (quadFloor.height : Int) = 10 := rfl
  by_cases hint : quadInterior x y = true
  · rw [hint]
    simp only [Bool.not_true]
    unfold quadInterior at hint
    simp only [decide_eq_true_eq] at hint
    by_contra hne
    have ht : isLedgeCode quadFloor wH wC x y 1 top = true := by simpa using hne
    unfold isLedgeCode at ht
    rw [ledgeTest_iff] at ht
    rcases ht with ⟨d, hd, hlt⟩ | ⟨a, ha, b, hb, hlt⟩
    · rcases quad_drops wH wC h3 x y top d hd with h0 | ⟨c, hc, hout⟩
      · omega
      · unfold inGrid at hout
        simp only [decide_eq_false_iff_not, hw, hh] at hout
        apply hout
        unfold neighbourCells at hc
        simp only [List.mem_cons, List.mem_singleton, List.not_mem_nil, or_false] at hc
        rcases hc with rfl | rfl | rfl | rfl <;> simp only <;> omega
    · rw [quad_acc wH wC x y top a ha, quad_acc wH wC x y top b hb] at hlt
      omega
  · have hf : quadInterior x y = false := by simpa using hint
    rw [hf]
    simp only [Bool.not_false]
    unfold quadInterior at hf
    simp only [decide_eq_false_iff_not] at hf
    unfold isLedgeCode
    rw [ledgeTest_iff]
    left
    refine ⟨-wC - 1, ?_, by omega⟩
    unfold ledgeDropsCode
    rw [List.mem_flatMap]
    have hex : ∃ c ∈ neighbourCells (x : Int) (y : Int), inGrid quadFloor c = false := by
      unfold neighbourCells inGrid
      simp only [List.mem_cons, List.mem_singleton, List.not_mem_nil, or_false,
        decide_eq_false_iff_not, hw, hh]
      by_cases hx0 : x = 0
      · exact ⟨((x : Int) - 1, (y : Int)), Or.inl rfl, by simp only; omega⟩
      · by_cases hy0 : y = 0
        · exact ⟨((x : Int), (y : Int) - 1), Or.inr (Or.inr (Or.inr rfl)), by simp only; omega⟩
        · by_cases hx9 : x = 9
          · exact ⟨((x : Int) + 1, (y : Int)), Or.inr (Or.inr (Or.inl rfl)), by simp only; omega⟩
          · exact ⟨((x : Int), (y : Int) + 1), Or.inr (Or.inl rfl), by simp only; omega⟩
    obtain ⟨c, hc, hout⟩ := hex
    refine ⟨c, hc, ?_⟩
    rw [hout]
    simp

/-- The columns of the quad after rasterization and the three filters: the span
`[0, 1]` keeps area 63 in the interior cells when `walkableHeight <= 65533`, and
is unwalkable otherwise. -/
theorem quad_pipeline_col (wH wC thr : Int) (h3 : 3 ≤ wH) (hwC : 0 ≤ wC)
    (x y : Nat) (hx : x < 10) (hy : y < 10) :
    (filterPipeline wH wC (quadSolid thr)).col ((x : Int) + (y : Int) * 10) =
      [⟨0, 1, if quadInterior x y = true ∧ wH ≤ 65533 then 63 else 0⟩] := by
  rw [quadSolid_eq]
  have hidx : ((x : Int) + (y : Int) * 10) = ((x + y * 10 : Nat) : Int) := by
    push_cast
    ring
  have hlt : x + y * 10 < 100 := by omega
  have hxm : (x + y * 10) % 10 = x := by omega
  have hym : (x + y * 10) / 10 = y := by omega
  rw [hidx, col_natCast, (pipeline_spec wH wC quadFloor).2]
  have hq : quadFloor.spans[x + y * 10]? = some [⟨0, 1, 63⟩] := by
    show (List.replicate 100 [(⟨0, 1, 63⟩ : rcSpan)])[x + y * 10]? = _
    rw [List.getElem?_replicate]
    simp [hlt]
  rw [hq]
  simp only [Option.map_some', Option.getD_some]
  unfold pipelineColumn
  have hw : quadFloor.width = 10 := rfl
  have hh : quadFloor.height = 10 := rfl
  rw [hw, hh, if_pos (by omega), hxm, hym]
  have h1 : lowHangingLoop wC none false RC_NULL_AREA [(⟨0, 1, 63⟩ : rcSpan)] = [⟨0, 1, 63⟩] := by
    simp [lowHangingLoop, lowHangingSpan]
  rw [h1]
  have h2 : ledgeColumn quadFloor wH wC (x : Int) (y : Int) [(⟨0, 1, 63⟩ : rcSpan)] =
      [ledgeRule (!quadInterior x y) ⟨0, 1, 63⟩] := by
    simp only [ledgeColumn]
    rw [ledgeSpan_eq_rule quadFloor wH wC x y hwC]
    have : (((⟨0, 1, 63⟩ : rcSpan).smax : Nat) : Int) = 1 := rfl
    rw [this, quad_isLedge wH wC h3 hwC x y hx hy]
  rw [h2]
  have hM : spanTop [] = 65535 := rfl
  have hs : (((⟨0, 1, 63⟩ : rcSpan).smax : Nat) : Int) = 1 := rfl
  cases hint : quadInterior x y
  · simp [ledgeRule, lowHeightColumn, RC_NULL_AREA]
  · simp only [ledgeRule, lowHeightColumn, hM, Bool.not_true, Bool.false_eq_true, and_false,
      if_false, true_and, hs]
    by_cases hle : wH ≤ 65533
    · rw [if_neg (by omega), if_pos hle]
    · rw [if_pos (by omega), if_neg hle]
      rfl

/-- C17 (amended): the quad `(0,0,0), (10,0,0), (10,0,10), (0,0,10)` is
rasterized as two triangles of area 63 into the empty 10x10 heightfield with
`bmin = (0,0,0)`, `bmax = (10,0,10)`, `cs = 1`, `ch = 0.5`, with any
`flagMergeThr`, and filtered by the three filters with `3 <= walkableHeight <=
65533` and `walkableClimb >= 0`. Then every column holds the single span
`[0, 1]`, and the column of cell `(x, y)` contains a walkable span if and only
if the cell is one of the 64 interior cells `1 <= x, y <= 8`: the spans of the
36 border cells are marked as ledges. -/
theorem quad_walkable_columns (walkableHeight walkableClimb flagMergeThr : Int)
    (h3 : 3 ≤ walkableHeight) (hmax : walkableHeight ≤ 65533) (hwC : 0 ≤ walkableClimb)
    (x y : Nat) (hx : x < 10) (hy : y < 10) :
    (filterPipeline walkableHeight walkableClimb (quadSolid flagMergeThr)).col
        ((x : Int) + (y : Int) * 10) =
      [⟨0, 1, if quadInterior x y = true then 63 else 0⟩] ∧
    ((∃ s ∈ (filterPipeline walkableHeight walkableClimb (quadSolid flagMergeThr)).col
        ((x : Int) + (y : Int) * 10), s.area ≠ RC_NULL_AREA) ↔
      (1 ≤ x ∧ x ≤ 8 ∧ 1 ≤ y ∧ y ≤ 8)) := by
  rw [quad_pipeline_col walkableHeight walkableClimb flagMergeThr h3 hwC x y hx hy]
  unfold quadInterior
  simp only [decide_eq_true_eq, hmax, and_true]
  refine ⟨trivial, ?_⟩
  by_cases h : 1 ≤ x ∧ x ≤ 8 ∧ 1 ≤ y ∧ y ≤ 8
  · simp [h, RC_NULL_AREA]
  · simp [h, RC_NULL_AREA]

/-- Witness of C17: the interior cell `(3, 5)` with `walkableHeight = 4`,
`walkableClimb = 1` and `flagMergeThr = 1`. -/
theorem quad_walkable_columns_witness :
    ((3 : Int) ≤ 4 ∧ (4 : Int) ≤ 65533 ∧ (0 : Int) ≤ 1 ∧ 3 < 10 ∧ 5 < 10) ∧
    ((filterPipeline 4 1 (quadSolid 1)).col (((3 : Nat) : Int) + ((5 : Nat) : Int) * 10) =
      [⟨0, 1, if quadInterior 3 5 = true then 63 else 0⟩] ∧
    ((∃ s ∈ (filterPipeline 4 1 (quadSolid 1)).col (((3 : Nat) : Int) + ((5 : Nat) : Int) * 10),
        s.area ≠ RC_NULL_AREA) ↔
      (1 ≤ 3 ∧ 3 ≤ 8 ∧ 1 ≤ 5 ∧ 5 ≤ 8))) :=
  ⟨⟨by decide, by decide, by decide, by decide, by decide⟩,
    quad_walkable_columns 4 1 1 (by decide) (by decide) (by decide) 3 5 (by decide)
      (by decide)⟩

/-- C17 as stated fails. With `walkableHeight = 3` and `walkableClimb = 0` the
column of the corner cell `(0, 0)` holds no walkable span after the filters: two
of its neighbours lie outside the grid, which the ledge filter counts as a drop
of `walkableClimb + 1`. With `walkableHeight = 65534` the column of the interior
cell `(1, 1)` holds no walkable span either: the clearance `0xffff - 1` of its
span is not more than `walkableHeight`. -/
theorem quad_walkable_columns_counterexample :
    ((3 : Int) ≤ 3 ∧ (0 : Int) ≤ 0 ∧
      ¬ ∃ s ∈ (filterPipeline 3 0 (quadSolid 0)).col 0, s.area ≠ RC_NULL_AREA) ∧
    ((3 : Int) ≤ 65534 ∧ (0 : Int) ≤ 0 ∧
      ¬ ∃ s ∈ (filterPipeline 65534 0 (quadSolid 0)).col 11, s.area ≠ RC_NULL_AREA) := by
  have h1 : (filterPipeline 3 0 (quadSolid 0)).col 0 = [⟨0, 1, 0⟩] :=
    quad_pipeline_col 3 0 0 (by decide) (by decide) 0 0 (by decide) (by decide)
  have h2 : (filterPipeline 65534 0 (quadSolid 0)).col 11 = [⟨0, 1, 0⟩] :=
    quad_pipeline_col 65534 0 0 (by decide) (by decide) 1 1 (by decide) (by decide)
  rw [h1, h2]
  decide

/-! ## `addSpan`: frame, area of a merge, idempotence -/

theorem addSpanLoop_length (thr : Int) : ∀ (col : List rcSpan) (s : rcSpan),
    (addSpanLoop thr s col).length ≤ col.length + 1
  | [], _ => by simp [addSpanLoop]
  | cur :: next, s => by
    unfold addSpanLoop
    split
    · simp
    · split
      · have := addSpanLoop_length thr next s
        simp only [List.length_cons]
        omega
      · have := addSpanLoop_length thr next (mergeSpan thr s cur)
        simp only [List.length_cons]
        omega

theorem col_setCol_length (hf : rcHeightfield) (i : Int) (c : List rcSpan) :
    ((hf.setCol i c).col i).length ≤ max (hf.col i).length c.length := by
  by_cases h : 0 ≤ i ∧ i.toNat < hf.spans.length
  · rw [col_setCol_self hf i c h.1 h.2]
    exact le_max_right _ _
  · have : (hf.setCol i c).col i = hf.col i := by
      unfold rcHeightfield.setCol rcHeightfield.col
      by_cases hi : i < 0
      · simp [hi]
      · have hlen : hf.spans.length ≤ i.toNat := by omega
        simp only [hi, if_false]
        rw [List.set_eq_of_length_le hlen]
    rw [this]
    exact le_max_left _ _

theorem addSpan_frame_aux (hf : rcHeightfield) (x y : Int) (smin smax area : Nat) (thr : Int) :
    sameGrid hf (addSpan hf x y smin smax area thr) ∧
    (addSpan hf x y smin smax area thr).spans.length = hf.spans.length ∧
    (∀ idx : Int, idx ≠ x + y * (hf.width : Int) →
      (addSpan hf x y smin smax area thr).col idx = hf.col idx) ∧
    ((addSpan hf x y smin smax area thr).col (x + y * (hf.width : Int))).length ≤
      (hf.col (x + y * (hf.width : Int))).length + 1 := by
  refine ⟨?_, (addSpan_fields hf x y smin smax area thr).2, ?_, ?_⟩
  · unfold addSpan
    exact setCol_sameGrid _ _ _
  · intro idx hidx
    unfold addSpan
    exact col_setCol_ne hf _ idx _ (Ne.symm hidx)
  · unfold addSpan
    have h1 := col_setCol_length hf (x + y * (hf.width : Int))
      (addSpanCol (hf.col (x + y * (hf.width : Int))) smin smax area thr)
    have h2 := addSpanLoop_length thr (hf.col (x + y * (hf.width : Int))) (newSpan smin smax area)
    rw [← addSpanCol_eq_loop] at h2
    simp only at h1 ⊢
    omega

/-- The area after one merge step: the test compares the already raised top of
the new span with the top of the existing span. -/
theorem mergeSpan_area_eq (thr : Int) (s cur : rcSpan) :
    (mergeSpan thr s cur).area =
      if rcAbs (((max s.smax cur.smax : Nat) : Int) - (cur.smax : Int)) ≤ thr then
        max s.area cur.area else s.area := by
  have hmax : ∀ a b : Nat, rcMax a b = max a b := by
    intro a b
    unfold rcMax
    split <;> omega
  unfold mergeSpan
  by_cases h1 : cur.smin < s.smin <;> by_cases h2 : cur.smax > s.smax
  · have e : max s.smax cur.smax = cur.smax := by omega
    simp only [h1, h2, if_true, e, hmax]
    split <;> rfl
  · have e : max s.smax cur.smax = s.smax := by omega
    simp only [h1, h2, if_true, if_false, e, hmax]
    split <;> rfl
  · have e : max s.smax cur.smax = cur.smax := by omega
    simp only [h1, h2, if_true, if_false, e, hmax]
    split <;> rfl
  · have e : max s.smax cur.smax = s.smax := by omega
    simp only [h1, h2, if_false, e, hmax]
    split <;> rfl

theorem mergeSpan_area_ge (thr : Int) (s cur : rcSpan) : s.area ≤ (mergeSpan thr s cur).area := by
  rw [mergeSpan_area_eq]
  split
  · exact le_max_left _ _
  · exact le_refl _

theorem mergeAll_area_ge (thr : Int) : ∀ (l : List rcSpan) (s : rcSpan),
    s.area ≤ (mergeAll thr s l).area
  | [], _ => le_refl _
  | c :: l, s => by
    have e : mergeAll thr s (c :: l) = mergeAll thr (mergeSpan thr s c) l := rfl
    rw [e]
    exact le_trans (mergeSpan_area_ge thr s c) (mergeAll_area_ge thr l _)

/-- Adding a span to a column that already holds a span covering it, with at
least its area and the same top, changes nothing. -/
theorem mergeSpan_absorbed (thr : Int) (hthr : 0 ≤ thr) (s m : rcSpan)
    (h1 : m.smin ≤ s.smin) (h2 : s.smax ≤ m.smax) (h3 : s.area ≤ m.area) :
    mergeSpan thr s m = m := by
  apply rcSpan_ext
  · rw [mergeSpan_smin]; omega
  · rw [mergeSpan_smax]; omega
  · rw [mergeSpan_area_eq, max_eq_right h2, sub_self, if_pos (by simpa [rcAbs] using hthr)]
    exact max_eq_right h3

/-- The span that results from adding the node `s` to a column holding one span
`e` that overlaps it. -/
theorem addSpanLoop_single (thr : Int) (hthr : 0 ≤ thr) (s e : rcSpan)
    (hov : s.smin ≤ e.smax ∧ e.smin ≤ s.smax) :
    addSpanLoop thr s [e] =
      [⟨min s.smin e.smin, max s.smax e.smax,
        if (s.smax : Int) ≤ (e.smax : Int) + thr then max s.area e.area else s.area⟩] := by
  unfold addSpanLoop
  rw [if_neg (by omega), if_neg (by omega)]
  unfold addSpanLoop
  congr 1
  apply rcSpan_ext
  · rw [mergeSpan_smin]
  · rw [mergeSpan_smax]
  · rw [mergeSpan_area_eq]
    simp only
    have hiff : rcAbs (((max s.smax e.smax : Nat) : Int) - (e.smax : Int)) ≤ thr ↔
        (s.smax : Int) ≤ (e.smax : Int) + thr := by
      unfold rcAbs
      rcases le_total s.smax e.smax with h | h
      · rw [max_eq_right h]
        simp only [sub_self, lt_self_iff_false, if_false]
        omega
      · rw [max_eq_left h]
        split <;> omega
    by_cases hc : (s.smax : Int) ≤ (e.smax : Int) + thr
    · rw [if_pos (hiff.2 hc), if_pos hc]
    · rw [if_neg (fun h => hc (hiff.1 h)), if_neg hc]

/-- Adding to a column the span that was added last changes nothing. -/
theorem addSpanLoop_twice (thr : Int) (hthr : 0 ≤ thr) (col : List rcSpan) (s : rcSpan)
    (hcol : columnOk col) (hs : spanOk s) :
    addSpanLoop thr s (addSpanLoop thr s col) = addSpanLoop thr s col := by
  have hok := addSpanLoop_ok thr col s hs hcol
  have h1 := addSpanLoop_shape thr col s hcol hs.1
  have h2 := addSpanLoop_shape thr (addSpanLoop thr s col) s hok hs.1
  rw [h2]
  generalize hL : col.filter (fun c => decide (c.smax < s.smin)) = L at h1
  generalize hM : mergeAll thr s
    (col.filter (fun c => overlapInterval c.smin c.smax s.smin s.smax)) = m at h1
  generalize hR : col.filter (fun c => decide (c.smin > s.smax)) = R at h1
  have hb := (mergeAll_bounds thr
    (col.filter (fun c => overlapInterval c.smin c.smax s.smin s.smax)) s).1
  rw [hM] at hb
  have ha := mergeAll_area_ge thr
    (col.filter (fun c => overlapInterval c.smin c.smax s.smin s.smax)) s
  rw [hM] at ha
  have hLp : ∀ c ∈ L, c.smax < s.smin := by
    intro c hc
    rw [← hL] at hc
    simpa using (List.mem_filter.1 hc).2
  have hRp : ∀ c ∈ R, c.smin > s.smax := by
    intro c hc
    rw [← hR] at hc
    simpa using (List.mem_filter.1 hc).2
  have hLok : ∀ c ∈ L, c.smin ≤ c.smax := by
    intro c hc
    rw [← hL] at hc
    exact (hcol.1 c (List.mem_filter.1 hc).1).1
  have hRok : ∀ c ∈ R, c.smin ≤ c.smax := by
    intro c hc
    rw [← hR] at hc
    exact (hcol.1 c (List.mem_filter.1 hc).1).1
  rw [h1]
  have f1 : (L ++ m :: R).filter (fun c => decide (c.smax < s.smin)) = L := by
    rw [List.filter_append, List.filter_cons]
    have e1 : L.filter (fun c => decide (c.smax < s.smin)) = L :=
      List.filter_eq_self.2 (fun c hc => by simpa using hLp c hc)
    have e2 : R.filter (fun c => decide (c.smax < s.smin)) = [] :=
      List.filter_eq_nil_iff.2 (fun c hc => by
        have q1 := hRp c hc
        have q2 := hRok c hc
        have q3 : s.smin ≤ s.smax := hs.1
        simp only [decide_eq_true_eq, not_lt]
        omega)
    have e3 : decide (m.smax < s.smin) = false := by
      simp only [decide_eq_false_iff_not, not_lt]
      have := hs.1
      omega
    rw [e1, e2, e3]
    simp
  have f2 : (L ++ m :: R).filter (fun c => overlapInterval c.smin c.smax s.smin s.smax) = [m] := by
    rw [List.filter_append, List.filter_cons]
    have e1 : L.filter (fun c => overlapInterval c.smin c.smax s.smin s.smax) = [] :=
      List.filter_eq_nil_iff.2 (fun c hc => by
        have := hLp c hc
        rw [overlapInterval_iff]
        omega)
    have e2 : R.filter (fun c => overlapInterval c.smin c.smax s.smin s.smax) = [] :=
      List.filter_eq_nil_iff.2 (fun c hc => by
        have := hRp c hc
        rw [overlapInterval_iff]
        omega)
    have e3 : overlapInterval m.smin m.smax s.smin s.smax = true := by
      rw [overlapInterval_iff]
      have := hs.1
      omega
    rw [e1, e2, e3]
    simp
  have f3 : (L ++ m :: R).filter (fun c => decide (c.smin > s.smax)) = R := by
    rw [List.filter_append, List.filter_cons]
    have e1 : L.filter (fun c => decide (c.smin > s.smax)) = [] :=
      List.filter_eq_nil_iff.2 (fun c hc => by
        have q1 := hLp c hc
        have q2 := hLok c hc
        have q3 : s.smin ≤ s.smax := hs.1
        simp only [decide_eq_true_eq, not_lt, gt_iff_lt]
        omega)
    have e2 : R.filter (fun c => decide (c.smin > s.smax)) = R :=
      List.filter_eq_self.2 (fun c hc => by simpa using hRp c hc)
    have e3 : decide (m.smin > s.smax) = false := by
      simp only [decide_eq_false_iff_not, not_lt, gt_iff_lt]
      have := hs.1
      omega
    rw [e1, e2, e3]
    simp
  rw [f1, f2, f3]
  have e : mergeAll thr s [m] = mergeSpan thr s m := rfl
  rw [e, mergeSpan_absorbed thr hthr s m hb.1 hb.2 ha]

theorem setCol_idem (hf : rcHeightfield) (i : Int) (c : List rcSpan) :
    (hf.setCol i c).setCol i c = hf.setCol i c := by
  unfold rcHeightfield.setCol
  by_cases hi : i < 0
  · simp [hi]
  · simp [hi]

theorem setCol_col_eq (hf : rcHeightfield) (i : Int) (c : List rcSpan)
    (h : ¬ (0 ≤ i ∧ i.toNat < hf.spans.length)) : hf.setCol i c = hf := by
  unfold rcHeightfield.setCol
  by_cases hi : i < 0
  · simp [hi]
  · have hlen : hf.spans.length ≤ i.toNat := by omega
    simp only [hi, if_false]
    rw [List.set_eq_of_length_le hlen]

/-- On a heightfield `addSpan` is idempotent. -/
theorem addSpan_twice (hf : rcHeightfield) (hwf : ∀ c ∈ hf.spans, columnOk c) (x y : Int)
    (smin smax area : Nat) (thr : Int) (h1 : smin ≤ smax) (h2 : smax ≤ RC_SPAN_MAX_HEIGHT)
    (hthr : 0 ≤ thr) :
    addSpan (addSpan hf x y smin smax area thr) x y smin smax area thr =
      addSpan hf x y smin smax area thr := by
  by_cases hin : 0 ≤ x + y * (hf.width : Int) ∧ (x + y * (hf.width : Int)).toNat < hf.spans.length
  · have hw := (addSpan_fields hf x y smin smax area thr).1
    have hc := addSpan_col_self hf x y smin smax area thr hin.1 hin.2
    have e : addSpan (addSpan hf x y smin smax area thr) x y smin smax area thr =
        (addSpan hf x y smin smax area thr).setCol (x + y * (hf.width : Int))
          (addSpanCol ((addSpan hf x y smin smax area thr).col (x + y * (hf.width : Int)))
            smin smax area thr) := by
      show (addSpan hf x y smin smax area thr).setCol
        (x + y * ((addSpan hf x y smin smax area thr).width : Int)) _ = _
      rw [hw]
    rw [e, hc, addSpanCol_eq_loop, addSpanCol_eq_loop,
      addSpanLoop_twice thr hthr _ _ (col_columnOk hf hwf _) (spanOk_newSpan smin smax area h1 h2)]
    unfold addSpan
    simp only
    rw [addSpanCol_eq_loop]
    exact setCol_idem hf _ _
  · have e : addSpan hf x y smin smax area thr = hf := by
      unfold addSpan
      exact setCol_col_eq hf _ _ hin
    rw [e, e]

/-- C27: the area merge of `addSpan` compares against the already-merged top. A
column holds a single span `e`; the new span `n` (the node holding the
arguments) overlaps it and `flagMergeThr >= 0`. Then the column afterwards holds
one span from `min(n.smin, e.smin)` to `max(n.smax, e.smax)` whose area is
`max(n.area, e.area)` when `n.smax <= e.smax + flagMergeThr`, in particular
whenever the top of `n` is not above the top of `e`, and `n.area` otherwise. -/
theorem addSpan_area_against_merged_top (e : rcSpan) (smin smax area : Nat)
    (flagMergeThr : Int) (hthr : 0 ≤ flagMergeThr)
    (hov : (newSpan smin smax area).smin ≤ e.smax ∧ e.smin ≤ (newSpan smin smax area).smax) :
    addSpanCol [e] smin smax area flagMergeThr =
        [⟨min (newSpan smin smax area).smin e.smin, max (newSpan smin smax area).smax e.smax,
          if ((newSpan smin smax area).smax : Int) ≤ (e.smax : Int) + flagMergeThr then
            max (newSpan smin smax area).area e.area
          else (newSpan smin smax area).area⟩] ∧
      ((newSpan smin smax area).smax ≤ e.smax →
        addSpanCol [e] smin smax area flagMergeThr =
          [⟨min (newSpan smin smax area).smin e.smin, e.smax,
            max (newSpan smin smax area).area e.area⟩]) := by
  have h := addSpanLoop_single flagMergeThr hthr (newSpan smin smax area) e hov
  rw [addSpanCol_eq_loop]
  refine ⟨h, ?_⟩
  intro hle
  rw [h, if_pos (by omega), max_eq_right hle]

/-- Witness of C27: the span `[0, 5]` with area 0 added to a column holding
`[0, 10]` with area 63, `flagMergeThr = 1`. -/
theorem addSpan_area_against_merged_top_witness :
    ((0 : Int) ≤ 1 ∧ (newSpan 0 5 0).smin ≤ (⟨0, 10, 63⟩ : rcSpan).smax ∧
      (⟨0, 10, 63⟩ : rcSpan).smin ≤ (newSpan 0 5 0).smax) ∧
    addSpanCol [⟨0, 10, 63⟩] 0 5 0 1 = [⟨0, 10, 63⟩] :=
  ⟨⟨by decide, by decide, by decide⟩,
    ((addSpan_area_against_merged_top ⟨0, 10, 63⟩ 0 5 0 1 (by decide)
      ⟨by decide, by decide⟩).2 (by decide)).trans (by decide)⟩

/-- C29: `addSpan` is idempotent. For a heightfield whose columns are
well-formed, a span with `smin <= smax <= 8191`, any area and
`flagMergeThr >= 0`, adding the span twice gives the heightfield that adding it
once gives; on the column, the second insertion returns the column
unchanged. -/
theorem addSpan_idempotent (hf : rcHeightfield) (hwf : ∀ c ∈ hf.spans, columnOk c)
    (x y : Int) (smin smax area : Nat) (flagMergeThr : Int) (h1 : smin ≤ smax)
    (h2 : smax ≤ RC_SPAN_MAX_HEIGHT) (hthr : 0 ≤ flagMergeThr) :
    addSpan (addSpan hf x y smin smax area flagMergeThr) x y smin smax area flagMergeThr =
        addSpan hf x y smin smax area flagMergeThr ∧
      ∀ col : List rcSpan, columnOk col →
        addSpanCol (addSpanCol col smin smax area flagMergeThr) smin smax area flagMergeThr =
          addSpanCol col smin smax area flagMergeThr := by
  refine ⟨addSpan_twice hf hwf x y smin smax area flagMergeThr h1 h2 hthr, ?_⟩
  intro col hcol
  rw [addSpanCol_eq_loop, addSpanCol_eq_loop]
  exact addSpanLoop_twice flagMergeThr hthr col _ hcol (spanOk_newSpan smin smax area h1 h2)

/-- Witness of C29: the span `[3, 12]` with area 200 added twice to a column of
three spans of a one-cell field. -/
theorem addSpan_idempotent_witness :
    ((∀ c ∈ (oneCell [⟨0, 4, 63⟩, ⟨6, 8, 0⟩, ⟨20, 30, 5⟩]).spans, columnOk c) ∧
      3 ≤ 12 ∧ 12 ≤ RC_SPAN_MAX_HEIGHT ∧ (0 : Int) ≤ 0) ∧
    addSpan (addSpan (oneCell [⟨0, 4, 63⟩, ⟨6, 8, 0⟩, ⟨20, 30, 5⟩]) 0 0 3 12 200 0)
        0 0 3 12 200 0 =
      addSpan (oneCell [⟨0, 4, 63⟩, ⟨6, 8, 0⟩, ⟨20, 30, 5⟩]) 0 0 3 12 200 0 :=
  ⟨⟨by decide, by decide, by decide, by decide⟩,
    (addSpan_idempotent (oneCell [⟨0, 4, 63⟩, ⟨6, 8, 0⟩, ⟨20, 30, 5⟩]) (by decide) 0 0 3 12
      200 0 (by decide) (by decide) (by decide)).1⟩

/-- C30: the frame of `addSpan`. For every heightfield and every cell `(x, y)`
with `0 <= x < width` and `0 <= y < height`, the index `x + y*width` lies in
`0 .. width*height - 1`, `addSpan` leaves the grid (`width`, `height`, bounds,
`cs`, `ch`) and the number of columns unchanged, leaves every column other than
the one at `x + y*width` unchanged, and the addressed column holds at most one
span more than before. -/
theorem addSpan_frame (hf : rcHeightfield) (x y : Int) (smin smax area : Nat)
    (flagMergeThr : Int) (hx : 0 ≤ x ∧ x < hf.width) (hy : 0 ≤ y ∧ y < hf.height) :
    (0 ≤ x + y * (hf.width : Int) ∧
      (x + y * (hf.width : Int)).toNat < hf.width * hf.height) ∧
    sameGrid hf (addSpan hf x y smin smax area flagMergeThr) ∧
    (addSpan hf x y smin smax area flagMergeThr).spans.length = hf.spans.length ∧
    (∀ idx : Int, idx ≠ x + y * (hf.width : Int) →
      (addSpan hf x y smin smax area flagMergeThr).col idx = hf.col idx) ∧
    ((addSpan hf x y smin smax area flagMergeThr).col (x + y * (hf.width : Int))).length ≤
      (hf.col (x + y * (hf.width : Int))).length + 1 := by
  exact ⟨cell_index_valid hf.width hf.height x y hx.1 hx.2 hy.1 hy.2,
    addSpan_frame_aux hf x y smin smax area flagMergeThr⟩

/-- Witness of C30: a span added to the cell `(1, 0)` of an empty 2x1 field. -/
theorem addSpan_frame_witness :
    (((0 : Int) ≤ 1 ∧ (1 : Int) < twoCells.width) ∧ ((0 : Int) ≤ 0 ∧ (0 : Int) < twoCells.height)) ∧
    (∀ idx : Int, idx ≠ 1 + 0 * (twoCells.width : Int) →
      (addSpan twoCells 1 0 2 7 63 1).col idx = twoCells.col idx) :=
  ⟨⟨⟨by decide, by decide⟩, ⟨by decide, by decide⟩⟩,
    (addSpan_frame twoCells 1 0 2 7 63 1 ⟨by decide, by decide⟩
      ⟨by decide, by decide⟩).2.2.2.1⟩

/-! ## `clipPoly` keeps the positive half-plane -/

theorem cut_on_plane (pnx pnz pd : ℚ) (vj vi : Vec3)
    (h : (decide (planeDist pnx pnz pd vj ≥ 0) != decide (planeDist pnx pnz pd vi ≥ 0)) = true) :
    planeDist pnx pnz pd
      ⟨vj.x + (vi.x - vj.x) * (planeDist pnx pnz pd vj /
          (planeDist pnx pnz pd vj - planeDist pnx pnz pd vi)),
        vj.y + (vi.y - vj.y) * (planeDist pnx pnz pd vj /
          (planeDist pnx pnz pd vj - planeDist pnx pnz pd vi)),
        vj.z + (vi.z - vj.z) * (planeDist pnx pnz pd vj /
          (planeDist pnx pnz pd vj - planeDist pnx pnz pd vi))⟩ = 0 := by
  have hne : planeDist pnx pnz pd vj - planeDist pnx pnz pd vi ≠ 0 := by
    intro h0
    have : planeDist pnx pnz pd vj = planeDist pnx pnz pd vi := by linarith
    rw [this] at h
    simp at h
  generalize hs : planeDist pnx pnz pd vj /
    (planeDist pnx pnz pd vj - planeDist pnx pnz pd vi) = s
  have hmul : s * (planeDist pnx pnz pd vj - planeDist pnx pnz pd vi) =
      planeDist pnx pnz pd vj := by
    rw [← hs]
    exact div_mul_cancel₀ _ hne
  unfold planeDist at hmul ⊢
  simp only
  linear_combination -hmul

theorem clipPolyLoopMarked_map (pnx pnz pd : ℚ) : ∀ (l : List Vec3) (vj : Vec3),
    (clipPolyLoopMarked pnx pnz pd vj l).map Prod.snd = clipPolyLoop pnx pnz pd vj l
  | [], _ => rfl
  | vi :: rest, vj => by
    unfold clipPolyLoopMarked clipPolyLoop
    simp only [List.map_append, clipPolyLoopMarked_map pnx pnz pd rest vi]
    congr 1
    congr 1
    · split <;> rfl
    · split <;> rfl

theorem clipPolyLoopMarked_cut (pnx pnz pd : ℚ) : ∀ (l : List Vec3) (vj : Vec3) (v : Vec3),
    (true, v) ∈ clipPolyLoopMarked pnx pnz pd vj l → planeDist pnx pnz pd v = 0
  | [], _, _, h => by simp [clipPolyLoopMarked] at h
  | vi :: rest, vj, v, h => by
    unfold clipPolyLoopMarked at h
    simp only [List.mem_append] at h
    rcases h with (h | h) | h
    · split at h
      · rename_i hc
        simp only [List.mem_singleton, Prod.mk.injEq, true_and] at h
        rw [h]
        exact cut_on_plane pnx pnz pd vj vi hc
      · simp at h
    · split at h <;> simp at h
    · exact clipPolyLoopMarked_cut pnx pnz pd rest vi v h

theorem clipPolyLoopMarked_kept (pnx pnz pd : ℚ) : ∀ (l : List Vec3) (vj : Vec3),
    ((clipPolyLoopMarked pnx pnz pd vj l).filter (fun p => !p.1)).map Prod.snd =
      l.filter (fun v => decide (planeDist pnx pnz pd v ≥ 0))
  | [], _ => rfl
  | vi :: rest, vj => by
    unfold clipPolyLoopMarked
    simp only [List.filter_append, List.map_append, clipPolyLoopMarked_kept pnx pnz pd rest vi,
      List.filter_cons]
    by_cases hi : planeDist pnx pnz pd vi ≥ 0 <;>
      by_cases hj : planeDist pnx pnz pd vj ≥ 0 <;> simp [hi, hj]

theorem clipPolyMarked_map (inp : List Vec3) (pnx pnz pd : ℚ) :
    (clipPolyMarked inp pnx pnz pd).map Prod.snd = clipPoly inp pnx pnz pd := by
  unfold clipPolyMarked clipPoly
  cases inp.getLast? with
  | none => rfl
  | some last => exact clipPolyLoopMarked_map pnx pnz pd inp last

theorem clipPolyMarked_cut (inp : List Vec3) (pnx pnz pd : ℚ) (v : Vec3)
    (h : (true, v) ∈ clipPolyMarked inp pnx pnz pd) : planeDist pnx pnz pd v = 0 := by
  unfold clipPolyMarked at h
  cases hl : inp.getLast? with
  | none => rw [hl] at h; simp at h
  | some last =>
    rw [hl] at h
    exact clipPolyLoopMarked_cut pnx pnz pd inp last v h

theorem clipPolyMarked_kept (inp : List Vec3) (pnx pnz pd : ℚ) :
    ((clipPolyMarked inp pnx pnz pd).filter (fun p => !p.1)).map Prod.snd =
      inp.filter (fun v => decide (planeDist pnx pnz pd v ≥ 0)) := by
  unfold clipPolyMarked
  cases hl : inp.getLast? with
  | none =>
    have : inp = [] := List.getLast?_eq_none_iff.1 hl
    simp [this]
  | some last => exact clipPolyLoopMarked_kept pnx pnz pd inp last

/-- Every vertex `clipPoly` emits lies in the closed positive half-plane. -/
theorem clipPoly_nonneg (inp : List Vec3) (pnx pnz pd : ℚ) :
    ∀ v ∈ clipPoly inp pnx pnz pd, planeDist pnx pnz pd v ≥ 0 := by
  intro v hv
  rw [← clipPolyMarked_map] at hv
  obtain ⟨⟨t, w⟩, hp, rfl⟩ := List.mem_map.1 hv
  cases t with
  | true =>
    have := clipPolyMarked_cut inp pnx pnz pd w hp
    simp only
    linarith
  | false =>
    have hk : w ∈ ((clipPolyMarked inp pnx pnz pd).filter (fun p => !p.1)).map Prod.snd :=
      List.mem_map.2 ⟨(false, w), List.mem_filter.2 ⟨hp, rfl⟩, rfl⟩
    rw [clipPolyMarked_kept] at hk
    simpa using (List.mem_filter.1 hk).2

/-- On exact rationals `clipPoly` keeps only the positive half-plane. Every
vertex it outputs satisfies `pnx*x + pnz*z + pd >= 0`; the vertices written by
the intersection branch satisfy it with equality; the vertices written by the
other branch are, in input order, exactly the input vertices with
`pnx*x + pnz*z + pd >= 0`. -/
theorem clipPoly_positive_half_plane_exact (inp : List Vec3) (pnx pnz pd : ℚ) :
    (clipPolyMarked inp pnx pnz pd).map Prod.snd = clipPoly inp pnx pnz pd ∧
    (∀ v ∈ clipPoly inp pnx pnz pd, planeDist pnx pnz pd v ≥ 0) ∧
    (∀ v, (true, v) ∈ clipPolyMarked inp pnx pnz pd → planeDist pnx pnz pd v = 0) ∧
    ((clipPolyMarked inp pnx pnz pd).filter (fun p => !p.1)).map Prod.snd =
      inp.filter (fun v => decide (planeDist pnx pnz pd v ≥ 0)) ∧
    (inp.filter (fun v => decide (planeDist pnx pnz pd v ≥ 0))).Sublist
      (clipPoly inp pnx pnz pd) ∧
    (∀ v ∈ inp, planeDist pnx pnz pd v < 0 → v ∉ clipPoly inp pnx pnz pd) := by
  refine ⟨clipPolyMarked_map inp pnx pnz pd, clipPoly_nonneg inp pnx pnz pd,
    clipPolyMarked_cut inp pnx pnz pd, clipPolyMarked_kept inp pnx pnz pd, ?_, ?_⟩
  · rw [← clipPolyMarked_kept, ← clipPolyMarked_map]
    exact (List.filter_sublist _).map _
  · intro v _ hneg hmem
    have := clipPoly_nonneg inp pnx pnz pd v hmem
    linarith

/-! ## Filters called outside their documented limits -/

theorem zeroIf_keptOrCleared (p : Nat × Nat → Int → Bool) : ∀ c : List rcSpan,
    List.Forall₂ keptOrCleared c (zeroIf p c)
  | [] => List.Forall₂.nil
  | s :: next => by
    unfold zeroIf
    refine List.Forall₂.cons ?_ (zeroIf_keptOrCleared p next)
    split
    · exact Or.inr rfl
    · exact Or.inl rfl

theorem forall₂_keptOrCleared_refl : ∀ c : List rcSpan, List.Forall₂ keptOrCleared c c
  | [] => List.Forall₂.nil
  | _ :: next => List.Forall₂.cons (Or.inl rfl) (forall₂_keptOrCleared_refl next)

theorem forall₂_of_getElem? {α β : Type} (R : α → β → Prop) :
    ∀ (a : List α) (b : List β) (g : Nat → α → β),
      (∀ i, b[i]? = (a[i]?).map (g i)) → (∀ i x, R x (g i x)) → List.Forall₂ R a b
  | [], b, g, h, _ => by
    have h0 := h 0
    simp only [List.getElem?_nil, Option.map_none'] at h0
    cases b with
    | nil => exact List.Forall₂.nil
    | cons y b => simp at h0
  | x :: a, b, g, h, hR => by
    have h0 := h 0
    simp only [List.getElem?_cons_zero, Option.map_some'] at h0
    cases b with
    | nil => simp at h0
    | cons y b =>
      simp only [List.getElem?_cons_zero, Option.some.injEq] at h0
      rw [h0]
      refine List.Forall₂.cons (hR 0 x) ?_
      refine forall₂_of_getElem? R a b (fun i => g (i + 1)) ?_ (fun i x => hR (i + 1) x)
      intro i
      have := h (i + 1)
      simpa using this

theorem ledge_keptOrCleared (wH wC : Int) (hf : rcHeightfield) :
    List.Forall₂ (List.Forall₂ keptOrCleared) hf.spans (rcFilterLedgeSpans wH wC hf).spans := by
  refine forall₂_of_getElem? _ _ _ _ (ledge_spec wH wC hf).2 ?_
  intro idx c
  split
  · rw [ledgeColumn_eq_zeroIf]
    exact zeroIf_keptOrCleared _ c
  · exact forall₂_keptOrCleared_refl c

theorem lowHeight_keptOrCleared (wH : Int) (hf : rcHeightfield) :
    List.Forall₂ (List.Forall₂ keptOrCleared) hf.spans
      (rcFilterWalkableLowHeightSpans wH hf).spans := by
  refine forall₂_of_getElem? _ _ _ _ (lowHeight_spec wH hf).2 ?_
  intro idx c
  split
  · rw [lowHeightColumn_eq_zeroIf]
    exact zeroIf_keptOrCleared _ c
  · exact forall₂_keptOrCleared_refl c

/-- C21 (amended): `rcFilterLedgeSpans` and `rcFilterWalkableLowHeightSpans` do
not check `walkableHeight`. For every `walkableHeight`, also below the
documented limit 3, each of them leaves the grid, the number and order of the
spans and every `smin` and `smax` unchanged, and every span afterwards is the
span before or the span before with its area set to `RC_NULL_AREA`; the
low-height filter clears the spans whose clearance is less than
`walkableHeight` and keeps those whose clearance is greater. -/
theorem filters_below_walkableHeight_limit (walkableHeight walkableClimb : Int)
    (hf : rcHeightfield) :
    (sameGeom hf (rcFilterLedgeSpans walkableHeight walkableClimb hf) ∧
      List.Forall₂ (List.Forall₂ keptOrCleared) hf.spans
        (rcFilterLedgeSpans walkableHeight walkableClimb hf).spans) ∧
    (sameGeom hf (rcFilterWalkableLowHeightSpans walkableHeight hf) ∧
      List.Forall₂ (List.Forall₂ keptOrCleared) hf.spans
        (rcFilterWalkableLowHeightSpans walkableHeight hf).spans) ∧
    ∀ (x y : Nat), x < hf.width → y < hf.height → ∀ (i : Nat) (s : rcSpan),
      (hf.col ((x : Int) + (y : Int) * (hf.width : Int)))[i]? = some s →
      (spanTop ((hf.col ((x : Int) + (y : Int) * (hf.width : Int))).drop (i + 1)) -
          (s.smax : Int) < walkableHeight →
        ((rcFilterWalkableLowHeightSpans walkableHeight hf).col
          ((x : Int) + (y : Int) * (hf.width : Int)))[i]? =
            some { s with area := RC_NULL_AREA }) ∧
      (spanTop ((hf.col ((x : Int) + (y : Int) * (hf.width : Int))).drop (i + 1)) -
          (s.smax : Int) > walkableHeight →
        ((rcFilterWalkableLowHeightSpans walkableHeight hf).col
          ((x : Int) + (y : Int) * (hf.width : Int)))[i]? = some s) := by
  refine ⟨⟨ledge_sameGeom walkableHeight walkableClimb hf,
      ledge_keptOrCleared walkableHeight walkableClimb hf⟩,
    ⟨lowHeight_sameGeom walkableHeight hf, lowHeight_keptOrCleared walkableHeight hf⟩, ?_⟩
  intro x y hx hy i s hs
  have h := lowHeight_per_span walkableHeight hf x y hx hy i
  rw [hs] at h
  simp only [Option.map_some'] at h
  constructor
  · intro hlt
    rw [h, if_pos (le_of_lt hlt)]
  · intro hgt
    rw [h, if_neg (not_le.2 hgt)]

/-- C21 as stated fails. With `walkableHeight = 2 < 3` the low-height filter
clears the span `[0, 1]` below the span `[2, 3]` (clearance 1), and the ledge
filter clears the span of a one-cell field, whose four neighbours lie outside
the grid: both heightfields are changed. -/
theorem filters_below_walkableHeight_limit_counterexample :
    (2 : Int) < 3 ∧
    rcFilterWalkableLowHeightSpans 2 (oneCell [⟨0, 1, 63⟩, ⟨2, 3, 63⟩]) ≠
      oneCell [⟨0, 1, 63⟩, ⟨2, 3, 63⟩] ∧
    (rcFilterWalkableLowHeightSpans 2 (oneCell [⟨0, 1, 63⟩, ⟨2, 3, 63⟩])).spans =
      [[⟨0, 1, 0⟩, ⟨2, 3, 63⟩]] ∧
    rcFilterLedgeSpans 2 1 (oneCell [⟨0, 1, 63⟩]) ≠ oneCell [⟨0, 1, 63⟩] ∧
    (rcFilterLedgeSpans 2 1 (oneCell [⟨0, 1, 63⟩])).spans = [[⟨0, 1, 0⟩]] := by
  decide

/-! ## The build configuration of the sample -/

theorem addSpans_append (hf : rcHeightfield) (a b : List AddSpanCall) :
    addSpans hf (a ++ b) = addSpans (addSpans hf a) b := by
  unfold addSpans
  rw [List.foldl_append]

theorem rasterizeCell_eq_call (inrow : List Vec3) (area : Nat) (bmin : Vec3) (bY cs ich : ℚ)
    (thr : Int) (y : Int) (hf : rcHeightfield) (x : Int) :
    rasterizeCell inrow area bmin bY cs ich thr y hf x =
      addSpans hf (rasterizeCellCall inrow area bmin bY cs ich thr y x).toList := by
  unfold rasterizeCell rasterizeCellCall
  simp only
  split
  · rfl
  · split
    · rfl
    · split
      · rfl
      · split
        · rfl
        · rfl

theorem foldl_cells_eq_calls (f : rcHeightfield → Int → rcHeightfield)
    (c : Int → Option AddSpanCall) (h : ∀ hf x, f hf x = addSpans hf (c x).toList) :
    ∀ (l : List Int) (hf : rcHeightfield), l.foldl f hf = addSpans hf (l.filterMap c)
  | [], _ => rfl
  | x :: l, hf => by
    rw [List.foldl_cons, foldl_cells_eq_calls f c h l, h hf x]
    cases hc : c x with
    | none => simp [List.filterMap_cons, hc, addSpans]
    | some k =>
      simp only [List.filterMap_cons, hc, Option.toList]
      rfl

theorem foldl_rows_eq_calls (f : rcHeightfield → Int → rcHeightfield)
    (c : Int → List AddSpanCall) (h : ∀ hf y, f hf y = addSpans hf (c y)) :
    ∀ (l : List Int) (hf : rcHeightfield), l.foldl f hf = addSpans hf (l.flatMap c)
  | [], _ => rfl
  | y :: l, hf => by
    rw [List.foldl_cons, foldl_rows_eq_calls f c h l, h hf y, List.flatMap_cons, addSpans_append]

theorem rasterizeRow_eq_calls (v0 v1 v2 : Vec3) (area : Nat) (bmin : Vec3) (bY cs ich : ℚ)
    (thr : Int) (x0 x1 : Int) (hf : rcHeightfield) (y : Int) :
    rasterizeRow v0 v1 v2 area bmin bY cs ich thr x0 x1 hf y =
      addSpans hf (rasterizeRowCalls v0 v1 v2 area bmin bY cs ich thr x0 x1 y) := by
  unfold rasterizeRow rasterizeRowCalls
  simp only
  split
  · rfl
  · split
    · rfl
    · exact foldl_cells_eq_calls _ _
        (fun g x => rasterizeCell_eq_call _ area bmin bY cs ich thr y g x) _ hf

/-- The heightfield `rasterizeTri` returns is the one its calls of `addSpan`
produce. -/
theorem rasterizeTri_eq_calls (v0 v1 v2 : Vec3) (area : Nat) (hf : rcHeightfield)
    (bmin bmax : Vec3) (cs ics ich : ℚ) (thr : Int) :
    rasterizeTri v0 v1 v2 area hf bmin bmax cs ics ich thr =
      addSpans hf (rasterizeTriCalls v0 v1 v2 area hf.width hf.height bmin bmax cs ics ich thr) := by
  unfold rasterizeTri rasterizeTriCalls
  simp only
  split
  · rfl
  · exact foldl_rows_eq_calls _ _
      (fun g y => rasterizeRow_eq_calls v0 v1 v2 area bmin _ cs ich thr _ _ g y) _ hf

theorem rasterizeCellCall_xy (inrow : List Vec3) (area : Nat) (bmin : Vec3) (bY cs ich : ℚ)
    (thr : Int) (y x : Int) (k : AddSpanCall)
    (h : rasterizeCellCall inrow area bmin bY cs ich thr y x = some k) : k.x = x ∧ k.y = y := by
  unfold rasterizeCellCall at h
  simp only at h
  split at h
  · simp at h
  · split at h
    · simp at h
    · split at h
      · simp at h
      · split at h
        · simp at h
        · simp only [Option.some.injEq] at h
          rw [← h]
          exact ⟨rfl, rfl⟩

theorem rasterizeRowCalls_xy (v0 v1 v2 : Vec3) (area : Nat) (bmin : Vec3) (bY cs ich : ℚ)
    (thr : Int) (x0 x1 y : Int) :
    ∀ k ∈ rasterizeRowCalls v0 v1 v2 area bmin bY cs ich thr x0 x1 y,
      (x0 ≤ k.x ∧ k.x ≤ x1) ∧ k.y = y := by
  intro k hk
  unfold rasterizeRowCalls at hk
  simp only at hk
  split at hk
  · simp at hk
  · split at hk
    · simp at hk
    · rw [List.mem_filterMap] at hk
      obtain ⟨x, hx, hc⟩ := hk
      have := rasterizeCellCall_xy _ area bmin bY cs ich thr y x k hc
      rw [this.1, this.2]
      exact ⟨(mem_intRange _ _ _).1 hx, rfl⟩

theorem footprint_y_range (tmin tmax bmin : Vec3) (ics : ℚ) (w h : Int) (hh : 1 ≤ h) :
    0 ≤ (footprint tmin tmax bmin ics w h).2.1 ∧
    (footprint tmin tmax bmin ics w h).2.2.2 < h := by
  unfold footprint
  exact ⟨(rcClamp_mem _ h hh).1, (rcClamp_mem _ h hh).2⟩

theorem rasterizeTriCalls_in_grid (v0 v1 v2 : Vec3) (area : Nat) (w h : Nat)
    (hw : 1 ≤ w) (hh : 1 ≤ h) (bmin bmax : Vec3) (cs ics ich : ℚ) (thr : Int) :
    ∀ k ∈ rasterizeTriCalls v0 v1 v2 area w h bmin bmax cs ics ich thr,
      (0 ≤ k.x ∧ k.x < w) ∧ (0 ≤ k.y ∧ k.y < h) := by
  intro k hk
  unfold rasterizeTriCalls at hk
  simp only at hk
  split at hk
  · simp at hk
  · rw [List.mem_flatMap] at hk
    obtain ⟨y, hy, hk⟩ := hk
    have hxy := rasterizeRowCalls_xy _ _ _ _ _ _ _ _ _ _ _ _ k hk
    have hy := (mem_intRange _ _ _).1 hy
    have hwI : (1 : Int) ≤ w := by exact_mod_cast hw
    have hhI : (1 : Int) ≤ h := by exact_mod_cast hh
    have cx := footprint_x_range (rcVmin (rcVmin v0 v1) v2) (rcVmax (rcVmax v0 v1) v2) bmin ics
      w h hwI
    have cy := footprint_y_range (rcVmin (rcVmin v0 v1) v2) (rcVmax (rcVmax v0 v1) v2) bmin ics
      w h hhI
    rw [hxy.2]
    omega

/-- C23: the footprint of `rasterizeTri` stays inside the grid. For every
heightfield with `width >= 1` and `height >= 1` and every triangle, the result
of `rasterizeTri` is the result of the sequence of `addSpan` calls it makes,
and every cell `(x, y)` of such a call satisfies `0 <= x < width` and
`0 <= y < height`, so that the column index `x + y*width` lies inside the array
of `width*height` columns. -/
theorem rasterizeTri_footprint_in_grid (v0 v1 v2 : Vec3) (area : Nat) (hf : rcHeightfield)
    (bmin bmax : Vec3) (cs ics ich : ℚ) (flagMergeThr : Int)
    (hw : 1 ≤ hf.width) (hh : 1 ≤ hf.height) :
    rasterizeTri v0 v1 v2 area hf bmin bmax cs ics ich flagMergeThr =
      addSpans hf
        (rasterizeTriCalls v0 v1 v2 area hf.width hf.height bmin bmax cs ics ich flagMergeThr) ∧
    ∀ k ∈ rasterizeTriCalls v0 v1 v2 area hf.width hf.height bmin bmax cs ics ich flagMergeThr,
      (0 ≤ k.x ∧ k.x < hf.width) ∧ (0 ≤ k.y ∧ k.y < hf.height) ∧
      0 ≤ k.x + k.y * (hf.width : Int) ∧
      (k.x + k.y * (hf.width : Int)).toNat < hf.width * hf.height := by
  refine ⟨rasterizeTri_eq_calls v0 v1 v2 area hf bmin bmax cs ics ich flagMergeThr, ?_⟩
  intro k hk
  have h := rasterizeTriCalls_in_grid v0 v1 v2 area hf.width hf.height hw hh bmin bmax cs ics
    ich flagMergeThr k hk
  exact ⟨h.1, h.2, cell_index_valid hf.width hf.height k.x k.y h.1.1 h.1.2 h.2.1 h.2.2⟩

/-- Witness of C23: a triangle reaching far outside a 2x1 grid on every side. -/
theorem rasterizeTri_footprint_in_grid_witness :
    (1 ≤ twoCells.width ∧ 1 ≤ twoCells.height) ∧
    ∀ k ∈ rasterizeTriCalls ⟨-5, 1, -5⟩ ⟨9, 1, -5⟩ ⟨-5, 1, 9⟩ 63 twoCells.width twoCells.height
        twoCells.bmin twoCells.bmax 1 1 1 1,
      (0 ≤ k.x ∧ k.x < twoCells.width) ∧ (0 ≤ k.y ∧ k.y < twoCells.height) ∧
      0 ≤ k.x + k.y * (twoCells.width : Int) ∧
      (k.x + k.y * (twoCells.width : Int)).toNat < twoCells.width * twoCells.height :=
  ⟨⟨by decide, by decide⟩,
    (rasterizeTri_footprint_in_grid ⟨-5, 1, -5⟩ ⟨9, 1, -5⟩ ⟨-5, 1, 9⟩ 63 twoCells
      twoCells.bmin twoCells.bmax 1 1 1 1 (by decide) (by decide)).2⟩

/-! ## The intervals of a column do not depend on the insertion order -/

/-- A point of the merged span lies in the new span or in an absorbed span,
also halfway between two cells. -/
theorem mergeAll_coverHalf (thr : Int) : ∀ (l : List rcSpan) (s : rcSpan) (d : Nat),
    (∀ c ∈ l, c.smin ≤ s.smax ∧ s.smin ≤ c.smax) →
    2 * (mergeAll thr s l).smin ≤ d → d ≤ 2 * (mergeAll thr s l).smax →
    (2 * s.smin ≤ d ∧ d ≤ 2 * s.smax) ∨ ∃ c ∈ l, 2 * c.smin ≤ d ∧ d ≤ 2 * c.smax
  | [], s, d, _, h1, h2 => Or.inl ⟨h1, h2⟩
  | e :: l, s, d, hov, h1, h2 => by
    have e0 : mergeAll thr s (e :: l) = mergeAll thr (mergeSpan thr s e) l := rfl
    rw [e0] at h1 h2
    have he := hov e (by simp)
    have ih := mergeAll_coverHalf thr l (mergeSpan thr s e) d (by
      intro c hc
      have := hov c (List.mem_cons_of_mem _ hc)
      rw [mergeSpan_smin, mergeSpan_smax]
      omega) h1 h2
    rcases ih with ih | ⟨c, hc, hh⟩
    · rw [mergeSpan_smin, mergeSpan_smax] at ih
      by_cases hs : 2 * s.smin ≤ d ∧ d ≤ 2 * s.smax
      · exact Or.inl hs
      · right
        refine ⟨e, by simp, ?_⟩
        omega
    · exact Or.inr ⟨c, List.mem_cons_of_mem _ hc, hh⟩

/-- The heights covered after `addSpan` are those covered before together with
the new interval. -/
theorem addSpanLoop_coversHalf (thr : Int) (col : List rcSpan) (s : rcSpan)
    (hcol : columnOk col) (hs : s.smin ≤ s.smax) (d : Nat) :
    coversHalf d (addSpanLoop thr s col) ↔
      coversHalf d col ∨ (2 * s.smin ≤ d ∧ d ≤ 2 * s.smax) := by
  rw [addSpanLoop_shape thr col s hcol hs]
  have hb := mergeAll_bounds thr
    (col.filter (fun c => overlapInterval c.smin c.smax s.smin s.smax)) s
  have hov : ∀ c ∈ col.filter (fun c => overlapInterval c.smin c.smax s.smin s.smax),
      c.smin ≤ s.smax ∧ s.smin ≤ c.smax := by
    intro c hc
    have := (overlapInterval_iff _ _ _ _).1 (List.mem_filter.1 hc).2
    omega
  have hc := mergeAll_coverHalf thr
    (col.filter (fun c => overlapInterval c.smin c.smax s.smin s.smax)) s d hov
  generalize mergeAll thr s
    (col.filter (fun c => overlapInterval c.smin c.smax s.smin s.smax)) = m at hb hc
  unfold coversHalf
  constructor
  · rintro ⟨c, hmem, h1, h2⟩
    rcases List.mem_append.1 hmem with hmem | hmem
    · exact Or.inl ⟨c, (List.mem_filter.1 hmem).1, h1, h2⟩
    · rcases List.mem_cons.1 hmem with rfl | hmem
      · rcases hc h1 h2 with h | ⟨e, he, hh⟩
        · exact Or.inr h
        · exact Or.inl ⟨e, (List.mem_filter.1 he).1, hh⟩
      · exact Or.inl ⟨c, (List.mem_filter.1 hmem).1, h1, h2⟩
  · rintro (⟨c, hmem, h1, h2⟩ | ⟨h1, h2⟩)
    · by_cases hlo : c.smax < s.smin
      · exact ⟨c, List.mem_append_left _ (List.mem_filter.2 ⟨hmem, by simpa using hlo⟩), h1, h2⟩
      · by_cases hhi : c.smin > s.smax
        · exact ⟨c, List.mem_append_right _ (List.mem_cons_of_mem _
            (List.mem_filter.2 ⟨hmem, by simpa using hhi⟩)), h1, h2⟩
        · have hmid : c ∈ col.filter (fun c => overlapInterval c.smin c.smax s.smin s.smax) :=
            List.mem_filter.2 ⟨hmem, (overlapInterval_iff _ _ _ _).2 (by omega)⟩
          have := hb.2 c hmid
          exact ⟨m, List.mem_append_right _ (List.mem_cons_self _ _), by omega, by omega⟩
    · exact ⟨m, List.mem_append_right _ (List.mem_cons_self _ _), by omega, by omega⟩

/-- The lowest span of a well-formed column starts no higher and ends no lower
than the lowest span of a well-formed column covering the same heights. -/
theorem head_le_of_covers (g1 g2 : rcSpan) (t1 t2 : List rcSpan)
    (h1 : columnOk (g1 :: t1)) (h2 : columnOk (g2 :: t2))
    (hc : ∀ d, coversHalf d (g1 :: t1) → coversHalf d (g2 :: t2))
    (hc2 : ∀ d, coversHalf d (g2 :: t2) → coversHalf d (g1 :: t1)) :
    g2.smin ≤ g1.smin ∧ g1.smax ≤ g2.smax := by
  have p1 := List.pairwise_cons.1 (columnOk_pairwise _ h1)
  have p2 := List.pairwise_cons.1 (columnOk_pairwise _ h2)
  have o1 : g1.smin ≤ g1.smax := (h1.1 g1 (by simp)).1
  have o2 : g2.smin ≤ g2.smax := (h2.1 g2 (by simp)).1
  have lo : g2.smin ≤ g1.smin := by
    obtain ⟨g, hg, a, _⟩ := hc (2 * g1.smin) ⟨g1, by simp, le_refl _, by omega⟩
    rcases List.mem_cons.1 hg with rfl | hg
    · omega
    · have := p2.1 g hg
      omega
  have lo2 : g1.smin ≤ g2.smin := by
    obtain ⟨g, hg, a, _⟩ := hc2 (2 * g2.smin) ⟨g2, by simp, le_refl _, by omega⟩
    rcases List.mem_cons.1 hg with rfl | hg
    · omega
    · have := p1.1 g hg
      omega
  refine ⟨lo, ?_⟩
  obtain ⟨g, hg, a, b⟩ := hc (2 * g1.smax) ⟨g1, by simp, by omega, le_refl _⟩
  rcases List.mem_cons.1 hg with rfl | hg
  · omega
  · have hsep := p2.1 g hg
    obtain ⟨g3, hg3, a3, b3⟩ := hc (2 * g2.smax + 1) ⟨g1, by simp, by omega, by omega⟩
    rcases List.mem_cons.1 hg3 with rfl | hg3
    · omega
    · have := p2.1 g3 hg3
      omega

/-- Two well-formed columns that cover the same heights have the same
intervals. -/
theorem geo_eq_of_covers : ∀ (c1 c2 : List rcSpan), columnOk c1 → columnOk c2 →
    (∀ d, coversHalf d c1 ↔ coversHalf d c2) → c1.map geo = c2.map geo
  | [], [], _, _, _ => rfl
  | [], g :: t, _, h2, hc => by
    have o : g.smin ≤ g.smax := (h2.1 g (by simp)).1
    obtain ⟨s, hs, _⟩ := (hc (2 * g.smin)).2 ⟨g, by simp, le_refl _, by omega⟩
    simp at hs
  | g :: t, [], h1, _, hc => by
    have o : g.smin ≤ g.smax := (h1.1 g (by simp)).1
    obtain ⟨s, hs, _⟩ := (hc (2 * g.smin)).1 ⟨g, by simp, le_refl _, by omega⟩
    simp at hs
  | g1 :: t1, g2 :: t2, h1, h2, hc => by
    have a := head_le_of_covers g1 g2 t1 t2 h1 h2 (fun d => (hc d).1) (fun d => (hc d).2)
    have b := head_le_of_covers g2 g1 t2 t1 h2 h1 (fun d => (hc d).2) (fun d => (hc d).1)
    have p1 := List.pairwise_cons.1 (columnOk_pairwise _ h1)
    have p2 := List.pairwise_cons.1 (columnOk_pairwise _ h2)
    have ih := geo_eq_of_covers t1 t2 (columnOk_tail h1) (columnOk_tail h2) (by
      intro d
      constructor
      · rintro ⟨x, hx, x1, x2⟩
        have hsep := p1.1 x hx
        obtain ⟨g, hg, y1, y2⟩ := (hc d).1 ⟨x, List.mem_cons_of_mem _ hx, x1, x2⟩
        rcases List.mem_cons.1 hg with rfl | hg
        · omega
        · exact ⟨g, hg, y1, y2⟩
      · rintro ⟨x, hx, x1, x2⟩
        have hsep := p2.1 x hx
        obtain ⟨g, hg, y1, y2⟩ := (hc d).2 ⟨x, List.mem_cons_of_mem _ hx, x1, x2⟩
        rcases List.mem_cons.1 hg with rfl | hg
        · omega
        · exact ⟨g, hg, y1, y2⟩)
    simp only [List.map_cons, ih]
    congr 1
    unfold geo
    rw [Prod.mk.injEq]
    omega

theorem addSpanCol_coversHalf (col : List rcSpan) (smin smax area : Nat) (thr : Int)
    (hcol : columnOk col) (h1 : smin ≤ smax) (h2 : smax ≤ RC_SPAN_MAX_HEIGHT) (d : Nat) :
    coversHalf d (addSpanCol col smin smax area thr) ↔
      coversHalf d col ∨ (2 * smin ≤ d ∧ d ≤ 2 * smax) := by
  obtain ⟨f1, f2⟩ := newSpan_fields smin smax area h1 h2
  rw [addSpanCol_eq_loop, addSpanLoop_coversHalf thr col _ hcol (by omega), f1, f2]

theorem addSpansCol_ok : ∀ (calls : List AddSpanCall) (col : List rcSpan), columnOk col →
    (∀ k ∈ calls, k.smin ≤ k.smax ∧ k.smax ≤ RC_SPAN_MAX_HEIGHT) →
    columnOk (addSpansCol col calls) ∧
      ∀ d, coversHalf d (addSpansCol col calls) ↔
        coversHalf d col ∨ ∃ k ∈ calls, 2 * k.smin ≤ d ∧ d ≤ 2 * k.smax
  | [], col, hcol, _ => ⟨hcol, fun d => by simp [addSpansCol]⟩
  | k :: calls, col, hcol, hk => by
    have h0 := hk k (by simp)
    have hok := addSpanCol_ok col k.smin k.smax k.area k.flagMergeThr hcol h0.1 h0.2
    have ih := addSpansCol_ok calls _ hok (fun c hc => hk c (List.mem_cons_of_mem _ hc))
    have e : addSpansCol col (k :: calls) =
        addSpansCol (addSpanCol col k.smin k.smax k.area k.flagMergeThr) calls := rfl
    rw [e]
    refine ⟨ih.1, ?_⟩
    intro d
    rw [ih.2 d, addSpanCol_coversHalf col _ _ _ _ hcol h0.1 h0.2]
    constructor
    · rintro ((h | h) | ⟨c, hc, h⟩)
      · exact Or.inl h
      · exact Or.inr ⟨k, by simp, h⟩
      · exact Or.inr ⟨c, List.mem_cons_of_mem _ hc, h⟩
    · rintro (h | ⟨c, hc, h⟩)
      · exact Or.inl (Or.inl h)
      · rcases List.mem_cons.1 hc with rfl | hc
        · exact Or.inl (Or.inr h)
        · exact Or.inr ⟨c, hc, h⟩

/-- Two sequences of `addSpan` calls that add the same set of intervals to a
well-formed column leave columns with the same intervals. -/
theorem addSpansCol_geo (col : List rcSpan) (hcol : columnOk col) (l1 l2 : List AddSpanCall)
    (h1 : ∀ k ∈ l1, k.smin ≤ k.smax ∧ k.smax ≤ RC_SPAN_MAX_HEIGHT)
    (h2 : ∀ k ∈ l2, k.smin ≤ k.smax ∧ k.smax ≤ RC_SPAN_MAX_HEIGHT)
    (hsame : ∀ lo hi : Nat, (∃ k ∈ l1, k.smin = lo ∧ k.smax = hi) ↔
      (∃ k ∈ l2, k.smin = lo ∧ k.smax = hi)) :
    (addSpansCol col l1).map geo = (addSpansCol col l2).map geo := by
  have a := addSpansCol_ok l1 col hcol h1
  have b := addSpansCol_ok l2 col hcol h2
  apply geo_eq_of_covers _ _ a.1 b.1
  intro d
  rw [a.2 d, b.2 d]
  apply or_congr Iff.rfl
  constructor
  · rintro ⟨k, hk, h⟩
    obtain ⟨k2, hk2, e1, e2⟩ := (hsame k.smin k.smax).1 ⟨k, hk, rfl, rfl⟩
    exact ⟨k2, hk2, by rw [e1, e2]; exact h⟩
  · rintro ⟨k, hk, h⟩
    obtain ⟨k2, hk2, e1, e2⟩ := (hsame k.smin k.smax).2 ⟨k, hk, rfl, rfl⟩
    exact ⟨k2, hk2, by rw [e1, e2]; exact h⟩

/-- C28: the interval geometry of a column is insertion-order independent. For
every well-formed column and every two spans `a` and `b` with
`smin <= smax <= 8191` (any areas, any `flagMergeThr`), adding `a` then `b`
gives the same sequence of `(smin, smax)` intervals as adding `b` then `a`; and
any two sequences of `addSpan` calls that add the same set of intervals give
the same sequence of intervals. -/
theorem addSpan_order_independent (col : List rcSpan) (hcol : columnOk col)
    (a b : AddSpanCall) (ha : a.smin ≤ a.smax ∧ a.smax ≤ RC_SPAN_MAX_HEIGHT)
    (hb : b.smin ≤ b.smax ∧ b.smax ≤ RC_SPAN_MAX_HEIGHT) :
    (addSpanCol (addSpanCol col a.smin a.smax a.area a.flagMergeThr)
        b.smin b.smax b.area b.flagMergeThr).map geo =
      (addSpanCol (addSpanCol col b.smin b.smax b.area b.flagMergeThr)
        a.smin a.smax a.area a.flagMergeThr).map geo ∧
    ∀ l1 l2 : List AddSpanCall,
      (∀ k ∈ l1, k.smin ≤ k.smax ∧ k.smax ≤ RC_SPAN_MAX_HEIGHT) →
      (∀ k ∈ l2, k.smin ≤ k.smax ∧ k.smax ≤ RC_SPAN_MAX_HEIGHT) →
      (∀ lo hi : Nat, (∃ k ∈ l1, k.smin = lo ∧ k.smax = hi) ↔
        (∃ k ∈ l2, k.smin = lo ∧ k.smax = hi)) →
      (addSpansCol col l1).map geo = (addSpansCol col l2).map geo := by
  refine ⟨?_, fun l1 l2 h1 h2 hs => addSpansCol_geo col hcol l1 l2 h1 h2 hs⟩
  have h := addSpansCol_geo col hcol [a, b] [b, a]
    (by
      intro k hk
      simp only [List.mem_cons, List.mem_singleton, List.not_mem_nil, or_false] at hk
      rcases hk with rfl | rfl
      · exact ha
      · exact hb)
    (by
      intro k hk
      simp only [List.mem_cons, List.mem_singleton, List.not_mem_nil, or_false] at hk
      rcases hk with rfl | rfl
      · exact hb
      · exact ha)
    (by
      intro lo hi
      constructor
      · rintro ⟨k, hk, h⟩
        exact ⟨k, by
          simp only [List.mem_cons, List.mem_singleton, List.not_mem_nil, or_false] at hk ⊢
          exact hk.symm, h⟩
      · rintro ⟨k, hk, h⟩
        exact ⟨k, by
          simp only [List.mem_cons, List.mem_singleton, List.not_mem_nil, or_false] at hk ⊢
          exact hk.symm, h⟩)
  exact h

/-- Witness of C28: the spans `[0, 5]` (area 63) and `[0, 20]` (area 0) added in
both orders to a column holding `[0, 10]` with area 0. -/
theorem addSpan_order_independent_witness :
    (columnOk [⟨0, 10, 0⟩] ∧
      ((AddSpanCall.mk 0 0 0 5 63 0).smin ≤ (AddSpanCall.mk 0 0 0 5 63 0).smax ∧
        (AddSpanCall.mk 0 0 0 5 63 0).smax ≤ RC_SPAN_MAX_HEIGHT) ∧
      ((AddSpanCall.mk 0 0 0 20 0 0).smin ≤ (AddSpanCall.mk 0 0 0 20 0 0).smax ∧
        (AddSpanCall.mk 0 0 0 20 0 0).smax ≤ RC_SPAN_MAX_HEIGHT)) ∧
    (addSpanCol (addSpanCol [⟨0, 10, 0⟩]
        (AddSpanCall.mk 0 0 0 5 63 0).smin (AddSpanCall.mk 0 0 0 5 63 0).smax
        (AddSpanCall.mk 0 0 0 5 63 0).area (AddSpanCall.mk 0 0 0 5 63 0).flagMergeThr)
        (AddSpanCall.mk 0 0 0 20 0 0).smin (AddSpanCall.mk 0 0 0 20 0 0).smax
        (AddSpanCall.mk 0 0 0 20 0 0).area (AddSpanCall.mk 0 0 0 20 0 0).flagMergeThr).map geo =
      (addSpanCol (addSpanCol [⟨0, 10, 0⟩]
        (AddSpanCall.mk 0 0 0 20 0 0).smin (AddSpanCall.mk 0 0 0 20 0 0).smax
        (AddSpanCall.mk 0 0 0 20 0 0).area (AddSpanCall.mk 0 0 0 20 0 0).flagMergeThr)
        (AddSpanCall.mk 0 0 0 5 63 0).smin (AddSpanCall.mk 0 0 0 5 63 0).smax
        (AddSpanCall.mk 0 0 0 5 63 0).area (AddSpanCall.mk 0 0 0 5 63 0).flagMergeThr).map geo :=
  ⟨⟨by decide, ⟨by decide, by decide⟩, ⟨by decide, by decide⟩⟩,
    (addSpan_order_independent [⟨0, 10, 0⟩] (by decide)
      (AddSpanCall.mk 0 0 0 5 63 0) (AddSpanCall.mk 0 0 0 20 0 0)
      ⟨by decide, by decide⟩ ⟨by decide, by decide⟩).1⟩

/-- The areas do depend on the order: adding `[0, 5]` with area 63 and `[0, 20]`
with area 0 to a column holding `[0, 10]` with area 0 gives `[0, 20]` with area
0 in one order and with area 63 in the other. -/
theorem addSpan_area_order_dependent :
    addSpanCol (addSpanCol [⟨0, 10, 0⟩] 0 5 63 0) 0 20 0 0 = [⟨0, 20, 0⟩] ∧
    addSpanCol (addSpanCol [⟨0, 10, 0⟩] 0 20 0 0) 0 5 63 0 = [⟨0, 20, 63⟩] := by
  decide

/-! ## The clip buffers of `rasterizeTri` -/

theorem crossingsLoop_eq_signChanges (pnx pnz pd : ℚ) : ∀ (l : List Vec3) (vj : Vec3),
    crossingsLoop pnx pnz pd vj l =
      signChanges (insidePlane pnx pnz pd vj) (l.map (insidePlane pnx pnz pd))
  | [], _ => rfl
  | vi :: rest, vj => by
    simp only [crossingsLoop, List.map_cons, signChanges,
      crossingsLoop_eq_signChanges pnx pnz pd rest vi]

/-- A list with `k` sign changes contains the alternating list of length `k`. -/
theorem altList_of_signChanges : ∀ (l : List Bool) (a : Bool) (k : Nat),
    k ≤ signChanges a l → List.Sublist (altList (!a) k) l
  | [], _, k, h => by
    have : k = 0 := by simpa [signChanges] using h
    subst this
    exact List.Sublist.slnil
  | b :: l, a, k, h => by
    unfold signChanges at h
    by_cases hab : a = b
    · subst hab
      simp only [bne_self_eq_false, Bool.false_eq_true, if_false, Nat.zero_add] at h
      exact List.Sublist.cons _ (altList_of_signChanges l a k h)
    · have hb : b = !a := by
        cases a <;> cases b <;> first | rfl | exact absurd rfl hab
      have hne : (a != b) = true := by
        cases a <;> cases b <;> first | rfl | exact absurd rfl hab
      rw [if_pos hne] at h
      cases k with
      | zero => exact List.nil_sublist _
      | succ k =>
        have ih := altList_of_signChanges l b k (by omega)
        unfold altList
        rw [← hb]
        exact List.Sublist.cons₂ _ ih

/-- A list ending in `a` that contains `!a, a, !a` contains `!a, a, !a, a`. -/
theorem altList_wrap (l : List Bool) (a : Bool) (hlast : l.getLast? = some a)
    (h : List.Sublist (altList (!a) 3) l) : List.Sublist (altList (!a) 4) l := by
  obtain ⟨init, rfl⟩ : ∃ init, l = init ++ [a] := by
    have hne : l ≠ [] := by
      intro h0
      rw [h0] at hlast
      simp at hlast
    refine ⟨l.dropLast, ?_⟩
    have := List.dropLast_append_getLast hne
    rw [List.getLast?_eq_getLast _ hne] at hlast
    simp only [Option.some.injEq] at hlast
    rw [hlast] at this
    exact this.symm
  rw [List.sublist_append_iff] at h
  obtain ⟨l1, l2, e, h1, h2⟩ := h
  have hl2 : l2 = [] := by
    rcases List.sublist_cons_iff.1 h2 with h3 | ⟨r, hr, h3⟩
    · simpa using h3
    · have hr0 : r = [] := by simpa using h3
      subst hr0
      subst hr
      exfalso
      have e2 := congrArg List.getLast? e
      cases a <;> simp [altList] at e2
  subst hl2
  rw [List.append_nil] at e
  subst e
  have e4 : altList (!a) 4 = altList (!a) 3 ++ [a] := by
    simp [altList]
  rw [e4]
  exact List.Sublist.append h1 (List.Sublist.refl _)

/-- A polygon that no line crosses more than twice has at most two edges that
cross the clipping plane. -/
theorem crossings_le_two (P : List Vec3) (hP : convexLike P) (pnx pnz pd : ℚ) :
    crossings P pnx pnz pd ≤ 2 := by
  unfold crossings
  cases hl : P.getLast? with
  | none => simp
  | some last =>
    simp only
    rw [crossingsLoop_eq_signChanges]
    by_contra hc
    have h3 : 3 ≤ signChanges (insidePlane pnx pnz pd last) (P.map (insidePlane pnx pnz pd)) := by
      omega
    have hs := altList_of_signChanges _ _ 3 h3
    have hlast : (P.map (insidePlane pnx pnz pd)).getLast? =
        some (insidePlane pnx pnz pd last) := by
      rw [List.getLast?_map, hl]
      rfl
    exact hP pnx pnz pd _ (altList_wrap _ _ hlast hs)

/-- The intersection vertex of an edge lies on the side of one of the two end
points of the edge, for every half-plane. -/
theorem cut_sign (pnx pnz pd qnx qnz qd : ℚ) (vj vi : Vec3)
    (h : (decide (planeDist pnx pnz pd vj ≥ 0) != decide (planeDist pnx pnz pd vi ≥ 0)) = true) :
    insidePlane qnx qnz qd
        ⟨vj.x + (vi.x - vj.x) * (planeDist pnx pnz pd vj /
            (planeDist pnx pnz pd vj - planeDist pnx pnz pd vi)),
          vj.y + (vi.y - vj.y) * (planeDist pnx pnz pd vj /
            (planeDist pnx pnz pd vj - planeDist pnx pnz pd vi)),
          vj.z + (vi.z - vj.z) * (planeDist pnx pnz pd vj /
            (planeDist pnx pnz pd vj - planeDist pnx pnz pd vi))⟩ = insidePlane qnx qnz qd vj ∨
      insidePlane qnx qnz qd
        ⟨vj.x + (vi.x - vj.x) * (planeDist pnx pnz pd vj /
            (planeDist pnx pnz pd vj - planeDist pnx pnz pd vi)),
          vj.y + (vi.y - vj.y) * (planeDist pnx pnz pd vj /
            (planeDist pnx pnz pd vj - planeDist pnx pnz pd vi)),
          vj.z + (vi.z - vj.z) * (planeDist pnx pnz pd vj /
            (planeDist pnx pnz pd vj - planeDist pnx pnz pd vi))⟩ = insidePlane qnx qnz qd vi := by
  have hs := cut_param _ _ h
  generalize planeDist pnx pnz pd vj /
    (planeDist pnx pnz pd vj - planeDist pnx pnz pd vi) = s at hs
  have e : planeDist qnx qnz qd
      ⟨vj.x + (vi.x - vj.x) * s, vj.y + (vi.y - vj.y) * s, vj.z + (vi.z - vj.z) * s⟩ =
      planeDist qnx qnz qd vj + (planeDist qnx qnz qd vi - planeDist qnx qnz qd vj) * s := by
    unfold planeDist
    ring
  have hb := lerp_between (min (planeDist qnx qnz qd vj) (planeDist qnx qnz qd vi))
    (max (planeDist qnx qnz qd vj) (planeDist qnx qnz qd vi))
    (planeDist qnx qnz qd vj) (planeDist qnx qnz qd vi) s
    ⟨min_le_left _ _, le_max_left _ _⟩ ⟨min_le_right _ _, le_max_right _ _⟩ hs
  rw [← e] at hb
  unfold insidePlane
  by_cases hj : planeDist qnx qnz qd vj ≥ 0 <;> by_cases hi : planeDist qnx qnz qd vi ≥ 0
  · left
    have : 0 ≤ min (planeDist qnx qnz qd vj) (planeDist qnx qnz qd vi) := le_min hj hi
    simp only [hj, decide_True, decide_eq_true_eq, ge_iff_le]
    linarith [hb.1]
  · by_cases hx : planeDist qnx qnz qd
        ⟨vj.x + (vi.x - vj.x) * s, vj.y + (vi.y - vj.y) * s, vj.z + (vi.z - vj.z) * s⟩ ≥ 0
    · left; simp only [hx, hj]
    · right; simp only [hx, hi]
  · by_cases hx : planeDist qnx qnz qd
        ⟨vj.x + (vi.x - vj.x) * s, vj.y + (vi.y - vj.y) * s, vj.z + (vi.z - vj.z) * s⟩ ≥ 0
    · right; simp only [hx, hi]
    · left; simp only [hx, hj]
  · left
    have : max (planeDist qnx qnz qd vj) (planeDist qnx qnz qd vi) < 0 :=
      max_lt (not_le.1 hj) (not_le.1 hi)
    have hx : ¬ planeDist qnx qnz qd
        ⟨vj.x + (vi.x - vj.x) * s, vj.y + (vi.y - vj.y) * s, vj.z + (vi.z - vj.z) * s⟩ ≥ 0 := by
      intro hc
      linarith [hb.2]
    simp only [hx, hj]

/-- The signs of the clipped polygon, for any half-plane, are found in order
among the signs of the input polygon, each taken up to three times, after the
sign of the vertex the first edge starts from. -/
theorem signs_clipPolyLoop (pnx pnz pd qnx qnz qd : ℚ) : ∀ (l : List Vec3) (vj : Vec3),
    List.Sublist ((clipPolyLoop pnx pnz pd vj l).map (insidePlane qnx qnz qd))
      (insidePlane qnx qnz qd vj :: thrice (l.map (insidePlane qnx qnz qd)))
  | [], _ => by simp [clipPolyLoop]
  | vi :: rest, vj => by
    have ih := signs_clipPolyLoop pnx pnz pd qnx qnz qd rest vi
    unfold clipPolyLoop
    simp only [List.map_append, List.map_cons, thrice]
    have h1 : List.Sublist
        ((if (decide (planeDist pnx pnz pd vj ≥ 0) != decide (planeDist pnx pnz pd vi ≥ 0)) = true
          then [(⟨vj.x + (vi.x - vj.x) * (planeDist pnx pnz pd vj /
                (planeDist pnx pnz pd vj - planeDist pnx pnz pd vi)),
              vj.y + (vi.y - vj.y) * (planeDist pnx pnz pd vj /
                (planeDist pnx pnz pd vj - planeDist pnx pnz pd vi)),
              vj.z + (vi.z - vj.z) * (planeDist pnx pnz pd vj /
                (planeDist pnx pnz pd vj - planeDist pnx pnz pd vi))⟩ : Vec3)]
          else []).map (insidePlane qnx qnz qd))
        [insidePlane qnx qnz qd vj, insidePlane qnx qnz qd vi] := by
      split
      · rename_i hc
        rcases cut_sign pnx pnz pd qnx qnz qd vj vi hc with h | h
        · simp only [List.map_cons, List.map_nil, h]
          exact List.Sublist.cons₂ _ (List.nil_sublist _)
        · simp only [List.map_cons, List.map_nil, h]
          exact List.Sublist.cons _ (List.Sublist.refl _)
      · exact List.nil_sublist _
    have h2 : List.Sublist
        ((if decide (planeDist pnx pnz pd vi ≥ 0) = true then [vi] else []).map
          (insidePlane qnx qnz qd)) [insidePlane qnx qnz qd vi] := by
      split
      · exact List.Sublist.refl _
      · exact List.nil_sublist _
    exact List.Sublist.append (List.Sublist.append h1 h2) ih

theorem altList_dedup : ∀ (k : Nat) (a b : Bool) (Y : List Bool),
    List.Sublist (altList a k) (b :: b :: Y) → List.Sublist (altList a k) (b :: Y)
  | 0, _, _, _, _ => List.nil_sublist _
  | k + 1, a, b, Y, h => by
    unfold altList at h ⊢
    rcases List.sublist_cons_iff.1 h with h | ⟨r, hr, h⟩
    · exact h
    · simp only [List.cons.injEq] at hr
      obtain ⟨rfl, rfl⟩ := hr
      rcases List.sublist_cons_iff.1 h with h | ⟨r, hr, h⟩
      · exact List.Sublist.cons₂ _ h
      · exfalso
        cases k with
        | zero => simp [altList] at hr
        | succ k =>
          unfold altList at hr
          simp only [List.cons.injEq] at hr
          cases a <;> simp at hr

theorem altList_thrice : ∀ (L : List Bool) (a : Bool) (k : Nat),
    List.Sublist (altList a k) (thrice L) → List.Sublist (altList a k) L
  | [], _, _, h => by simpa [thrice] using h
  | b :: L, a, k, h => by
    unfold thrice at h
    have h := altList_dedup k a b _ (altList_dedup k a b _ h)
    rcases List.sublist_cons_iff.1 h with h | ⟨r, hr, h⟩
    · exact List.Sublist.cons _ (altList_thrice L a k h)
    · cases k with
      | zero => exact List.nil_sublist _
      | succ k =>
        unfold altList at hr ⊢
        simp only [List.cons.injEq] at hr
        obtain ⟨rfl, rfl⟩ := hr
        exact List.Sublist.cons₂ _ (altList_thrice L _ k h)

/-- Clipping keeps the property that no line crosses the polygon more than
twice. -/
theorem clipPoly_convexLike (P : List Vec3) (hP : convexLike P) (pnx pnz pd : ℚ) :
    convexLike (clipPoly P pnx pnz pd) := by
  intro qnx qnz qd a hsub
  unfold clipPoly at hsub
  cases hl : P.getLast? with
  | none =>
    rw [hl] at hsub
    have := hsub.length_le
    simp [altList] at this
  | some last =>
    rw [hl] at hsub
    simp only at hsub
    have h := hsub.trans (signs_clipPolyLoop pnx pnz pd qnx qnz qd P last)
    rcases List.sublist_cons_iff.1 h with h | ⟨r, hr, h⟩
    · exact hP qnx qnz qd a (altList_thrice _ a 4 h)
    · unfold altList at hr
      simp only [List.cons.injEq] at hr
      obtain ⟨ha, rfl⟩ := hr
      have h3 := altList_thrice _ _ 3 h
      have hlast : (P.map (insidePlane qnx qnz qd)).getLast? = some a := by
        rw [List.getLast?_map, hl, ha]
        rfl
      exact hP qnx qnz qd (!a) (altList_wrap _ a hlast h3)

theorem convexLike_triangle (v0 v1 v2 : Vec3) : convexLike [v0, v1, v2] := by
  intro qnx qnz qd a hsub
  have := hsub.length_le
  simp [altList] at this

/-- Clipping a polygon that no line crosses more than twice adds at most one
vertex. -/
theorem clipPoly_step (P : List Vec3) (hP : convexLike P) (pnx pnz pd : ℚ) :
    (clipPoly P pnx pnz pd).length ≤ P.length + 1 ∧ convexLike (clipPoly P pnx pnz pd) :=
  ⟨clipPoly_length_le P pnx pnz pd (crossings_le_two P hP pnx pnz pd),
    clipPoly_convexLike P hP pnx pnz pd⟩

/-- On exact rationals the polygons produced by the four successive `clipPoly`
calls of `rasterizeTri` (`z >= cz`, `z <= cz+cs`, `x >= cx`, `x <= cx+cs`) have
at most 4, 5, 6 and 7 vertices, for every triangle and every grid cell. -/
theorem rasterizeTri_clip_buffers_exact (v0 v1 v2 bmin : Vec3) (cs : ℚ) (x y : Int) :
    (clipPoly [v0, v1, v2] 0 1 (-(bmin.z + (y : ℚ) * cs))).length ≤ 4 ∧
    (clipPoly (clipPoly [v0, v1, v2] 0 1 (-(bmin.z + (y : ℚ) * cs))) 0 (-1)
      (bmin.z + (y : ℚ) * cs + cs)).length ≤ 5 ∧
    (clipPoly (clipPoly (clipPoly [v0, v1, v2] 0 1 (-(bmin.z + (y : ℚ) * cs))) 0 (-1)
      (bmin.z + (y : ℚ) * cs + cs)) 1 0 (-(bmin.x + (x : ℚ) * cs))).length ≤ 6 ∧
    (clipPoly (clipPoly (clipPoly (clipPoly [v0, v1, v2] 0 1 (-(bmin.z + (y : ℚ) * cs))) 0 (-1)
      (bmin.z + (y : ℚ) * cs + cs)) 1 0 (-(bmin.x + (x : ℚ) * cs))) (-1) 0
      (bmin.x + (x : ℚ) * cs + cs)).length ≤ 7 := by
  have s1 := clipPoly_step [v0, v1, v2] (convexLike_triangle v0 v1 v2) 0 1
    (-(bmin.z + (y : ℚ) * cs))
  have s2 := clipPoly_step _ s1.2 0 (-1) (bmin.z + (y : ℚ) * cs + cs)
  have s3 := clipPoly_step _ s2.2 1 0 (-(bmin.x + (x : ℚ) * cs))
  have s4 := clipPoly_step _ s3.2 (-1) 0 (bmin.x + (x : ℚ) * cs + cs)
  have h1 := s1.1
  have h2 := s2.1
  have h3 := s3.1
  have h4 := s4.1
  simp only [List.length_cons, List.length_nil] at h1
  exact ⟨by omega, by omega, by omega, by omega⟩

/-! ## Span nodes are conserved -/

/-- The loop keeps the nodes: those of the resulting column and free list are
the new node, the nodes of the column and the nodes of the free list. -/
theorem addSpanLoopP_perm (thr : Int) : ∀ (col : List SpanNode) (s : SpanNode) (fl : List Nat),
    List.Perm ((addSpanLoopP thr s col fl).1.map SpanNode.id ++ (addSpanLoopP thr s col fl).2)
      (s.id :: (col.map SpanNode.id ++ fl))
  | [], s, fl => by simp [addSpanLoopP]
  | cur :: next, s, fl => by
    unfold addSpanLoopP
    split
    · simp
    · split
      · have ih := addSpanLoopP_perm thr next s fl
        simp only [List.map_cons, List.cons_append]
        exact (List.Perm.cons cur.id ih).trans (List.Perm.swap _ _ _)
      · have ih := addSpanLoopP_perm thr next ⟨s.id, mergeSpan thr s.span cur.span⟩
          (freeSpan fl cur.id)
        refine ih.trans ?_
        simp only [freeSpan, List.map_cons, List.cons_append]
        exact List.Perm.cons _ List.perm_middle

/-- The loop on nodes does to the spans what the loop on spans does. -/
theorem addSpanLoopP_spans (thr : Int) : ∀ (col : List SpanNode) (s : SpanNode) (fl : List Nat),
    (addSpanLoopP thr s col fl).1.map SpanNode.span =
      addSpanLoop thr s.span (col.map SpanNode.span)
  | [], s, fl => by simp [addSpanLoopP, addSpanLoop]
  | cur :: next, s, fl => by
    unfold addSpanLoopP
    simp only [List.map_cons]
    unfold addSpanLoop
    split
    · simp
    · split
      · simp only [List.map_cons, addSpanLoopP_spans thr next s fl]
      · exact addSpanLoopP_spans thr next _ _

/-- The free list after the loop: the merged nodes, last merged first, in front
of the free list before. -/
theorem addSpanLoopP_freelist (thr : Int) : ∀ (col : List SpanNode) (s : SpanNode)
    (fl : List Nat), ∃ freed : List Nat, (addSpanLoopP thr s col fl).2 = freed ++ fl ∧
      List.Perm ((addSpanLoopP thr s col fl).1.map SpanNode.id ++ freed)
        (s.id :: col.map SpanNode.id)
  | [], s, fl => ⟨[], by simp [addSpanLoopP], by simp [addSpanLoopP]⟩
  | cur :: next, s, fl => by
    unfold addSpanLoopP
    split
    · exact ⟨[], by simp, by simp⟩
    · split
      · obtain ⟨freed, h1, h2⟩ := addSpanLoopP_freelist thr next s fl
        refine ⟨freed, h1, ?_⟩
        simp only [List.map_cons, List.cons_append]
        exact (List.Perm.cons cur.id h2).trans (List.Perm.swap _ _ _)
      · obtain ⟨freed, h1, h2⟩ := addSpanLoopP_freelist thr next
          ⟨s.id, mergeSpan thr s.span cur.span⟩ (freeSpan fl cur.id)
        refine ⟨freed ++ [cur.id], by rw [h1]; simp [freeSpan], ?_⟩
        rw [← List.append_assoc]
        refine (List.Perm.append_right [cur.id] h2).trans ?_
        simp only [List.map_cons, List.cons_append]
        refine List.Perm.cons _ ?_
        exact (List.perm_append_comm).trans (by simp)

theorem nodeCount_eq_length (hf : PoolHeightfield) : nodeCount hf = (allNodes hf).length := by
  unfold nodeCount allNodes
  rw [List.length_append]
  congr 1
  induction hf.spans with
  | nil => rfl
  | cons c l ih => simp [List.flatMap_cons, ih]

theorem range_shift (base n : Nat) :
    base :: (List.range n).map (fun i => base + 1 + i) =
      (List.range (n + 1)).map (fun i => base + i) := by
  rw [List.range_succ_eq_map, List.map_cons, List.map_map]
  congr 1
  apply List.map_congr_left
  intro i _
  simp only [Function.comp_apply]
  omega

/-- What `allocSpan` does to the free list: the node returned and the free list
afterwards are the free list before, preceded by the items of a new pool when
one was allocated. -/
theorem allocSpan_spec (hf : PoolHeightfield) :
    (allocSpan hf).2.spans = hf.spans ∧ (allocSpan hf).2.width = hf.width ∧
    ∃ fresh : List Nat,
      (allocSpan hf).1 :: (allocSpan hf).2.freelist = fresh ++ hf.freelist ∧
      List.range (RC_SPANS_PER_POOL * (allocSpan hf).2.pools) =
        List.range (RC_SPANS_PER_POOL * hf.pools) ++ fresh := by
  have e : RC_SPANS_PER_POOL - 1 + 1 = RC_SPANS_PER_POOL := by decide
  unfold allocSpan
  split
  · rename_i it next rest hfl
    exact ⟨rfl, rfl, [], by simp [hfl], by simp⟩
  · refine ⟨rfl, rfl, (List.range (RC_SPANS_PER_POOL - 1 + 1)).map
      (fun i => hf.pools * RC_SPANS_PER_POOL + i), ?_, ?_⟩
    · simp only
      rw [← range_shift, List.cons_append]
    · simp only
      rw [e, Nat.mul_add, Nat.mul_one, List.range_add, Nat.mul_comm]

theorem flatMap_set {α β : Type} (f : α → List β) (l : List α) (i : Nat) (c : α)
    (h : i < l.length) :
    ∃ A B : List β, l.flatMap f = A ++ f (l[i]) ++ B ∧ (l.set i c).flatMap f = A ++ f c ++ B := by
  refine ⟨(l.take i).flatMap f, (l.drop (i + 1)).flatMap f, ?_, ?_⟩
  · have e : l.take i ++ l[i] :: l.drop (i + 1) = l := by
      rw [← List.drop_eq_getElem_cons h, List.take_append_drop]
    calc l.flatMap f = (l.take i ++ l[i] :: l.drop (i + 1)).flatMap f := by rw [e]
      _ = (l.take i).flatMap f ++ f (l[i]) ++ (l.drop (i + 1)).flatMap f := by
        rw [List.flatMap_append, List.flatMap_cons, List.append_assoc]
  · rw [List.set_eq_take_append_cons_drop, if_pos h, List.flatMap_append, List.flatMap_cons,
      List.append_assoc]

theorem poolSetCol_fields (hf : PoolHeightfield) (i : Int) (c : List SpanNode) :
    (hf.setCol i c).freelist = hf.freelist ∧ (hf.setCol i c).pools = hf.pools ∧
      (hf.setCol i c).width = hf.width := by
  unfold PoolHeightfield.setCol
  split <;> exact ⟨rfl, rfl, rfl⟩

/-- Both branches of `addSpan`, the empty column and the loop, as one
expression. -/
theorem addSpanP_eq (hf : PoolHeightfield) (x y : Int) (smin smax area : Nat) (thr : Int) :
    addSpanP hf x y smin smax area thr =
      { (allocSpan hf).2.setCol (x + y * (hf.width : Int))
          (addSpanLoopP thr ⟨(allocSpan hf).1, newSpan smin smax area⟩
            ((allocSpan hf).2.col (x + y * (hf.width : Int))) (allocSpan hf).2.freelist).1 with
        freelist :=
          (addSpanLoopP thr ⟨(allocSpan hf).1, newSpan smin smax area⟩
            ((allocSpan hf).2.col (x + y * (hf.width : Int))) (allocSpan hf).2.freelist).2 } := by
  unfold addSpanP
  simp only
  cases hc : (allocSpan hf).2.col (x + y * (hf.width : Int)) with
  | nil =>
    simp only [addSpanLoopP]
    have := (poolSetCol_fields (allocSpan hf).2 (x + y * (hf.width : Int))
      [⟨(allocSpan hf).1, newSpan smin smax area⟩]).1
    rw [← this]
  | cons cur next => rfl

theorem poolCol_in_range (hf : PoolHeightfield) (i : Int) (h0 : 0 ≤ i)
    (h1 : i.toNat < hf.spans.length) : hf.col i = hf.spans[i.toNat] := by
  unfold PoolHeightfield.col
  rw [if_neg (by omega), List.getD_eq_getElem?_getD, List.getElem?_eq_getElem h1]
  rfl

theorem poolSetCol_in_range (hf : PoolHeightfield) (i : Int) (c : List SpanNode) (h0 : 0 ≤ i) :
    (hf.setCol i c).spans = hf.spans.set i.toNat c := by
  unfold PoolHeightfield.setCol
  rw [if_neg (by omega)]

/-- The nodes after `addSpan` are the nodes before together with the items of
the pool that was allocated, if one was. -/
theorem addSpanP_perm (hf : PoolHeightfield) (x y : Int) (smin smax area : Nat) (thr : Int)
    (h0 : 0 ≤ x + y * (hf.width : Int))
    (h1 : (x + y * (hf.width : Int)).toNat < hf.spans.length) :
    ∃ fresh : List Nat,
      List.Perm (allNodes (addSpanP hf x y smin smax area thr)) (allNodes hf ++ fresh) ∧
      List.range (RC_SPANS_PER_POOL * (addSpanP hf x y smin smax area thr).pools) =
        List.range (RC_SPANS_PER_POOL * hf.pools) ++ fresh := by
  obtain ⟨hsp, _, fresh, hfl, hrange⟩ := allocSpan_spec hf
  refine ⟨fresh, ?_, ?_⟩
  · rw [addSpanP_eq]
    have h1b : (x + y * (hf.width : Int)).toNat < (allocSpan hf).2.spans.length := by
      rw [hsp]; exact h1
    have hperm := addSpanLoopP_perm thr ((allocSpan hf).2.col (x + y * (hf.width : Int)))
      ⟨(allocSpan hf).1, newSpan smin smax area⟩ (allocSpan hf).2.freelist
    generalize addSpanLoopP thr ⟨(allocSpan hf).1, newSpan smin smax area⟩
      ((allocSpan hf).2.col (x + y * (hf.width : Int))) (allocSpan hf).2.freelist = r at hperm
    obtain ⟨A, B, e1, e2⟩ := flatMap_set (fun c : List SpanNode => c.map SpanNode.id)
      (allocSpan hf).2.spans (x + y * (hf.width : Int)).toNat r.1 h1b
    rw [poolCol_in_range _ _ h0 h1b] at hperm
    unfold allNodes
    simp only [poolSetCol_in_range _ _ _ h0, e2]
    rw [← hsp, e1]
    rw [List.perm_iff_count] at hperm ⊢
    intro a
    have hp := hperm a
    have hf2 := congrArg (List.count a) hfl
    simp only [List.count_append, List.count_cons] at hp hf2 ⊢
    omega
  · rw [addSpanP_eq]
    simp only
    rw [(poolSetCol_fields _ _ _).2.1]
    exact hrange

theorem poolCol_setCol_self (hf : PoolHeightfield) (i : Int) (c : List SpanNode) (h0 : 0 ≤ i)
    (h1 : i.toNat < hf.spans.length) : (hf.setCol i c).col i = c := by
  unfold PoolHeightfield.setCol PoolHeightfield.col
  have hi : ¬ i < 0 := by omega
  simp only [hi, if_false, List.getD_eq_getElem?_getD]
  rw [List.getElem?_set_self h1]
  rfl

/-- The addressed column and the free list after `addSpan`, from the loop. -/
theorem addSpanP_col (hf : PoolHeightfield) (x y : Int) (smin smax area : Nat) (thr : Int)
    (h0 : 0 ≤ x + y * (hf.width : Int))
    (h1 : (x + y * (hf.width : Int)).toNat < hf.spans.length) :
    (addSpanP hf x y smin smax area thr).col (x + y * (hf.width : Int)) =
        (addSpanLoopP thr ⟨(allocSpan hf).1, newSpan smin smax area⟩
          (hf.col (x + y * (hf.width : Int))) (allocSpan hf).2.freelist).1 ∧
      (addSpanP hf x y smin smax area thr).freelist =
        (addSpanLoopP thr ⟨(allocSpan hf).1, newSpan smin smax area⟩
          (hf.col (x + y * (hf.width : Int))) (allocSpan hf).2.freelist).2 := by
  have hsp := (allocSpan_spec hf).1
  have hcol : (allocSpan hf).2.col (x + y * (hf.width : Int)) =
      hf.col (x + y * (hf.width : Int)) := by
    unfold PoolHeightfield.col
    rw [hsp]
  rw [addSpanP_eq, hcol]
  refine ⟨?_, rfl⟩
  have h1b : (x + y * (hf.width : Int)).toNat < (allocSpan hf).2.spans.length := by
    rw [hsp]; exact h1
  have := poolCol_setCol_self (allocSpan hf).2 (x + y * (hf.width : Int))
    (addSpanLoopP thr ⟨(allocSpan hf).1, newSpan smin smax area⟩
      (hf.col (x + y * (hf.width : Int))) (allocSpan hf).2.freelist).1 h0 h1b
  exact this

theorem fullPoolField_ok : poolOk fullPoolField := by
  unfold poolOk
  have e : allNodes fullPoolField = List.range (RC_SPANS_PER_POOL * fullPoolField.pools) := by
    decide!
  rw [e]

/-- When the nodes in columns and on the free list are exactly the items of the
pools, `addSpan` keeps it so, and a node of the column that it unlinks is on the
free list afterwards and in no column. -/
theorem addSpanP_conserves (hf : PoolHeightfield) (x y : Int) (smin smax area : Nat)
    (thr : Int) (h0 : 0 ≤ x + y * (hf.width : Int))
    (h1 : (x + y * (hf.width : Int)).toNat < hf.spans.length) (hok : poolOk hf) :
    poolOk (addSpanP hf x y smin smax area thr) ∧
    nodeCount (addSpanP hf x y smin smax area thr) =
      RC_SPANS_PER_POOL * (addSpanP hf x y smin smax area thr).pools ∧
    (allNodes (addSpanP hf x y smin smax area thr)).Nodup ∧
    (∀ c ∈ (addSpanP hf x y smin smax area thr).spans, ∀ n ∈ c,
      n.id ∉ (addSpanP hf x y smin smax area thr).freelist) ∧
    (∀ n ∈ hf.col (x + y * (hf.width : Int)),
      n.id ∉ ((addSpanP hf x y smin smax area thr).col (x + y * (hf.width : Int))).map
          SpanNode.id →
        n.id ∈ (addSpanP hf x y smin smax area thr).freelist ∧
        ∀ c ∈ (addSpanP hf x y smin smax area thr).spans, n.id ∉ c.map SpanNode.id) := by
  obtain ⟨fresh, hperm, hrange⟩ := addSpanP_perm hf x y smin smax area thr h0 h1
  obtain ⟨hcol, hfl⟩ := addSpanP_col hf x y smin smax area thr h0 h1
  obtain ⟨freed, hf1, hf2⟩ := addSpanLoopP_freelist thr
    (hf.col (x + y * (hf.width : Int))) ⟨(allocSpan hf).1, newSpan smin smax area⟩
    (allocSpan hf).2.freelist
  have hp : poolOk (addSpanP hf x y smin smax area thr) := by
    unfold poolOk at hok ⊢
    rw [hrange]
    exact hperm.trans (List.Perm.append_right fresh hok)
  have hnd : (allNodes (addSpanP hf x y smin smax area thr)).Nodup :=
    (List.Perm.nodup_iff hp).2 (List.nodup_range _)
  have hdis : ∀ c ∈ (addSpanP hf x y smin smax area thr).spans, ∀ i ∈ c.map SpanNode.id,
      i ∉ (addSpanP hf x y smin smax area thr).freelist := by
    intro c hc i hi hfree
    unfold allNodes at hnd
    rw [List.nodup_append] at hnd
    exact hnd.2.2 (List.mem_flatMap.2 ⟨c, hc, hi⟩) hfree
  refine ⟨hp, ?_, hnd, ?_, ?_⟩
  · rw [nodeCount_eq_length]
    have hl := hp.length_eq
    rw [List.length_range] at hl
    exact hl
  · intro c hc n hn
    exact hdis c hc n.id (List.mem_map.2 ⟨n, hn, rfl⟩)
  · intro n hn hnot
    have hmem : n.id ∈ (allocSpan hf).1 :: (hf.col (x + y * (hf.width : Int))).map SpanNode.id :=
      List.mem_cons_of_mem _ (List.mem_map.2 ⟨n, hn, rfl⟩)
    have hfree : n.id ∈ (addSpanP hf x y smin smax area thr).freelist := by
      rcases List.mem_append.1 (hf2.mem_iff.2 hmem) with h | h
      · rw [← hcol] at h
        exact absurd h hnot
      · rw [hfl, hf1]
        exact List.mem_append_left _ h
    exact ⟨hfree, fun c hc hin => hdis c hc n.id hin hfree⟩

/-- C26 (amended): span nodes are conserved by `addSpan`. For a call that
addresses a column of a heightfield in which the nodes linked in columns and
on the free list are exactly the items of the pools, each once: the same holds
after the call, so that the number of nodes in columns plus the number on the
free list is `2048 * (number of pools)`, no node is twice in the columns and no
node is both in a column and on the free list; every node of the column that
the call merges away is on the free list afterwards and in no column. The
spans of the column are those the insertion on spans gives. -/
theorem addSpan_conserves_nodes (hf : PoolHeightfield) (x y : Int) (smin smax area : Nat)
    (flagMergeThr : Int) (h0 : 0 ≤ x + y * (hf.width : Int))
    (h1 : (x + y * (hf.width : Int)).toNat < hf.spans.length) (hok : poolOk hf) :
    poolOk (addSpanP hf x y smin smax area flagMergeThr) ∧
    nodeCount (addSpanP hf x y smin smax area flagMergeThr) =
      RC_SPANS_PER_POOL * (addSpanP hf x y smin smax area flagMergeThr).pools ∧
    (allNodes (addSpanP hf x y smin smax area flagMergeThr)).Nodup ∧
    (∀ c ∈ (addSpanP hf x y smin smax area flagMergeThr).spans, ∀ n ∈ c,
      n.id ∉ (addSpanP hf x y smin smax area flagMergeThr).freelist) ∧
    (∀ n ∈ hf.col (x + y * (hf.width : Int)),
      n.id ∉ ((addSpanP hf x y smin smax area flagMergeThr).col
          (x + y * (hf.width : Int))).map SpanNode.id →
        n.id ∈ (addSpanP hf x y smin smax area flagMergeThr).freelist ∧
        ∀ c ∈ (addSpanP hf x y smin smax area flagMergeThr).spans,
          n.id ∉ c.map SpanNode.id) ∧
    ((addSpanP hf x y smin smax area flagMergeThr).col (x + y * (hf.width : Int))).map
        SpanNode.span =
      addSpanCol ((hf.col (x + y * (hf.width : Int))).map SpanNode.span) smin smax area
        flagMergeThr := by
  obtain ⟨a, b, c, d, e⟩ := addSpanP_conserves hf x y smin smax area flagMergeThr h0 h1 hok
  refine ⟨a, b, c, d, e, ?_⟩
  rw [(addSpanP_col hf x y smin smax area flagMergeThr h0 h1).1, addSpanLoopP_spans,
    addSpanCol_eq_loop]

set_option maxRecDepth 100000 in
/-- Witness of C26: a pool of 2048 nodes of which the column links the nodes 0,
1, 2 with the spans `[0, 4]`, `[6, 8]`, `[20, 30]`. The call with the span
`[3, 7]` takes the node 3 from the free list and merges the nodes 0 and 1 away:
they are on the free list afterwards and not in the column. -/
theorem addSpan_conserves_nodes_witness :
    ((0 : Int) ≤ 0 + 0 * (fullPoolField.width : Int) ∧
      ((0 : Int) + 0 * (fullPoolField.width : Int)).toNat < fullPoolField.spans.length ∧
      poolOk fullPoolField ∧
      (addSpanP fullPoolField 0 0 3 7 0 1).col 0 = [⟨3, ⟨0, 8, 0⟩⟩, ⟨2, ⟨20, 30, 0⟩⟩] ∧
      (addSpanP fullPoolField 0 0 3 7 0 1).freelist.take 3 = [1, 0, 4]) ∧
    poolOk (addSpanP fullPoolField 0 0 3 7 0 1) :=
  ⟨⟨by decide, by decide, fullPoolField_ok, by decide!, by decide!⟩,
    (addSpan_conserves_nodes fullPoolField 0 0 3 7 0 1 (by decide) (by decide)
      fullPoolField_ok).1⟩

set_option maxRecDepth 100000 in
/-- C26 as stated fails: the count equation alone does not keep the nodes
apart. In `sharedTailField` the column of cell 0 (1023 nodes) and the free list
(1025 nodes) share the nodes 4 to 1025, and 1023 + 1025 = 2048 for its one
pool. The call for the empty cell 1 takes the node 0 from the free list; the
count equation holds afterwards as well, and the node 4 is still both in the
column of cell 0 and on the free list. -/
theorem addSpan_conserves_nodes_counterexample :
    nodeCount sharedTailField = RC_SPANS_PER_POOL * sharedTailField.pools ∧
    nodeCount (addSpanP sharedTailField 1 0 2 7 63 1) =
      RC_SPANS_PER_POOL * (addSpanP sharedTailField 1 0 2 7 63 1).pools ∧
    (addSpanP sharedTailField 1 0 2 7 63 1).col 1 = [⟨0, ⟨2, 7, 63⟩⟩] ∧
    4 ∈ ((addSpanP sharedTailField 1 0 2 7 63 1).col 0).map SpanNode.id ∧
    4 ∈ (addSpanP sharedTailField 1 0 2 7 63 1).freelist := by
  decide!

/-- A merge on a small pool: the new span `[3, 7]` takes the node 7 from the free
list and absorbs the nodes 5 and 9 of the column, which are put in front of the
free list, the node merged last first. -/
theorem addSpanP_example :
    addSpanP (poolField [[⟨5, ⟨0, 4, 63⟩⟩, ⟨9, ⟨6, 8, 0⟩⟩, ⟨2, ⟨20, 30, 0⟩⟩]] [7, 8, 3] 1)
        0 0 3 7 0 1 =
      poolField [[⟨7, ⟨0, 8, 0⟩⟩, ⟨2, ⟨20, 30, 0⟩⟩]] [9, 5, 8, 3] 1 := by
  decide

/-! ## Filters: conditional idempotence, commutation, scan order -/

/-- The ledge filter and the low-height filter commute (helper of C34): both
clear areas by a test of span heights only. -/
theorem ledge_lowHeight_comm (wH wH2 wC : Int) (hf : rcHeightfield) :
    rcFilterWalkableLowHeightSpans wH2 (rcFilterLedgeSpans wH wC hf) =
      rcFilterLedgeSpans wH wC (rcFilterWalkableLowHeightSpans wH2 hf) := by
  have hl := ledge_spec wH wC hf
  have hh := lowHeight_spec wH2 hf
  have hl2 := ledge_spec wH wC (rcFilterWalkableLowHeightSpans wH2 hf)
  have hh2 := lowHeight_spec wH2 (rcFilterLedgeSpans wH wC hf)
  have hg := lowHeight_sameGeom wH2 hf
  have hgrid : sameGrid (rcFilterWalkableLowHeightSpans wH2 (rcFilterLedgeSpans wH wC hf))
      (rcFilterLedgeSpans wH wC (rcFilterWalkableLowHeightSpans wH2 hf)) :=
    sameGrid_trans (sameGeom_symm (sameGeom_trans (ledge_sameGeom wH wC hf)
      (lowHeight_sameGeom wH2 _))).1 (sameGrid_trans hh.1 hl2.1)
  symm
  apply heightfield_ext hgrid
  apply List.ext_getElem?
  intro idx
  rw [hl2.2 idx, hh.2 idx, hh2.2 idx, hl.2 idx]
  have hw : (rcFilterWalkableLowHeightSpans wH2 hf).width = hf.width := hh.1.1
  have hht : (rcFilterWalkableLowHeightSpans wH2 hf).height = hf.height := hh.1.2.1
  have hw2 : (rcFilterLedgeSpans wH wC hf).width = hf.width := hl.1.1
  have hht2 : (rcFilterLedgeSpans wH wC hf).height = hf.height := hl.1.2.1
  rw [hw, hht, hw2, hht2]
  cases hf.spans[idx]? with
  | none => rfl
  | some c =>
    simp only [Option.map_some']
    congr 1
    by_cases hlt : idx < hf.width * hf.height
    · simp only [hlt, if_true]
      rw [ledgeColumn_congr hg, ledgeColumn_eq_zeroIf, ledgeColumn_eq_zeroIf,
        lowHeightColumn_eq_zeroIf, lowHeightColumn_eq_zeroIf, zeroIf_comm]
    · simp only [hlt, if_false]

/-- C31: for every heightfield whose spans all have `smin <= smax` (as the spans
of sorted columns do) and every `walkableHeight`, `walkableClimb` with
`0 <= walkableClimb <= walkableHeight`, running the three filters in the order
low-hanging, ledge, low-height twice gives the heightfield that running them
once gives. -/
theorem filterPipeline_twice_eq_once (walkableHeight walkableClimb : Int) (hf : rcHeightfield)
    (hsp : ∀ c ∈ hf.spans, ∀ s ∈ c, s.smin ≤ s.smax)
    (hle : walkableClimb ≤ walkableHeight) :
    filterPipeline walkableHeight walkableClimb
        (filterPipeline walkableHeight walkableClimb hf) =
      filterPipeline walkableHeight walkableClimb hf :=
  filterPipeline_idem walkableHeight walkableClimb hle hf hsp

/-- Witness of C31: a walkable floor with a low ceiling next to a taller
neighbour, with `walkableHeight = 4` and `walkableClimb = 2`. -/
theorem filterPipeline_twice_eq_once_witness :
    (∀ c ∈ (crossField [⟨0, 2, 63⟩, ⟨4, 6, 0⟩, ⟨20, 21, 63⟩] [⟨0, 3, 63⟩] []
      [⟨0, 9, 63⟩, ⟨30, 31, 0⟩] [⟨1, 2, 0⟩]).spans, ∀ s ∈ c, s.smin ≤ s.smax) ∧
    (2 : Int) ≤ 4 ∧
    filterPipeline 4 2 (filterPipeline 4 2
      (crossField [⟨0, 2, 63⟩, ⟨4, 6, 0⟩, ⟨20, 21, 63⟩] [⟨0, 3, 63⟩] []
        [⟨0, 9, 63⟩, ⟨30, 31, 0⟩] [⟨1, 2, 0⟩])) =
    filterPipeline 4 2
      (crossField [⟨0, 2, 63⟩, ⟨4, 6, 0⟩, ⟨20, 21, 63⟩] [⟨0, 3, 63⟩] []
        [⟨0, 9, 63⟩, ⟨30, 31, 0⟩] [⟨1, 2, 0⟩]) :=
  ⟨by decide, by decide,
    filterPipeline_twice_eq_once 4 2 _ (by decide) (by decide)⟩

/-- C34: for every heightfield and all parameters, applying `rcFilterLedgeSpans`
and then `rcFilterWalkableLowHeightSpans` gives the same heightfield as applying
`rcFilterWalkableLowHeightSpans` and then `rcFilterLedgeSpans`. -/
theorem ledge_lowHeight_commute (walkableHeight walkableClimb : Int) (hf : rcHeightfield) :
    rcFilterWalkableLowHeightSpans walkableHeight
        (rcFilterLedgeSpans walkableHeight walkableClimb hf) =
      rcFilterLedgeSpans walkableHeight walkableClimb
        (rcFilterWalkableLowHeightSpans walkableHeight hf) :=
  ledge_lowHeight_comm walkableHeight walkableHeight walkableClimb hf

/-- A column pass that visits the cells in any order without repetition rewrites
every visited column by `f`, evaluated on the heightfield the pass started from. -/
theorem cellScan_spec (w : Nat) (f : rcHeightfield → Nat → Nat → List rcSpan → List rcSpan)
    (hf : rcHeightfield)
    (hgeo : ∀ g x y c, (f g x y c).map geo = c.map geo)
    (hcongr : ∀ g, sameGeom hf g → ∀ x y c, f g x y c = f hf x y c) :
    ∀ order : List Nat, order.Nodup →
      sameGrid hf (order.foldl (fun s i => cellPass w f (i % w) (i / w) s) hf) ∧
      ∀ idx : Nat,
        (order.foldl (fun s i => cellPass w f (i % w) (i / w) s) hf).spans[idx]? =
          (hf.spans[idx]?).map (fun c => if idx ∈ order then f hf (idx % w) (idx / w) c else c) := by
  intro order
  induction order using List.reverseRecOn with
  | nil =>
    intro _
    refine ⟨sameGrid_refl hf, ?_⟩
    intro idx
    simp
  | append_singleton l n ih =>
    intro hnd
    have hnd2 : l.Nodup ∧ n ∉ l := by
      rw [List.nodup_append] at hnd
      refine ⟨hnd.1, fun hm => hnd.2.2 hm (List.mem_singleton_self n)⟩
    obtain ⟨ihg, ih⟩ := ih hnd2.1
    rw [List.foldl_append]
    simp only [List.foldl_cons, List.foldl_nil]
    generalize l.foldl (fun s i => cellPass w f (i % w) (i / w) s) hf = R at ihg ih
    have hsg : sameGeom hf R := by
      refine ⟨ihg, ?_⟩
      apply List.ext_getElem?
      intro idx
      rw [List.getElem?_map, List.getElem?_map, ih idx]
      cases hf.spans[idx]? with
      | none => rfl
      | some c =>
        simp only [Option.map_some']
        split
        · rw [hgeo]
        · rfl
    have hidx : ((n % w : Nat) : Int) + ((n / w : Nat) : Int) * (w : Int) = (n : Int) := by
      have := Nat.mod_add_div n w
      have h2 : ((n % w : Nat) : Int) + (w : Int) * ((n / w : Nat) : Int) = (n : Int) := by
        exact_mod_cast this
      rw [mul_comm]; exact h2
    have hstep : cellPass w f (n % w) (n / w) R =
        R.setCol (n : Int) (f hf (n % w) (n / w) (R.col (n : Int))) := by
      unfold cellPass
      rw [hidx, hcongr R hsg]
    rw [hstep]
    refine ⟨sameGrid_trans ihg (setCol_sameGrid _ _ _), ?_⟩
    intro idx
    rw [setCol_natCast, List.getElem?_set, col_natCast]
    by_cases hni : n = idx
    · subst hni
      simp only [if_true]
      have hRn : R.spans[n]? = hf.spans[n]? := by
        have := ih n
        simp only [hnd2.2, if_false] at this
        rw [this]
        cases hf.spans[n]? <;> rfl
      have hmem : n ∈ l ++ [n] := by simp
      by_cases hlen : n < R.spans.length
      · simp only [hlen, if_true, hRn]
        cases hq : hf.spans[n]? with
        | none =>
          rw [hq] at hRn
          have := List.getElem?_eq_none_iff.1 hRn
          omega
        | some c => simp
      · simp only [hlen, if_false]
        have hnone : R.spans[n]? = none := List.getElem?_eq_none_iff.2 (by omega)
        rw [← hRn, hnone]; rfl
    · simp only [hni, if_false]
      rw [ih idx]
      have : (idx ∈ l ++ [n]) ↔ (idx ∈ l) := by
        simp only [List.mem_append, List.mem_singleton]
        constructor
        · rintro (h | h)
          · exact h
          · exact absurd h.symm hni
        · exact Or.inl
      simp only [this]

/-- The ledge filter gives the same heightfield in whatever order its loops
visit the cells of the grid. -/
theorem ledgeScan_eq (wH wC : Int) (hf : rcHeightfield) (order : List Nat)
    (hperm : List.Perm order (List.range (hf.width * hf.height))) :
    ledgeScan wH wC order hf = rcFilterLedgeSpans wH wC hf := by
  have hnd : order.Nodup := hperm.symm.nodup (List.nodup_range _)
  have h1 := cellScan_spec hf.width (fun g x y col => ledgeColumn g wH wC x y col) hf
    (fun g x y c => ledgeColumn_geo g wH wC x y c)
    (fun _ hg x y c => ledgeColumn_congr hg wH wC x y c) order hnd
  have h2 := ledge_spec wH wC hf
  have hgrid : sameGrid (rcFilterLedgeSpans wH wC hf) (ledgeScan wH wC order hf) :=
    sameGrid_trans (sameGeom_symm (ledge_sameGeom wH wC hf)).1 h1.1
  apply heightfield_ext hgrid
  apply List.ext_getElem?
  intro idx
  unfold ledgeScan
  rw [h1.2 idx, h2.2 idx]
  have hm : idx ∈ order ↔ idx < hf.width * hf.height := by
    rw [hperm.mem_iff, List.mem_range]
  simp only [hm]

/-- Applying the ledge filter twice equals applying it once. -/
theorem ledge_idem (wH wC : Int) (hf : rcHeightfield) :
    rcFilterLedgeSpans wH wC (rcFilterLedgeSpans wH wC hf) = rcFilterLedgeSpans wH wC hf := by
  have h1 := ledge_spec wH wC hf
  have h2 := ledge_spec wH wC (rcFilterLedgeSpans wH wC hf)
  have hg := ledge_sameGeom wH wC hf
  apply heightfield_ext h2.1
  apply List.ext_getElem?
  intro idx
  rw [h2.2 idx, h1.2 idx]
  have hw : (rcFilterLedgeSpans wH wC hf).width = hf.width := h1.1.1
  have hh : (rcFilterLedgeSpans wH wC hf).height = hf.height := h1.1.2.1
  rw [hw, hh]
  cases hf.spans[idx]? with
  | none => rfl
  | some c =>
    simp only [Option.map_some']
    congr 1
    by_cases hlt : idx < hf.width * hf.height
    · simp only [hlt, if_true]
      rw [ledgeColumn_congr hg]
      simp only [ledgeColumn_eq_zeroIf]
      rw [zeroIf_idem]
    · simp only [hlt, if_false]

/-- C35: in `rcFilterLedgeSpans` the column pass over a heightfield `g` that has
the span heights of `hf` (areas may differ) clears areas by a test of the
`smin`/`smax` of the column and of the neighbour columns of `hf` only; so the
filter run with its cells visited in any order `order` gives the heightfield
the row-by-row scan gives, and applying the filter twice equals applying it
once. -/
theorem rcFilterLedgeSpans_idempotent_any_order (walkableHeight walkableClimb : Int)
    (hf g : rcHeightfield) (order : List Nat)
    (hg : sameGeom hf g)
    (hperm : List.Perm order (List.range (hf.width * hf.height))) :
    (∀ (x y : Int) (col : List rcSpan),
      ledgeColumn g walkableHeight walkableClimb x y col =
        zeroIf (fun q top => ledgeDecision hf walkableHeight walkableClimb x y (q.2 : Int) top)
          col) ∧
    ledgeScan walkableHeight walkableClimb order hf =
      rcFilterLedgeSpans walkableHeight walkableClimb hf ∧
    rcFilterLedgeSpans walkableHeight walkableClimb
        (rcFilterLedgeSpans walkableHeight walkableClimb hf) =
      rcFilterLedgeSpans walkableHeight walkableClimb hf :=
  ⟨fun x y col => by rw [ledgeColumn_congr hg, ledgeColumn_eq_zeroIf],
    ledgeScan_eq walkableHeight walkableClimb hf order hperm,
    ledge_idem walkableHeight walkableClimb hf⟩

/-- Witness of C35: a column between four neighbours, the same heights with
other areas, and the cells visited from the last to the first. -/
theorem rcFilterLedgeSpans_idempotent_any_order_witness :
    sameGeom
      (crossField [⟨0, 2, 63⟩, ⟨10, 12, 63⟩] [⟨0, 3, 63⟩] [] [⟨0, 9, 63⟩] [⟨1, 2, 0⟩])
      (crossField [⟨0, 2, 0⟩, ⟨10, 12, 5⟩] [⟨0, 3, 0⟩] [] [⟨0, 9, 7⟩] [⟨1, 2, 63⟩]) ∧
    List.Perm [8, 7, 6, 5, 4, 3, 2, 1, 0] (List.range
      ((crossField [⟨0, 2, 63⟩, ⟨10, 12, 63⟩] [⟨0, 3, 63⟩] [] [⟨0, 9, 63⟩]
        [⟨1, 2, 0⟩]).width *
       (crossField [⟨0, 2, 63⟩, ⟨10, 12, 63⟩] [⟨0, 3, 63⟩] [] [⟨0, 9, 63⟩]
        [⟨1, 2, 0⟩]).height)) ∧
    ledgeScan 4 2 [8, 7, 6, 5, 4, 3, 2, 1, 0]
        (crossField [⟨0, 2, 63⟩, ⟨10, 12, 63⟩] [⟨0, 3, 63⟩] [] [⟨0, 9, 63⟩] [⟨1, 2, 0⟩]) =
      rcFilterLedgeSpans 4 2
        (crossField [⟨0, 2, 63⟩, ⟨10, 12, 63⟩] [⟨0, 3, 63⟩] [] [⟨0, 9, 63⟩] [⟨1, 2, 0⟩]) :=
  ⟨⟨⟨rfl, rfl, rfl, rfl, rfl, rfl⟩, rfl⟩, by decide,
    (rcFilterLedgeSpans_idempotent_any_order 4 2
      (crossField [⟨0, 2, 63⟩, ⟨10, 12, 63⟩] [⟨0, 3, 63⟩] [] [⟨0, 9, 63⟩] [⟨1, 2, 0⟩])
      (crossField [⟨0, 2, 0⟩, ⟨10, 12, 5⟩] [⟨0, 3, 0⟩] [] [⟨0, 9, 7⟩] [⟨1, 2, 63⟩])
      [8, 7, 6, 5, 4, 3, 2, 1, 0] ⟨⟨rfl, rfl, rfl, rfl, rfl, rfl⟩, rfl⟩ (by decide)).2.1⟩

/-! ## Ledge filter at the grid edge and above open space -/

/-- A neighbour cell outside the grid puts `-walkableClimb - bot` into `minh`. -/
theorem ledgeDrops_outside (hf : rcHeightfield) (wH wC x y bot top : Int) (c : Int × Int)
    (hc : c ∈ neighbourCells x y) (hout : inGrid hf c = false) :
    -wC - bot ∈ ledgeDropsCode hf wH wC x y bot top := by
  unfold ledgeDropsCode
  rw [List.mem_flatMap]
  refine ⟨c, hc, ?_⟩
  rw [hout]
  simp

/-- An in-grid neighbour column whose opening below its lowest span shares more
than `walkableHeight` with the span puts `-walkableClimb - bot` into `minh`. -/
theorem ledgeDrops_opening (hf : rcHeightfield) (wH wC x y bot top : Int) (c : Int × Int)
    (hc : c ∈ neighbourCells x y) (hin : inGrid hf c = true)
    (hgap : gapOk wH bot top (-wC, spanTop (hf.col (c.1 + c.2 * (hf.width : Int)))) = true) :
    -wC - bot ∈ ledgeDropsCode hf wH wC x y bot top := by
  unfold ledgeDropsCode
  rw [List.mem_flatMap]
  refine ⟨c, hc, ?_⟩
  rw [if_pos hin, if_pos hgap]
  simp

/-- A span with `smax > 0` for which `-walkableClimb - smax` enters `minh` is
unwalkable after the ledge filter. -/
theorem ledge_of_drop (wH wC : Int) (hwC : 0 ≤ wC) (hf : rcHeightfield) (x y : Nat)
    (hx : x < hf.width) (hy : y < hf.height) (i : Nat) (s : rcSpan)
    (hs : (hf.col ((x : Int) + (y : Int) * (hf.width : Int)))[i]? = some s)
    (hpos : 0 < s.smax)
    (hd : -wC - (s.smax : Int) ∈ ledgeDropsCode hf wH wC x y (s.smax : Int)
      (spanTop ((hf.col ((x : Int) + (y : Int) * (hf.width : Int))).drop (i + 1)))) :
    ((rcFilterLedgeSpans wH wC hf).col ((x : Int) + (y : Int) * (hf.width : Int)))[i]? =
      some { s with area := RC_NULL_AREA } := by
  rw [ledge_per_span wH wC hwC hf x y hx hy i, hs]
  simp only [Option.map_some', Option.some.injEq]
  have hled : isLedgeCode hf wH wC x y (s.smax : Int)
      (spanTop ((hf.col ((x : Int) + (y : Int) * (hf.width : Int))).drop (i + 1))) = true := by
    unfold isLedgeCode
    rw [ledgeTest_iff]
    left
    exact ⟨_, hd, by omega⟩
  unfold ledgeRule
  rw [hled]
  by_cases ha : s.area = RC_NULL_AREA
  · simp only [ha, ne_eq, not_true_eq_false, false_and, if_false]
    cases s
    simp only at ha
    subst ha
    rfl
  · simp [ha]

/-- A cell of the grid with `x = 0`, `x = width - 1`, `y = 0` or `y = height - 1`
has a 4-neighbour outside the grid. -/
theorem edge_neighbour_outside (hf : rcHeightfield) (x y : Nat)
    (hedge : x = 0 ∨ x + 1 = hf.width ∨ y = 0 ∨ y + 1 = hf.height) :
    ∃ c ∈ neighbourCells (x : Int) (y : Int), inGrid hf c = false := by
  unfold neighbourCells inGrid
  simp only [List.mem_cons, List.mem_singleton, List.not_mem_nil, or_false,
    decide_eq_false_iff_not]
  rcases hedge with h | h | h | h
  · exact ⟨((x : Int) - 1, (y : Int)), Or.inl rfl, by simp only; omega⟩
  · exact ⟨((x : Int) + 1, (y : Int)), Or.inr (Or.inr (Or.inl rfl)), by simp only; omega⟩
  · exact ⟨((x : Int), (y : Int) - 1), Or.inr (Or.inr (Or.inr rfl)), by simp only; omega⟩
  · exact ⟨((x : Int), (y : Int) + 1), Or.inr (Or.inl rfl), by simp only; omega⟩

/-- The spans of an edge column with `smax > 0` are unwalkable after the ledge
filter. -/
theorem ledge_grid_edge (wH wC : Int) (hwC : 0 ≤ wC) (hf : rcHeightfield) (x y : Nat)
    (hx : x < hf.width) (hy : y < hf.height)
    (hedge : x = 0 ∨ x + 1 = hf.width ∨ y = 0 ∨ y + 1 = hf.height)
    (s : rcSpan)
    (hs : s ∈ (rcFilterLedgeSpans wH wC hf).col ((x : Int) + (y : Int) * (hf.width : Int)))
    (hpos : 0 < s.smax) : s.area = RC_NULL_AREA := by
  obtain ⟨i, hi⟩ := List.mem_iff_getElem?.1 hs
  have hps := ledge_per_span wH wC hwC hf x y hx hy i
  rw [hi] at hps
  cases hq : (hf.col ((x : Int) + (y : Int) * (hf.width : Int)))[i]? with
  | none => rw [hq] at hps; simp at hps
  | some s0 =>
    have hsm : s.smax = s0.smax := by
      rw [hq] at hps
      simp only [Option.map_some', Option.some.injEq] at hps
      rw [hps]
      unfold ledgeRule
      split <;> rfl
    obtain ⟨c, hc, hout⟩ := edge_neighbour_outside hf x y hedge
    have h2 := ledge_of_drop wH wC hwC hf x y hx hy i s0 hq (by omega)
      (ledgeDrops_outside hf wH wC x y _ _ c hc hout)
    rw [hi] at h2
    simp only [Option.some.injEq] at h2
    rw [h2]

/-- The ceiling of a span is at most `MAX_HEIGHT` when the `smin` of the spans
fit their 13-bit field. -/
theorem spanTop_drop_le (col : List rcSpan) (hfit : ∀ t ∈ col, t.smin ≤ RC_SPAN_MAX_HEIGHT)
    (k : Nat) : spanTop (col.drop k) ≤ MAX_HEIGHT := by
  cases hq : col.drop k with
  | nil => exact le_refl _
  | cons t rest =>
    have hm : t ∈ col := List.mem_of_mem_drop (by rw [hq]; exact List.mem_cons_self t rest)
    have h1 := hfit t hm
    have h2 : RC_SPAN_MAX_HEIGHT = 8191 := by decide
    rw [h2] at h1
    show (t.smin : Int) ≤ MAX_HEIGHT
    unfold MAX_HEIGHT
    omega

/-- C32: for every heightfield, `walkableHeight` and `walkableClimb >= 0`, after
`rcFilterLedgeSpans` every span with `smax > 0` of a grid column with `x = 0`,
`x = width - 1`, `y = 0` or `y = height - 1`, which has a 4-neighbour outside
the grid, is unwalkable. -/
theorem rcFilterLedgeSpans_grid_edge (walkableHeight walkableClimb : Int)
    (hwC : 0 ≤ walkableClimb) (hf : rcHeightfield) (x y : Nat)
    (hx : x < hf.width) (hy : y < hf.height)
    (hedge : x = 0 ∨ x + 1 = hf.width ∨ y = 0 ∨ y + 1 = hf.height)
    (s : rcSpan)
    (hs : s ∈ (rcFilterLedgeSpans walkableHeight walkableClimb hf).col
      ((x : Int) + (y : Int) * (hf.width : Int)))
    (hpos : 0 < s.smax) : s.area = RC_NULL_AREA :=
  ledge_grid_edge walkableHeight walkableClimb hwC hf x y hx hy hedge s hs hpos

/-- Witness of C32: the west cell of a 3x3 field, whose span `[0, 5]` has level
neighbours on its three in-grid sides. -/
theorem rcFilterLedgeSpans_grid_edge_witness :
    ((0 : Int) ≤ 1 ∧
      0 < (crossField [⟨0, 5, 63⟩] [⟨0, 5, 63⟩] [⟨0, 5, 63⟩] [⟨0, 5, 63⟩] [⟨0, 5, 63⟩]).width ∧
      1 < (crossField [⟨0, 5, 63⟩] [⟨0, 5, 63⟩] [⟨0, 5, 63⟩] [⟨0, 5, 63⟩] [⟨0, 5, 63⟩]).height ∧
      (⟨0, 5, 0⟩ : rcSpan) ∈ (rcFilterLedgeSpans 3 1
        (crossField [⟨0, 5, 63⟩] [⟨0, 5, 63⟩] [⟨0, 5, 63⟩] [⟨0, 5, 63⟩] [⟨0, 5, 63⟩])).col
          (((0 : Nat) : Int) + ((1 : Nat) : Int) *
            ((crossField [⟨0, 5, 63⟩] [⟨0, 5, 63⟩] [⟨0, 5, 63⟩] [⟨0, 5, 63⟩]
              [⟨0, 5, 63⟩]).width : Int)) ∧
      0 < (⟨0, 5, 0⟩ : rcSpan).smax) ∧
    (⟨0, 5, 0⟩ : rcSpan).area = RC_NULL_AREA :=
  ⟨⟨by decide, by decide, by decide, by decide, by decide⟩,
    rcFilterLedgeSpans_grid_edge 3 1 (by decide)
      (crossField [⟨0, 5, 63⟩] [⟨0, 5, 63⟩] [⟨0, 5, 63⟩] [⟨0, 5, 63⟩] [⟨0, 5, 63⟩]) 0 1
      (by decide) (by decide) (Or.inl rfl) ⟨0, 5, 0⟩ (by decide) (by decide)⟩

/-- C33: for every heightfield whose span heights fit their 13-bit fields,
`walkableHeight` and `walkableClimb >= 0`, a span `s` with `s.smax > 0` is
unwalkable after `rcFilterLedgeSpans` whenever some in-grid 4-neighbour column
is empty and `top - s.smax > walkableHeight`, or the lowest span `ns` of that
column has `min(top, ns.smin) - s.smax > walkableHeight`; `top` is the `smin` of
the span above `s`, or `MAX_HEIGHT`. -/
theorem rcFilterLedgeSpans_opening_below (walkableHeight walkableClimb : Int)
    (hwC : 0 ≤ walkableClimb) (hf : rcHeightfield) (x y : Nat)
    (hx : x < hf.width) (hy : y < hf.height) (i : Nat) (s : rcSpan)
    (hs : (hf.col ((x : Int) + (y : Int) * (hf.width : Int)))[i]? = some s)
    (hpos : 0 < s.smax)
    (hfit : ∀ t ∈ hf.col ((x : Int) + (y : Int) * (hf.width : Int)),
      t.smin ≤ RC_SPAN_MAX_HEIGHT)
    (c : Int × Int) (hc : c ∈ neighbourCells x y) (hin : inGrid hf c = true)
    (hopen :
      (hf.col (c.1 + c.2 * (hf.width : Int)) = [] ∧
        spanTop ((hf.col ((x : Int) + (y : Int) * (hf.width : Int))).drop (i + 1)) -
          (s.smax : Int) > walkableHeight) ∨
      (∃ ns rest, hf.col (c.1 + c.2 * (hf.width : Int)) = ns :: rest ∧
        rcMin (spanTop ((hf.col ((x : Int) + (y : Int) * (hf.width : Int))).drop (i + 1)))
          (ns.smin : Int) - (s.smax : Int) > walkableHeight)) :
    ((rcFilterLedgeSpans walkableHeight walkableClimb hf).col
        ((x : Int) + (y : Int) * (hf.width : Int)))[i]? =
      some { s with area := RC_NULL_AREA } := by
  apply ledge_of_drop walkableHeight walkableClimb hwC hf x y hx hy i s hs hpos
  apply ledgeDrops_opening hf walkableHeight walkableClimb x y _ _ c hc hin
  have htop := spanTop_drop_le _ hfit (i + 1)
  unfold gapOk
  simp only [decide_eq_true_eq]
  have hmax : max (s.smax : Int) (-walkableClimb) = (s.smax : Int) := by
    apply max_eq_left
    omega
  rw [hmax]
  rcases hopen with ⟨he, hgap⟩ | ⟨ns, rest, he, hgap⟩
  · rw [he]
    have : spanTop [] = MAX_HEIGHT := rfl
    rw [this, min_eq_left htop]
    exact hgap
  · rw [he]
    rw [rcMin_int] at hgap
    exact hgap

/-- Witness of C33: the centre span `[0, 5]` of a 3x3 field with level
neighbours on three sides and an empty column to the south. -/
theorem rcFilterLedgeSpans_opening_below_witness :
    ((0 : Int) ≤ 1 ∧
      1 < (crossField [⟨0, 5, 63⟩] [⟨0, 5, 63⟩] [] [⟨0, 5, 63⟩] [⟨0, 5, 63⟩]).width ∧
      1 < (crossField [⟨0, 5, 63⟩] [⟨0, 5, 63⟩] [] [⟨0, 5, 63⟩] [⟨0, 5, 63⟩]).height ∧
      0 < (⟨0, 5, 63⟩ : rcSpan).smax ∧
      (((1 : Int), (2 : Int)) ∈ neighbourCells ((1 : Nat) : Int) ((1 : Nat) : Int)) ∧
      inGrid (crossField [⟨0, 5, 63⟩] [⟨0, 5, 63⟩] [] [⟨0, 5, 63⟩] [⟨0, 5, 63⟩])
        ((1 : Int), (2 : Int)) = true ∧
      (crossField [⟨0, 5, 63⟩] [⟨0, 5, 63⟩] [] [⟨0, 5, 63⟩] [⟨0, 5, 63⟩]).col
        ((1 : Int) + (2 : Int) * 3) = []) ∧
    ((rcFilterLedgeSpans 3 1
        (crossField [⟨0, 5, 63⟩] [⟨0, 5, 63⟩] [] [⟨0, 5, 63⟩] [⟨0, 5, 63⟩])).col
        (((1 : Nat) : Int) + ((1 : Nat) : Int) *
          ((crossField [⟨0, 5, 63⟩] [⟨0, 5, 63⟩] [] [⟨0, 5, 63⟩] [⟨0, 5, 63⟩]).width : Int)))[0]? =
      some { (⟨0, 5, 63⟩ : rcSpan) with area := RC_NULL_AREA } :=
  ⟨⟨by decide, by decide, by decide, by decide, by decide, by decide, by decide⟩,
    rcFilterLedgeSpans_opening_below 3 1 (by decide)
      (crossField [⟨0, 5, 63⟩] [⟨0, 5, 63⟩] [] [⟨0, 5, 63⟩] [⟨0, 5, 63⟩]) 1 1
      (by decide) (by decide) 0 ⟨0, 5, 63⟩ (by decide) (by decide) (by decide)
      ((1 : Int), (2 : Int)) (by decide) (by decide) (Or.inl ⟨by decide, by decide⟩)⟩

/-! ## Pool growth in `allocSpan` -/

/-- The two branches of `allocSpan` by the length of the free list: with at most
one free node a pool of `RC_SPANS_PER_POOL` nodes is linked in front of the free
list, and the head of the resulting list is returned. -/
theorem allocSpan_cases (hf : PoolHeightfield) :
    (allocSpan hf).2.spans = hf.spans ∧
    (allocSpan hf).2.pools = (if hf.freelist.length ≤ 1 then hf.pools + 1 else hf.pools) ∧
    (allocSpan hf).1 :: (allocSpan hf).2.freelist =
      (if hf.freelist.length ≤ 1 then
        (List.range RC_SPANS_PER_POOL).map (fun i => hf.pools * RC_SPANS_PER_POOL + i)
      else []) ++ hf.freelist := by
  have e : RC_SPANS_PER_POOL - 1 + 1 = RC_SPANS_PER_POOL := by decide
  unfold allocSpan
  split
  · rename_i it next rest hfl
    have hlen : ¬ hf.freelist.length ≤ 1 := by
      rw [hfl]
      simp
    refine ⟨rfl, ?_, ?_⟩
    · rw [if_neg hlen]
    · rw [if_neg hlen, hfl]
      rfl
  · rename_i hne
    have hlen : hf.freelist.length ≤ 1 := by
      cases hq : hf.freelist with
      | nil => simp
      | cons a t =>
        cases t with
        | nil => simp
        | cons b r => exact absurd hq (hne a b r)
    refine ⟨rfl, ?_, ?_⟩
    · rw [if_pos hlen]
    · rw [if_pos hlen]
      simp only
      rw [← e, ← range_shift, List.cons_append]
      simp only [e]

/-- C36 as stated fails for a free list of one node. With one pool allocated and
the free list holding the single node 2047, the free list is non-empty, yet
`allocSpan` adds a second pool, returns node 2048, the first item of the new
pool, instead of the head 2047, and leaves a free list of 2048 nodes. -/
theorem allocSpan_pool_growth_counterexample :
    (poolField [[]] [2047] 1).freelist ≠ [] ∧
    (allocSpan (poolField [[]] [2047] 1)).2.pools = (poolField [[]] [2047] 1).pools + 1 ∧
    (allocSpan (poolField [[]] [2047] 1)).1 = 2048 ∧
    (poolField [[]] [2047] 1).freelist.head? = some 2047 ∧
    (allocSpan (poolField [[]] [2047] 1)).2.freelist.length = 2048 := by
  refine ⟨by decide, by decide, by decide, by decide, ?_⟩
  simp [allocSpan, poolField, RC_SPANS_PER_POOL]

/-- C36 (amended): for every heightfield state, `allocSpan` returns a node and
leaves the columns unchanged; it adds exactly one pool of `RC_SPANS_PER_POOL`
= 2048 nodes in front of the free list when the free list is empty or holds a
single node, and no pool when the free list holds two nodes or more; in either
case the node returned is the head of the resulting list, so with two free
nodes or more it is the head of the free list, which becomes one node
shorter. -/
theorem allocSpan_pool_growth (hf : PoolHeightfield) :
    (allocSpan hf).2.spans = hf.spans ∧
    (allocSpan hf).2.pools = (if hf.freelist.length ≤ 1 then hf.pools + 1 else hf.pools) ∧
    (allocSpan hf).1 :: (allocSpan hf).2.freelist =
      (if hf.freelist.length ≤ 1 then
        (List.range RC_SPANS_PER_POOL).map (fun i => hf.pools * RC_SPANS_PER_POOL + i)
      else []) ++ hf.freelist ∧
    (allocSpan hf).2.freelist.length + 1 =
      (if hf.freelist.length ≤ 1 then 2048 else 0) + hf.freelist.length := by
  obtain ⟨h1, h2, h3⟩ := allocSpan_cases hf
  refine ⟨h1, h2, h3, ?_⟩
  have h4 := congrArg List.length h3
  rw [List.length_cons, List.length_append] at h4
  rw [h4]
  congr 1
  split
  · rw [List.length_map, List.length_range]
    rfl
  · rfl

/-! ## `clipPoly` in binary32: vertex count -/

theorem clipPolyLoop32_length (pnx pnz pd : ℚ) : ∀ (l : List Vec3) (vj : Vec3),
    (clipPolyLoop32 pnx pnz pd vj l).length =
      (l.filter (insidePlane32 pnx pnz pd)).length + crossingsLoop32 pnx pnz pd vj l
  | [], _ => rfl
  | vi :: rest, vj => by
    unfold clipPolyLoop32 crossingsLoop32
    simp only [List.length_append, clipPolyLoop32_length pnx pnz pd rest vi, List.filter_cons]
    have e1 : decide (planeDist32 pnx pnz pd vj ≥ 0) = insidePlane32 pnx pnz pd vj := rfl
    have e2 : decide (planeDist32 pnx pnz pd vi ≥ 0) = insidePlane32 pnx pnz pd vi := rfl
    rw [e1, e2]
    cases insidePlane32 pnx pnz pd vj <;> cases insidePlane32 pnx pnz pd vi <;> simp <;> omega

/-- The output of `clipPoly` has one vertex per kept input vertex and one per
edge for which the branch `ina != inb` is taken. -/
theorem clipPoly32_length (inp : List Vec3) (pnx pnz pd : ℚ) :
    (clipPoly32 inp pnx pnz pd).length =
      (inp.filter (insidePlane32 pnx pnz pd)).length + crossings32 inp pnx pnz pd := by
  unfold clipPoly32 crossings32
  cases hlast : inp.getLast? with
  | none =>
    have : inp = [] := List.getLast?_eq_none_iff.1 hlast
    simp [this]
  | some last => exact clipPolyLoop32_length pnx pnz pd inp last

theorem crossingsLoop32_inside (pnx pnz pd : ℚ) : ∀ (l : List Vec3) (vj : Vec3),
    insidePlane32 pnx pnz pd vj = true → (∀ v ∈ l, insidePlane32 pnx pnz pd v = true) →
    crossingsLoop32 pnx pnz pd vj l = 0
  | [], _, _, _ => rfl
  | vi :: rest, vj, hj, hl => by
    have hi := hl vi (by simp)
    unfold crossingsLoop32
    rw [crossingsLoop32_inside pnx pnz pd rest vi hi
      (fun w hw => hl w (List.mem_cons_of_mem _ hw))]
    simp [hj, hi]

/-- A polygon for which the branch `ina != inb` is taken has a vertex that is
cut away. -/
theorem crossings32_pos_filter_lt (inp : List Vec3) (pnx pnz pd : ℚ)
    (h : 0 < crossings32 inp pnx pnz pd) :
    (inp.filter (insidePlane32 pnx pnz pd)).length < inp.length := by
  by_contra hge
  have hlen : (inp.filter (insidePlane32 pnx pnz pd)).length = inp.length :=
    le_antisymm (List.length_filter_le _ _) (not_lt.1 hge)
  have hall : ∀ v ∈ inp, insidePlane32 pnx pnz pd v = true :=
    List.filter_eq_self.1 ((List.filter_sublist inp).eq_of_length hlen)
  unfold crossings32 at h
  cases hlast : inp.getLast? with
  | none => rw [hlast] at h; simp at h
  | some last =>
    rw [hlast] at h
    simp only at h
    rw [crossingsLoop32_inside pnx pnz pd inp last
      (hall last (List.mem_of_getLast?_eq_some hlast)) hall] at h
    exact absurd h (by decide)

theorem clipPoly32_length_le (inp : List Vec3) (pnx pnz pd : ℚ)
    (h2 : crossings32 inp pnx pnz pd ≤ 2) :
    (clipPoly32 inp pnx pnz pd).length ≤ inp.length + 1 := by
  rw [clipPoly32_length]
  by_cases h0 : crossings32 inp pnx pnz pd = 0
  · rw [h0]
    have := List.length_filter_le (insidePlane32 pnx pnz pd) inp
    omega
  · have := crossings32_pos_filter_lt inp pnx pnz pd (by omega)
    omega

/-- C11 (amended): `clipPoly` as computed in `float`. The number of vertices it
returns is the number of input vertices with computed distance `d[i] >= 0`
plus the number of edges whose end points have computed distances on
different sides (`ina != inb`); when at most two edges are of this kind it
returns at most one vertex more than it was given. -/
theorem clipPoly32_vertex_count (inp : List Vec3) (pnx pnz pd : ℚ)
    (h2 : crossings32 inp pnx pnz pd ≤ 2) :
    (clipPoly32 inp pnx pnz pd).length =
      (inp.filter (insidePlane32 pnx pnz pd)).length + crossings32 inp pnx pnz pd ∧
    (clipPoly32 inp pnx pnz pd).length ≤ inp.length + 1 :=
  ⟨clipPoly32_length inp pnx pnz pd, clipPoly32_length_le inp pnx pnz pd h2⟩

/-- Witness of C11: the triangle `(0,0,0), (1,0,0), (1,0,1)` clipped by
`x >= 1/2` has two crossing edges and becomes a quadrilateral. -/
theorem clipPoly32_vertex_count_witness :
    crossings32 [⟨0, 0, 0⟩, ⟨1, 0, 0⟩, ⟨1, 0, 1⟩] 1 0 (-1 / 2) ≤ 2 ∧
    (clipPoly32 [⟨0, 0, 0⟩, ⟨1, 0, 0⟩, ⟨1, 0, 1⟩] 1 0 (-1 / 2)).length = 4 ∧
    (clipPoly32 [⟨0, 0, 0⟩, ⟨1, 0, 0⟩, ⟨1, 0, 1⟩] 1 0 (-1 / 2)).length ≤
      ([⟨0, 0, 0⟩, ⟨1, 0, 0⟩, ⟨1, 0, 1⟩] : List Vec3).length + 1 :=
  ⟨by decide!, by decide!,
    (clipPoly32_vertex_count [⟨0, 0, 0⟩, ⟨1, 0, 0⟩, ⟨1, 0, 1⟩] 1 0 (-1 / 2) (by decide!)).2⟩

/-- C11 as stated fails. The zigzag `(1,0,0), (-1,0,0), (1,0,1), (-1,0,1)` has
4 vertices, each of its edges crosses the plane `x = 0`, and `clipPoly` with
`pnx = 1, pnz = 0, pd = 0` returns 6 vertices; all values are exact in `float`. -/
theorem clipPoly32_vertex_count_counterexample :
    1 ≤ ([⟨1, 0, 0⟩, ⟨-1, 0, 0⟩, ⟨1, 0, 1⟩, ⟨-1, 0, 1⟩] : List Vec3).length ∧
      ([⟨1, 0, 0⟩, ⟨-1, 0, 0⟩, ⟨1, 0, 1⟩, ⟨-1, 0, 1⟩] : List Vec3).length ≤ 12 ∧
      (clipPoly32 [⟨1, 0, 0⟩, ⟨-1, 0, 0⟩, ⟨1, 0, 1⟩, ⟨-1, 0, 1⟩] 1 0 0).length = 6 ∧
      ¬ (clipPoly32 [⟨1, 0, 0⟩, ⟨-1, 0, 0⟩, ⟨1, 0, 1⟩, ⟨-1, 0, 1⟩] 1 0 0).length ≤
        ([⟨1, 0, 0⟩, ⟨-1, 0, 0⟩, ⟨1, 0, 1⟩, ⟨-1, 0, 1⟩] : List Vec3).length + 1 := by
  decide!

/-! ## `clipPoly` in binary32: the kept side -/

theorem clipPolyLoopMarked32_map (pnx pnz pd : ℚ) : ∀ (l : List Vec3) (vj : Vec3),
    (clipPolyLoopMarked32 pnx pnz pd vj l).map Prod.snd = clipPolyLoop32 pnx pnz pd vj l
  | [], _ => rfl
  | vi :: rest, vj => by
    unfold clipPolyLoopMarked32 clipPolyLoop32
    simp only [List.map_append, clipPolyLoopMarked32_map pnx pnz pd rest vi]
    congr 1
    congr 1
    · split <;> rfl
    · split <;> rfl

theorem clipPolyLoopMarked32_kept (pnx pnz pd : ℚ) : ∀ (l : List Vec3) (vj : Vec3),
    ((clipPolyLoopMarked32 pnx pnz pd vj l).filter (fun p => !p.1)).map Prod.snd =
      l.filter (fun v => decide (planeDist32 pnx pnz pd v ≥ 0))
  | [], _ => rfl
  | vi :: rest, vj => by
    unfold clipPolyLoopMarked32
    simp only [List.filter_append, List.map_append,
      clipPolyLoopMarked32_kept pnx pnz pd rest vi, List.filter_cons]
    by_cases hi : planeDist32 pnx pnz pd vi ≥ 0 <;>
      by_cases hj : planeDist32 pnx pnz pd vj ≥ 0 <;> simp [hi, hj]

/-- An intersection vertex is `in[j] + (in[i] - in[j])*s`, every operation
rounded, of two input vertices whose computed distances lie on different
sides. -/
theorem clipPolyLoopMarked32_cut (pnx pnz pd : ℚ) : ∀ (l : List Vec3) (vj : Vec3) (v : Vec3),
    (true, v) ∈ clipPolyLoopMarked32 pnx pnz pd vj l →
    ∃ a ∈ vj :: l, ∃ b ∈ l,
      insidePlane32 pnx pnz pd a ≠ insidePlane32 pnx pnz pd b ∧
      v = cutVertex32 pnx pnz pd a b
  | [], _, _, h => by simp [clipPolyLoopMarked32] at h
  | vi :: rest, vj, v, h => by
    unfold clipPolyLoopMarked32 at h
    simp only [List.mem_append] at h
    rcases h with (h | h) | h
    · split at h
      · rename_i hc
        simp only [List.mem_singleton, Prod.mk.injEq, true_and] at h
        refine ⟨vj, List.mem_cons_self _ _, vi, List.mem_cons_self _ _, ?_, ?_⟩
        · intro he
          have e1 : decide (planeDist32 pnx pnz pd vj ≥ 0) = insidePlane32 pnx pnz pd vj := rfl
          have e2 : decide (planeDist32 pnx pnz pd vi ≥ 0) = insidePlane32 pnx pnz pd vi := rfl
          rw [e1, e2, he] at hc
          simp at hc
        · rw [h]
          rfl
      · simp at h
    · split at h <;> simp at h
    · obtain ⟨a, ha, b, hb, hne, hv⟩ := clipPolyLoopMarked32_cut pnx pnz pd rest vi v h
      exact ⟨a, List.mem_cons_of_mem _ ha, b, List.mem_cons_of_mem _ hb, hne, hv⟩

theorem clipPolyMarked32_map (inp : List Vec3) (pnx pnz pd : ℚ) :
    (clipPolyMarked32 inp pnx pnz pd).map Prod.snd = clipPoly32 inp pnx pnz pd := by
  unfold clipPolyMarked32 clipPoly32
  cases inp.getLast? with
  | none => rfl
  | some last => exact clipPolyLoopMarked32_map pnx pnz pd inp last

theorem clipPolyMarked32_kept (inp : List Vec3) (pnx pnz pd : ℚ) :
    ((clipPolyMarked32 inp pnx pnz pd).filter (fun p => !p.1)).map Prod.snd =
      inp.filter (fun v => decide (planeDist32 pnx pnz pd v ≥ 0)) := by
  unfold clipPolyMarked32
  cases hl : inp.getLast? with
  | none =>
    have : inp = [] := List.getLast?_eq_none_iff.1 hl
    simp [this]
  | some last => exact clipPolyLoopMarked32_kept pnx pnz pd inp last

theorem clipPolyMarked32_cut (inp : List Vec3) (pnx pnz pd : ℚ) (v : Vec3)
    (h : (true, v) ∈ clipPolyMarked32 inp pnx pnz pd) :
    ∃ a ∈ inp, ∃ b ∈ inp,
      insidePlane32 pnx pnz pd a ≠ insidePlane32 pnx pnz pd b ∧
      v = cutVertex32 pnx pnz pd a b := by
  unfold clipPolyMarked32 at h
  cases hl : inp.getLast? with
  | none => rw [hl] at h; simp at h
  | some last =>
    rw [hl] at h
    obtain ⟨a, ha, b, hb, hne, hv⟩ := clipPolyLoopMarked32_cut pnx pnz pd inp last v h
    refine ⟨a, ?_, b, hb, hne, hv⟩
    rcases List.mem_cons.1 ha with rfl | ha
    · exact List.mem_of_getLast?_eq_some hl
    · exact ha

/-- C25 (amended): `clipPoly` as computed in `float`. The vertices written by
the branch `inb` are, in input order, exactly the input vertices whose
computed distance `pnx*x + pnz*z + pd` is `>= 0`, so these appear in the output
in input order and no input vertex with a negative computed distance is
written by it; every other vertex of the output is an intersection vertex
`in[j] + (in[i] - in[j])*s`, `s = d[j]/(d[j] - d[i])`, of two input vertices
whose computed distances lie on different sides. -/
theorem clipPoly32_half_plane (inp : List Vec3) (pnx pnz pd : ℚ) :
    (clipPolyMarked32 inp pnx pnz pd).map Prod.snd = clipPoly32 inp pnx pnz pd ∧
    ((clipPolyMarked32 inp pnx pnz pd).filter (fun p => !p.1)).map Prod.snd =
      inp.filter (fun v => decide (planeDist32 pnx pnz pd v ≥ 0)) ∧
    (inp.filter (fun v => decide (planeDist32 pnx pnz pd v ≥ 0))).Sublist
      (clipPoly32 inp pnx pnz pd) ∧
    (∀ v, (false, v) ∈ clipPolyMarked32 inp pnx pnz pd →
      v ∈ inp ∧ planeDist32 pnx pnz pd v ≥ 0) ∧
    (∀ v, (true, v) ∈ clipPolyMarked32 inp pnx pnz pd →
      ∃ a ∈ inp, ∃ b ∈ inp,
        insidePlane32 pnx pnz pd a ≠ insidePlane32 pnx pnz pd b ∧
        v = cutVertex32 pnx pnz pd a b) := by
  refine ⟨clipPolyMarked32_map inp pnx pnz pd, clipPolyMarked32_kept inp pnx pnz pd, ?_, ?_,
    clipPolyMarked32_cut inp pnx pnz pd⟩
  · rw [← clipPolyMarked32_kept, ← clipPolyMarked32_map]
    exact (List.filter_sublist _).map _
  · intro v hv
    have hk : v ∈ ((clipPolyMarked32 inp pnx pnz pd).filter (fun p => !p.1)).map Prod.snd :=
      List.mem_map.2 ⟨(false, v), List.mem_filter.2 ⟨hv, rfl⟩, rfl⟩
    rw [clipPolyMarked32_kept] at hk
    have := List.mem_filter.1 hk
    exact ⟨this.1, by simpa using this.2⟩

set_option maxRecDepth 100000 in
/-- C25 as stated fails in `float`. The triangle `(1, 1, 1.8f), (0, 0, -3),
(2, 0, 3)` is clipped by `z >= 1` (`pnx = 0, pnz = 1, pd = -1`). The
intersection vertex of the edge from `(1, 1, 1.8f)` to `(0, 0, -3)` is written
with `z = 1 - 2^-24`: its distance to the plane is `-2^-24 < 0`, exactly and as
computed. -/
theorem clipPoly32_half_plane_counterexample :
    clipPoly32 [⟨1, 1, f32 (9 / 5)⟩, ⟨0, 0, -3⟩, ⟨2, 0, 3⟩] 0 1 (-1) =
      [⟨1, 1, f32 (9 / 5)⟩, ⟨6990507 / 8388608, 6990507 / 8388608, 16777215 / 16777216⟩,
        ⟨11184811 / 8388608, 0, 1⟩, ⟨2, 0, 3⟩] ∧
    (true, (⟨6990507 / 8388608, 6990507 / 8388608, 16777215 / 16777216⟩ : Vec3)) ∈
      clipPolyMarked32 [⟨1, 1, f32 (9 / 5)⟩, ⟨0, 0, -3⟩, ⟨2, 0, 3⟩] 0 1 (-1) ∧
    planeDist 0 1 (-1) ⟨6990507 / 8388608, 6990507 / 8388608, 16777215 / 16777216⟩ =
      -1 / 16777216 ∧
    planeDist32 0 1 (-1) ⟨6990507 / 8388608, 6990507 / 8388608, 16777215 / 16777216⟩ < 0 := by
  decide!

/-! ## The clip buffers of `rasterizeTri` in binary32 -/

set_option maxRecDepth 100000 in
/-- C24 fails in `float`. In the one-cell field with `bmin = (0, 0, 0)`,
`bmax = (1, 100, 1)`, `cs = 1` the triangle `(-5000000, 1, -2000000)`,
`(-0.25, 1, 0)`, `(2.25, 2, 1.75)` meets the box of the field, its footprint is
the cell `(0, 0)`, and the four successive calls of `clipPoly` for that cell
(`z >= cz`, `z <= cz+cs`, `x >= cx`, `x <= cx+cs`, with `cz = bmin.z + 0*cs`
and `cx = bmin.x + 0*cs`) return 4, 5, 7 and 8 vertices: the third is one more
than the bound 6 and the fourth does not fit a buffer of 7 vertices. -/
theorem rasterizeTri32_clip_buffer_overflow :
    overlapBounds ⟨0, 0, 0⟩ ⟨1, 100, 1⟩
      (rcVmin (rcVmin ⟨-5000000, 1, -2000000⟩ ⟨-1 / 4, 1, 0⟩) ⟨9 / 4, 2, 7 / 4⟩)
      (rcVmax (rcVmax ⟨-5000000, 1, -2000000⟩ ⟨-1 / 4, 1, 0⟩) ⟨9 / 4, 2, 7 / 4⟩) = true ∧
    footprint32
      (rcVmin (rcVmin ⟨-5000000, 1, -2000000⟩ ⟨-1 / 4, 1, 0⟩) ⟨9 / 4, 2, 7 / 4⟩)
      (rcVmax (rcVmax ⟨-5000000, 1, -2000000⟩ ⟨-1 / 4, 1, 0⟩) ⟨9 / 4, 2, 7 / 4⟩)
      ⟨0, 0, 0⟩ (fdiv 1 1) 1 1 = (0, 0, 0, 0) ∧
    (clipPoly32 [⟨-5000000, 1, -2000000⟩, ⟨-1 / 4, 1, 0⟩, ⟨9 / 4, 2, 7 / 4⟩] 0 1
      (-(fadd 0 (fmul (f32 0) 1)))).length = 4 ∧
    (clipPoly32 (clipPoly32 [⟨-5000000, 1, -2000000⟩, ⟨-1 / 4, 1, 0⟩, ⟨9 / 4, 2, 7 / 4⟩] 0 1
      (-(fadd 0 (fmul (f32 0) 1)))) 0 (-1) (fadd (fadd 0 (fmul (f32 0) 1)) 1)).length = 5 ∧
    (clipPoly32 (clipPoly32 (clipPoly32
      [⟨-5000000, 1, -2000000⟩, ⟨-1 / 4, 1, 0⟩, ⟨9 / 4, 2, 7 / 4⟩] 0 1
      (-(fadd 0 (fmul (f32 0) 1)))) 0 (-1) (fadd (fadd 0 (fmul (f32 0) 1)) 1)) 1 0
      (-(fadd 0 (fmul (f32 0) 1)))).length = 7 ∧
    (clipPoly32 (clipPoly32 (clipPoly32 (clipPoly32
      [⟨-5000000, 1, -2000000⟩, ⟨-1 / 4, 1, 0⟩, ⟨9 / 4, 2, 7 / 4⟩] 0 1
      (-(fadd 0 (fmul (f32 0) 1)))) 0 (-1) (fadd (fadd 0 (fmul (f32 0) 1)) 1)) 1 0
      (-(fadd 0 (fmul (f32 0) 1)))) (-1) 0 (fadd (fadd 0 (fmul (f32 0) 1)) 1)).length = 8 := by
  decide!

/-! ## Rasterization in binary32: triangles in a plane `x = X` or `z = Z` -/

theorem rasterizeCell32_sameOutside (P : Int → Prop) (inrow : List Vec3) (area : Nat)
    (bmin : Vec3) (bY cs ich : ℚ) (thr : Int) (y : Int) (hf : rcHeightfield) (x : Int)
    (hP : P (x + y * hf.width)) :
    sameOutside P hf (rasterizeCell32 inrow area bmin bY cs ich thr y hf x) := by
  unfold rasterizeCell32
  simp only
  split
  · exact sameOutside_refl P hf
  · split
    · exact sameOutside_refl P hf
    · split
      · exact sameOutside_refl P hf
      · split
        · exact sameOutside_refl P hf
        · exact addSpan_sameOutside P hf x y _ _ _ _ hP

theorem rasterizeRow32_sameOutside (P : Int → Prop) (v0 v1 v2 : Vec3) (area : Nat)
    (bmin : Vec3) (bY cs ich : ℚ) (thr : Int) (x0 x1 : Int) (hf : rcHeightfield) (y : Int)
    (hP : ∀ x, x0 ≤ x → x ≤ x1 → P (x + y * hf.width)) :
    sameOutside P hf (rasterizeRow32 v0 v1 v2 area bmin bY cs ich thr x0 x1 hf y) := by
  unfold rasterizeRow32
  simp only
  split
  · exact sameOutside_refl P hf
  · split
    · exact sameOutside_refl P hf
    · apply foldl_sameOutside
      intro x hx g hg
      have hx := (mem_intRange _ _ _).1 hx
      apply rasterizeCell32_sameOutside
      rw [hg]
      exact hP x hx.1 hx.2

/-- The columns `rasterizeTri` writes are those of the cells of its footprint. -/
theorem rasterizeTri32_sameOutside (P : Int → Prop) (v0 v1 v2 : Vec3) (area : Nat)
    (hf : rcHeightfield) (bmin bmax : Vec3) (cs ics ich : ℚ) (thr : Int)
    (hP : ∀ x y : Int,
      (footprint32 (triMin v0 v1 v2) (triMax v0 v1 v2) bmin ics hf.width hf.height).1 ≤ x →
      x ≤ (footprint32 (triMin v0 v1 v2) (triMax v0 v1 v2) bmin ics hf.width hf.height).2.2.1 →
      (footprint32 (triMin v0 v1 v2) (triMax v0 v1 v2) bmin ics hf.width hf.height).2.1 ≤ y →
      y ≤ (footprint32 (triMin v0 v1 v2) (triMax v0 v1 v2) bmin ics hf.width hf.height).2.2.2 →
      P (x + y * hf.width)) :
    sameOutside P hf (rasterizeTri32 v0 v1 v2 area hf bmin bmax cs ics ich thr) := by
  unfold rasterizeTri32
  simp only [rcVmin_eq, rcVmax_eq]
  split
  · exact sameOutside_refl P hf
  · apply foldl_sameOutside
    intro y hy g hg
    have hy := (mem_intRange _ _ _).1 hy
    apply rasterizeRow32_sameOutside
    intro x hx0 hx1
    rw [hg]
    exact hP x y hx0 hx1 hy.1 hy.2

theorem footprint32_range (tmin tmax bmin : Vec3) (ics : ℚ) (w h : Int) (hw : 1 ≤ w) :
    (0 ≤ (footprint32 tmin tmax bmin ics w h).1 ∧ (footprint32 tmin tmax bmin ics w h).1 < w) ∧
    (0 ≤ (footprint32 tmin tmax bmin ics w h).2.2.1 ∧
      (footprint32 tmin tmax bmin ics w h).2.2.1 < w) := by
  unfold footprint32
  exact ⟨rcClamp_mem _ w hw, rcClamp_mem _ w hw⟩

set_option maxRecDepth 100000 in
/-- The column that receives the span depends on rounding. In the field
`fourCells21` (`cs = 0.21f`) the triangle with `x = 2*cs` lies on the plane
between the columns 1 and 2. The rounded `ics = 1.0f/cs` gives
`(X - bmin.x)*ics = 1.9999999`, the footprint is the column 1, and the span
`[1, 2]` is added to the column of cell 1 only. -/
theorem rasterizeTri32_boundary_rounds_down :
    (footprint32
      (triMin ⟨2 * f32 (21 / 100), 1, 1 / 16⟩ ⟨2 * f32 (21 / 100), 2, 1 / 8⟩
        ⟨2 * f32 (21 / 100), 1, 3 / 16⟩)
      (triMax ⟨2 * f32 (21 / 100), 1, 1 / 16⟩ ⟨2 * f32 (21 / 100), 2, 1 / 8⟩
        ⟨2 * f32 (21 / 100), 1, 3 / 16⟩)
      fourCells21.bmin (fdiv 1 fourCells21.cs) fourCells21.width fourCells21.height).1 = 1 ∧
    (rcRasterizeTriangle32 ⟨2 * f32 (21 / 100), 1, 1 / 16⟩ ⟨2 * f32 (21 / 100), 2, 1 / 8⟩
      ⟨2 * f32 (21 / 100), 1, 3 / 16⟩ 63 fourCells21 1).spans =
      [[], [⟨1, 2, 63⟩], [], []] := by
  decide!

/-- A triangle whose bounding box misses the box of the field on an axis is
rejected by the `float` code as well: only comparisons are involved. -/
theorem rcRasterizeTriangle32_rejects_outside (v0 v1 v2 : Vec3) (area : Nat)
    (solid : rcHeightfield) (flagMergeThr : Int)
    (h : ((triMax v0 v1 v2).x < solid.bmin.x ∨ (triMin v0 v1 v2).x > solid.bmax.x) ∨
         ((triMax v0 v1 v2).y < solid.bmin.y ∨ (triMin v0 v1 v2).y > solid.bmax.y) ∨
         ((triMax v0 v1 v2).z < solid.bmin.z ∨ (triMin v0 v1 v2).z > solid.bmax.z)) :
    rcRasterizeTriangle32 v0 v1 v2 area solid flagMergeThr = solid := by
  have hov : overlapBounds solid.bmin solid.bmax (triMin v0 v1 v2) (triMax v0 v1 v2) =
      false := by
    unfold overlapBounds
    rcases h with (h | h) | (h | h) | (h | h)
    · have : solid.bmin.x > (triMax v0 v1 v2).x ∨ solid.bmax.x < (triMin v0 v1 v2).x :=
        Or.inl h
      simp [this]
    · have : solid.bmin.x > (triMax v0 v1 v2).x ∨ solid.bmax.x < (triMin v0 v1 v2).x :=
        Or.inr h
      simp [this]
    · have : solid.bmin.y > (triMax v0 v1 v2).y ∨ solid.bmax.y < (triMin v0 v1 v2).y :=
        Or.inl h
      simp [this]
    · have : solid.bmin.y > (triMax v0 v1 v2).y ∨ solid.bmax.y < (triMin v0 v1 v2).y :=
        Or.inr h
      simp [this]
    · have : solid.bmin.z > (triMax v0 v1 v2).z ∨ solid.bmax.z < (triMin v0 v1 v2).z :=
        Or.inl h
      simp [this]
    · have : solid.bmin.z > (triMax v0 v1 v2).z ∨ solid.bmax.z < (triMin v0 v1 v2).z :=
        Or.inr h
      simp [this]
  unfold rcRasterizeTriangle32 rasterizeTri32
  simp only [rcVmin_eq, rcVmax_eq, hov]
  rfl

/-- The `float` code writes columns of cells of the grid only. -/
theorem rasterizeTri32_in_grid (v0 v1 v2 : Vec3) (area : Nat) (hf : rcHeightfield)
    (bmin bmax : Vec3) (cs ics ich : ℚ) (thr : Int) (hw : 0 < hf.width) (hh : 0 < hf.height)
    (idx : Int)
    (hidx : ¬ ∃ x y : Int, 0 ≤ x ∧ x < hf.width ∧ 0 ≤ y ∧ y < hf.height ∧
      idx = x + y * hf.width) :
    (rasterizeTri32 v0 v1 v2 area hf bmin bmax cs ics ich thr).col idx = hf.col idx := by
  have hso := rasterizeTri32_sameOutside
    (fun i => ∃ x y : Int, 0 ≤ x ∧ x < hf.width ∧ 0 ≤ y ∧ y < hf.height ∧
      i = x + y * hf.width)
    v0 v1 v2 area hf bmin bmax cs ics ich thr (by
      intro x y hx0 hx1 hy0 hy1
      have hx := footprint32_range (triMin v0 v1 v2) (triMax v0 v1 v2) bmin ics hf.width
        hf.height (by omega)
      have hy : 0 ≤ (footprint32 (triMin v0 v1 v2) (triMax v0 v1 v2) bmin ics hf.width
          hf.height).2.1 ∧
          (footprint32 (triMin v0 v1 v2) (triMax v0 v1 v2) bmin ics hf.width
            hf.height).2.2.2 < hf.height := by
        unfold footprint32
        exact ⟨(rcClamp_mem _ _ (by omega)).1, (rcClamp_mem _ _ (by omega)).2⟩
      exact ⟨x, y, by omega, by omega, by omega, by omega, rfl⟩)
  exact hso.2.2.1 idx hidx

set_option maxRecDepth 100000 in
/-- At the top cell of the height grid with `ch = 1` the `float` code computes
the values of the exact embedding: the products are exact. -/
theorem snapSpan32_top_cell :
    snapSpan32 8191 8191 (fdiv 1 1) = (8191, 8192) ∧
    snapSpan32 8191 9000 (fdiv 1 1) = (8191, 8191) := by
  decide!

set_option maxRecDepth 100000 in
set_option maxHeartbeats 4000000 in
/-- The quad rasterized by the `float` code: with `cs = 1` and `ch = 0.5` every
operation is exact and every column receives the span `[0, 1]`. -/
theorem quadSolid32_zero :
    rcRasterizeTriangle32 ⟨0, 0, 0⟩ ⟨10, 0, 10⟩ ⟨0, 0, 10⟩ 63
      (rcRasterizeTriangle32 ⟨0, 0, 0⟩ ⟨10, 0, 0⟩ ⟨10, 0, 10⟩ 63 quadField 0) 0 = quadFloor := by
  decide!

end Recast
